import Mathlib

/-!
Deep Packet Inspection engine: application-layer extractors.

Shallow embedding of `backend/src/sni_extractor.cpp` (and of the constants of
`backend/include/sni_extractor.h`) together with theorems about it.

Modelling conventions.

* A payload buffer is a `List UInt8`.  A C++ pointer `payload` into a buffer is the
  pair of the buffer and a signed byte offset `payload : Int`; the top-level call on a
  packet payload has offset `0` and `length = buf.length`.
* Every byte read goes through `byteAt` / `peek` / `readBytes`, which return
  `Fault.outOfBounds` when the index is outside the buffer.  A result `Except.ok r`
  therefore says that no read left the buffer.
* Loops are recursive functions with a fuel argument; an exhausted budget is the
  distinct fault `Fault.outOfFuel`, which the theorems show never to occur.
* `std::optional<std::string>` is `Option Bytes`; `std::nullopt` is `none`.
* `size_t` values in this file are offsets bounded by `length + 2^17`, so they are
  modelled in `Nat`; 8/16/24 bit quantities are reduced modulo their width where the
  source converts them.

Layout: all definitions come first (the embedding of the source, then the wire formats and
sample inputs used to state the properties), the lemmas and theorems follow.
-/

namespace DPI

set_option maxRecDepth 100000

/-- Ways in which a run of the embedding can leave the defined behaviour. -/
inductive Fault where
  | outOfBounds
  | outOfFuel
  deriving DecidableEq, Repr

deriving instance DecidableEq for Except

abbrev Bytes := List UInt8

/-- The read `p[k]` of a buffer of `p.length` bytes. -/
def byteAt (p : Bytes) (k : Nat) : Except Fault Nat :=
  match p[k]? with
  | some b => .ok b.toNat
  | none => .error .outOfBounds

/-- The read `payload[k]` where `payload` points `payload` bytes into `buf`
(possibly before its start). -/
def peek (buf : Bytes) (payload : Int) (k : Nat) : Except Fault Nat :=
  if payload + (k : Int) < 0 then .error .outOfBounds
  else byteAt buf (payload + (k : Int)).toNat

/-- The bytes copied by `std::string(p + start, n)` out of a buffer `p`. -/
def readBytes (p : Bytes) (start n : Nat) : Except Fault Bytes :=
  if n = 0 then .ok []
  else if start + n ≤ p.length then .ok ((p.drop start).take n)
  else .error .outOfBounds

/-- The bytes copied by `std::string(payload + start, n)` for a pointer into `buf`. -/
def peekBytes (buf : Bytes) (payload : Int) (start n : Nat) : Except Fault Bytes :=
  if n = 0 then .ok []
  else if payload + (start : Int) < 0 then .error .outOfBounds
  else readBytes buf (payload + (start : Int)).toNat n

/-! ## SNIExtractor -/

namespace SNIExtractor

def MAX_SNI_LENGTH : Nat := 255
def CONTENT_TYPE_HANDSHAKE : Nat := 0x16
def HANDSHAKE_CLIENT_HELLO : Nat := 0x01
def EXTENSION_SNI : Nat := 0x0000
def SNI_TYPE_HOSTNAME : Nat := 0x00

/-- Source function `readUint16BE`, called as `readUint16BE(payload + off)`. -/
def readUint16BE (buf : Bytes) (payload : Int) (off : Nat) : Except Fault Nat := do
  let d0 ← peek buf payload off
  let d1 ← peek buf payload (off + 1)
  pure (((d0 <<< 8) ||| d1) % 2 ^ 16)

/-- Source function `readUint24BE`, called as `readUint24BE(payload + off)`. -/
def readUint24BE (buf : Bytes) (payload : Int) (off : Nat) : Except Fault Nat := do
  let d0 ← peek buf payload off
  let d1 ← peek buf payload (off + 1)
  let d2 ← peek buf payload (off + 2)
  pure (((d0 <<< 16) ||| (d1 <<< 8) ||| d2) % 2 ^ 32)

def isTLSClientHello (buf : Bytes) (payload : Int) (length : Nat) : Except Fault Bool :=
  if length < 9 then pure false else do
  let b0 ← peek buf payload 0
  if b0 ≠ CONTENT_TYPE_HANDSHAKE then pure false else do
  let version ← readUint16BE buf payload 1
  if version < 0x0300 ∨ version > 0x0304 then pure false else do
  let record_length ← readUint16BE buf payload 3
  if record_length > length - 5 then pure false else do
  let b5 ← peek buf payload 5
  if b5 ≠ HANDSHAKE_CLIENT_HELLO then pure false else
  pure true

/-- The `while (offset + 4 <= extensions_end)` loop of `extract`; every `break`
leads to the `return std::nullopt` after the loop. -/
def extensionLoop (buf : Bytes) (payload : Int) (extensions_end : Nat) :
    Nat → Nat → Except Fault (Option Bytes)
  | 0, _ => .error .outOfFuel
  | fuel + 1, offset =>
    if offset + 4 ≤ extensions_end then do
      let extension_type ← readUint16BE buf payload offset
      let extension_length ← readUint16BE buf payload (offset + 2)
      let offset := offset + 4
      if offset + extension_length > extensions_end then pure none
      else if extension_type = EXTENSION_SNI then
        if extension_length < 5 then pure none else do
        let sni_list_length ← readUint16BE buf payload offset
        if sni_list_length < 3 then pure none else do
        let sni_type ← peek buf payload (offset + 2)
        let sni_length ← readUint16BE buf payload (offset + 3)
        if sni_type ≠ SNI_TYPE_HOSTNAME then pure none
        else if sni_length > extension_length - 5 then pure none
        else do
          let sni ← peekBytes buf payload (offset + 5) sni_length
          pure (some sni)
      else extensionLoop buf payload extensions_end fuel (offset + extension_length)
    else pure none

def extract (buf : Bytes) (payload : Int) (length : Nat) : Except Fault (Option Bytes) := do
  let hello ← isTLSClientHello buf payload length
  if !hello then pure none else do
  let offset := 5
  let _handshake_length ← readUint24BE buf payload (offset + 1)
  let offset := offset + 4
  let offset := offset + 2
  let offset := offset + 32
  if offset ≥ length then pure none else do
  let session_id_length ← peek buf payload offset
  let offset := offset + (1 + session_id_length)
  if offset + 2 > length then pure none else do
  let cipher_suites_length ← readUint16BE buf payload offset
  let offset := offset + (2 + cipher_suites_length)
  if offset ≥ length then pure none else do
  let compression_methods_length ← peek buf payload offset
  let offset := offset + (1 + compression_methods_length)
  if offset + 2 > length then pure none else do
  let extensions_length ← readUint16BE buf payload offset
  let offset := offset + 2
  let extensions_end := offset + extensions_length
  let extensions_end := if extensions_end > length then length else extensions_end
  extensionLoop buf payload extensions_end (length + 1) offset

end SNIExtractor

/-! ## HTTPHostExtractor -/

namespace HTTPHostExtractor

def MAX_HTTP_HEADER_SCAN : Nat := 16384

/-- The table `methods[]` of `isHTTPRequest`:
"GET ", "POST", "PUT ", "HEAD", "DELE", "PATC", "OPTI". -/
def methods : List Bytes :=
  [[0x47, 0x45, 0x54, 0x20], [0x50, 0x4F, 0x53, 0x54], [0x50, 0x55, 0x54, 0x20],
   [0x48, 0x45, 0x41, 0x44], [0x44, 0x45, 0x4C, 0x45], [0x50, 0x41, 0x54, 0x43],
   [0x4F, 0x50, 0x54, 0x49]]

def isHTTPRequest (payload : Bytes) : Except Fault Bool :=
  let length := payload.length
  if length < 4 then pure false else do
  let head ← readBytes payload 0 4
  pure (methods.any (fun method => decide (head = method)))

/-- The five-byte test at index `i` of the scan loop, with the short-circuit
order of the source: `[Hh][oO][sS][tT]:`. -/
def hostAt (payload : Bytes) (i : Nat) : Except Fault Bool := do
  let c0 ← byteAt payload i
  if ¬ (c0 = 0x48 ∨ c0 = 0x68) then pure false else do
  let c1 ← byteAt payload (i + 1)
  if ¬ (c1 = 0x6F ∨ c1 = 0x4F) then pure false else do
  let c2 ← byteAt payload (i + 2)
  if ¬ (c2 = 0x73 ∨ c2 = 0x53) then pure false else do
  let c3 ← byteAt payload (i + 3)
  if ¬ (c3 = 0x74 ∨ c3 = 0x54) then pure false else do
  let c4 ← byteAt payload (i + 4)
  pure (decide (c4 = 0x3A))

/-- A loop `while (pos < length && cond(payload[pos])) pos++`. -/
def advanceWhile (payload : Bytes) (cond : Nat → Bool) : Nat → Nat → Except Fault Nat
  | 0, _ => .error .outOfFuel
  | fuel + 1, pos =>
    if pos < payload.length then do
      let c ← byteAt payload pos
      if cond c then advanceWhile payload cond fuel (pos + 1) else pure pos
    else pure pos

/-- Condition of the first inner loop: a space or a tab. -/
def isBlank (c : Nat) : Bool := decide (c = 0x20 ∨ c = 0x09)

/-- Condition of the second inner loop: neither CR nor LF. -/
def notEol (c : Nat) : Bool := decide (c ≠ 0x0D ∧ c ≠ 0x0A)

/-- The result of `host.find(':')` followed by `host.substr(0, colon_pos)`. -/
def stripPort (host : Bytes) : Bytes := host.takeWhile (fun b => decide (b ≠ 0x3A))

/-- The `for (size_t i = 0; i + host_header_len < length; i++)` loop of `extract`. -/
def scanLoop (payload : Bytes) : Nat → Nat → Except Fault (Option Bytes)
  | 0, _ => .error .outOfFuel
  | fuel + 1, i =>
    let length := payload.length
    let host_header_len := 6
    if i + host_header_len < length then do
      let found ← hostAt payload i
      if found then do
        let start ← advanceWhile payload isBlank (length + 1) (i + 5)
        let endp ← advanceWhile payload notEol (length + 1) start
        if endp > start then do
          let host ← readBytes payload start (endp - start)
          pure (some (stripPort host))
        else scanLoop payload fuel (i + 1)
      else scanLoop payload fuel (i + 1)
    else pure none

def extract (payload : Bytes) : Except Fault (Option Bytes) := do
  let request ← isHTTPRequest payload
  if !request then pure none else
  scanLoop payload (payload.length + 1) 0

end HTTPHostExtractor

/-! ## DNSExtractor -/

namespace DNSExtractor

def MAX_DNS_LABEL_DEPTH : Nat := 50
def MAX_DNS_NAME_LENGTH : Nat := 255

def isDNSQuery (payload : Bytes) : Except Fault Bool :=
  let length := payload.length
  if length < 12 then pure false else do
  let flags ← byteAt payload 2
  if flags &&& 0x80 ≠ 0 then pure false else do
  let b4 ← byteAt payload 4
  let b5 ← byteAt payload 5
  let qdcount := ((b4 <<< 8) ||| b5) % 2 ^ 16
  if qdcount = 0 then pure false else
  pure true

/-- The `while (offset < length)` loop of `extractQuery`; the result is the value of
`domain` when the loop is left. -/
def labelLoop (payload : Bytes) : Nat → Nat → Bytes → Except Fault Bytes
  | 0, _, _ => .error .outOfFuel
  | fuel + 1, offset, domain =>
    let length := payload.length
    if offset < length then do
      let label_length ← byteAt payload offset
      if label_length = 0 then pure domain
      else if label_length > 63 then pure domain
      else
        let offset := offset + 1
        if offset + label_length > length then pure domain
        else do
          let domain := if !domain.isEmpty then domain ++ [0x2E] else domain
          let label ← readBytes payload offset label_length
          labelLoop payload fuel (offset + label_length) (domain ++ label)
    else pure domain

def extractQuery (payload : Bytes) : Except Fault (Option Bytes) := do
  let query ← isDNSQuery payload
  if !query then pure none else do
  let domain ← labelLoop payload (payload.length + 1) 12 []
  pure (if domain.isEmpty then none else some domain)

end DNSExtractor

/-! ## QUICSNIExtractor -/

namespace QUICSNIExtractor

def isQUICInitial (payload : Bytes) : Except Fault Bool :=
  let length := payload.length
  if length < 5 then pure false else do
  let first_byte ← byteAt payload 0
  if first_byte &&& 0x80 = 0 then pure false else
  pure true

/-- The `for (size_t i = 0; i + 50 < length; i++)` loop of `extract`.  The call
`SNIExtractor::extract(payload + i - 5, length - i + 5)` passes the pointer
`i - 5` bytes into the payload. -/
def probeLoop (payload : Bytes) : Nat → Nat → Except Fault (Option Bytes)
  | 0, _ => .error .outOfFuel
  | fuel + 1, i =>
    let length := payload.length
    if i + 50 < length then do
      let b ← byteAt payload i
      if b = 0x01 then do
        let result ← SNIExtractor.extract payload ((i : Int) - 5) (length - i + 5)
        match result with
        | some sni => pure (some sni)
        | none => probeLoop payload fuel (i + 1)
      else probeLoop payload fuel (i + 1)
    else pure none

def extract (payload : Bytes) : Except Fault (Option Bytes) := do
  let initial ← isQUICInitial payload
  if !initial then pure none else
  probeLoop payload (payload.length + 1) 0

end QUICSNIExtractor

/-- ASCII text as payload bytes. -/
def ascii (s : String) : Bytes := s.toList.map (fun c => UInt8.ofNat c.toNat)


/-! ## Wire formats in the words of the specification -/

/-- The 16-bit big-endian number held at bytes `i`, `i + 1` of a payload, when both
exist. -/
def be16At (p : Bytes) (i : Nat) : Option Nat :=
  match p[i]?, p[i + 1]? with
  | some hi, some lo => some (hi.toNat * 256 + lo.toNat)
  | _, _ => none

/-- The record-header condition in the words of the specification: `payload[0] = 0x16`,
version in `[0x0300, 0x0304]`, record length at most `length - 5`, `payload[5] = 0x01`. -/
def SNIExtractor.headerAccepted (p : Bytes) : Prop :=
  p[0]? = some 0x16 ∧
  (∃ v, be16At p 1 = some v ∧ 0x0300 ≤ v ∧ v ≤ 0x0304) ∧
  (∃ r, be16At p 3 = some r ∧ r ≤ p.length - 5) ∧
  p[5]? = some 0x01


/-- Big-endian two-byte encoding. -/
def be16 (n : Nat) : Bytes := [UInt8.ofNat (n / 256), UInt8.ofNat (n % 256)]

/-- A TLS extension: its 16-bit type and its data. -/
structure TLSExtension where
  extType : Nat
  data : Bytes

/-- Wire image of one extension: type, length, data. -/
def TLSExtension.encode (e : TLSExtension) : Bytes :=
  be16 e.extType ++ be16 e.data.length ++ e.data

/-- Wire image of a list of extensions. -/
def encodeExtensions : List TLSExtension → Bytes
  | [] => []
  | e :: es => e.encode ++ encodeExtensions es

/-- Data of a server_name extension: list length, name type `0x00`, name length, the
hostname, then any further entries of the list. -/
def serverNameData (hostname moreNames : Bytes) : Bytes :=
  be16 (3 + hostname.length + moreNames.length) ++ [0x00] ++ be16 hostname.length
    ++ hostname ++ moreNames

/-- The fields of a TLS ClientHello record up to and including its first server_name
extension.  Fields the extractor does not interpret are kept as raw bytes. -/
structure ClientHello where
  version : Nat
  recordLength : Nat
  /-- the three length bytes of the handshake header -/
  handshakeLength : Bytes
  clientVersion : Bytes
  random : Bytes
  sessionId : Bytes
  cipherSuites : Bytes
  compressionMethods : Bytes
  extensionsLength : Nat
  /-- the extensions that precede the first server_name extension -/
  before : List TLSExtension
  hostname : Bytes
  /-- further entries of the server_name list -/
  moreNames : Bytes
  /-- whatever follows the server_name extension in the payload -/
  rest : Bytes

/-- Record header, handshake header, client version and random: 43 bytes. -/
def ClientHello.header (c : ClientHello) : Bytes :=
  [0x16] ++ be16 c.version ++ be16 c.recordLength ++ [0x01] ++ c.handshakeLength
    ++ c.clientVersion ++ c.random

/-- The payload from the extensions length field on. -/
def ClientHello.extensionsBlock (c : ClientHello) : Bytes :=
  be16 c.extensionsLength ++ (encodeExtensions c.before ++
    ((⟨0x0000, serverNameData c.hostname c.moreNames⟩ : TLSExtension).encode ++ c.rest))

/-- The payload from the compression_methods length byte on. -/
def ClientHello.compressionBlock (c : ClientHello) : Bytes :=
  UInt8.ofNat c.compressionMethods.length :: (c.compressionMethods ++ c.extensionsBlock)

/-- The payload from the cipher_suites length field on. -/
def ClientHello.cipherBlock (c : ClientHello) : Bytes :=
  be16 c.cipherSuites.length ++ (c.cipherSuites ++ c.compressionBlock)

/-- The payload from the session_id length byte on. -/
def ClientHello.sessionBlock (c : ClientHello) : Bytes :=
  UInt8.ofNat c.sessionId.length :: (c.sessionId ++ c.cipherBlock)

/-- Wire image of the record. -/
def ClientHello.encode (c : ClientHello) : Bytes := c.header ++ c.sessionBlock

/-- Well-formedness: version in `[0x0300, 0x0304]`, record length within the payload,
fixed-size fields of their size, every length representable in its length field, the
extensions before the server_name extension of other types, and the server_name extension
inside the declared extensions block. -/
def ClientHello.WellFormed (c : ClientHello) : Prop :=
  0x0300 ≤ c.version ∧ c.version ≤ 0x0304 ∧
  c.recordLength ≤ c.encode.length - 5 ∧
  c.handshakeLength.length = 3 ∧ c.clientVersion.length = 2 ∧ c.random.length = 32 ∧
  c.sessionId.length < 256 ∧ c.cipherSuites.length < 65536 ∧
  c.compressionMethods.length < 256 ∧ c.extensionsLength < 65536 ∧
  (∀ x ∈ c.before, x.extType ≠ 0 ∧ x.extType < 65536 ∧ x.data.length < 65536) ∧
  (serverNameData c.hostname c.moreNames).length < 65536 ∧
  (encodeExtensions c.before).length + 4 + (serverNameData c.hostname c.moreNames).length
    ≤ c.extensionsLength


/-- A small TLS 1.0 record: one cipher suite, an ec_point_formats extension, then
server_name `a.io`. -/
def sampleHello : ClientHello where
  version := 0x0301
  recordLength := 66
  handshakeLength := [0x00, 0x00, 0x3E]
  clientVersion := [0x03, 0x03]
  random := List.replicate 32 0
  sessionId := []
  cipherSuites := [0x13, 0x01]
  compressionMethods := [0x00]
  extensionsLength := 19
  before := [⟨0x000B, [0x01, 0x00]⟩]
  hostname := ascii "a.io"
  moreNames := []
  rest := []

/-- A ClientHello whose server_name is 256 bytes long. -/
def longNameHello : ClientHello where
  version := 0x0303
  recordLength := 312
  handshakeLength := [0x00, 0x01, 0x34]
  clientVersion := [0x03, 0x03]
  random := List.replicate 32 0
  sessionId := []
  cipherSuites := [0x13, 0x01]
  compressionMethods := [0x00]
  extensionsLength := 265
  before := []
  hostname := List.replicate 256 0x61
  moreNames := []
  rest := []


namespace HTTPHostExtractor

/-- The five bytes `t` spell "host:" in any letter case. -/
def isHostToken (t : Bytes) : Bool :=
  match t with
  | [c0, c1, c2, c3, c4] =>
    decide ((c0.toNat = 0x48 ∨ c0.toNat = 0x68) ∧ (c1.toNat = 0x6F ∨ c1.toNat = 0x4F) ∧
      (c2.toNat = 0x73 ∨ c2.toNat = 0x53) ∧ (c3.toNat = 0x74 ∨ c3.toNat = 0x54) ∧
      c4.toNat = 0x3A)
  | _ => false

/-- A case-insensitive occurrence of "host:" starts at index `j` of `p`. -/
def hostTokenAt (p : Bytes) (j : Nat) : Bool := isHostToken ((p.drop j).take 5)

/-- The shape of payload the specification describes: the request starts with one of the
seven method prefixes; its first case-insensitive "host:" is `tok`, preceded by `pre`;
`ws` is the run of spaces and tabs after it; `v` is the non-empty value, free of CR and LF;
`rest` is empty or starts with CR or LF. -/
structure HostHeader (p pre tok ws v rest : Bytes) : Prop where
  split : p = pre ++ (tok ++ (ws ++ (v ++ rest)))
  method : p.take 4 ∈ methods
  token : isHostToken tok = true
  first : ∀ j, j < pre.length → hostTokenAt p j = false
  blanks : ∀ b ∈ ws, isBlank b.toNat = true
  value_nonempty : v ≠ []
  value_start : ∀ b, v.head? = some b → isBlank b.toNat = false
  value : ∀ b ∈ v, notEol b.toNat = true
  stop : ∀ b, rest.head? = some b → notEol b.toNat = false

/-- A request whose only "Host:" header starts 16391 bytes into the payload. -/
def farHostRequest (name : Bytes) : Bytes :=
  (ascii "GET /" ++ List.replicate 16384 0x61 ++ ascii "\r\n")
    ++ (ascii "Host:" ++ (ascii " " ++ (name ++ ascii "\r\n\r\n")))

end HTTPHostExtractor

namespace DNSExtractor

/-- Wire image of the labels of a name: each label after its length byte. -/
def encodeLabels : List Bytes → Bytes
  | [] => []
  | l :: ls => UInt8.ofNat l.length :: (l ++ encodeLabels ls)

/-- The labels joined by `.` (0x2E). -/
def joinLabels : List Bytes → Bytes
  | [] => []
  | [l] => l
  | l :: ls => l ++ 0x2E :: joinLabels ls

/-- The 12-byte header of a query in the words of the specification: QR bit (0x80 of
byte 2) clear and QDCOUNT (bytes 4..5, big-endian) at least 1. -/
structure QueryHeader (hdr : Bytes) : Prop where
  size : hdr.length = 12
  qr : ∀ f, hdr[2]? = some f → f.toNat &&& 0x80 = 0
  qdcount : ∀ a b, hdr[4]? = some a → hdr[5]? = some b → 1 ≤ a.toNat * 256 + b.toNat

/-- A label is valid when it has 1 to 63 bytes. -/
def validLabels (ls : List Bytes) : Prop := ∀ l ∈ ls, 1 ≤ l.length ∧ l.length ≤ 63

/-- The update of `domain` by one label in the loop body. -/
def appendLabel (domain label : Bytes) : Bytes :=
  (if !domain.isEmpty then domain ++ [0x2E] else domain) ++ label

/-- Header of a standard query: id 0x1234, flags 0x0100 (RD), QDCOUNT 1. -/
def sampleHeader : Bytes := [0x12, 0x34, 0x01, 0x00, 0x00, 0x01, 0, 0, 0, 0, 0, 0]

end DNSExtractor

namespace QUICSNIExtractor

/-- A QUIC version 1 long-header packet of 65 bytes: first byte 0xC3, version
`00 00 00 01`, then zeros. -/
def v1Initial : Bytes := [0xC3, 0x00, 0x00, 0x00, 0x01] ++ List.replicate 60 0

end QUICSNIExtractor

/-! ## Host byte order (`platform.h`)

The host's byte order is the parameter `le` (`isLittleEndian()`); a `memcpy` of wire bytes
into an unsigned integer object yields `hostValue le bytes`. -/

/-- Value of an unsigned integer object whose bytes, in memory order, are `bs`, on a host
that is little-endian (`le = true`) or big-endian. -/
def hostValue (le : Bool) (bs : Bytes) : Nat :=
  if le then bs.foldr (fun b acc => b.toNat + 256 * acc) 0
  else bs.foldl (fun acc b => 256 * acc + b.toNat) 0

/-- The `width` bytes, in memory order, of an unsigned integer object holding `v`. -/
def hostBytes (le : Bool) : Nat → Nat → Bytes
  | 0, _ => []
  | width + 1, v =>
    if le then UInt8.ofNat (v % 256) :: hostBytes le width (v / 256)
    else hostBytes le width (v / 256) ++ [UInt8.ofNat (v % 256)]

namespace PortableNet

def swapBytes16 (value : Nat) : Nat := ((value <<< 8) ||| (value >>> 8)) % 2 ^ 16

def swapBytes32 (value : Nat) : Nat :=
  (((value &&& 0x000000FF) <<< 24) ||| ((value &&& 0x0000FF00) <<< 8) |||
    ((value &&& 0x00FF0000) >>> 8) ||| ((value &&& 0xFF000000) >>> 24)) % 2 ^ 32

def netToHost16 (le : Bool) (value : Nat) : Nat := if le then swapBytes16 value else value

def netToHost32 (le : Bool) (value : Nat) : Nat := if le then swapBytes32 value else value

end PortableNet

/-! ## PacketParser (`packet_parser.h`, `packet_parser.cpp`) -/

/-- Source struct `PcapPacketHeader`. -/
structure PcapPacketHeader where
  ts_sec : Nat := 0
  ts_usec : Nat := 0
  incl_len : Nat := 0
  orig_len : Nat := 0
  deriving DecidableEq, Repr

/-- Source struct `RawPacket`; `payload()` is null exactly when `data` is empty and
`size()` is `data.length`. -/
structure RawPacket where
  header : PcapPacketHeader := {}
  data : Bytes := []
  deriving DecidableEq, Repr

/-- Source struct `ParsedPacket`, with the default member initialisers of the header;
`payload_data` is the offset of the payload in the frame, `none` for `nullptr`. -/
structure ParsedPacket where
  timestamp_sec : Nat := 0
  timestamp_usec : Nat := 0
  src_mac : String := ""
  dest_mac : String := ""
  ether_type : Nat := 0
  has_ip : Bool := false
  has_ipv4 : Bool := false
  has_ipv6 : Bool := false
  ip_version : Nat := 0
  src_ip : String := ""
  dest_ip : String := ""
  protocol : Nat := 0
  ttl : Nat := 0
  has_tcp : Bool := false
  has_udp : Bool := false
  src_port : Nat := 0
  dest_port : Nat := 0
  tcp_flags : Nat := 0
  seq_number : Nat := 0
  ack_number : Nat := 0
  payload_length : Nat := 0
  payload_data : Option Nat := none
  is_fragmented : Bool := false
  is_malformed : Bool := false
  deriving DecidableEq, Repr

namespace Protocol
def ICMP : Nat := 1
def TCP : Nat := 6
def UDP : Nat := 17
end Protocol

namespace EtherType
def IPv4 : Nat := 0x0800
def IPv6 : Nat := 0x86DD
def ARP : Nat := 0x0806
end EtherType

namespace PacketParser

/-- The outcome of one `parseX(data, len, parsed, offset)` call: the returned flag and the
values left in the reference parameters `parsed` and `offset`. -/
structure Step where
  ok : Bool
  parsed : ParsedPacket
  offset : Nat
  deriving DecidableEq, Repr

def boundsCheck (offset required total : Nat) : Bool :=
  decide (offset ≤ total) && decide (required ≤ total - offset)

/-- One hexadecimal digit, lower case. -/
def hexDigit (d : Nat) : Char := if d < 10 then Char.ofNat (48 + d) else Char.ofNat (87 + d)

/-- Source function `macToString`, applied to the six bytes it reads. -/
def macToString (mac : Bytes) : String :=
  ":".intercalate (mac.map (fun b => String.mk [hexDigit (b.toNat / 16), hexDigit (b.toNat % 16)]))

def ipToString (ip : Nat) : String :=
  toString ((ip >>> 0) &&& 0xFF) ++ "." ++ toString ((ip >>> 8) &&& 0xFF) ++ "." ++
    toString ((ip >>> 16) &&& 0xFF) ++ "." ++ toString ((ip >>> 24) &&& 0xFF)

/-- The text built by one of the two loops of `parseIPv6` from the 16 address bytes: eight
groups printed with `std::hex`, separated by colons. -/
def ipv6ToString (le : Bool) (addr : Bytes) : String :=
  ":".intercalate ((List.range 8).map (fun i =>
    String.mk (Nat.toDigits 16
      (PortableNet.netToHost16 le (hostValue le ((addr.drop (2 * i)).take 2))))))

def parseEthernet (le : Bool) (data : Bytes) (len : Nat) (parsed : ParsedPacket)
    (offset : Nat) : Except Fault Step :=
  let ETH_LEN := 14
  if !boundsCheck offset ETH_LEN len then pure ⟨false, parsed, offset⟩ else do
  let dmac ← readBytes data offset 6
  let smac ← readBytes data (offset + 6) 6
  let type ← readBytes data (offset + 12) 2
  let parsed := { parsed with
    dest_mac := macToString dmac
    src_mac := macToString smac
    ether_type := PortableNet.netToHost16 le (hostValue le type) }
  pure ⟨true, parsed, offset + ETH_LEN⟩

def parseIPv4 (le : Bool) (data : Bytes) (len : Nat) (parsed : ParsedPacket)
    (offset : Nat) : Except Fault Step :=
  let MIN_LEN := 20
  if !boundsCheck offset MIN_LEN len then pure ⟨false, parsed, offset⟩ else do
  let ip0 ← byteAt data offset
  let version := (ip0 >>> 4) &&& 0x0F
  let ihl := ip0 &&& 0x0F
  if version ≠ 4 then pure ⟨false, parsed, offset⟩ else
  let header_len := ihl * 4
  if header_len < MIN_LEN ∨ !boundsCheck offset header_len len then
    pure ⟨false, parsed, offset⟩ else do
  let ff ← readBytes data (offset + 6) 2
  let flags_frag := PortableNet.netToHost16 le (hostValue le ff)
  let mf := decide (flags_frag &&& 0x2000 ≠ 0)
  let has_offset := decide (flags_frag &&& 0x1FFF ≠ 0)
  let parsed := { parsed with
    is_fragmented := if mf || has_offset then true else parsed.is_fragmented }
  let ttl ← byteAt data (offset + 8)
  let protocol ← byteAt data (offset + 9)
  let src ← readBytes data (offset + 12) 4
  let dst ← readBytes data (offset + 16) 4
  let parsed := { parsed with
    has_ip := true
    has_ipv4 := true
    ip_version := 4
    ttl := ttl
    protocol := protocol
    src_ip := ipToString (hostValue le src)
    dest_ip := ipToString (hostValue le dst) }
  pure ⟨true, parsed, offset + header_len⟩

def parseIPv6 (le : Bool) (data : Bytes) (len : Nat) (parsed : ParsedPacket)
    (offset : Nat) : Except Fault Step :=
  let IPV6_LEN := 40
  if !boundsCheck offset IPV6_LEN len then pure ⟨false, parsed, offset⟩ else do
  let protocol ← byteAt data (offset + 6)
  let ttl ← byteAt data (offset + 7)
  let src ← readBytes data (offset + 8) 16
  let dst ← readBytes data (offset + 24) 16
  let parsed := { parsed with
    has_ip := true
    has_ipv6 := true
    ip_version := 6
    protocol := protocol
    ttl := ttl
    src_ip := ipv6ToString le src
    dest_ip := ipv6ToString le dst }
  let parsed := { parsed with
    is_fragmented := if parsed.protocol = 44 then true else parsed.is_fragmented }
  pure ⟨true, parsed, offset + IPV6_LEN⟩

def parseTCP (le : Bool) (data : Bytes) (len : Nat) (parsed : ParsedPacket)
    (offset : Nat) : Except Fault Step :=
  let MIN_LEN := 20
  if !boundsCheck offset MIN_LEN len then pure ⟨false, parsed, offset⟩ else do
  let sp ← readBytes data offset 2
  let dp ← readBytes data (offset + 2) 2
  let seq ← readBytes data (offset + 4) 4
  let ack ← readBytes data (offset + 8) 4
  let parsed := { parsed with
    src_port := PortableNet.netToHost16 le (hostValue le sp)
    dest_port := PortableNet.netToHost16 le (hostValue le dp)
    seq_number := PortableNet.netToHost32 le (hostValue le seq)
    ack_number := PortableNet.netToHost32 le (hostValue le ack) }
  let tcp12 ← byteAt data (offset + 12)
  let data_offset := (tcp12 >>> 4) &&& 0x0F
  let header_len := data_offset * 4
  if header_len < MIN_LEN ∨ !boundsCheck offset header_len len then
    pure ⟨false, parsed, offset⟩ else do
  let flags ← byteAt data (offset + 13)
  let parsed := { parsed with tcp_flags := flags, has_tcp := true }
  pure ⟨true, parsed, offset + header_len⟩

def parseUDP (le : Bool) (data : Bytes) (len : Nat) (parsed : ParsedPacket)
    (offset : Nat) : Except Fault Step :=
  let UDP_LEN := 8
  if !boundsCheck offset UDP_LEN len then pure ⟨false, parsed, offset⟩ else do
  let sp ← readBytes data offset 2
  let dp ← readBytes data (offset + 2) 2
  let parsed := { parsed with
    src_port := PortableNet.netToHost16 le (hostValue le sp)
    dest_port := PortableNet.netToHost16 le (hostValue le dp)
    has_udp := true }
  pure ⟨true, parsed, offset + UDP_LEN⟩

/-- The tail of `parse` shared by its two exits: `if (offset < len)` record the payload. -/
def setPayload (parsed : ParsedPacket) (offset len : Nat) : ParsedPacket :=
  if offset < len then
    { parsed with payload_length := len - offset, payload_data := some offset }
  else parsed

/-- Lines 47 to 72 of `parse`, the code that follows the L3 step: a fragmented packet
keeps its L3 payload, otherwise the L4 header named by `protocol` is parsed. -/
def parseTransport (le : Bool) (data : Bytes) (len : Nat) (parsed : ParsedPacket)
    (offset : Nat) : Except Fault (Bool × ParsedPacket) :=
  if parsed.is_fragmented then pure (true, setPayload parsed offset len) else do
  let l4 ←
    if parsed.protocol = Protocol.TCP then parseTCP le data len parsed offset
    else if parsed.protocol = Protocol.UDP then parseUDP le data len parsed offset
    else pure ⟨true, parsed, offset⟩
  if !l4.ok then pure (false, { l4.parsed with is_malformed := true }) else
  pure (true, setPayload l4.parsed l4.offset len)

/-- Source function `PacketParser::parse`; the result is the returned flag and the value
left in `parsed`. -/
def parse (le : Bool) (raw : RawPacket) : Except Fault (Bool × ParsedPacket) :=
  let parsed : ParsedPacket :=
    { timestamp_sec := raw.header.ts_sec, timestamp_usec := raw.header.ts_usec }
  let data := raw.data
  let len := raw.data.length
  if len = 0 then pure (false, parsed) else do
  let offset := 0
  let eth ← parseEthernet le data len parsed offset
  if !eth.ok then pure (false, { eth.parsed with is_malformed := true }) else do
  let l3 ←
    if eth.parsed.ether_type = EtherType.IPv4 then parseIPv4 le data len eth.parsed eth.offset
    else if eth.parsed.ether_type = EtherType.IPv6 then
      parseIPv6 le data len eth.parsed eth.offset
    else pure ⟨true, eth.parsed, eth.offset⟩
  if !l3.ok then pure (false, { l3.parsed with is_malformed := true }) else
  parseTransport le data len l3.parsed l3.offset

end PacketParser

/-! ## FiveTuple (`types.h`) -/

/-- Source struct `FiveTuple`; the fields hold the values of `uint32_t`, `uint16_t` and
`uint8_t` objects. -/
structure FiveTuple where
  src_ip : Nat
  dst_ip : Nat
  src_port : Nat
  dst_port : Nat
  protocol : Nat
  deriving DecidableEq, Repr

namespace FiveTuple

/-- Source operator `operator==`. -/
def eq (a other : FiveTuple) : Bool :=
  a.src_ip == other.src_ip && a.dst_ip == other.dst_ip && a.src_port == other.src_port &&
    a.dst_port == other.dst_port && a.protocol == other.protocol

def reverse (t : FiveTuple) : FiveTuple :=
  ⟨t.dst_ip, t.src_ip, t.dst_port, t.src_port, t.protocol⟩

def isValid (t : FiveTuple) : Bool :=
  t.protocol != 0 && (t.src_port != 0 || t.dst_port != 0)

def compactHashKey (t : FiveTuple) : Nat :=
  (((t.src_ip % 2 ^ 32) <<< 32) ^^^ (t.dst_ip % 2 ^ 32) ^^^ ((t.src_port % 2 ^ 16) <<< 16) ^^^
    (t.dst_port % 2 ^ 16) ^^^ (t.protocol % 2 ^ 8)) % 2 ^ 64

end FiveTuple

/-- Source functor `FiveTupleHash::operator()`, on 64-bit words. -/
def FiveTupleHash (tuple : FiveTuple) : Nat :=
  let key := tuple.compactHashKey
  let key := key ^^^ (key >>> 33)
  let key := (key * 0xff51afd7ed558ccd) % 2 ^ 64
  let key := key ^^^ (key >>> 33)
  let key := (key * 0xc4ceb9fe1a85ec53) % 2 ^ 64
  let key := key ^^^ (key >>> 33)
  key

/-! ## PcapReader (`pcap_reader.h`, `pcap_reader.cpp`) -/

/-- Source struct `PcapGlobalHeader`: 24 bytes without padding; `thiszone` holds the bit
pattern of the `int32_t`. -/
structure PcapGlobalHeader where
  magic_number : Nat
  version_major : Nat
  version_minor : Nat
  thiszone : Nat
  sigfigs : Nat
  snaplen : Nat
  network : Nat
  deriving DecidableEq, Repr

def PCAP_MAGIC_NATIVE : Nat := 0xa1b2c3d4
def PCAP_MAGIC_SWAPPED : Nat := 0xd4c3b2a1

/-- The object representation of a `PcapGlobalHeader` on the host. -/
def PcapGlobalHeader.toBytes (le : Bool) (h : PcapGlobalHeader) : Bytes :=
  hostBytes le 4 h.magic_number ++ hostBytes le 2 h.version_major ++
    hostBytes le 2 h.version_minor ++ hostBytes le 4 h.thiszone ++ hostBytes le 4 h.sigfigs ++
    hostBytes le 4 h.snaplen ++ hostBytes le 4 h.network

/-- The `PcapGlobalHeader` whose object representation is the 24 bytes `b`. -/
def PcapGlobalHeader.ofBytes (le : Bool) (b : Bytes) : PcapGlobalHeader where
  magic_number := hostValue le ((b.drop 0).take 4)
  version_major := hostValue le ((b.drop 4).take 2)
  version_minor := hostValue le ((b.drop 6).take 2)
  thiszone := hostValue le ((b.drop 8).take 4)
  sigfigs := hostValue le ((b.drop 12).take 4)
  snaplen := hostValue le ((b.drop 16).take 4)
  network := hostValue le ((b.drop 20).take 4)

/-- The object representation of a `PcapPacketHeader` on the host. -/
def PcapPacketHeader.toBytes (le : Bool) (h : PcapPacketHeader) : Bytes :=
  hostBytes le 4 h.ts_sec ++ hostBytes le 4 h.ts_usec ++ hostBytes le 4 h.incl_len ++
    hostBytes le 4 h.orig_len

/-- The `PcapPacketHeader` whose object representation is the 16 bytes `b`. -/
def PcapPacketHeader.ofBytes (le : Bool) (b : Bytes) : PcapPacketHeader where
  ts_sec := hostValue le ((b.drop 0).take 4)
  ts_usec := hostValue le ((b.drop 4).take 4)
  incl_len := hostValue le ((b.drop 8).take 4)
  orig_len := hostValue le ((b.drop 12).take 4)

/-- An open `std::ifstream` in binary mode: the file's bytes, the read position and the
`good()` flag. -/
structure IFStream where
  content : Bytes
  pos : Nat
  good : Bool
  deriving DecidableEq, Repr

/-- The call `read(buf, n)`: the bytes stored into `buf` and the stream afterwards.  A
stream that is not good reads nothing; a read that meets the end of the file stores what
is left and clears `good()`. -/
def IFStream.read (s : IFStream) (n : Nat) : Bytes × IFStream :=
  if !s.good then ([], s)
  else if s.pos + n ≤ s.content.length then
    ((s.content.drop s.pos).take n, { s with pos := s.pos + n })
  else (s.content.drop s.pos, { s with pos := s.content.length, good := false })

/-- The data members of `PcapReader` that the modelled functions use; `file_` is `none`
when no file is open. -/
structure PcapReader where
  file_ : Option IFStream
  global_header_ : PcapGlobalHeader
  needs_byte_swap_ : Bool
  deriving DecidableEq, Repr

namespace PcapReader

def maybeSwap16 (r : PcapReader) (value : Nat) : Nat :=
  if !r.needs_byte_swap_ then value
  else (((value &&& 0xFF00) >>> 8) ||| ((value &&& 0x00FF) <<< 8)) % 2 ^ 16

def maybeSwap32 (r : PcapReader) (value : Nat) : Nat :=
  if !r.needs_byte_swap_ then value
  else (((value &&& 0xFF000000) >>> 24) ||| ((value &&& 0x00FF0000) >>> 8) |||
    ((value &&& 0x0000FF00) <<< 8) ||| ((value &&& 0x000000FF) <<< 24)) % 2 ^ 32

def close (r : PcapReader) : PcapReader :=
  { r with file_ := none, needs_byte_swap_ := false }

/-- Source function `PcapReader::open`; `file` is the content of the named file, `none`
when it cannot be opened.  The bytes read overwrite the front of `global_header_`. -/
def «open» (le : Bool) (r : PcapReader) (file : Option Bytes) : Bool × PcapReader :=
  let r := r.close
  match file with
  | none => (false, r)
  | some content =>
    let rd := IFStream.read ⟨content, 0, true⟩ 24
    let hb := rd.1 ++ (r.global_header_.toBytes le).drop rd.1.length
    let r := { r with file_ := some rd.2, global_header_ := PcapGlobalHeader.ofBytes le hb }
    if !rd.2.good then (false, r.close)
    else if r.global_header_.magic_number = PCAP_MAGIC_NATIVE then
      (true, { r with needs_byte_swap_ := false })
    else if r.global_header_.magic_number = PCAP_MAGIC_SWAPPED then
      let r := { r with needs_byte_swap_ := true }
      let r := { r with global_header_ := { r.global_header_ with
        version_major := r.maybeSwap16 r.global_header_.version_major } }
      let r := { r with global_header_ := { r.global_header_ with
        version_minor := r.maybeSwap16 r.global_header_.version_minor } }
      let r := { r with global_header_ := { r.global_header_ with
        snaplen := r.maybeSwap32 r.global_header_.snaplen } }
      let r := { r with global_header_ := { r.global_header_ with
        network := r.maybeSwap32 r.global_header_.network } }
      (true, r)
    else (false, r.close)

def getGlobalHeader (r : PcapReader) : PcapGlobalHeader := r.global_header_

def needsByteSwap (r : PcapReader) : Bool := r.needs_byte_swap_

/-- Source function `PcapReader::readNextPacket`: the returned flag, the value left in
`packet` and the reader afterwards. -/
def readNextPacket (le : Bool) (r : PcapReader) (packet : RawPacket) :
    Bool × RawPacket × PcapReader :=
  match r.file_ with
  | none => (false, packet, r)
  | some s =>
    let rd := s.read 16
    let hb := rd.1 ++ (packet.header.toBytes le).drop rd.1.length
    let packet := { packet with header := PcapPacketHeader.ofBytes le hb }
    let r := { r with file_ := some rd.2 }
    if !rd.2.good then (false, packet, r) else
    let packet :=
      if r.needs_byte_swap_ then
        { packet with header :=
          { ts_sec := r.maybeSwap32 packet.header.ts_sec
            ts_usec := r.maybeSwap32 packet.header.ts_usec
            incl_len := r.maybeSwap32 packet.header.incl_len
            orig_len := r.maybeSwap32 packet.header.orig_len } }
      else packet
    if packet.header.incl_len > r.global_header_.snaplen ∨ packet.header.incl_len > 65535 then
      (false, packet, r)
    else
    let resized := packet.data.take packet.header.incl_len ++
      List.replicate (packet.header.incl_len - packet.data.length) 0
    let rd := rd.2.read packet.header.incl_len
    let packet := { packet with data := rd.1 ++ resized.drop rd.1.length }
    let r := { r with file_ := some rd.2 }
    if !rd.2.good then (false, packet, r) else (true, packet, r)

end PcapReader

namespace DPIEngine

/-- Source function `DPIEngine::writeOutputHeader`: `out` is the content of the output
file so far, `none` when it is not open; the write appends the object representation of
`header`. -/
def writeOutputHeader (le : Bool) (out : Option Bytes) (header : PcapGlobalHeader) :
    Bool × Option Bytes :=
  match out with
  | none => (false, none)
  | some written => (true, some (written ++ header.toBytes le))

end DPIEngine

/-! ## Wire values in the words of the specification -/

/-- Byte `i` of a frame as a number; 0 when the frame has no such byte. -/
def byteOf (data : Bytes) (i : Nat) : Nat := (data.getD i 0).toNat

/-- The big-endian 16-bit number at bytes `off`, `off + 1`. -/
def wire16 (data : Bytes) (off : Nat) : Nat := 256 * byteOf data off + byteOf data (off + 1)

/-- The big-endian 32-bit number at bytes `off .. off + 3`. -/
def wire32 (data : Bytes) (off : Nat) : Nat :=
  2 ^ 24 * byteOf data off + 2 ^ 16 * byteOf data (off + 1) + 2 ^ 8 * byteOf data (off + 2)
    + byteOf data (off + 3)


namespace PacketParser

/-- The L3 and L4 fields of a `ParsedPacket` still have their initial values. -/
structure Pristine (p : ParsedPacket) : Prop where
  has_ip : p.has_ip = false
  has_ipv4 : p.has_ipv4 = false
  has_ipv6 : p.has_ipv6 = false
  protocol : p.protocol = 0
  is_fragmented : p.is_fragmented = false
  has_tcp : p.has_tcp = false
  has_udp : p.has_udp = false
  src_port : p.src_port = 0
  dest_port : p.dest_port = 0
  tcp_flags : p.tcp_flags = 0
  seq_number : p.seq_number = 0
  ack_number : p.ack_number = 0
  payload_length : p.payload_length = 0
  payload_data : p.payload_data = none
  is_malformed : p.is_malformed = false

/-- The L4 and payload fields of a `ParsedPacket` still have their initial values. -/
structure PristineL4 (p : ParsedPacket) : Prop where
  has_tcp : p.has_tcp = false
  has_udp : p.has_udp = false
  src_port : p.src_port = 0
  dest_port : p.dest_port = 0
  tcp_flags : p.tcp_flags = 0
  seq_number : p.seq_number = 0
  ack_number : p.ack_number = 0
  payload_length : p.payload_length = 0
  payload_data : p.payload_data = none
  is_malformed : p.is_malformed = false

/-- Length in bytes of the IPv4 header of a frame: `IHL * 4`. -/
def ihlBytes (data : Bytes) : Nat := byteOf data 14 % 16 * 4

/-- The IPv4 header checks fail: fewer than 20 bytes follow the Ethernet header, or the
version nibble is not 4, or `IHL * 4 < 20`, or `14 + IHL * 4` exceeds the frame length. -/
def ipv4HeaderBad (data : Bytes) : Prop :=
  data.length - 14 < 20 ∨ byteOf data 14 / 16 ≠ 4 ∨ ihlBytes data < 20 ∨
    14 + ihlBytes data > data.length

/-- The MF bit (0x2000) or the 13-bit fragment offset (mask 0x1FFF) of the flags/fragment
field is non-zero. -/
def ipv4Fragmented (data : Bytes) : Prop :=
  wire16 data 20 &&& 0x2000 ≠ 0 ∨ wire16 data 20 &&& 0x1FFF ≠ 0

/-- Length in bytes of the TCP header that starts at `off`: `data_offset * 4`. -/
def tcpHeaderBytes (data : Bytes) (off : Nat) : Nat := byteOf data (off + 12) / 16 * 4

/-- The TCP header check at `off` fails: fewer than 20 bytes follow, or
`data_offset * 4 < 20`, or the header does not fit in the frame. -/
def tcpHeaderBad (data : Bytes) (off : Nat) : Prop :=
  data.length - off < 20 ∨ tcpHeaderBytes data off < 20 ∨
    off + tcpHeaderBytes data off > data.length

/-- The UDP header check at `off` fails: fewer than 8 bytes follow. -/
def udpHeaderBad (data : Bytes) (off : Nat) : Prop := data.length - off < 8

instance (data : Bytes) : Decidable (ipv4HeaderBad data) := by
  unfold ipv4HeaderBad; infer_instance

instance (data : Bytes) : Decidable (ipv4Fragmented data) := by
  unfold ipv4Fragmented; infer_instance

instance (data : Bytes) (off : Nat) : Decidable (tcpHeaderBad data off) := by
  unfold tcpHeaderBad; infer_instance

instance (data : Bytes) (off : Nat) : Decidable (udpHeaderBad data off) := by
  unfold udpHeaderBad; infer_instance

/-- The `parsed` value after a successful `parseTCP` at `off`. -/
def withTCP (P : ParsedPacket) (data : Bytes) (off : Nat) : ParsedPacket :=
  { P with
    src_port := wire16 data off
    dest_port := wire16 data (off + 2)
    seq_number := wire32 data (off + 4)
    ack_number := wire32 data (off + 8)
    tcp_flags := byteOf data (off + 13)
    has_tcp := true }

/-- The `parsed` value after a successful `parseUDP` at `off`. -/
def withUDP (P : ParsedPacket) (data : Bytes) (off : Nat) : ParsedPacket :=
  { P with
    src_port := wire16 data off
    dest_port := wire16 data (off + 2)
    has_udp := true }

end PacketParser

/-! ## Sample frames -/

/-- Ethernet header with the given EtherType, MAC addresses `00:01:02:03:04:05` and
`06:07:08:09:0a:0b`. -/
def sampleEthernet (etherType : Nat) : Bytes :=
  [0, 1, 2, 3, 4, 5, 6, 7, 8, 9, 10, 11] ++ be16 etherType

/-- IPv4 header of 20 bytes: flags/fragment field `ff`, TTL 64, the given protocol,
10.0.0.1 to 1.2.3.4. -/
def sampleIPv4 (ff protocol : Nat) : Bytes :=
  [0x45, 0, 0, 40, 0, 0] ++ be16 ff ++ [64, UInt8.ofNat protocol, 0, 0, 10, 0, 0, 1, 1, 2, 3, 4]

/-- TCP header of 20 bytes: port 1234 to 443, seq 1, ack 2, data offset 5, flags
PSH and ACK. -/
def sampleTCP : Bytes :=
  [0x04, 0xD2, 0x01, 0xBB, 0, 0, 0, 1, 0, 0, 0, 2, 0x50, 0x18, 0, 0, 0, 0, 0, 0]

/-- UDP header: port 5353 to 53, length 10. -/
def sampleUDP : Bytes := [0x14, 0xE9, 0x00, 0x35, 0, 10, 0, 0]

/-- IPv6 header of 40 bytes with the given next_header, hop limit 64. -/
def sampleIPv6 (nextHeader : Nat) : Bytes :=
  [0x60, 0, 0, 0, 0, 0, UInt8.ofNat nextHeader, 64] ++ List.replicate 32 0

/-- An IPv4 TCP segment with two payload bytes: 56 bytes. -/
def tcpFrame : RawPacket :=
  { data := sampleEthernet 0x0800 ++ sampleIPv4 0x4000 6 ++ sampleTCP ++ [0x16, 0x03] }

/-- An IPv4 UDP datagram without payload: 42 bytes. -/
def udpFrame : RawPacket :=
  { data := sampleEthernet 0x0800 ++ sampleIPv4 0 17 ++ sampleUDP }

/-- The first fragment (MF set) of an IPv4 TCP segment. -/
def fragmentFrame : RawPacket :=
  { data := sampleEthernet 0x0800 ++ sampleIPv4 0x2000 6 ++ sampleTCP }

/-- An IPv6 TCP segment with two payload bytes: 76 bytes. -/
def tcp6Frame : RawPacket :=
  { data := sampleEthernet 0x86DD ++ sampleIPv6 6 ++ sampleTCP ++ [0x16, 0x03] }

/-- The view that `parse` builds of `tcpFrame` on a little-endian host. -/
def tcpFrameParsed : ParsedPacket :=
  { src_mac := "06:07:08:09:0a:0b", dest_mac := "00:01:02:03:04:05", ether_type := 0x0800,
    has_ip := true, has_ipv4 := true, ip_version := 4, src_ip := "10.0.0.1",
    dest_ip := "1.2.3.4", protocol := 6, ttl := 64, has_tcp := true, src_port := 1234,
    dest_port := 443, tcp_flags := 0x18, seq_number := 1, ack_number := 2,
    payload_length := 2, payload_data := some 54 }

/-- The view that `parse` builds of `udpFrame` on a little-endian host. -/
def udpFrameParsed : ParsedPacket :=
  { src_mac := "06:07:08:09:0a:0b", dest_mac := "00:01:02:03:04:05", ether_type := 0x0800,
    has_ip := true, has_ipv4 := true, ip_version := 4, src_ip := "10.0.0.1",
    dest_ip := "1.2.3.4", protocol := 17, ttl := 64, has_udp := true, src_port := 5353,
    dest_port := 53 }

/-! ## Capture files in the words of the specification, and samples -/

/-- The 32-bit value with the bytes of `v` in reverse order. -/
def byteSwap32 (v : Nat) : Nat :=
  2 ^ 24 * (v % 256) + 2 ^ 16 * (v / 2 ^ 8 % 256) + 2 ^ 8 * (v / 2 ^ 16 % 256) + v / 2 ^ 24 % 256

namespace PcapReader

/-- The record header as stored in the file at the read position, after the byte-order
correction: every field byte-swapped when the reader needs the byte swap. -/
def correctedHeader (le : Bool) (r : PcapReader) (s : IFStream) : PcapPacketHeader :=
  let stored := PcapPacketHeader.ofBytes le ((s.content.drop s.pos).take 16)
  if r.needs_byte_swap_ then
    { ts_sec := byteSwap32 stored.ts_sec, ts_usec := byteSwap32 stored.ts_usec,
      incl_len := byteSwap32 stored.incl_len, orig_len := byteSwap32 stored.orig_len }
  else stored

/-- A reader before any `open`. -/
def closed : PcapReader := ⟨none, ⟨0, 0, 0, 0, 0, 0, 0⟩, false⟩

end PcapReader

/-- A capture file written on a big-endian machine, as seen from a little-endian host:
magic bytes `A1 B2 C3 D4` (read as 0xD4C3B2A1), version 2.4, thiszone 3600
(`00 00 0E 10`), sigfigs 0, snaplen 65535, linktype 1, then one record of three bytes. -/
def swappedFile : Bytes :=
  [0xA1, 0xB2, 0xC3, 0xD4, 0x00, 0x02, 0x00, 0x04, 0x00, 0x00, 0x0E, 0x10, 0, 0, 0, 0,
   0x00, 0x00, 0xFF, 0xFF, 0x00, 0x00, 0x00, 0x01] ++
  [0, 0, 0, 1, 0, 0, 0, 2, 0, 0, 0, 3, 0, 0, 0, 3, 0xAA, 0xBB, 0xCC]

/-- The same capture written on a little-endian machine: magic bytes `D4 C3 B2 A1`. -/
def nativeFile : Bytes :=
  [0xD4, 0xC3, 0xB2, 0xA1, 0x02, 0x00, 0x04, 0x00, 0x10, 0x0E, 0x00, 0x00, 0, 0, 0, 0,
   0xFF, 0xFF, 0x00, 0x00, 0x01, 0x00, 0x00, 0x00] ++
  [1, 0, 0, 0, 2, 0, 0, 0, 3, 0, 0, 0, 3, 0, 0, 0, 0xAA, 0xBB, 0xCC]

/-! ## ThreadSafeQueue (`thread_safe_queue.h`)

The sequential model: every member function runs under the queue's mutex, so a call is one
atomic step on the members.  A blocking call whose wait predicate is false does not complete
in this model; it is the result `none`. -/

/-- Source class template `ThreadSafeQueue<T>`: its data members.  The two 64-bit counters
and `max_depth_` hold the values of the atomics. -/
structure ThreadSafeQueue (T : Type) where
  queue_ : List T := []
  max_size_ : Nat := 10000
  shutdown_ : Bool := false
  total_pushes_ : Nat := 0
  total_pops_ : Nat := 0
  max_depth_ : Nat := 0
  deriving DecidableEq, Repr

namespace ThreadSafeQueue

variable {T : Type}

/-- The constructor `ThreadSafeQueue(size_t max_size)`. -/
def create (max_size : Nat) : ThreadSafeQueue T := { max_size_ := max_size }

/-- Source function `updateMetricsOnPush`; the compare-exchange loop stores `current` when
it exceeds the stored maximum. -/
def updateMetricsOnPush (q : ThreadSafeQueue T) : ThreadSafeQueue T :=
  let q := { q with total_pushes_ := (q.total_pushes_ + 1) % 2 ^ 64 }
  let current := q.queue_.length
  let prev_max := q.max_depth_
  if current > prev_max then { q with max_depth_ := current } else q

/-- Source function `push`: `none` while the wait on `not_full_` cannot return. -/
def push (q : ThreadSafeQueue T) (item : T) : Option (Bool × ThreadSafeQueue T) :=
  if !(decide (q.queue_.length < q.max_size_) || q.shutdown_) then none
  else if q.shutdown_ then some (false, q)
  else some (true, updateMetricsOnPush { q with queue_ := q.queue_ ++ [item] })

/-- Source function `tryPush`. -/
def tryPush (q : ThreadSafeQueue T) (item : T) : Bool × ThreadSafeQueue T :=
  if decide (q.queue_.length ≥ q.max_size_) || q.shutdown_ then (false, q)
  else (true, updateMetricsOnPush { q with queue_ := q.queue_ ++ [item] })

/-- The common tail of the three pop functions: take the front item and count the pop. -/
def takeFront (q : ThreadSafeQueue T) : Option T × ThreadSafeQueue T :=
  match q.queue_ with
  | [] => (none, q)
  | item :: rest =>
    (some item, { q with queue_ := rest, total_pops_ := (q.total_pops_ + 1) % 2 ^ 64 })

/-- Source function `pop`: `none` while the wait on `not_empty_` cannot return; otherwise
the returned `std::optional<T>` and the queue afterwards. -/
def pop (q : ThreadSafeQueue T) : Option (Option T × ThreadSafeQueue T) :=
  if !(!q.queue_.isEmpty || q.shutdown_) then none
  else some q.takeFront

/-- Source function `popWithTimeout`: when the predicate stays false the timed wait
returns false and the call returns `std::nullopt`. -/
def popWithTimeout (q : ThreadSafeQueue T) : Option T × ThreadSafeQueue T :=
  if !(!q.queue_.isEmpty || q.shutdown_) then (none, q)
  else q.takeFront

/-- Source function `tryPop`: the returned flag, the value assigned to `out` (`none` when
`out` is left as it was) and the queue afterwards. -/
def tryPop (q : ThreadSafeQueue T) : Bool × Option T × ThreadSafeQueue T :=
  if q.queue_.isEmpty then (false, none, q)
  else (true, q.takeFront)

/-- Source function `clear`: pops until the queue is empty. -/
def clear (q : ThreadSafeQueue T) : ThreadSafeQueue T := { q with queue_ := [] }

def empty (q : ThreadSafeQueue T) : Bool := q.queue_.isEmpty

def size (q : ThreadSafeQueue T) : Nat := q.queue_.length

def capacity (q : ThreadSafeQueue T) : Nat := q.max_size_

/-- Source function `shutdown`. -/
def shutdown (q : ThreadSafeQueue T) : ThreadSafeQueue T := { q with shutdown_ := true }

def isShutdown (q : ThreadSafeQueue T) : Bool := q.shutdown_

def totalPushes (q : ThreadSafeQueue T) : Nat := q.total_pushes_

def totalPops (q : ThreadSafeQueue T) : Nat := q.total_pops_

def maxObservedDepth (q : ThreadSafeQueue T) : Nat := q.max_depth_

end ThreadSafeQueue

/-- One call on a queue. -/
inductive QueueOp (T : Type) where
  | push (item : T)
  | tryPush (item : T)
  | pop
  | popWithTimeout
  | tryPop
  | clear
  | shutdown
  deriving DecidableEq, Repr

/-- What a completed call did, as its caller sees it: `pushed` and `refused` are a push
that returned true or false, `popped` and `nothing` a pop that returned an item or none,
`cleared` carries the items that `clear` removed. -/
inductive QueueEvent (T : Type) where
  | pushed (item : T)
  | refused (item : T)
  | popped (item : T)
  | nothing
  | cleared (items : List T)
  | shutdown
  deriving DecidableEq, Repr

namespace QueueOp

variable {T : Type}

end QueueOp

namespace ThreadSafeQueue

variable {T : Type}

def popEvent : Option T → QueueEvent T
  | some item => .popped item
  | none => .nothing

/-- One completed call: the event and the queue afterwards; `none` when the call blocks. -/
def step (q : ThreadSafeQueue T) : QueueOp T → Option (QueueEvent T × ThreadSafeQueue T)
  | .push item =>
    match q.push item with
    | none => none
    | some (true, q1) => some (.pushed item, q1)
    | some (false, q1) => some (.refused item, q1)
  | .tryPush item =>
    match q.tryPush item with
    | (true, q1) => some (.pushed item, q1)
    | (false, q1) => some (.refused item, q1)
  | .pop =>
    match q.pop with
    | none => none
    | some (r, q1) => some (popEvent r, q1)
  | .popWithTimeout => some (popEvent q.popWithTimeout.1, q.popWithTimeout.2)
  | .tryPop => some (popEvent q.tryPop.2.1, q.tryPop.2.2)
  | .clear => some (.cleared q.queue_, q.clear)
  | .shutdown => some (.shutdown, q.shutdown)

/-- A sequence of completed calls: the events in order and the queue afterwards; `none`
when one of the calls blocks. -/
def run (q : ThreadSafeQueue T) : List (QueueOp T) → Option (List (QueueEvent T) × ThreadSafeQueue T)
  | [] => some ([], q)
  | op :: ops =>
    match q.step op with
    | none => none
    | some (e, q1) =>
      match q1.run ops with
      | none => none
      | some (es, q2) => some (e :: es, q2)

end ThreadSafeQueue

namespace QueueEvent

variable {T : Type}

end QueueEvent

/-! ## Flow records (`types.h`) -/

/-- Source enum `AppType`. -/
inductive AppType where
  | UNKNOWN | HTTP | HTTPS | DNS | TLS | QUIC | GOOGLE | FACEBOOK | YOUTUBE | TWITTER
  | INSTAGRAM | NETFLIX | AMAZON | MICROSOFT | APPLE | WHATSAPP | TELEGRAM | TIKTOK | SPOTIFY
  | ZOOM | DISCORD | GITHUB | CLOUDFLARE | APP_COUNT
  deriving DecidableEq, Repr

/-- Source enum `ConnectionState`. -/
inductive ConnectionState where
  | NEW | ESTABLISHED | CLASSIFIED | BLOCKED | CLOSED
  deriving DecidableEq, Repr

namespace ConnectionState

/-- The value of the enumerator: its position in the declaration. -/
def toNat : ConnectionState → Nat
  | NEW => 0
  | ESTABLISHED => 1
  | CLASSIFIED => 2
  | BLOCKED => 3
  | CLOSED => 4

end ConnectionState

/-- Source enum `PacketAction`. -/
inductive PacketAction where
  | FORWARD | DROP | INSPECT | LOG_ONLY
  deriving DecidableEq, Repr

/-- Source struct `Connection`, with its default member initialisers.  The two clock
values `first_seen`, `last_seen` and the `double average_packet_size` are left out: no
function embedded here reads or writes them. -/
structure Connection where
  tuple : FiveTuple := ⟨0, 0, 0, 0, 0⟩
  state : ConnectionState := .NEW
  app_type : AppType := .UNKNOWN
  sni : String := ""
  packets_in : Nat := 0
  packets_out : Nat := 0
  bytes_in : Nat := 0
  bytes_out : Nat := 0
  action : PacketAction := .FORWARD
  syn_seen : Bool := false
  syn_ack_seen : Bool := false
  fin_seen : Bool := false
  rst_seen : Bool := false
  last_activity_ns : Nat := 0
  deriving DecidableEq, Repr

/-- Source struct `PacketJob`; `payload_data` is the offset of the payload in `data`,
`none` for `nullptr`. -/
structure PacketJob where
  packet_id : Nat := 0
  tuple : FiveTuple := ⟨0, 0, 0, 0, 0⟩
  data : Bytes := []
  eth_offset : Nat := 0
  ip_offset : Nat := 0
  transport_offset : Nat := 0
  payload_offset : Nat := 0
  payload_length : Nat := 0
  tcp_flags : Nat := 0
  payload_data : Option Nat := none
  is_fragmented : Bool := false
  is_malformed : Bool := false
  ts_sec : Nat := 0
  ts_usec : Nat := 0
  deriving DecidableEq, Repr

/-! ## FastPathProcessor (`fast_path.cpp`) -/

namespace FastPathProcessor

/-- The test `tcp_flags & MASK` of `updateTCPState`, as a condition. -/
def flagSet (tcp_flags mask : Nat) : Bool := tcp_flags &&& mask != 0

def SYN : Nat := 0x02
def ACK : Nat := 0x10
def FIN : Nat := 0x01
def RST : Nat := 0x04

/-- Source function `FastPathProcessor::updateTCPState`: the connection record after the
call.  Each of the five statements of the body is one update below. -/
def updateTCPState (conn : Connection) (tcp_flags : Nat) : Connection :=
  let conn : Connection :=
    if flagSet tcp_flags SYN then
      if flagSet tcp_flags ACK then { conn with syn_ack_seen := true }
      else { conn with syn_seen := true }
    else conn
  let conn : Connection :=
    if conn.syn_seen && conn.syn_ack_seen && flagSet tcp_flags ACK then
      if conn.state = ConnectionState.NEW then { conn with state := .ESTABLISHED } else conn
    else conn
  let conn : Connection :=
    if flagSet tcp_flags FIN then { conn with fin_seen := true } else conn
  let conn : Connection :=
    if flagSet tcp_flags RST then { conn with state := .CLOSED } else conn
  let conn : Connection :=
    if conn.fin_seen && flagSet tcp_flags ACK then { conn with state := .CLOSED } else conn
  conn

end FastPathProcessor

/-! ## LoadBalancer and LBManager (`load_balancer.h`, `load_balancer.cpp`)

A `ThreadSafeQueue<PacketJob>*` is held as `Option Nat`: `none` is the null pointer and
`some i` points to the input queue of fast path `i`, the `i`-th entry of the vector that
`FPManager::getQueuePtrs` returns.  The `int` members hold non-negative values here. -/

/-- Source class `LoadBalancer`: its data members, the thread apart. -/
structure LoadBalancer where
  lb_id_ : Nat
  fp_start_id_ : Nat
  num_fps_ : Nat
  input_queue_ : ThreadSafeQueue PacketJob
  fp_queues_ : List (Option Nat)
  silent_ : Bool
  packets_received_ : Nat := 0
  packets_dispatched_ : Nat := 0
  per_fp_counts_ : List Nat
  running_ : Bool := false
  deriving DecidableEq, Repr

namespace FPManager

/-- Source function `FPManager::getQueuePtrs` for a manager of `num_fps` processors. -/
def getQueuePtrs (num_fps : Nat) : List (Option Nat) := (List.range num_fps).map some

end FPManager

namespace LoadBalancer

/-- The constructor of `LoadBalancer`. -/
def create (lb_id : Nat) (fp_queues : List (Option Nat)) (fp_start_id : Nat) (silent : Bool) :
    LoadBalancer :=
  { lb_id_ := lb_id
    fp_start_id_ := fp_start_id
    num_fps_ := fp_queues.length
    input_queue_ := ThreadSafeQueue.create 10000
    fp_queues_ := fp_queues
    silent_ := silent
    per_fp_counts_ := List.replicate fp_queues.length 0 }

/-- Source function `LoadBalancer::selectFP`. -/
def selectFP (lb : LoadBalancer) (tuple : FiveTuple) : Nat :=
  if lb.num_fps_ = 0 then 0
  else
    let hash := FiveTupleHash tuple
    hash % lb.num_fps_

/-- The queue that `LoadBalancer::run` pushes a job with this tuple to: the statements of
the loop body between the count of the received packet and the `push`; `none` when the body
takes one of its two `continue` exits. -/
def target (lb : LoadBalancer) (tuple : FiveTuple) : Option Nat :=
  if lb.num_fps_ = 0 then none
  else
    let fp_index := lb.selectFP tuple
    if fp_index ≥ lb.fp_queues_.length then none
    else (lb.fp_queues_.getD fp_index none)

/-- One turn of the loop of `LoadBalancer::run`, on the load balancer and the vector of
fast-path input queues; `none` when the `push` to the fast-path queue blocks, or when the
pointer is to no queue of `fps`. -/
def runOnce (lb : LoadBalancer) (fps : List (ThreadSafeQueue PacketJob)) :
    Option (LoadBalancer × List (ThreadSafeQueue PacketJob)) :=
  let job_opt := lb.input_queue_.popWithTimeout
  let lb := { lb with input_queue_ := job_opt.2 }
  match job_opt.1 with
  | none => some (lb, fps)
  | some job =>
    let lb := { lb with packets_received_ := (lb.packets_received_ + 1) % 2 ^ 64 }
    if lb.num_fps_ = 0 then some (lb, fps)
    else
      let fp_index := lb.selectFP job.tuple
      if fp_index ≥ lb.fp_queues_.length then some (lb, fps)
      else
        match lb.fp_queues_.getD fp_index none with
        | none => some (lb, fps)
        | some i =>
          match fps[i]? with
          | none => none
          | some q =>
            match q.push job with
            | none => none
            | some (_, q1) =>
              some ({ lb with
                        packets_dispatched_ := (lb.packets_dispatched_ + 1) % 2 ^ 64
                        per_fp_counts_ := lb.per_fp_counts_.modify (fun n => (n + 1) % 2 ^ 64)
                          fp_index },
                    fps.set i q1)

end LoadBalancer

/-- Source class `LBManager`: its data members. -/
structure LBManager where
  lbs_ : List LoadBalancer := []
  fps_per_lb_ : Nat
  silent_ : Bool
  deriving DecidableEq, Repr

namespace LBManager

/-- The inner loop of the constructor: the queues of load balancer `lb_id`, taken from
`fp_queues` at `fp_start + i` for `i < fps_per_lb`, out-of-range indices skipped. -/
def sliceFor (fps_per_lb : Nat) (fp_queues : List (Option Nat)) (lb_id : Nat) :
    List (Option Nat) :=
  let fp_start := lb_id * fps_per_lb
  (List.range fps_per_lb).foldl (fun lb_fp_queues i =>
    let index := fp_start + i
    if index ≥ fp_queues.length then lb_fp_queues
    else lb_fp_queues ++ [fp_queues.getD index none]) []

/-- The constructor of `LBManager`. -/
def create (num_lbs fps_per_lb : Nat) (fp_queues : List (Option Nat)) (silent : Bool) :
    LBManager :=
  (List.range num_lbs).foldl (fun m lb_id =>
    let lb_fp_queues := sliceFor fps_per_lb fp_queues lb_id
    let fp_start := lb_id * fps_per_lb
    { m with lbs_ := m.lbs_ ++ [LoadBalancer.create lb_id lb_fp_queues fp_start silent] })
    { fps_per_lb_ := fps_per_lb, silent_ := silent }

/-- Source function `LBManager::getLBForPacket`: the index in `lbs_` of the load balancer
returned; `none` when `lbs_` is empty, where the remainder is undefined. -/
def getLBForPacket (m : LBManager) (tuple : FiveTuple) : Option Nat :=
  let hash := FiveTupleHash tuple
  if m.lbs_.length = 0 then none
  else
    let lb_index := hash % m.lbs_.length
    some lb_index

/-- The two stages together: the fast-path queue that a job with this tuple reaches when
the reader hands it to `getLBForPacket(tuple)` and that load balancer's `run` forwards it. -/
def route (m : LBManager) (tuple : FiveTuple) : Option Nat :=
  match m.getLBForPacket tuple with
  | none => none
  | some lb_index =>
    match m.lbs_[lb_index]? with
    | none => none
    | some lb => lb.target tuple

end LBManager

/-! ## The reader thread of DPIEngine (`dpi_engine.cpp`) -/

/-- Source struct `DPIStats`: the values of its atomic 64-bit counters. -/
structure DPIStats where
  total_packets : Nat := 0
  total_bytes : Nat := 0
  forwarded_packets : Nat := 0
  dropped_packets : Nat := 0
  tcp_packets : Nat := 0
  udp_packets : Nat := 0
  other_packets : Nat := 0
  active_connections : Nat := 0
  malformed_packets : Nat := 0
  fragmented_packets : Nat := 0
  rule_block_events : Nat := 0
  deriving DecidableEq, Repr

/-- The members of `DPIEngine` that the reader thread uses: the load balancer manager,
the content of the output file (`none` when it is not open) and the counters.  The input
queues of the load balancers are emptied by their own threads while the reader runs; what
the reader thread contributes to them is the sequence of its calls
`lb.getInputQueue().push(job)`, kept in `enqueued` with the index of the load balancer. -/
structure DPIEngine where
  lb_manager_ : LBManager
  output_file_ : Option Bytes := none
  stats_ : DPIStats := {}
  enqueued : List (Nat × PacketJob) := []
  deriving DecidableEq, Repr

namespace DPIEngine

/-- One turn of the loop of the lambda `parseIP` in `createPacketJob`, on `result`,
`octet` and `shift`.  The `int` value `octet << shift` is stored into the 32-bit `result`
modulo 2^32. -/
def parseIPStep (st : Nat × Nat × Nat) (c : Char) : Nat × Nat × Nat :=
  if c = '.' then (st.1 ||| ((st.2.1 <<< st.2.2) % 2 ^ 32), 0, st.2.2 + 8)
  else if '0' ≤ c ∧ c ≤ '9' then (st.1, st.2.1 * 10 + (c.toNat - '0'.toNat), st.2.2)
  else st

/-- The lambda `parseIP` of `createPacketJob`. -/
def parseIP (ip : String) : Nat :=
  let st := ip.toList.foldl parseIPStep (0, 0, 0)
  st.1 ||| ((st.2.1 <<< st.2.2) % 2 ^ 32)

/-- The part of `createPacketJob` that recomputes the offsets, entered when the frame has
more than 14 bytes. -/
def jobOffsets (parsed : ParsedPacket) (job : PacketJob) : Except Fault PacketJob :=
  match byteAt job.data 14 with
  | .error f => .error f
  | .ok b =>
    let ip_ihl := b &&& 0x0F
    let ip_header_len := ip_ihl * 4
    let job := { job with transport_offset := 14 + ip_header_len }
    let withPayload (job : PacketJob) : PacketJob :=
      if job.payload_offset < job.data.length then
        { job with
          payload_length := job.data.length - job.payload_offset
          payload_data := some job.payload_offset }
      else job
    if parsed.has_tcp && decide (job.data.length > job.transport_offset) then
      match byteAt job.data (job.transport_offset + 12) with
      | .error f => .error f
      | .ok b12 =>
        let tcp_data_offset := (b12 >>> 4) &&& 0x0F
        let tcp_header_len := tcp_data_offset * 4
        .ok (withPayload { job with payload_offset := job.transport_offset + tcp_header_len })
    else if parsed.has_udp then
      .ok (withPayload { job with payload_offset := job.transport_offset + 8 })
    else .ok (withPayload job)

/-- Source function `DPIEngine::createPacketJob`. -/
def createPacketJob (raw : RawPacket) (parsed : ParsedPacket) (packet_id : Nat) :
    Except Fault PacketJob :=
  let job : PacketJob :=
    { packet_id := packet_id
      ts_sec := raw.header.ts_sec
      ts_usec := raw.header.ts_usec
      tuple :=
        { src_ip := parseIP parsed.src_ip
          dst_ip := parseIP parsed.dest_ip
          src_port := parsed.src_port
          dst_port := parsed.dest_port
          protocol := parsed.protocol }
      tcp_flags := parsed.tcp_flags
      data := raw.data
      eth_offset := 0
      ip_offset := 14 }
  if job.data.length > 14 then jobOffsets parsed job else .ok job

/-- The test of the reader on a parsed record: true when the record goes on to
`createPacketJob`. -/
def keeps (parsed : ParsedPacket) : Bool :=
  !(!parsed.has_ip || (!parsed.has_tcp && !parsed.has_udp))

/-- The statements of the loop body of `readerThreadFunc` that follow the two `continue`
tests: build the job, count it and push it to its load balancer.  The result is the engine
and `packet_id` afterwards. -/
def enqueue (e : DPIEngine) (raw : RawPacket) (parsed : ParsedPacket) (packet_id : Nat) :
    Except Fault (DPIEngine × Nat) :=
  match createPacketJob raw parsed packet_id with
  | .error f => .error f
  | .ok job =>
    let packet_id := (packet_id + 1) % 2 ^ 32
    let stats := { e.stats_ with
      total_packets := (e.stats_.total_packets + 1) % 2 ^ 64
      total_bytes := (e.stats_.total_bytes + raw.data.length) % 2 ^ 64 }
    let stats :=
      if parsed.has_tcp then { stats with tcp_packets := (stats.tcp_packets + 1) % 2 ^ 64 }
      else if parsed.has_udp then { stats with udp_packets := (stats.udp_packets + 1) % 2 ^ 64 }
      else stats
    match e.lb_manager_.getLBForPacket job.tuple with
    | none => .error .outOfBounds
    | some lb => .ok ({ e with stats_ := stats, enqueued := e.enqueued ++ [(lb, job)] }, packet_id)

/-- The `while` loop of `readerThreadFunc`, with at most `fuel` calls of
`readNextPacket`: the engine, the reader and `packet_id` when the loop ends. -/
def readerLoop (le : Bool) :
    Nat → DPIEngine → PcapReader → RawPacket → Nat → Except Fault (DPIEngine × PcapReader × Nat)
  | 0, _, _, _, _ => .error .outOfFuel
  | fuel + 1, e, reader, raw, packet_id =>
    let rd := reader.readNextPacket le raw
    if !rd.1 then .ok (e, rd.2.2, packet_id)
    else
      match PacketParser.parse le rd.2.1 with
      | .error f => .error f
      | .ok (ok, parsed) =>
        if !ok then readerLoop le fuel e rd.2.2 rd.2.1 packet_id
        else if !keeps parsed then readerLoop le fuel e rd.2.2 rd.2.1 packet_id
        else
          match enqueue e rd.2.1 parsed packet_id with
          | .error f => .error f
          | .ok (e1, packet_id1) => readerLoop le fuel e1 rd.2.2 rd.2.1 packet_id1

/-- Source function `DPIEngine::readerThreadFunc`; `input_file` is the content of the named
file, `none` when it cannot be opened.  The result is the engine and `packet_id` when the
thread ends.  The loop gets one turn per byte of the file and one more, which it cannot
use up. -/
def readerThreadFunc (le : Bool) (e : DPIEngine) (input_file : Option Bytes) :
    Except Fault (DPIEngine × Nat) :=
  let opened := PcapReader.open le PcapReader.closed input_file
  if !opened.1 then .ok (e, 0)
  else
    let wr := writeOutputHeader le e.output_file_ opened.2.getGlobalHeader
    let e := { e with output_file_ := wr.2 }
    match readerLoop le ((input_file.getD []).length + 1) e opened.2 {} 0 with
    | .error f => .error f
    | .ok (e1, _, packet_id) => .ok (e1, packet_id)

end DPIEngine

/-! ## The reader's filter in the words of the specification, and a sample capture -/

namespace DPIEngine

/-- The record passes the reader: `PacketParser::parse` succeeds and the packet has an IP
header and a parsed TCP or UDP header. -/
def accepted (le : Bool) (raw : RawPacket) : Bool :=
  match PacketParser.parse le raw with
  | .ok (true, parsed) => parsed.has_ip && (parsed.has_tcp || parsed.has_udp)
  | _ => false

/-- The reads of `createPacketJob` on this record stay inside the frame: the job is
built. -/
def jobBuilt (le : Bool) (raw : RawPacket) : Bool :=
  match PacketParser.parse le raw with
  | .ok (_, parsed) =>
    match createPacketJob raw parsed 0 with
    | .ok _ => true
    | .error _ => false
  | .error _ => false

/-- The capture records in reading order: what the calls of `readNextPacket` return, up
to the first call that returns false (at most `fuel` of them). -/
def records (le : Bool) : Nat → PcapReader → RawPacket → List RawPacket
  | 0, _, _ => []
  | fuel + 1, reader, raw =>
    let rd := reader.readNextPacket le raw
    if !rd.1 then [] else rd.2.1 :: records le fuel rd.2.2 rd.2.1

/-- The bytes left to read in the reader's file, when it is open and good. -/
def unread (reader : PcapReader) : Nat :=
  match reader.file_ with
  | none => 0
  | some s => if s.good then s.content.length - s.pos else 0

end DPIEngine

/-- A record of a capture file in little-endian byte order: time stamp 1.000002 s,
`incl_len` and `orig_len` the length of the frame (below 256), then the frame. -/
def sampleRecord (frame : Bytes) : Bytes :=
  [1, 0, 0, 0, 2, 0, 0, 0, UInt8.ofNat frame.length, 0, 0, 0, UInt8.ofNat frame.length, 0, 0, 0]
    ++ frame

/-- An ARP frame: 14 bytes of Ethernet header with EtherType 0x0806 and 28 bytes. -/
def arpFrame : RawPacket := { data := sampleEthernet 0x0806 ++ List.replicate 28 0 }

/-- An IPv4 ICMP packet: protocol 1, eight bytes after the IP header. -/
def icmpFrame : RawPacket :=
  { data := sampleEthernet 0x0800 ++ sampleIPv4 0 1 ++ [8, 0, 0, 0, 0, 1, 0, 1] }

/-- An IPv4 TCP packet cut after 10 bytes of the TCP header. -/
def truncatedFrame : RawPacket :=
  { data := sampleEthernet 0x0800 ++ sampleIPv4 0 6 ++ sampleTCP.take 10 }

/-- A capture in host byte order (little-endian host) with seven records: a TCP segment,
an ARP frame, a first fragment, a truncated TCP packet, an ICMP packet, a UDP datagram and
an IPv6 TCP segment. -/
def sampleCapture : Bytes :=
  nativeFile.take 24 ++ sampleRecord tcpFrame.data ++ sampleRecord arpFrame.data ++
    sampleRecord fragmentFrame.data ++ sampleRecord truncatedFrame.data ++
    sampleRecord icmpFrame.data ++ sampleRecord udpFrame.data ++ sampleRecord tcp6Frame.data

/-! ## The hash finalizer and its inverse -/

/-- The steps of `FiveTupleHash::operator()` that follow `compactHashKey()`: the mixing of
the 64-bit key. -/
def FiveTupleHash.finalizer (key : Nat) : Nat :=
  let key := key ^^^ (key >>> 33)
  let key := (key * 0xff51afd7ed558ccd) % 2 ^ 64
  let key := key ^^^ (key >>> 33)
  let key := (key * 0xc4ceb9fe1a85ec53) % 2 ^ 64
  let key := key ^^^ (key >>> 33)
  key

/-- The steps of the finalizer undone in reverse order; the two constants are the inverses
modulo 2^64 of the two multipliers. -/
def FiveTupleHash.unfinalizer (hash : Nat) : Nat :=
  let key := hash ^^^ (hash >>> 33)
  let key := (key * 0x9cb4b2f8129337db) % 2 ^ 64
  let key := key ^^^ (key >>> 33)
  let key := (key * 0x4f74430c22a54005) % 2 ^ 64
  let key := key ^^^ (key >>> 33)
  key

/-! ## Rules of the standalone engine (`dpi_mt.cpp`)

A `std::string` is held as a `String`, a `std::unordered_set` as the list of its elements
(without repetition), the `std::vector<std::string>` of domains as a list. -/

/-- The characters of `s` begin with `pat`. -/
def startsWith : List Char → List Char → Bool
  | _, [] => true
  | [], _ :: _ => false
  | c :: s, p :: pat => c == p && startsWith s pat

/-- The search of `std::string::find`: the first position at or after `pos` where `pat`
begins, `s` being what is left of the string from `pos` on; `none` is `npos`. -/
def stringFindFrom : List Char → List Char → Nat → Option Nat
  | [], pat, pos => if startsWith [] pat then some pos else none
  | c :: s, pat, pos =>
    if startsWith (c :: s) pat then some pos else stringFindFrom s pat (pos + 1)

/-- Library function `std::string::find(str)`. -/
def stringFind (s pat : String) : Option Nat := stringFindFrom s.data pat.data 0

/-- The enumerators of `AppType` below `APP_COUNT`, in order: `static_cast<AppType>(i)` for
`i = 0, 1, ...`. -/
def AppType.all : List AppType :=
  [.UNKNOWN, .HTTP, .HTTPS, .DNS, .TLS, .QUIC, .GOOGLE, .FACEBOOK, .YOUTUBE, .TWITTER,
   .INSTAGRAM, .NETFLIX, .AMAZON, .MICROSOFT, .APPLE, .WHATSAPP, .TELEGRAM, .TIKTOK, .SPOTIFY,
   .ZOOM, .DISCORD, .GITHUB, .CLOUDFLARE]

/-- Source class `Rules`: its three containers. -/
structure Rules where
  blocked_ips_ : List Nat := []
  blocked_apps_ : List AppType := []
  blocked_domains_ : List String := []
  deriving DecidableEq, Repr

namespace Rules

/-- Source function `Rules::parseIP`; its loop body is that of the lambda in
`createPacketJob`. -/
def parseIP (ip : String) : Nat :=
  let st := ip.toList.foldl DPIEngine.parseIPStep (0, 0, 0)
  st.1 ||| ((st.2.1 <<< st.2.2) % 2 ^ 32)

/-- The call `insert` of a `std::unordered_set`. -/
def setInsert {α : Type} [DecidableEq α] (s : List α) (x : α) : List α :=
  if x ∈ s then s else x :: s

/-- Source function `Rules::blockIP`. -/
def blockIP (r : Rules) (ip : String) : Rules :=
  { r with blocked_ips_ := setInsert r.blocked_ips_ (parseIP ip) }

/-- Source function `Rules::blockApp`; `appTypeToString` is the function of that name
declared in `types.h`, taken as a parameter. -/
def blockApp (appTypeToString : AppType → String) (r : Rules) (app : String) : Rules :=
  match AppType.all.find? (fun a => appTypeToString a == app) with
  | some a => { r with blocked_apps_ := setInsert r.blocked_apps_ a }
  | none => r

/-- Source function `Rules::blockDomain`. -/
def blockDomain (r : Rules) (domain : String) : Rules :=
  { r with blocked_domains_ := r.blocked_domains_ ++ [domain] }

/-- The loop of `isBlocked` over `blocked_domains_`. -/
def domainLoop (sni : String) : List String → Bool
  | [] => false
  | dom :: rest => if stringFind sni dom != none then true else domainLoop sni rest

/-- Source function `Rules::isBlocked`. -/
def isBlocked (r : Rules) (src_ip : Nat) (app : AppType) (sni : String) : Bool :=
  if r.blocked_ips_.count src_ip ≠ 0 then true
  else if r.blocked_apps_.count app ≠ 0 then true
  else domainLoop sni r.blocked_domains_

end Rules

/-- The string `pat` occurs as a substring of `s`. -/
def occursIn (pat s : String) : Prop := ∃ before after : List Char, s.data = before ++ pat.data ++ after

/-! ## Dotted-quad addresses in the words of the specification -/

/-- Value of a run of decimal digits read after `octet`, as the loop of `parseIP` does. -/
def digitsValue (octet : Nat) (cs : List Char) : Nat :=
  cs.foldl (fun o c => o * 10 + (c.toNat - '0'.toNat)) octet

/-- The little-endian 32-bit number at bytes `off .. off + 3`. -/
def wire32le (data : Bytes) (off : Nat) : Nat :=
  byteOf data off + 2 ^ 8 * byteOf data (off + 1) + 2 ^ 16 * byteOf data (off + 2)
    + 2 ^ 24 * byteOf data (off + 3)

/-- An IPv6 TCP segment without payload whose traffic class is 0xC0 (class selector 6): the
first byte of the IP header is 0x6C. 74 bytes. -/
def ack6Frame : RawPacket :=
  { data := sampleEthernet 0x86DD ++ ([0x6C, 0, 0, 0, 0, 20, 6, 64] ++ List.replicate 32 0) ++
      sampleTCP }

/-! ## FastPathProcessor: payload inspection and the thread loop (`fast_path.cpp`)

`ConnectionTracker`, `RuleManager` and `sniToAppType` are declared in the headers of the
repository; their definitions are not among the sources read here.  The state of the
connection tracker is a value of a type `σ`, a `Connection*` a value of a type `κ`, and the
functions are parameters. -/

/-- The payload extractors that `inspectPayload` calls. -/
inductive Extractor where
  | sni | httpHost | dnsQuery
  deriving DecidableEq, Repr

/-- Source class `FastPathProcessor`: its data members, without `rule_manager_`, `silent_`,
`max_queue_depth_`, `paused_` and the thread.  `output_callback_` tells whether a callback
is set.  Two logs are kept beside the members: `extractions`, the calls of the extractors
in order, and `delivered`, the calls `output_callback_(job, action)` in order. -/
structure FastPathProcessor (σ : Type) where
  fp_id_ : Nat := 0
  input_queue_ : ThreadSafeQueue PacketJob := ThreadSafeQueue.create 10000
  conn_tracker_ : σ
  output_callback_ : Bool := true
  packets_processed_ : Nat := 0
  packets_forwarded_ : Nat := 0
  packets_dropped_ : Nat := 0
  sni_extractions_ : Nat := 0
  classification_hits_ : Nat := 0
  running_ : Bool := false
  extractions : List Extractor := []
  delivered : List (PacketJob × PacketAction) := []

namespace FastPathProcessor

variable {σ κ : Type}

/-- Source function `FastPathProcessor::tryExtractSNI`: the returned flag and the
processor afterwards. -/
def tryExtractSNI (sniToAppType : Bytes → AppType)
    (classifyConnection : σ → κ → AppType → Bytes → σ)
    (fp : FastPathProcessor σ) (job : PacketJob) (conn : κ) :
    Except Fault (Bool × FastPathProcessor σ) :=
  if job.tuple.dst_port ≠ 443 ∧ job.payload_length < 50 then .ok (false, fp)
  else if job.payload_offset ≥ job.data.length ∨ job.payload_length = 0 then .ok (false, fp)
  else
    let fp := { fp with extractions := fp.extractions ++ [Extractor.sni] }
    match SNIExtractor.extract job.data job.payload_offset job.payload_length with
    | .error f => .error f
    | .ok none => .ok (false, fp)
    | .ok (some sni) =>
      let app := sniToAppType sni
      .ok (true,
        { fp with
          sni_extractions_ := (fp.sni_extractions_ + 1) % 2 ^ 64
          conn_tracker_ := classifyConnection fp.conn_tracker_ conn app sni
          classification_hits_ :=
            if app ≠ AppType.UNKNOWN ∧ app ≠ AppType.HTTPS then
              (fp.classification_hits_ + 1) % 2 ^ 64
            else fp.classification_hits_ })

/-- Source function `FastPathProcessor::tryExtractHTTPHost`.  The extractor is given the
`payload_length` bytes at `payload_offset`. -/
def tryExtractHTTPHost (sniToAppType : Bytes → AppType)
    (classifyConnection : σ → κ → AppType → Bytes → σ)
    (fp : FastPathProcessor σ) (job : PacketJob) (conn : κ) :
    Except Fault (Bool × FastPathProcessor σ) :=
  if job.tuple.dst_port ≠ 80 then .ok (false, fp)
  else if job.payload_offset ≥ job.data.length ∨ job.payload_length = 0 then .ok (false, fp)
  else
    let fp := { fp with extractions := fp.extractions ++ [Extractor.httpHost] }
    match readBytes job.data job.payload_offset job.payload_length
        >>= HTTPHostExtractor.extract with
    | .error f => .error f
    | .ok none => .ok (false, fp)
    | .ok (some host) =>
      let app := sniToAppType host
      .ok (true,
        { fp with
          conn_tracker_ := classifyConnection fp.conn_tracker_ conn app host
          classification_hits_ :=
            if app ≠ AppType.UNKNOWN ∧ app ≠ AppType.HTTP then
              (fp.classification_hits_ + 1) % 2 ^ 64
            else fp.classification_hits_ })

/-- The last statement of `inspectPayload`: the classification by port alone. -/
def classifyByPort (classifyConnection : σ → κ → AppType → Bytes → σ)
    (fp : FastPathProcessor σ) (job : PacketJob) (conn : κ) : FastPathProcessor σ :=
  if job.tuple.dst_port = 80 then
    { fp with conn_tracker_ := classifyConnection fp.conn_tracker_ conn AppType.HTTP [] }
  else if job.tuple.dst_port = 443 then
    { fp with conn_tracker_ := classifyConnection fp.conn_tracker_ conn AppType.HTTPS [] }
  else fp

/-- Source function `FastPathProcessor::inspectPayload`. -/
def inspectPayload (sniToAppType : Bytes → AppType)
    (classifyConnection : σ → κ → AppType → Bytes → σ)
    (fp : FastPathProcessor σ) (job : PacketJob) (conn : κ) :
    Except Fault (FastPathProcessor σ) :=
  if job.payload_length = 0 ∨ job.payload_offset ≥ job.data.length then .ok fp
  else
    match tryExtractSNI sniToAppType classifyConnection fp job conn with
    | .error f => .error f
    | .ok (true, fp) => .ok fp
    | .ok (false, fp) =>
      match tryExtractHTTPHost sniToAppType classifyConnection fp job conn with
      | .error f => .error f
      | .ok (true, fp) => .ok fp
      | .ok (false, fp) =>
        if job.tuple.dst_port = 53 ∨ job.tuple.src_port = 53 then
          let fp := { fp with extractions := fp.extractions ++ [Extractor.dnsQuery] }
          match readBytes job.data job.payload_offset job.payload_length
              >>= DNSExtractor.extractQuery with
          | .error f => .error f
          | .ok (some domain) =>
            .ok { fp with
              conn_tracker_ := classifyConnection fp.conn_tracker_ conn AppType.DNS domain }
          | .ok none => .ok (classifyByPort classifyConnection fp job conn)
        else .ok (classifyByPort classifyConnection fp job conn)

/-- One turn of the loop of `FastPathProcessor::run`.  `processPacket` and `cleanupStale`
are parameters: what the call does to the processor, and the action it returns. -/
def runOnce (processPacket : FastPathProcessor σ → PacketJob → PacketAction × FastPathProcessor σ)
    (cleanupStale : σ → σ) (fp : FastPathProcessor σ) : FastPathProcessor σ :=
  let job_opt := fp.input_queue_.popWithTimeout
  let fp := { fp with input_queue_ := job_opt.2 }
  match job_opt.1 with
  | none => { fp with conn_tracker_ := cleanupStale fp.conn_tracker_ }
  | some job =>
    let fp := { fp with packets_processed_ := (fp.packets_processed_ + 1) % 2 ^ 64 }
    let r := processPacket fp job
    let action := r.1
    let fp := r.2
    let fp :=
      if fp.output_callback_ then { fp with delivered := fp.delivered ++ [(job, action)] }
      else fp
    if action = PacketAction.DROP then
      { fp with packets_dropped_ := (fp.packets_dropped_ + 1) % 2 ^ 64 }
    else { fp with packets_forwarded_ := (fp.packets_forwarded_ + 1) % 2 ^ 64 }

/-- Source function `FastPathProcessor::run`, from its loop test on, with at most `fuel`
tests: the processor when the function returns. -/
def run (processPacket : FastPathProcessor σ → PacketJob → PacketAction × FastPathProcessor σ)
    (cleanupStale : σ → σ) : Nat → FastPathProcessor σ → Except Fault (FastPathProcessor σ)
  | 0, _ => .error .outOfFuel
  | fuel + 1, fp =>
    if fp.running_ then run processPacket cleanupStale fuel (runOnce processPacket cleanupStale fp)
    else .ok fp

/-- Source function `FastPathProcessor::stop`, called from another thread while the thread
of `run` is at its loop test (`inTurn = false`) or has passed the test and is about to pop
(`inTurn = true`).  The call clears `running_`, shuts the queue down and joins the thread,
which finishes the turn it is in and returns from `run` at the next test. -/
def stop (processPacket : FastPathProcessor σ → PacketJob → PacketAction × FastPathProcessor σ)
    (cleanupStale : σ → σ) (inTurn : Bool) (fp : FastPathProcessor σ) :
    Except Fault (FastPathProcessor σ) :=
  if !fp.running_ then .ok fp
  else
    let fp := { fp with running_ := false }
    let fp := { fp with input_queue_ := fp.input_queue_.shutdown }
    let fp := if inTurn then runOnce processPacket cleanupStale fp else fp
    run processPacket cleanupStale 1 fp

end FastPathProcessor

namespace LoadBalancer

/-- Source function `LoadBalancer::run`, from its loop test on, with at most `fuel` tests:
the load balancer and the fast-path queues when the function returns; `none` when a `push`
blocks or the tests are used up. -/
def run : Nat → LoadBalancer → List (ThreadSafeQueue PacketJob) →
    Option (LoadBalancer × List (ThreadSafeQueue PacketJob))
  | 0, _, _ => none
  | fuel + 1, lb, fps =>
    if lb.running_ then
      match lb.runOnce fps with
      | none => none
      | some s => run fuel s.1 s.2
    else some (lb, fps)

/-- Source function `LoadBalancer::stop`, called from another thread while the thread of
`run` is at its loop test (`inTurn = false`) or has passed the test and is about to pop
(`inTurn = true`).  The call clears `running_`, shuts the queue down and joins the thread,
which finishes the turn it is in and returns from `run` at the next test. -/
def stop (inTurn : Bool) (lb : LoadBalancer) (fps : List (ThreadSafeQueue PacketJob)) :
    Option (LoadBalancer × List (ThreadSafeQueue PacketJob)) :=
  if !lb.running_ then some (lb, fps)
  else
    let lb := { lb with running_ := false }
    let lb := { lb with input_queue_ := lb.input_queue_.shutdown }
    match (if inTurn then lb.runOnce fps else some (lb, fps)) with
    | none => none
    | some s => run 1 s.1 s.2

end LoadBalancer

namespace DPIEngine

/-- Source function `DPIEngine::handleOutput`.  The output queue is emptied by the output
thread meanwhile; `output` is the sequence of the calls `output_queue_.push(job)`. -/
def handleOutput (e : DPIEngine) (output : List PacketJob) (job : PacketJob)
    (action : PacketAction) : DPIEngine × List PacketJob :=
  if action = PacketAction.DROP then
    ({ e with stats_ := { e.stats_ with
        dropped_packets := (e.stats_.dropped_packets + 1) % 2 ^ 64 } }, output)
  else
    ({ e with stats_ := { e.stats_ with
        forwarded_packets := (e.stats_.forwarded_packets + 1) % 2 ^ 64 } }, output ++ [job])

/-- The callbacks of the workers, in sequence: every job of `jobs` is processed by its
worker, whose action for the `k`-th job is `action k`, and passed to `handleOutput`. -/
def handleAll (action : Nat → PacketAction) :
    Nat → List (Nat × PacketJob) → DPIEngine × List PacketJob → DPIEngine × List PacketJob
  | _, [], s => s
  | k, (_, job) :: rest, s =>
    handleAll action (k + 1) rest (handleOutput s.1 s.2 job (action k))

/-- A run in sequence: the reader thread reads the whole input, then every job it pushed
is processed by a worker and passed to `handleOutput`.  The result is the engine and the
jobs pushed to the output queue. -/
def sequentialRun (le : Bool) (action : Nat → PacketAction) (e : DPIEngine)
    (input_file : Option Bytes) : Except Fault (DPIEngine × List PacketJob) :=
  match readerThreadFunc le e input_file with
  | .error f => .error f
  | .ok (e1, _) => .ok (handleAll action 0 e1.enqueued (e1, []))

end DPIEngine

namespace DPIEngine

/-- Source function `DPIEngine::outputThreadFunc`, from its loop test on, with at most
`fuel` tests, when `running_` holds the value `running` throughout: the output queue and
the jobs given to `writeOutputPacket`, in order, when the function returns. -/
def outputThreadFunc (running : Bool) :
    Nat → ThreadSafeQueue PacketJob → List PacketJob →
      Except Fault (ThreadSafeQueue PacketJob × List PacketJob)
  | 0, _, _ => .error .outOfFuel
  | fuel + 1, output_queue, written =>
    if running || !output_queue.empty then
      let job_opt := output_queue.popWithTimeout
      match job_opt.1 with
      | some job => outputThreadFunc running fuel job_opt.2 (written ++ [job])
      | none => outputThreadFunc running fuel job_opt.2 written
    else .ok (output_queue, written)

end DPIEngine

/-- A load balancer that serves one fast path, started, with two jobs waiting in its input
queue. -/
def busyLoadBalancer : LoadBalancer :=
  { LoadBalancer.create 0 [some 0] 0 true with
    running_ := true
    input_queue_ :=
      { queue_ := [{ packet_id := 0, data := tcpFrame.data }, { packet_id := 1, data := udpFrame.data }]
        total_pushes_ := 2
        max_depth_ := 2 } }

/-- A fast path processor, started, with two jobs waiting in its input queue; the state of
its connection tracker is not looked at. -/
def busyFastPath : FastPathProcessor Unit :=
  { conn_tracker_ := ()
    running_ := true
    input_queue_ :=
      { queue_ := [{ packet_id := 0, data := tcpFrame.data }, { packet_id := 1, data := udpFrame.data }]
        total_pushes_ := 2
        max_depth_ := 2 } }

/-! ## Payload inspection in the words of the specification -/

/-- The attempts of an inspection, in order: each is an extractor, the condition under
which it is attempted, and what it yields.  The result is the extractors that are
attempted, up to the first that yields a name, and that name with its application. -/
def firstYield :
    List (Extractor × Bool × Option (AppType × Bytes)) →
      List Extractor × Option (AppType × Bytes)
  | [] => ([], none)
  | (x, attempted, yield) :: rest =>
    if attempted then
      match yield with
      | some c => ([x], some c)
      | none => (x :: (firstYield rest).1, (firstYield rest).2)
    else firstYield rest

/-- Payload inspection as the specification words it: SNI only when `dst_port = 443` or
the payload has at least 50 bytes, HTTP Host only when `dst_port = 80`, DNS only when
`dst_port = 53` or `src_port = 53`, in that order, stopping at the first that yields a name;
when none does, HTTP with empty name for port 80, HTTPS with empty name for port 443, no
classification otherwise.  `sni`, `host` and `domain` are what the three extractors yield on
the payload.  The result is the extractors attempted and the classification made. -/
def inspectPayloadSpec (sniToAppType : Bytes → AppType) (dst_port src_port payload_length : Nat)
    (sni host domain : Option Bytes) : List Extractor × Option (AppType × Bytes) :=
  let found := firstYield
    [(Extractor.sni, decide (dst_port = 443 ∨ payload_length ≥ 50),
        sni.map fun name => (sniToAppType name, name)),
     (Extractor.httpHost, decide (dst_port = 80), host.map fun name => (sniToAppType name, name)),
     (Extractor.dnsQuery, decide (dst_port = 53 ∨ src_port = 53),
        domain.map fun name => (AppType.DNS, name))]
  match found.2 with
  | some c => (found.1, some c)
  | none =>
    (found.1,
      if dst_port = 80 then some (AppType.HTTP, [])
      else if dst_port = 443 then some (AppType.HTTPS, [])
      else none)

/-- A job whose payload is the 35 bytes of an HTTP request with a Host header, sent to
port 80. -/
def httpJob : PacketJob :=
  { tuple := ⟨0x0100000A, 0x04030201, 1234, 80, 6⟩
    data := List.replicate 54 0 ++ ascii "GET / HTTP/1.1\r\nHost: a.example\r\n\r\n"
    payload_offset := 54
    payload_length := 35 }

/-! ## The records a run does not forward, in the words of the specification -/

namespace DPIEngine

/-- The record is one that `PacketParser::parse` rejects. -/
def rejected (le : Bool) (raw : RawPacket) : Bool :=
  match PacketParser.parse le raw with
  | .ok (false, _) => true
  | _ => false

/-- The record is discarded at the reader: `parse` succeeds, but the packet has no IP
header or no parsed TCP or UDP header. -/
def discarded (le : Bool) (raw : RawPacket) : Bool :=
  match PacketParser.parse le raw with
  | .ok (true, parsed) => !(parsed.has_ip && (parsed.has_tcp || parsed.has_udp))
  | _ => false

end DPIEngine

/-! # Lemmas and theorems -/

/-! ## Basic facts about reads, and absence of faults -/


@[simp] theorem ok_bind {ε α β : Type} (a : α) (f : α → Except ε β) :
    (Except.ok a >>= f) = f a := rfl

@[simp] theorem pure_eq_ok {ε α : Type} (a : α) : (pure a : Except ε α) = Except.ok a := rfl

theorem byteAt_of_lt (p : Bytes) (k : Nat) (h : k < p.length) :
    byteAt p k = .ok (p[k]).toNat := by
  simp [byteAt, List.getElem?_eq_getElem h]

theorem byteAt_ok (p : Bytes) (k : Nat) (h : k < p.length) :
    ∃ v, byteAt p k = .ok v ∧ v < 256 :=
  ⟨_, byteAt_of_lt p k h, UInt8.toNat_lt_size _⟩

theorem byteAt_of_ge (p : Bytes) (k : Nat) (h : p.length ≤ k) :
    byteAt p k = .error .outOfBounds := by
  simp [byteAt, List.getElem?_eq_none h]

@[simp] theorem peek_zero (buf : Bytes) (k : Nat) : peek buf 0 k = byteAt buf k := by
  simp [peek]

theorem peek_nat (buf : Bytes) (d k : Nat) : peek buf (d : Int) k = byteAt buf (d + k) := by
  have h : ¬ ((d : Int) + (k : Int) < 0) := by omega
  have h2 : ((d : Int) + (k : Int)).toNat = d + k := by omega
  simp [peek, h, h2]

theorem peekBytes_zero (buf : Bytes) (s n : Nat) : peekBytes buf 0 s n = readBytes buf s n := by
  by_cases hn : n = 0 <;> simp [peekBytes, readBytes, hn]

theorem peekBytes_nat (buf : Bytes) (d s n : Nat) :
    peekBytes buf (d : Int) s n = readBytes buf (d + s) n := by
  have h : ¬ ((d : Int) + (s : Int) < 0) := by omega
  have h2 : ((d : Int) + (s : Int)).toNat = d + s := by omega
  by_cases hn : n = 0 <;> simp [peekBytes, readBytes, h, h2, hn]

theorem readBytes_ok (p : Bytes) (s n : Nat) (h : s + n ≤ p.length) :
    readBytes p s n = .ok ((p.drop s).take n) := by
  unfold readBytes
  by_cases hn : n = 0
  · simp [hn]
  · simp [hn, h]

theorem readBytes_length (p : Bytes) (s n : Nat) (r : Bytes) (h : readBytes p s n = .ok r) :
    r.length = n := by
  unfold readBytes at h
  split_ifs at h with h1 h2
  · cases h; simp [h1]
  · cases h; simp; omega

namespace SNIExtractor

theorem u16_join (a b : Nat) (hb : b < 256) : (a <<< 8) ||| b = a * 256 + b := by
  rw [Nat.shiftLeft_eq, Nat.mul_comm, ← Nat.mul_add_lt_is_or (by simpa using hb)]

theorem readUint16BE_nat (buf : Bytes) (d off : Nat) (h : d + off + 1 < buf.length) :
    ∃ v, readUint16BE buf (d : Int) off = .ok v ∧ v < 65536 := by
  obtain ⟨a, ha, ha2⟩ := byteAt_ok buf (d + off) (by omega)
  obtain ⟨b, hb, hb2⟩ := byteAt_ok buf (d + (off + 1)) (by omega)
  refine ⟨((a <<< 8) ||| b) % 2 ^ 16, ?_, Nat.mod_lt _ (by norm_num)⟩
  simp [readUint16BE, peek_nat, ha, hb]

theorem extensionLoop_ok (buf : Bytes) (d e : Nat) (he : d + e ≤ buf.length) :
    ∀ (fuel offset : Nat), offset ≤ e → e < offset + fuel →
      ∃ r, extensionLoop buf (d : Int) e fuel offset = .ok r := by
  intro fuel
  induction fuel with
  | zero => intro offset h1 h2; omega
  | succ fuel ih =>
    intro offset h1 h2
    unfold extensionLoop
    by_cases hc : offset + 4 ≤ e
    · obtain ⟨ty, hty, -⟩ := readUint16BE_nat buf d offset (by omega)
      obtain ⟨el, hel, -⟩ := readUint16BE_nat buf d (offset + 2) (by omega)
      simp only [hc, if_true, hty, hel, ok_bind]
      by_cases hfit : offset + 4 + el > e
      · simp [hfit]
      · simp only [hfit, if_false]
        by_cases hsni : ty = EXTENSION_SNI
        · simp only [hsni, if_true]
          by_cases h5 : el < 5
          · simp [h5]
          · obtain ⟨ll, hll, -⟩ := readUint16BE_nat buf d (offset + 4) (by omega)
            obtain ⟨st, hst, -⟩ := byteAt_ok buf (d + (offset + 4 + 2)) (by omega)
            obtain ⟨sl, hsl, -⟩ := readUint16BE_nat buf d (offset + 4 + 3) (by omega)
            simp only [h5, if_false, hll, ok_bind, peek_nat, hst, hsl]
            split_ifs
            · exact ⟨_, rfl⟩
            · exact ⟨_, rfl⟩
            · exact ⟨_, rfl⟩
            · rw [peekBytes_nat, readBytes_ok _ _ _ (by omega)]
              exact ⟨_, rfl⟩
        · simp only [hsni, if_false]
          exact ih _ (by omega) (by omega)
    · simp [hc]

theorem readUint24BE_nat (buf : Bytes) (d off : Nat) (h : d + off + 2 < buf.length) :
    ∃ v, readUint24BE buf (d : Int) off = .ok v := by
  obtain ⟨a, ha, -⟩ := byteAt_ok buf (d + off) (by omega)
  obtain ⟨b, hb, -⟩ := byteAt_ok buf (d + (off + 1)) (by omega)
  obtain ⟨c, hc, -⟩ := byteAt_ok buf (d + (off + 2)) (by omega)
  exact ⟨_, by simp only [readUint24BE, peek_nat, ha, hb, hc, ok_bind]; rfl⟩

theorem isTLSClientHello_ok (buf : Bytes) (d length : Nat) (h : d + length ≤ buf.length) :
    ∃ b, isTLSClientHello buf (d : Int) length = .ok b ∧ (b = true → 9 ≤ length) := by
  unfold isTLSClientHello
  by_cases h9 : length < 9
  · exact ⟨false, by simp [h9], by simp⟩
  · obtain ⟨b0, hb0, -⟩ := byteAt_ok buf (d + 0) (by omega)
    obtain ⟨v, hv, -⟩ := readUint16BE_nat buf d 1 (by omega)
    obtain ⟨r, hr, -⟩ := readUint16BE_nat buf d 3 (by omega)
    obtain ⟨b5, hb5, -⟩ := byteAt_ok buf (d + 5) (by omega)
    simp only [h9, if_false, peek_nat, hb0, hv, hr, hb5, ok_bind]
    split_ifs <;> exact ⟨_, rfl, by omega⟩

theorem sni_extract_ok (buf : Bytes) (d length : Nat) (h : d + length ≤ buf.length) :
    ∃ r, extract buf (d : Int) length = .ok r := by
  obtain ⟨b, hb, hb9⟩ := isTLSClientHello_ok buf d length h
  unfold extract
  simp only [hb, ok_bind]
  cases b with
  | false => exact ⟨_, rfl⟩
  | true =>
    have h9 := hb9 rfl
    obtain ⟨hl, hhl⟩ := readUint24BE_nat buf d 6 (by omega)
    simp only [Bool.not_true, Bool.false_eq_true, if_false, hhl, ok_bind]
    by_cases h43 : 5 + 4 + 2 + 32 ≥ length
    · simp [h43]
    · obtain ⟨sid, hsid, -⟩ := byteAt_ok buf (d + (5 + 4 + 2 + 32)) (by omega)
      simp only [h43, if_false, peek_nat, hsid, ok_bind]
      split_ifs with h1
      · exact ⟨_, rfl⟩
      · obtain ⟨cs, hcs, -⟩ := readUint16BE_nat buf d (5 + 4 + 2 + 32 + (1 + sid)) (by omega)
        simp only [hcs, ok_bind]
        split_ifs with h2
        · exact ⟨_, rfl⟩
        · obtain ⟨cm, hcm, -⟩ := byteAt_ok buf
            (d + (5 + 4 + 2 + 32 + (1 + sid) + (2 + cs))) (by omega)
          simp only [peek_nat, hcm, ok_bind]
          split_ifs with h3
          · exact ⟨_, rfl⟩
          · obtain ⟨el, hel, -⟩ := readUint16BE_nat buf d
              (5 + 4 + 2 + 32 + (1 + sid) + (2 + cs) + (1 + cm)) (by omega)
            simp only [hel, ok_bind]
            split_ifs with h4
            · exact extensionLoop_ok buf d length h _ _ (by omega) (by omega)
            · exact extensionLoop_ok buf d _ (by omega) _ _ (by omega) (by omega)

end SNIExtractor

namespace HTTPHostExtractor

theorem isHTTPRequest_ok (p : Bytes) :
    ∃ b, isHTTPRequest p = .ok b ∧ (b = true → 4 ≤ p.length) := by
  unfold isHTTPRequest
  by_cases h4 : p.length < 4
  · exact ⟨false, by simp [h4], by simp⟩
  · simp only [h4, if_false, readBytes_ok p 0 4 (by omega), ok_bind]
    exact ⟨_, rfl, fun _ => by omega⟩

theorem hostAt_ok (p : Bytes) (i : Nat) (h : i + 4 < p.length) : ∃ b, hostAt p i = .ok b := by
  obtain ⟨c0, h0, -⟩ := byteAt_ok p i (by omega)
  obtain ⟨c1, h1, -⟩ := byteAt_ok p (i + 1) (by omega)
  obtain ⟨c2, h2, -⟩ := byteAt_ok p (i + 2) (by omega)
  obtain ⟨c3, h3, -⟩ := byteAt_ok p (i + 3) (by omega)
  obtain ⟨c4, h4, -⟩ := byteAt_ok p (i + 4) (by omega)
  unfold hostAt
  simp only [h0, h1, h2, h3, h4, ok_bind]
  split_ifs <;> exact ⟨_, rfl⟩

theorem advanceWhile_ok (p : Bytes) (cond : Nat → Bool) :
    ∀ (fuel pos : Nat), pos ≤ p.length → p.length < pos + fuel →
      ∃ r, advanceWhile p cond fuel pos = .ok r ∧ pos ≤ r ∧ r ≤ p.length := by
  intro fuel
  induction fuel with
  | zero => intro pos h1 h2; omega
  | succ fuel ih =>
    intro pos h1 h2
    unfold advanceWhile
    by_cases hlt : pos < p.length
    · obtain ⟨c, hc, -⟩ := byteAt_ok p pos hlt
      simp only [hlt, if_true, hc, ok_bind]
      by_cases hcond : cond c = true
      · simp only [hcond, if_true]
        obtain ⟨r, hr, hr1, hr2⟩ := ih (pos + 1) (by omega) (by omega)
        exact ⟨r, hr, by omega, hr2⟩
      · simp only [hcond]
        exact ⟨pos, rfl, le_refl _, h1⟩
    · simp only [hlt, if_false]
      exact ⟨pos, rfl, le_refl _, h1⟩

theorem scanLoop_ok (p : Bytes) :
    ∀ (fuel i : Nat), i ≤ p.length → p.length < i + fuel →
      ∃ r, scanLoop p fuel i = .ok r := by
  intro fuel
  induction fuel with
  | zero => intro i h1 h2; omega
  | succ fuel ih =>
    intro i h1 h2
    unfold scanLoop
    by_cases hlt : i + 6 < p.length
    · obtain ⟨f, hf⟩ := hostAt_ok p i (by omega)
      simp only [hlt, if_true, hf, ok_bind]
      cases f with
      | false => exact ih (i + 1) (by omega) (by omega)
      | true =>
        obtain ⟨s, hs, hs1, hs2⟩ := advanceWhile_ok p isBlank (p.length + 1) (i + 5)
          (by omega) (by omega)
        obtain ⟨e, he, he1, he2⟩ := advanceWhile_ok p notEol (p.length + 1) s hs2 (by omega)
        simp only [if_true, hs, he, ok_bind]
        by_cases hgt : e > s
        · simp only [hgt, if_true, readBytes_ok p s (e - s) (by omega), ok_bind]
          exact ⟨_, rfl⟩
        · simp only [hgt, if_false]
          exact ih (i + 1) (by omega) (by omega)
    · simp only [hlt, if_false]
      exact ⟨_, rfl⟩

theorem http_extract_ok (p : Bytes) : ∃ r, extract p = .ok r := by
  obtain ⟨b, hb, -⟩ := isHTTPRequest_ok p
  unfold extract
  simp only [hb, ok_bind]
  cases b with
  | false => exact ⟨_, rfl⟩
  | true => exact scanLoop_ok p _ 0 (by omega) (by omega)

end HTTPHostExtractor

namespace DNSExtractor

theorem isDNSQuery_ok (p : Bytes) :
    ∃ b, isDNSQuery p = .ok b ∧ (b = true → 12 ≤ p.length) := by
  unfold isDNSQuery
  by_cases h12 : p.length < 12
  · exact ⟨false, by simp [h12], by simp⟩
  · obtain ⟨f, hf, -⟩ := byteAt_ok p 2 (by omega)
    obtain ⟨b4, h4, -⟩ := byteAt_ok p 4 (by omega)
    obtain ⟨b5, h5, -⟩ := byteAt_ok p 5 (by omega)
    simp only [h12, if_false, hf, h4, h5, ok_bind]
    split_ifs <;> exact ⟨_, rfl, fun _ => by omega⟩

theorem labelLoop_ok (p : Bytes) :
    ∀ (fuel offset : Nat) (domain : Bytes), offset ≤ p.length → p.length < offset + fuel →
      ∃ r, labelLoop p fuel offset domain = .ok r := by
  intro fuel
  induction fuel with
  | zero => intro offset domain h1 h2; omega
  | succ fuel ih =>
    intro offset domain h1 h2
    unfold labelLoop
    by_cases hlt : offset < p.length
    · obtain ⟨l, hl, -⟩ := byteAt_ok p offset hlt
      simp only [hlt, if_true, hl, ok_bind]
      by_cases a : l = 0
      · simp only [a, if_true]; exact ⟨_, rfl⟩
      · by_cases b : l > 63
        · simp only [a, b, if_true, if_false]; exact ⟨_, rfl⟩
        · by_cases c : offset + 1 + l > p.length
          · simp only [a, b, c, if_true, if_false]; exact ⟨_, rfl⟩
          · simp only [a, b, c, if_false, readBytes_ok p (offset + 1) l (by omega), ok_bind]
            exact ih _ _ (by omega) (by omega)
    · simp only [hlt, if_false]
      exact ⟨_, rfl⟩

theorem extractQuery_ok (p : Bytes) : ∃ r, extractQuery p = .ok r := by
  obtain ⟨b, hb, hb12⟩ := isDNSQuery_ok p
  unfold extractQuery
  simp only [hb, ok_bind]
  cases b with
  | false => exact ⟨_, rfl⟩
  | true =>
    obtain ⟨dom, hdom⟩ := labelLoop_ok p (p.length + 1) 12 [] (hb12 rfl) (by omega)
    simp only [Bool.not_true, Bool.false_eq_true, if_false, hdom, ok_bind]
    exact ⟨_, rfl⟩

end DNSExtractor


/-! ## TLS record header -/

namespace SNIExtractor

theorem u16_value (a b : UInt8) : ((a.toNat <<< 8) ||| b.toNat) % 2 ^ 16 = a.toNat * 256 + b.toNat := by
  have ha := UInt8.toNat_lt_size a
  have hb := UInt8.toNat_lt_size b
  simp only [UInt8.size] at ha hb
  rw [u16_join _ _ hb]
  omega

theorem toNat_eq_iff (a : UInt8) (n : Nat) (hn : n < 256) : a.toNat = n ↔ a = UInt8.ofNat n := by
  constructor
  · intro h
    apply UInt8.ext
    simp [UInt8.ofNat, UInt8.toNat, Fin.ofNat] at h ⊢
    omega
  · intro h
    subst h
    simp [UInt8.ofNat, UInt8.toNat, Fin.ofNat]
    omega

theorem nine_bytes (p : Bytes) (h : 9 ≤ p.length) :
    ∃ b0 b1 b2 b3 b4 b5 b6 b7 b8 rest,
      p = b0 :: b1 :: b2 :: b3 :: b4 :: b5 :: b6 :: b7 :: b8 :: rest := by
  rcases p with _ | ⟨b0, _ | ⟨b1, _ | ⟨b2, _ | ⟨b3, _ | ⟨b4, _ | ⟨b5, _ | ⟨b6, _ | ⟨b7,
    _ | ⟨b8, rest⟩⟩⟩⟩⟩⟩⟩⟩⟩
  all_goals first
    | exact ⟨_, _, _, _, _, _, _, _, _, _, rfl⟩
    | (simp at h)

theorem byte_eq_iff (a : UInt8) (n : Nat) (hn : n < 256) : a = UInt8.ofNat n ↔ a.toNat = n :=
  (toNat_eq_iff a n hn).symm

theorem isTLSClientHello_true_iff (p : Bytes) :
    isTLSClientHello p 0 p.length = .ok true ↔ 9 ≤ p.length ∧ headerAccepted p := by
  by_cases h9 : p.length < 9
  · have : ¬ (9 ≤ p.length ∧ headerAccepted p) := by omega
    simp [isTLSClientHello, h9]
  · obtain ⟨b0, b1, b2, b3, b4, b5, b6, b7, b8, rest, rfl⟩ := nine_bytes p (by omega)
    have e0 : b0 = 22 ↔ b0.toNat = 22 := byte_eq_iff b0 22 (by norm_num)
    have e5 : b5 = 1 ↔ b5.toNat = 1 := byte_eq_iff b5 1 (by norm_num)
    simp only [isTLSClientHello, headerAccepted, be16At, readUint16BE, peek_zero, byteAt,
      List.length_cons, h9, if_false, ok_bind, pure_eq_ok]
    simp only [List.getElem?_cons_zero, List.getElem?_cons_succ, ok_bind, u16_value,
      Option.some.injEq, CONTENT_TYPE_HANDSHAKE, HANDSHAKE_CLIENT_HELLO, e0, e5]
    split_ifs <;> simp <;> omega

theorem isTLSClientHello_false_iff (p : Bytes) :
    isTLSClientHello p 0 p.length = .ok false ↔ ¬ (9 ≤ p.length ∧ headerAccepted p) := by
  rw [← isTLSClientHello_true_iff]
  obtain ⟨b, hb, -⟩ := isTLSClientHello_ok p 0 p.length (by omega)
  simp only [Int.ofNat_zero] at hb
  have hb2 : isTLSClientHello p 0 p.length = .ok b := hb
  rw [hb2]
  cases b <;> simp

theorem extract_none_of_reject (p : Bytes)
    (h : isTLSClientHello p 0 p.length = .ok false) : extract p 0 p.length = .ok none := by
  simp [extract, h]

end SNIExtractor


/-! ## Extraction from a well-formed ClientHello -/

theorem toNat_ofNat_lt (n : Nat) (h : n < 256) : (UInt8.ofNat n).toNat = n := by
  simp [UInt8.toNat, UInt8.ofNat, Fin.ofNat]; omega

@[simp] theorem be16_length (n : Nat) : (be16 n).length = 2 := rfl

theorem byteAt_at (p X Y : Bytes) (n : Nat) (hp : p = X ++ Y) (hn : X.length = n) (k : Nat) :
    byteAt p (n + k) = byteAt Y k := by
  subst hp hn
  simp [byteAt, List.getElem?_append_right]

theorem byte_at (p X Y : Bytes) (b : UInt8) (n : Nat) (hp : p = X ++ b :: Y) (hn : X.length = n) :
    byteAt p n = .ok b.toNat := by
  have := byteAt_at p X (b :: Y) n hp hn 0
  simpa [byteAt] using this

theorem be16_at (p X Y : Bytes) (v n : Nat) (hp : p = X ++ (be16 v ++ Y)) (hn : X.length = n) :
    SNIExtractor.readUint16BE p 0 n = .ok (v % 65536) := by
  have h0 : byteAt p n = .ok (UInt8.ofNat (v / 256)).toNat := by
    rw [← Nat.add_zero n, byteAt_at p X _ n hp hn 0]; rfl
  have h1 : byteAt p (n + 1) = .ok (UInt8.ofNat (v % 256)).toNat := by
    rw [byteAt_at p X _ n hp hn 1]; simp [be16, byteAt]
  have e1 : (UInt8.ofNat (v / 256)).toNat = v / 256 % 256 := by
    simp [UInt8.toNat, UInt8.ofNat, Fin.ofNat]
  have e2 : (UInt8.ofNat (v % 256)).toNat = v % 256 := by
    simp [UInt8.toNat, UInt8.ofNat, Fin.ofNat]
  simp only [SNIExtractor.readUint16BE, peek_zero, h0, h1, ok_bind, pure_eq_ok, e1, e2]
  rw [SNIExtractor.u16_join _ _ (Nat.mod_lt _ (by norm_num))]
  congr 1
  omega

theorem bytes_at (p X h Y : Bytes) (n : Nat) (hp : p = X ++ (h ++ Y)) (hn : X.length = n) :
    readBytes p n h.length = .ok h := by
  subst hp hn
  unfold readBytes
  by_cases h0 : h.length = 0
  · simp [h0, List.length_eq_zero.mp h0]
  · simp [h0]

theorem encodeExtensions_length (pre : List TLSExtension) :
    4 * pre.length ≤ (encodeExtensions pre).length := by
  induction pre with
  | nil => simp [encodeExtensions]
  | cons x xs ih =>
    simp only [encodeExtensions, TLSExtension.encode, List.length_append, List.length_cons,
      be16_length]
    omega

theorem serverNameData_length (h more : Bytes) :
    (serverNameData h more).length = 5 + h.length + more.length := by
  simp only [serverNameData, List.length_append, List.length_cons, be16_length,
    List.length_nil]

theorem extensionLoop_finds (p : Bytes) (e : Nat) (h more : Bytes)
    (hsz : (serverNameData h more).length < 65536) :
    ∀ (pre : List TLSExtension) (X Y : Bytes) (fuel : Nat),
      (∀ x ∈ pre, x.extType ≠ 0 ∧ x.extType < 65536 ∧ x.data.length < 65536) →
      p = X ++ (encodeExtensions pre ++
        ((⟨0, serverNameData h more⟩ : TLSExtension).encode ++ Y)) →
      X.length + (encodeExtensions pre).length + 4 + (serverNameData h more).length ≤ e →
      pre.length < fuel →
      SNIExtractor.extensionLoop p 0 e fuel X.length = .ok (some h) := by
  intro pre
  induction pre with
  | nil =>
    intro X Y fuel _ hp he hf
    obtain ⟨f, rfl⟩ : ∃ f, fuel = f + 1 := ⟨fuel - 1, by omega⟩
    have hlen := serverNameData_length h more
    simp only [encodeExtensions, List.nil_append, List.length_nil, Nat.add_zero] at hp he
    have r1 := be16_at p X (be16 (serverNameData h more).length ++ (serverNameData h more ++ Y))
      0 X.length (by simp [hp, TLSExtension.encode, List.append_assoc]) rfl
    have r2 := be16_at p (X ++ be16 0) (serverNameData h more ++ Y)
      (serverNameData h more).length (X.length + 2)
      (by simp [hp, TLSExtension.encode, List.append_assoc]) (by simp)
    have r3 := be16_at p (X ++ be16 0 ++ be16 (serverNameData h more).length)
      ([0x00] ++ be16 h.length ++ h ++ more ++ Y)
      (3 + h.length + more.length) (X.length + 4)
      (by simp [hp, TLSExtension.encode, serverNameData, List.append_assoc]) (by simp)
    have r4 := byte_at p (X ++ be16 0 ++ be16 (serverNameData h more).length
        ++ be16 (3 + h.length + more.length)) (be16 h.length ++ h ++ more ++ Y) 0x00
      (X.length + 4 + 2)
      (by simp [hp, TLSExtension.encode, serverNameData, List.append_assoc]) (by simp)
    have r5 := be16_at p (X ++ be16 0 ++ be16 (serverNameData h more).length
        ++ be16 (3 + h.length + more.length) ++ [0x00]) (h ++ more ++ Y) h.length
      (X.length + 4 + 3)
      (by simp [hp, TLSExtension.encode, serverNameData, List.append_assoc]) (by simp)
    have r6 := bytes_at p (X ++ be16 0 ++ be16 (serverNameData h more).length
        ++ be16 (3 + h.length + more.length) ++ [0x00] ++ be16 h.length) h (more ++ Y)
      (X.length + 4 + 5)
      (by simp [hp, TLSExtension.encode, serverNameData, List.append_assoc]) (by simp)
    rw [Nat.mod_eq_of_lt (by omega)] at r2 r3 r5
    have c1 : X.length + 4 ≤ e := by omega
    have c2 : ¬ (X.length + 4 + (serverNameData h more).length > e) := by omega
    have c3 : ¬ ((serverNameData h more).length < 5) := by omega
    have c4 : ¬ (3 + h.length + more.length < 3) := by omega
    have c5 : ¬ (h.length > (serverNameData h more).length - 5) := by omega
    have z : UInt8.toNat 0 = 0 := rfl
    unfold SNIExtractor.extensionLoop
    simp only [c1, if_true, r1, r2, ok_bind, c2, if_false, Nat.zero_mod,
      SNIExtractor.EXTENSION_SNI, c3, r3, c4, peek_zero, r4, r5, SNIExtractor.SNI_TYPE_HOSTNAME,
      c5, peekBytes_zero, r6, pure_eq_ok, z, ne_eq, not_true_eq_false]
  | cons x xs ih =>
    intro X Y fuel hall hp he hf
    obtain ⟨f, rfl⟩ : ∃ f, fuel = f + 1 := ⟨fuel - 1, by omega⟩
    obtain ⟨ht0, ht, hd⟩ := hall x (List.mem_cons_self _ _)
    have r1 := be16_at p X (be16 x.data.length ++ (x.data ++ (encodeExtensions xs ++
        ((⟨0, serverNameData h more⟩ : TLSExtension).encode ++ Y)))) x.extType X.length
      (by simp [hp, encodeExtensions, TLSExtension.encode, List.append_assoc]) rfl
    have r2 := be16_at p (X ++ be16 x.extType) (x.data ++ (encodeExtensions xs ++
        ((⟨0, serverNameData h more⟩ : TLSExtension).encode ++ Y))) x.data.length (X.length + 2)
      (by simp [hp, encodeExtensions, TLSExtension.encode, List.append_assoc]) (by simp)
    rw [Nat.mod_eq_of_lt (by omega)] at r1 r2
    have hxl : (encodeExtensions (x :: xs)).length
        = 4 + x.data.length + (encodeExtensions xs).length := by
      simp only [encodeExtensions, TLSExtension.encode, List.length_append, be16_length]
    have c1 : X.length + 4 ≤ e := by omega
    have c2 : ¬ (X.length + 4 + x.data.length > e) := by omega
    have c3 : ¬ (x.extType = 0) := ht0
    unfold SNIExtractor.extensionLoop
    simp only [c1, if_true, r1, r2, ok_bind, c2, if_false, SNIExtractor.EXTENSION_SNI, c3]
    have := ih (X ++ x.encode) Y f (fun y hy => hall y (List.mem_cons_of_mem _ hy))
      (by simp [hp, encodeExtensions, List.append_assoc])
      (by simp only [List.length_append, TLSExtension.encode, be16_length]; omega)
      (by simpa using hf)
    have hoff : (X ++ x.encode).length = X.length + 4 + x.data.length := by
      simp only [List.length_append, TLSExtension.encode, be16_length]; omega
    rw [hoff] at this
    exact this

theorem ClientHello.extract_encode (c : ClientHello) (hw : c.WellFormed) :
    SNIExtractor.extract c.encode 0 c.encode.length = .ok (some c.hostname) := by
  obtain ⟨hv1, hv2, hrec, hhs, hcv, hrnd, hsid, hcs, hcm, hel, hpre, hsn, hfit⟩ := hw
  have hH : c.header.length = 43 := by
    simp only [ClientHello.header, List.length_append, List.length_cons, be16_length,
      List.length_nil, hhs, hcv, hrnd]
  have hE : c.extensionsBlock.length = 2 + (encodeExtensions c.before).length + 4
      + (serverNameData c.hostname c.moreNames).length + c.rest.length := by
    simp only [ClientHello.extensionsBlock, TLSExtension.encode, List.length_append,
      be16_length]
    omega
  have hC : c.compressionBlock.length
      = 1 + c.compressionMethods.length + c.extensionsBlock.length := by
    simp only [ClientHello.compressionBlock, List.length_append, List.length_cons]
    omega
  have hCi : c.cipherBlock.length = 2 + c.cipherSuites.length + c.compressionBlock.length := by
    simp only [ClientHello.cipherBlock, List.length_append, be16_length]
    omega
  have hS : c.sessionBlock.length = 1 + c.sessionId.length + c.cipherBlock.length := by
    simp only [ClientHello.sessionBlock, List.length_append, List.length_cons]
    omega
  have hL : c.encode.length = 43 + c.sessionBlock.length := by
    simp only [ClientHello.encode, List.length_append, hH]
  -- the record header
  have a0 : byteAt c.encode 0 = .ok 0x16 := byte_at c.encode [] _ 0x16 0
    (by simp [ClientHello.encode, ClientHello.header, List.append_assoc]; rfl) rfl
  have a1 := be16_at c.encode [0x16] (be16 c.recordLength ++ ([0x01] ++ (c.handshakeLength
      ++ (c.clientVersion ++ (c.random ++ c.sessionBlock))))) c.version 1
    (by simp [ClientHello.encode, ClientHello.header, List.append_assoc]) rfl
  have a3 := be16_at c.encode ([0x16] ++ be16 c.version) ([0x01] ++ (c.handshakeLength
      ++ (c.clientVersion ++ (c.random ++ c.sessionBlock)))) c.recordLength 3
    (by simp [ClientHello.encode, ClientHello.header, List.append_assoc]) (by simp)
  have a5 : byteAt c.encode 5 = .ok 0x01 := byte_at c.encode
    ([0x16] ++ be16 c.version ++ be16 c.recordLength) (c.handshakeLength
      ++ (c.clientVersion ++ (c.random ++ c.sessionBlock))) 0x01 5
    (by simp [ClientHello.encode, ClientHello.header, List.append_assoc]) (by simp)
  rw [Nat.mod_eq_of_lt (by omega)] at a1
  have hrl : ¬ (c.recordLength % 65536 > c.encode.length - 5) := by
    have := Nat.mod_le c.recordLength 65536
    omega
  have hello : SNIExtractor.isTLSClientHello c.encode 0 c.encode.length = .ok true := by
    have h9 : ¬ (c.encode.length < 9) := by omega
    have hvv : ¬ (c.version < 0x0300 ∨ c.version > 0x0304) := by omega
    simp only [SNIExtractor.isTLSClientHello, h9, if_false, peek_zero, a0, ok_bind,
      SNIExtractor.CONTENT_TYPE_HANDSHAKE, ne_eq, not_true_eq_false, a1, hvv, a3, hrl, a5,
      SNIExtractor.HANDSHAKE_CLIENT_HELLO, pure_eq_ok]
  obtain ⟨hsl, a6⟩ := SNIExtractor.readUint24BE_nat c.encode 0 6 (by omega)
  simp only [Int.ofNat_zero, Nat.cast_zero] at a6
  -- the variable-length blocks
  have b1 := byte_at c.encode c.header (c.sessionId ++ c.cipherBlock)
    (UInt8.ofNat c.sessionId.length) 43
    (by simp [ClientHello.encode, ClientHello.sessionBlock]) hH
  have b2 := be16_at c.encode (c.header ++ [UInt8.ofNat c.sessionId.length] ++ c.sessionId)
    (c.cipherSuites ++ c.compressionBlock) c.cipherSuites.length
    (5 + 4 + 2 + 32 + (1 + c.sessionId.length))
    (by simp [ClientHello.encode, ClientHello.sessionBlock, ClientHello.cipherBlock,
      List.append_assoc])
    (by simp only [List.length_append, List.length_cons, List.length_nil, hH]; omega)
  have b3 := byte_at c.encode (c.header ++ [UInt8.ofNat c.sessionId.length] ++ c.sessionId
      ++ be16 c.cipherSuites.length ++ c.cipherSuites)
    (c.compressionMethods ++ c.extensionsBlock) (UInt8.ofNat c.compressionMethods.length)
    (5 + 4 + 2 + 32 + (1 + c.sessionId.length) + (2 + c.cipherSuites.length))
    (by simp [ClientHello.encode, ClientHello.sessionBlock, ClientHello.cipherBlock,
      ClientHello.compressionBlock, List.append_assoc])
    (by simp only [List.length_append, List.length_cons, List.length_nil, hH, be16_length]
        omega)
  have b4 := be16_at c.encode (c.header ++ [UInt8.ofNat c.sessionId.length] ++ c.sessionId
      ++ be16 c.cipherSuites.length ++ c.cipherSuites
      ++ [UInt8.ofNat c.compressionMethods.length] ++ c.compressionMethods)
    (encodeExtensions c.before ++
      ((⟨0x0000, serverNameData c.hostname c.moreNames⟩ : TLSExtension).encode ++ c.rest))
    c.extensionsLength
    (5 + 4 + 2 + 32 + (1 + c.sessionId.length) + (2 + c.cipherSuites.length)
      + (1 + c.compressionMethods.length))
    (by simp [ClientHello.encode, ClientHello.sessionBlock, ClientHello.cipherBlock,
      ClientHello.compressionBlock, ClientHello.extensionsBlock, List.append_assoc])
    (by simp only [List.length_append, List.length_cons, List.length_nil, hH, be16_length]
        omega)
  rw [toNat_ofNat_lt _ hsid] at b1
  rw [toNat_ofNat_lt _ hcm] at b3
  rw [Nat.mod_eq_of_lt (by omega)] at b2 b4
  -- the extension list
  have hX : (c.header ++ [UInt8.ofNat c.sessionId.length] ++ c.sessionId
      ++ be16 c.cipherSuites.length ++ c.cipherSuites
      ++ [UInt8.ofNat c.compressionMethods.length] ++ c.compressionMethods
      ++ be16 c.extensionsLength).length
      = 5 + 4 + 2 + 32 + (1 + c.sessionId.length) + (2 + c.cipherSuites.length)
        + (1 + c.compressionMethods.length) + 2 := by
    simp only [List.length_append, List.length_cons, List.length_nil, hH, be16_length]
    omega
  have loop : ∀ e, 5 + 4 + 2 + 32 + (1 + c.sessionId.length) + (2 + c.cipherSuites.length)
        + (1 + c.compressionMethods.length) + 2 + (encodeExtensions c.before).length + 4
        + (serverNameData c.hostname c.moreNames).length ≤ e →
      SNIExtractor.extensionLoop c.encode 0 e (c.encode.length + 1)
        (5 + 4 + 2 + 32 + (1 + c.sessionId.length) + (2 + c.cipherSuites.length)
          + (1 + c.compressionMethods.length) + 2) = .ok (some c.hostname) := by
    intro e he
    have := extensionLoop_finds c.encode e c.hostname c.moreNames hsn c.before
      (c.header ++ [UInt8.ofNat c.sessionId.length] ++ c.sessionId
        ++ be16 c.cipherSuites.length ++ c.cipherSuites
        ++ [UInt8.ofNat c.compressionMethods.length] ++ c.compressionMethods
        ++ be16 c.extensionsLength) c.rest (c.encode.length + 1) hpre
      (by simp [ClientHello.encode, ClientHello.sessionBlock, ClientHello.cipherBlock,
        ClientHello.compressionBlock, ClientHello.extensionsBlock, List.append_assoc])
      (by rw [hX]; exact he)
      (by have := encodeExtensions_length c.before; omega)
    rw [hX] at this
    exact this
  have c1 : ¬ (5 + 4 + 2 + 32 ≥ c.encode.length) := by omega
  have c2 : ¬ (5 + 4 + 2 + 32 + (1 + c.sessionId.length) + 2 > c.encode.length) := by omega
  have c3 : ¬ (5 + 4 + 2 + 32 + (1 + c.sessionId.length) + (2 + c.cipherSuites.length)
      ≥ c.encode.length) := by omega
  have c4 : ¬ (5 + 4 + 2 + 32 + (1 + c.sessionId.length) + (2 + c.cipherSuites.length)
      + (1 + c.compressionMethods.length) + 2 > c.encode.length) := by omega
  unfold SNIExtractor.extract
  simp only [hello, ok_bind, Bool.not_true, Bool.false_eq_true, if_false, a6, c1, peek_zero,
    b1, c2, b2, c3, b3, c4, b4]
  split_ifs with hclamp
  · exact loop _ (by omega)
  · exact loop _ (by omega)


/-! ## HTTP Host header -/

namespace HTTPHostExtractor

theorem byteAt_drop (p : Bytes) (j k : Nat) : byteAt p (j + k) = byteAt (p.drop j) k := by
  simp [byteAt, List.getElem?_drop]

theorem isHTTPRequest_eq (p : Bytes) : isHTTPRequest p = .ok (decide (p.take 4 ∈ methods)) := by
  unfold isHTTPRequest
  by_cases h4 : p.length < 4
  · have : p.take 4 ∉ methods := by
      intro hm
      have hl : (p.take 4).length = 4 := by
        simp only [methods, List.mem_cons, List.mem_singleton, List.not_mem_nil, or_false] at hm
        rcases hm with h | h | h | h | h | h | h <;> rw [h] <;> rfl
      simp only [List.length_take] at hl
      omega
    simp [h4, this]
  · simp only [h4, if_false, readBytes_ok p 0 4 (by omega), ok_bind, List.drop_zero, pure_eq_ok]
    congr 1
    rw [Bool.eq_iff_iff]
    simp [List.any_eq_true]

theorem hostAt_eq (p : Bytes) (j : Nat) (h : j + 4 < p.length) :
    hostAt p j = .ok (hostTokenAt p j) := by
  have hl : 5 ≤ (p.drop j).length := by simp only [List.length_drop]; omega
  obtain ⟨c0, c1, c2, c3, c4, r, hq⟩ : ∃ c0 c1 c2 c3 c4 r, p.drop j = c0 :: c1 :: c2 :: c3 :: c4 :: r := by
    rcases hd : p.drop j with _ | ⟨c0, _ | ⟨c1, _ | ⟨c2, _ | ⟨c3, _ | ⟨c4, r⟩⟩⟩⟩⟩
    all_goals first
      | exact ⟨_, _, _, _, _, _, rfl⟩
      | (rw [hd] at hl; simp at hl)
  have e0 : byteAt p j = .ok c0.toNat := by
    have := byteAt_drop p j 0; rw [Nat.add_zero] at this; rw [this, hq]; rfl
  have e1 : byteAt p (j + 1) = .ok c1.toNat := by rw [byteAt_drop, hq]; rfl
  have e2 : byteAt p (j + 2) = .ok c2.toNat := by rw [byteAt_drop, hq]; rfl
  have e3 : byteAt p (j + 3) = .ok c3.toNat := by rw [byteAt_drop, hq]; rfl
  have e4 : byteAt p (j + 4) = .ok c4.toNat := by rw [byteAt_drop, hq]; simp [byteAt]
  simp only [hostAt, hostTokenAt, hq, e0, e1, e2, e3, e4, ok_bind, pure_eq_ok, List.take,
    isHostToken]
  split_ifs <;> simp_all

theorem advanceWhile_run (p : Bytes) (cond : Nat → Bool) (Y : Bytes)
    (hY : ∀ b, Y.head? = some b → cond b.toNat = false) :
    ∀ (run X : Bytes) (fuel : Nat), p = X ++ (run ++ Y) →
      (∀ b ∈ run, cond b.toNat = true) → run.length < fuel →
      advanceWhile p cond fuel X.length = .ok (X.length + run.length) := by
  intro run
  induction run with
  | nil =>
    intro X fuel hp _ hf
    obtain ⟨f, rfl⟩ : ∃ f, fuel = f + 1 := ⟨fuel - 1, by omega⟩
    unfold advanceWhile
    cases Y with
    | nil =>
      have : ¬ (X.length < p.length) := by simp [hp]
      simp [this]
    | cons y Y' =>
      have hlt : X.length < p.length := by simp [hp]
      have hb := byte_at p X Y' y X.length (by simpa using hp) rfl
      have hc := hY y rfl
      simp [hlt, hb, hc]
  | cons r rs ih =>
    intro X fuel hp hall hf
    obtain ⟨f, rfl⟩ : ∃ f, fuel = f + 1 := ⟨fuel - 1, by omega⟩
    unfold advanceWhile
    have hlt : X.length < p.length := by simp [hp]
    have hb := byte_at p X (rs ++ Y) r X.length (by simpa using hp) rfl
    have hc := hall r (List.mem_cons_self _ _)
    have := ih (X ++ [r]) f (by simp [hp]) (fun b hb => hall b (List.mem_cons_of_mem _ hb))
      (by simpa using hf)
    simp only [List.length_append, List.length_cons, List.length_nil] at this
    simp only [hlt, if_true, hb, ok_bind, hc, this, List.length_cons]
    congr 1
    omega

theorem isHostToken_length (t : Bytes) (h : isHostToken t = true) : t.length = 5 := by
  rcases t with _ | ⟨c0, _ | ⟨c1, _ | ⟨c2, _ | ⟨c3, _ | ⟨c4, _ | ⟨c5, r⟩⟩⟩⟩⟩⟩ <;>
    simp [isHostToken] at h ⊢

theorem scanLoop_found (p pre tok ws v rest : Bytes) (hh : HostHeader p pre tok ws v rest)
    (hroom : pre.length + 6 < p.length) (fuel : Nat) :
    scanLoop p (fuel + 1) pre.length = .ok (some (stripPort v)) := by
  have htl := isHostToken_length tok hh.token
  have hfound : hostAt p pre.length = .ok true := by
    rw [hostAt_eq p pre.length (by omega)]
    congr 1
    have : (p.drop pre.length).take 5 = tok := by
      rw [hh.split, List.drop_left, ← htl, List.take_left]
    rw [hostTokenAt, this, hh.token]
  have hstart := advanceWhile_run p isBlank (v ++ rest)
    (by
      intro b hb
      apply hh.value_start b
      cases hv : v with
      | nil => exact absurd hv hh.value_nonempty
      | cons x xs => rw [hv] at hb; simpa using hb)
    ws (pre ++ tok) (p.length + 1) (by simp [hh.split]) hh.blanks
    (by
      have : ws.length ≤ p.length := by
        rw [hh.split]; simp only [List.length_append]; omega
      omega)
  have hend := advanceWhile_run p notEol rest hh.stop v (pre ++ tok ++ ws) (p.length + 1)
    (by simp [hh.split]) hh.value
    (by
      have : v.length ≤ p.length := by
        rw [hh.split]; simp only [List.length_append]; omega
      omega)
  have hvpos : 0 < v.length := List.length_pos.mpr hh.value_nonempty
  have hread := bytes_at p (pre ++ tok ++ ws) v rest (pre.length + 5 + ws.length)
    (by simp [hh.split]) (by simp only [List.length_append, htl])
  simp only [List.length_append, htl] at hstart hend
  have hgt : pre.length + 5 + ws.length + v.length > pre.length + 5 + ws.length := by omega
  have hsub : pre.length + 5 + ws.length + v.length - (pre.length + 5 + ws.length)
      = v.length := by omega
  unfold scanLoop
  simp only [hroom, if_true, hfound, ok_bind, hstart, hend, hgt, hsub, hread, pure_eq_ok]

theorem scanLoop_finds (p pre tok ws v rest : Bytes) (hh : HostHeader p pre tok ws v rest)
    (hroom : pre.length + 6 < p.length) :
    ∀ (d i fuel : Nat), i + d = pre.length → d < fuel →
      scanLoop p fuel i = .ok (some (stripPort v)) := by
  intro d
  induction d with
  | zero =>
    intro i fuel hi hf
    obtain ⟨f, rfl⟩ : ∃ f, fuel = f + 1 := ⟨fuel - 1, by omega⟩
    have : i = pre.length := by omega
    subst this
    exact scanLoop_found p pre tok ws v rest hh hroom f
  | succ d ih =>
    intro i fuel hi hf
    obtain ⟨f, rfl⟩ : ∃ f, fuel = f + 1 := ⟨fuel - 1, by omega⟩
    have hlt : i + 6 < p.length := by omega
    have hno : hostAt p i = .ok false := by
      rw [hostAt_eq p i (by omega), hh.first i (by omega)]
    unfold scanLoop
    simp only [hlt, if_true, hno, ok_bind, Bool.false_eq_true, if_false]
    exact ih (i + 1) f (by omega) (by omega)

theorem extract_finds (p pre tok ws v rest : Bytes) (hh : HostHeader p pre tok ws v rest)
    (hroom : pre.length + 6 < p.length) :
    extract p = .ok (some (stripPort v)) := by
  unfold extract
  have hm : decide (p.take 4 ∈ methods) = true := by simpa using hh.method
  simp only [isHTTPRequest_eq, ok_bind, hm, Bool.not_true, Bool.false_eq_true, if_false]
  exact scanLoop_finds p pre tok ws v rest hh hroom pre.length 0 _ (by omega) (by omega)

theorem extract_not_request (p : Bytes) (h : p.take 4 ∉ methods) : extract p = .ok none := by
  unfold extract
  have hm : decide (p.take 4 ∈ methods) = false := by simpa using h
  simp [isHTTPRequest_eq, hm]

end HTTPHostExtractor

namespace HTTPHostExtractor

theorem isHostToken_head (c0 : UInt8) (t : Bytes)
    (h0 : ¬ (c0.toNat = 0x48 ∨ c0.toNat = 0x68)) : isHostToken (c0 :: t) = false := by
  rcases t with _ | ⟨c1, _ | ⟨c2, _ | ⟨c3, _ | ⟨c4, _ | ⟨c5, r⟩⟩⟩⟩⟩ <;>
    simp [isHostToken, h0]

theorem hostTokenAt_before (pre rest : Bytes)
    (h : ∀ b ∈ pre, ¬ (b.toNat = 0x48 ∨ b.toNat = 0x68)) :
    ∀ j, j < pre.length → hostTokenAt (pre ++ rest) j = false := by
  intro j hj
  have hd : (pre ++ rest).drop j = pre[j] :: ((pre ++ rest).drop (j + 1)) := by
    have hj2 : j < (pre ++ rest).length := by simp only [List.length_append]; omega
    rw [List.drop_eq_getElem_cons hj2, List.getElem_append_left hj]
  rw [hostTokenAt, hd, List.take_succ_cons]
  exact isHostToken_head _ _ (h _ (List.getElem_mem _))

theorem farHostRequest_header (name : Bytes) (hne : name ≠ [])
    (hstart : ∀ b, name.head? = some b → isBlank b.toNat = false)
    (hval : ∀ b ∈ name, notEol b.toNat = true) :
    HostHeader (farHostRequest name)
      (ascii "GET /" ++ List.replicate 16384 0x61 ++ ascii "\r\n") (ascii "Host:") (ascii " ")
      name (ascii "\r\n\r\n") where
  split := rfl
  method := by
    have : (farHostRequest name).take 4 = ascii "GET " := by
      simp only [farHostRequest, List.append_assoc]
      rfl
    rw [this]
    decide
  token := by decide
  first := by
    apply hostTokenAt_before
    intro b hb
    simp only [List.mem_append, List.mem_replicate] at hb
    rcases hb with (hb | hb) | hb
    · revert b; decide
    · rw [hb.2]; decide
    · revert b; decide
  blanks := by decide
  value_nonempty := hne
  value_start := hstart
  value := hval
  stop := by
    intro b hb
    have : b = 0x0D := by
      have h2 : (ascii "\r\n\r\n").head? = some 0x0D := by decide
      rw [h2] at hb
      exact (Option.some.inj hb).symm
    rw [this]; decide

theorem farHostRequest_length :
    (ascii "GET /" ++ List.replicate 16384 (0x61 : UInt8) ++ ascii "\r\n").length = 16391 := by
  have h1 : (ascii "GET /").length = 5 := by decide
  have h2 : (ascii "\r\n").length = 2 := by decide
  simp only [List.length_append, List.length_replicate, h1, h2]

theorem extract_farHostRequest (name : Bytes) (hne : name ≠ [])
    (hstart : ∀ b, name.head? = some b → isBlank b.toNat = false)
    (hval : ∀ b ∈ name, notEol b.toNat = true) :
    extract (farHostRequest name) = .ok (some (stripPort name)) := by
  apply extract_finds _ _ _ _ _ _ (farHostRequest_header name hne hstart hval)
  have h1 : (ascii "Host:").length = 5 := by decide
  have h2 : (ascii " ").length = 1 := by decide
  have h3 : (ascii "\r\n\r\n").length = 4 := by decide
  have h4 := farHostRequest_length
  have h5 : (farHostRequest name).length = 16391 + (5 + (1 + (name.length + 4))) := by
    unfold farHostRequest
    rw [List.length_append, h4, List.length_append, h1, List.length_append, h2,
      List.length_append, h3]
  rw [h4, h5]
  omega

theorem farHostRequest_take (name : Bytes) :
    (farHostRequest name).take 16384
      = (ascii "GET /" ++ List.replicate 16384 (0x61 : UInt8) ++ ascii "\r\n").take 16384 := by
  unfold farHostRequest
  exact List.take_append_of_le_length (by rw [farHostRequest_length]; omega)

end HTTPHostExtractor

theorem sampleRequest_header :
    HTTPHostExtractor.HostHeader (ascii "GET / HTTP/1.1\r\nHost: \ta.io:8080\r\n\r\n")
      (ascii "GET / HTTP/1.1\r\n") (ascii "Host:") (ascii " \t") (ascii "a.io:8080")
      (ascii "\r\n\r\n") := by
  refine ⟨by decide, by decide, by decide, by decide, by decide, by decide, ?_, by decide, ?_⟩
  · intro b hb
    have h2 : (ascii "a.io:8080").head? = some 0x61 := by decide
    rw [h2] at hb
    rw [← Option.some.inj hb]; decide
  · intro b hb
    have h2 : (ascii "\r\n\r\n").head? = some 0x0D := by decide
    rw [h2] at hb
    rw [← Option.some.inj hb]; decide


/-! ## DNS question name -/

namespace DNSExtractor

theorem labelLoop_walk (p : Bytes) (t : UInt8) (rest : Bytes)
    (ht : t.toNat = 0 ∨ t.toNat > 63) :
    ∀ (ls : List Bytes) (X domain : Bytes) (fuel : Nat),
      p = X ++ (encodeLabels ls ++ t :: rest) → validLabels ls → ls.length < fuel →
      labelLoop p fuel X.length domain = .ok (ls.foldl appendLabel domain) := by
  intro ls
  induction ls with
  | nil =>
    intro X domain fuel hp _ hf
    obtain ⟨f, rfl⟩ : ∃ f, fuel = f + 1 := ⟨fuel - 1, by omega⟩
    have hlt : X.length < p.length := by simp [hp, encodeLabels]
    have hb := byte_at p X rest t X.length (by simpa [encodeLabels] using hp) rfl
    unfold labelLoop
    simp only [hlt, if_true, hb, ok_bind, List.foldl_nil]
    rcases ht with h0 | h63
    · simp [h0]
    · have : ¬ (t.toNat = 0) := by omega
      simp [this, h63]
  | cons l ls ih =>
    intro X domain fuel hp hv hf
    obtain ⟨f, rfl⟩ : ∃ f, fuel = f + 1 := ⟨fuel - 1, by omega⟩
    obtain ⟨hl1, hl63⟩ := hv l (List.mem_cons_self _ _)
    have hplen : p.length = X.length + (1 + l.length + (encodeLabels ls ++ t :: rest).length) := by
      rw [hp]; simp only [encodeLabels, List.length_append, List.length_cons]; omega
    have hlt : X.length < p.length := by omega
    have hb := byte_at p X (l ++ (encodeLabels ls ++ t :: rest)) (UInt8.ofNat l.length) X.length
      (by simpa [encodeLabels] using hp) rfl
    rw [toNat_ofNat_lt _ (by omega)] at hb
    have hr := bytes_at p (X ++ [UInt8.ofNat l.length]) l (encodeLabels ls ++ t :: rest)
      (X.length + 1) (by simp [hp, encodeLabels]) (by simp)
    have c1 : ¬ (l.length = 0) := by omega
    have c2 : ¬ (l.length > 63) := by omega
    have c3 : ¬ (X.length + 1 + l.length > p.length) := by omega
    have := ih (X ++ UInt8.ofNat l.length :: l) (appendLabel domain l) f
      (by simp [hp, encodeLabels]) (fun x hx => hv x (List.mem_cons_of_mem _ hx))
      (by simpa using hf)
    have hoff : (X ++ UInt8.ofNat l.length :: l).length = X.length + 1 + l.length := by
      simp only [List.length_append, List.length_cons]; omega
    rw [hoff] at this
    unfold labelLoop
    simp only [hlt, if_true, hb, ok_bind, c1, c2, c3, if_false, hr, List.foldl_cons]
    exact this

/-- Every label after the first, each behind its dot. -/
theorem foldl_appendLabel (ls : List Bytes) :
    ∀ (domain : Bytes), domain ≠ [] →
      ls.foldl appendLabel domain = domain ++ joinLabels ([] :: ls) := by
  induction ls with
  | nil => intro domain _; simp [joinLabels]
  | cons l ls ih =>
    intro domain hd
    have he : domain.isEmpty = false := by
      cases domain with
      | nil => exact absurd rfl hd
      | cons a as => rfl
    have hne : appendLabel domain l ≠ [] := by
      simp [appendLabel, he, hd]
    rw [List.foldl_cons, ih _ hne]
    cases ls with
    | nil => simp [appendLabel, he, joinLabels]
    | cons m ms => simp [appendLabel, he, joinLabels]

theorem foldl_appendLabel_nil (l : Bytes) (ls : List Bytes) (hl : l ≠ []) :
    (l :: ls).foldl appendLabel [] = joinLabels (l :: ls) := by
  have h0 : appendLabel [] l = l := by simp [appendLabel]
  rw [List.foldl_cons, h0, foldl_appendLabel ls l hl]
  cases ls with
  | nil => simp [joinLabels]
  | cons m ms => simp [joinLabels]

theorem joinLabels_ne_nil (l : Bytes) (ls : List Bytes) (hl : l ≠ []) :
    joinLabels (l :: ls) ≠ [] := by
  cases ls with
  | nil => simpa [joinLabels] using hl
  | cons m ms => simp [joinLabels, hl]

theorem twelve_bytes (hdr : Bytes) (h : hdr.length = 12) :
    ∃ h0 h1 h2 h3 h4 h5 h6 h7 h8 h9 h10 h11,
      hdr = [h0, h1, h2, h3, h4, h5, h6, h7, h8, h9, h10, h11] := by
  rcases hdr with _ | ⟨h0, _ | ⟨h1, _ | ⟨h2, _ | ⟨h3, _ | ⟨h4, _ | ⟨h5, _ | ⟨h6, _ | ⟨h7,
    _ | ⟨h8, _ | ⟨h9, _ | ⟨h10, _ | ⟨h11, _ | ⟨h12, r⟩⟩⟩⟩⟩⟩⟩⟩⟩⟩⟩⟩⟩
  all_goals first
    | exact ⟨_, _, _, _, _, _, _, _, _, _, _, _, rfl⟩
    | (simp at h)

theorem isDNSQuery_of_header (hdr tail : Bytes) (hh : QueryHeader hdr) :
    isDNSQuery (hdr ++ tail) = .ok true := by
  obtain ⟨h0, h1, h2, h3, h4, h5, h6, h7, h8, h9, h10, h11, rfl⟩ := twelve_bytes hdr hh.size
  have hqr := hh.qr h2 rfl
  have hqd := hh.qdcount h4 h5 rfl rfl
  have hj := SNIExtractor.u16_value h4 h5
  have hne : ¬ (((h4.toNat <<< 8) ||| h5.toNat) % 2 ^ 16 = 0) := by omega
  have hlen : ¬ (([h0, h1, h2, h3, h4, h5, h6, h7, h8, h9, h10, h11] ++ tail).length < 12) := by
    simp
  simp only [isDNSQuery, byteAt, List.cons_append, List.getElem?_cons_succ,
    List.getElem?_cons_zero, ok_bind, hqr, ne_eq, not_true_eq_false, hne, pure_eq_ok, if_false]
  rw [if_neg (by simp)]

theorem extractQuery_walk (hdr : Bytes) (ls : List Bytes) (t : UInt8) (rest : Bytes)
    (hh : QueryHeader hdr) (hv : validLabels ls) (ht : t.toNat = 0 ∨ t.toNat > 63) :
    extractQuery (hdr ++ encodeLabels ls ++ t :: rest)
      = .ok (if ls = [] then none else some (joinLabels ls)) := by
  rw [List.append_assoc]
  have hq := isDNSQuery_of_header hdr (encodeLabels ls ++ t :: rest) hh
  have hfuel : ls.length < (hdr ++ (encodeLabels ls ++ t :: rest)).length + 1 := by
    have : ∀ ms : List Bytes, ms.length ≤ (encodeLabels ms).length := by
      intro ms
      induction ms with
      | nil => simp
      | cons m ms ih => simp only [encodeLabels, List.length_cons, List.length_append]; omega
    have := this ls
    simp only [List.length_append, List.length_cons]
    omega
  have hw := labelLoop_walk (hdr ++ (encodeLabels ls ++ t :: rest)) t rest ht ls hdr []
    ((hdr ++ (encodeLabels ls ++ t :: rest)).length + 1) rfl hv hfuel
  rw [hh.size] at hw
  unfold extractQuery
  simp only [hq, ok_bind, Bool.not_true, Bool.false_eq_true, if_false, hw, pure_eq_ok]
  cases ls with
  | nil => simp
  | cons l ls =>
    have hl : l ≠ [] := by
      have := (hv l (List.mem_cons_self _ _)).1
      intro h; rw [h] at this; simp at this
    rw [foldl_appendLabel_nil l ls hl]
    have hne := joinLabels_ne_nil l ls hl
    have he : (joinLabels (l :: ls)).isEmpty = false := by
      cases hj : joinLabels (l :: ls) with
      | nil => exact absurd hj hne
      | cons a as => rfl
    simp [he]

theorem extractQuery_reject (p : Bytes)
    (h : p.length < 12 ∨ (∃ f, p[2]? = some f ∧ f.toNat &&& 0x80 ≠ 0) ∨
      (p[4]? = some 0 ∧ p[5]? = some 0)) :
    extractQuery p = .ok none := by
  have hno : isDNSQuery p = .ok false := by
    unfold isDNSQuery
    by_cases h12 : p.length < 12
    · simp [h12]
    · rcases h with h | ⟨f, hf, hbit⟩ | ⟨h4, h5⟩
      · exact absurd h h12
      · have e2 : byteAt p 2 = .ok f.toNat := by simp [byteAt, hf]
        simp [h12, e2, hbit]
      · obtain ⟨fl, hfl, -⟩ := byteAt_ok p 2 (by omega)
        have e4 : byteAt p 4 = .ok 0 := by simp [byteAt, h4]
        have e5 : byteAt p 5 = .ok 0 := by simp [byteAt, h5]
        simp only [h12, if_false, hfl, ok_bind, e4, e5]
        split_ifs <;> simp_all
  simp [extractQuery, hno]

theorem sampleHeader_ok : QueryHeader sampleHeader where
  size := rfl
  qr := by
    intro f hf
    have h2 : sampleHeader[2]? = some 0x01 := by decide
    rw [h2] at hf
    rw [← Option.some.inj hf]; decide
  qdcount := by
    intro a b ha hb
    have h4 : sampleHeader[4]? = some 0x00 := by decide
    have h5 : sampleHeader[5]? = some 0x01 := by decide
    rw [h4] at ha
    rw [h5] at hb
    rw [← Option.some.inj ha, ← Option.some.inj hb]; decide

end DNSExtractor

/-- C1: for every well-formed TLS ClientHello record `c` (valid record and handshake
headers, all length-prefixed blocks inside the payload, extension list well-formed up to and
including its first server_name extension, whose entry has name type `0x00` and hostname
`c.hostname`), `SNIExtractor::extract` on the wire image of `c` returns exactly
`c.hostname`. -/
theorem sni_extract_returns_hostname (c : ClientHello) (hw : c.WellFormed) :
    SNIExtractor.extract c.encode 0 c.encode.length = .ok (some c.hostname) :=
  c.extract_encode hw

/-- C1 witness: the 71-byte sample record, whose server_name is `a.io`. -/
theorem sni_extract_returns_hostname_witness :
    sampleHello.WellFormed ∧
    SNIExtractor.extract sampleHello.encode 0 sampleHello.encode.length
      = .ok (some (ascii "a.io")) :=
  ⟨by unfold ClientHello.WellFormed; decide,
   sni_extract_returns_hostname sampleHello (by unfold ClientHello.WellFormed; decide)⟩

/-- C2 (as stated, refuted): the six-byte payload `16 03 01 00 01 01` satisfies the four
stated conditions (record length 1 = length - 5), yet `isTLSClientHello` rejects it,
because the function also requires `length >= 9`. -/
theorem isTLSClientHello_short_payload_rejected :
    SNIExtractor.headerAccepted [0x16, 0x03, 0x01, 0x00, 0x01, 0x01] ∧
    SNIExtractor.isTLSClientHello [0x16, 0x03, 0x01, 0x00, 0x01, 0x01] 0 6 = .ok false :=
  ⟨⟨by decide, ⟨769, by decide, by decide, by decide⟩, ⟨1, by decide, by decide⟩, by decide⟩,
   by decide⟩

/-- C2 (amended): `isTLSClientHello` accepts a payload exactly when `length >= 9`,
`payload[0] = 0x16`, the big-endian version at bytes 1..2 lies in `[0x0300, 0x0304]`, the
big-endian record length at bytes 3..4 is at most `length - 5`, and `payload[5] = 0x01`, and
rejects otherwise; a record length equal to `length - 5` is accepted (other conditions
holding), one equal to `length - 4` is rejected, and `extract` returns no domain whenever
`isTLSClientHello` rejects. -/
theorem isTLSClientHello_accepts_iff (p : Bytes) :
    (SNIExtractor.isTLSClientHello p 0 p.length = .ok true ↔
      9 ≤ p.length ∧ SNIExtractor.headerAccepted p) ∧
    (SNIExtractor.isTLSClientHello p 0 p.length = .ok false ↔
      ¬ (9 ≤ p.length ∧ SNIExtractor.headerAccepted p)) ∧
    (9 ≤ p.length → p[0]? = some 0x16 →
      (∃ v, be16At p 1 = some v ∧ 0x0300 ≤ v ∧ v ≤ 0x0304) →
      be16At p 3 = some (p.length - 5) → p[5]? = some 0x01 →
      SNIExtractor.isTLSClientHello p 0 p.length = .ok true) ∧
    (be16At p 3 = some (p.length - 4) →
      SNIExtractor.isTLSClientHello p 0 p.length = .ok false) ∧
    (SNIExtractor.isTLSClientHello p 0 p.length = .ok false →
      SNIExtractor.extract p 0 p.length = .ok none) := by
  refine ⟨SNIExtractor.isTLSClientHello_true_iff p, SNIExtractor.isTLSClientHello_false_iff p,
    ?_, ?_, SNIExtractor.extract_none_of_reject p⟩
  · intro h9 h0 hv hr h5
    exact (SNIExtractor.isTLSClientHello_true_iff p).2 ⟨h9, h0, hv, ⟨_, hr, le_refl _⟩, h5⟩
  · intro hr
    refine (SNIExtractor.isTLSClientHello_false_iff p).2 ?_
    rintro ⟨h9, -, -, ⟨r, hr2, hle⟩, -⟩
    rw [hr] at hr2
    cases hr2
    omega

/-- C2 witness: a nine-byte payload whose record length is exactly `length - 5 = 4`. -/
theorem isTLSClientHello_accepts_iff_witness :
    SNIExtractor.isTLSClientHello [0x16, 0x03, 0x03, 0x00, 0x04, 0x01, 0, 0, 0] 0 9 = .ok true :=
  (isTLSClientHello_accepts_iff [0x16, 0x03, 0x03, 0x00, 0x04, 0x01, 0, 0, 0]).2.2.1
    (by decide) (by decide) ⟨771, by decide, by decide, by decide⟩ (by decide) (by decide)


/-- C3: for every payload (of `length = payload.length` bytes), `SNIExtractor::extract`,
`HTTPHostExtractor::extract` and `DNSExtractor::extractQuery` finish with a result
`Except.ok r`, `r` being a string or no value: no read takes the out-of-range branch
(`Fault.outOfBounds`) and no loop exceeds its budget (`Fault.outOfFuel`). -/
theorem extractors_read_in_bounds (payload : Bytes) :
    (∃ r, SNIExtractor.extract payload 0 payload.length = .ok r) ∧
    (∃ r, HTTPHostExtractor.extract payload = .ok r) ∧
    (∃ r, DNSExtractor.extractQuery payload = .ok r) :=
  ⟨by simpa using SNIExtractor.sni_extract_ok payload 0 payload.length (by omega),
   HTTPHostExtractor.http_extract_ok payload, DNSExtractor.extractQuery_ok payload⟩


/-- C4 (evaluation at the failing input): on a 65-byte QUIC version 1 long-header packet
the byte 0x01 at index 4 (the last version byte) makes `QUICSNIExtractor::extract` call
`SNIExtractor::extract(payload + 4 - 5, length - 4 + 5)`, whose first read `payload[-1]`
lies before the start of the payload: the run ends in `Fault.outOfBounds`. -/
theorem quic_probe_reads_before_payload :
    QUICSNIExtractor.extract QUICSNIExtractor.v1Initial = .error .outOfBounds ∧
    QUICSNIExtractor.isQUICInitial QUICSNIExtractor.v1Initial = .ok true ∧
    byteAt QUICSNIExtractor.v1Initial 4 = .ok 0x01 ∧
    peek QUICSNIExtractor.v1Initial ((4 : Int) - 5) 0 = .error .outOfBounds := by
  decide!


/-- C5 (evaluation at the failing input): on a ClientHello of 317 bytes whose server_name
entry is 256 bytes long, `SNIExtractor::extract` returns all 256 bytes, one more than
`MAX_SNI_LENGTH`; the constant is never consulted by the function. -/
theorem sni_extract_exceeds_max_sni_length :
    SNIExtractor.extract longNameHello.encode 0 longNameHello.encode.length
      = .ok (some (List.replicate 256 0x61)) ∧
    (List.replicate 256 (0x61 : UInt8)).length > SNIExtractor.MAX_SNI_LENGTH := by
  decide!

/-- C6 (as stated, refuted): the ten-byte request `GET host:a` starts with a method prefix,
its first "host:" (at index 4) is followed by no blanks and by the non-empty value `a`, which
runs to the end of the payload; yet `HTTPHostExtractor::extract` returns no domain, because
the scan loop only visits indices `i` with `i + 6 < length`. -/
theorem http_host_at_end_of_payload_missed :
    HTTPHostExtractor.HostHeader (ascii "GET host:a") (ascii "GET ") (ascii "host:") []
      (ascii "a") [] ∧
    HTTPHostExtractor.extract (ascii "GET host:a") = .ok none := by
  refine ⟨⟨by decide, by decide, by decide, by decide, by decide, by decide, ?_, by decide,
    ?_⟩, by decide⟩
  · intro b hb
    have h2 : (ascii "a").head? = some 0x61 := by decide
    rw [h2] at hb
    rw [← Option.some.inj hb]; decide
  · intro b hb
    exact absurd hb (by simp)

/-- C6 (amended): for every payload whose first 4 bytes are one of the seven method
prefixes and in which the first case-insensitive occurrence of "host:" starts at an index
`i` with `i + 6 < length` and is followed by zero or more spaces/tabs and then a non-empty
value `v` that runs up to the next CR or LF (or the end of the payload),
`HTTPHostExtractor::extract` returns `v` cut at its first `:`; for every payload whose first
4 bytes are not one of those seven, it returns no domain. -/
theorem http_host_extracted :
    (∀ p pre tok ws v rest : Bytes, HTTPHostExtractor.HostHeader p pre tok ws v rest →
      pre.length + 6 < p.length →
      HTTPHostExtractor.extract p = .ok (some (v.takeWhile (fun b => decide (b ≠ 0x3A))))) ∧
    (∀ q : Bytes, q.take 4 ∉ HTTPHostExtractor.methods →
      HTTPHostExtractor.extract q = .ok none) :=
  ⟨fun p pre tok ws v rest hh hroom => HTTPHostExtractor.extract_finds p pre tok ws v rest hh hroom,
   HTTPHostExtractor.extract_not_request⟩

/-- C6 witness: a request with `Host: <space><tab>a.io:8080` yields `a.io`; a payload
starting with `QUIT` yields no domain. -/
theorem http_host_extracted_witness :
    HTTPHostExtractor.extract (ascii "GET / HTTP/1.1\r\nHost: \ta.io:8080\r\n\r\n")
      = .ok (some (ascii "a.io")) ∧
    HTTPHostExtractor.extract (ascii "QUIT / HTTP/1.1\r\nHost: a.io\r\n\r\n") = .ok none :=
  ⟨http_host_extracted.1 _ _ _ _ _ _ sampleRequest_header (by decide),
   http_host_extracted.2 _ (by decide)⟩


/-- C7 (evaluation at the failing input): two requests of 16405 bytes agree on their first
16,384 bytes (`MAX_HTTP_HEADER_SCAN`) and carry their only Host header at byte 16,391;
`HTTPHostExtractor::extract` returns that header's value for each, `a.io` for one and `b.io`
for the other.  The scan is bounded by the payload length only. -/
theorem http_host_found_beyond_scan_cap :
    (HTTPHostExtractor.farHostRequest (ascii "a.io")).take HTTPHostExtractor.MAX_HTTP_HEADER_SCAN
      = (HTTPHostExtractor.farHostRequest (ascii "b.io")).take
          HTTPHostExtractor.MAX_HTTP_HEADER_SCAN ∧
    HTTPHostExtractor.extract (HTTPHostExtractor.farHostRequest (ascii "a.io"))
      = .ok (some (ascii "a.io")) ∧
    HTTPHostExtractor.extract (HTTPHostExtractor.farHostRequest (ascii "b.io"))
      = .ok (some (ascii "b.io")) := by
  have hA : ∀ b, (ascii "a.io").head? = some b → HTTPHostExtractor.isBlank b.toNat = false := by
    intro b hb
    have h2 : (ascii "a.io").head? = some 0x61 := by decide
    rw [h2] at hb
    rw [← Option.some.inj hb]; decide
  have hB : ∀ b, (ascii "b.io").head? = some b → HTTPHostExtractor.isBlank b.toNat = false := by
    intro b hb
    have h2 : (ascii "b.io").head? = some 0x62 := by decide
    rw [h2] at hb
    rw [← Option.some.inj hb]; decide
  refine ⟨?_, ?_, ?_⟩
  · show List.take 16384 _ = List.take 16384 _
    rw [HTTPHostExtractor.farHostRequest_take, HTTPHostExtractor.farHostRequest_take]
  · rw [HTTPHostExtractor.extract_farHostRequest _ (by decide) hA (by decide)]
    decide
  · rw [HTTPHostExtractor.extract_farHostRequest _ (by decide) hB (by decide)]
    decide


/-- C8: for every DNS payload with a 12-byte header whose QR bit (0x80 of byte 2) is clear
and whose QDCOUNT is at least 1, and whose question name at offset 12 is encoded as labels
`l1..ln` (`n >= 1`, each of 1 to 63 bytes) followed by a zero length byte,
`DNSExtractor::extractQuery` returns `l1.l2...ln` joined by `.`; and for every payload
shorter than 12 bytes, with the QR bit set, or with QDCOUNT = 0, it returns no domain. -/
theorem dns_query_name_extracted :
    (∀ (hdr : Bytes) (ls : List Bytes) (rest : Bytes), DNSExtractor.QueryHeader hdr →
      ls ≠ [] → DNSExtractor.validLabels ls →
      DNSExtractor.extractQuery (hdr ++ DNSExtractor.encodeLabels ls ++ 0x00 :: rest)
        = .ok (some (DNSExtractor.joinLabels ls))) ∧
    (∀ p : Bytes, (p.length < 12 ∨ (∃ f, p[2]? = some f ∧ f.toNat &&& 0x80 ≠ 0) ∨
        (p[4]? = some 0 ∧ p[5]? = some 0)) →
      DNSExtractor.extractQuery p = .ok none) := by
  refine ⟨?_, DNSExtractor.extractQuery_reject⟩
  intro hdr ls rest hh hne hv
  rw [DNSExtractor.extractQuery_walk hdr ls 0x00 rest hh hv (Or.inl rfl), if_neg hne]

/-- C8 witness: the name `www.<63 times a>.io`, with a label of exactly 63 bytes, is
returned whole; a 15-byte response (QR bit set) yields no domain. -/
theorem dns_query_name_extracted_witness :
    DNSExtractor.extractQuery (DNSExtractor.sampleHeader
        ++ DNSExtractor.encodeLabels [ascii "www", List.replicate 63 0x61, ascii "io"]
        ++ 0x00 :: [0x00, 0x01, 0x00, 0x01])
      = .ok (some (ascii "www." ++ List.replicate 63 0x61 ++ ascii ".io")) ∧
    DNSExtractor.extractQuery [0x12, 0x34, 0x81, 0x80, 0, 1, 0, 0, 0, 0, 0, 0, 1, 0x61, 0]
      = .ok none :=
  ⟨dns_query_name_extracted.1 DNSExtractor.sampleHeader
      [ascii "www", List.replicate 63 0x61, ascii "io"] [0x00, 0x01, 0x00, 0x01]
      DNSExtractor.sampleHeader_ok (by decide) (by unfold DNSExtractor.validLabels; decide),
   dns_query_name_extracted.2 _ (Or.inr (Or.inl ⟨0x81, by decide, by decide⟩))⟩


/-- C9 (as stated, refuted): in the query `sampleHeader, 3 "www", C0 0C` the label walk
meets the compression pointer byte 0xC0 (> 63) after the valid label `www`; the query is
not rejected: `DNSExtractor::extractQuery` returns the domain `www`. -/
theorem dns_pointer_after_label_not_rejected :
    DNSExtractor.QueryHeader DNSExtractor.sampleHeader ∧
    DNSExtractor.validLabels [ascii "www"] ∧ (0xC0 : UInt8).toNat > 63 ∧
    DNSExtractor.extractQuery (DNSExtractor.sampleHeader
        ++ DNSExtractor.encodeLabels [ascii "www"] ++ 0xC0 :: [0x0C])
      = .ok (some (ascii "www")) :=
  ⟨DNSExtractor.sampleHeader_ok, by unfold DNSExtractor.validLabels; decide, by decide,
   by decide⟩

/-- C9 (amended): for every DNS query payload in which the label walk from offset 12
meets a length byte greater than 63 (a 64-byte label, or a compression pointer such as
0xC0) before the terminating zero, `DNSExtractor::extractQuery` stops at that byte and
returns the valid labels that precede it joined by `.`; it returns no domain when no
label precedes that byte. -/
theorem dns_walk_stops_at_oversize_length (hdr : Bytes) (ls : List Bytes) (t : UInt8)
    (rest : Bytes) (hh : DNSExtractor.QueryHeader hdr) (hv : DNSExtractor.validLabels ls)
    (ht : t.toNat > 63) :
    DNSExtractor.extractQuery (hdr ++ DNSExtractor.encodeLabels ls ++ t :: rest)
      = .ok (if ls = [] then none else some (DNSExtractor.joinLabels ls)) :=
  DNSExtractor.extractQuery_walk hdr ls t rest hh hv (Or.inr ht)

/-- C9 witness: two labels followed by the length byte 0x40 (64) give `www.a`; a pointer
at offset 12 gives no domain. -/
theorem dns_walk_stops_at_oversize_length_witness :
    DNSExtractor.extractQuery (DNSExtractor.sampleHeader
        ++ DNSExtractor.encodeLabels [ascii "www", ascii "a"] ++ 0x40 :: [0x00])
      = .ok (some (ascii "www.a")) ∧
    DNSExtractor.extractQuery (DNSExtractor.sampleHeader
        ++ DNSExtractor.encodeLabels [] ++ 0xC0 :: [0x0C])
      = .ok none :=
  ⟨dns_walk_stops_at_oversize_length DNSExtractor.sampleHeader [ascii "www", ascii "a"] 0x40
      [0x00] DNSExtractor.sampleHeader_ok (by unfold DNSExtractor.validLabels; decide)
      (by decide),
   dns_walk_stops_at_oversize_length DNSExtractor.sampleHeader [] 0xC0 [0x0C]
      DNSExtractor.sampleHeader_ok (by unfold DNSExtractor.validLabels; decide) (by decide)⟩


/-- C10 (evaluation at the failing input): on a 319-byte query whose name has 51 labels
of 5 bytes each, `DNSExtractor::extractQuery` returns the whole name: 51 labels (more than
`MAX_DNS_LABEL_DEPTH = 50`) and 305 bytes (more than `MAX_DNS_NAME_LENGTH = 255`).  Neither
constant is consulted by the function. -/
theorem dns_name_exceeds_declared_limits :
    DNSExtractor.extractQuery (DNSExtractor.sampleHeader
        ++ DNSExtractor.encodeLabels (List.replicate 51 (ascii "aaaaa")) ++ [0x00])
      = .ok (some (DNSExtractor.joinLabels (List.replicate 51 (ascii "aaaaa")))) ∧
    (List.replicate 51 (ascii "aaaaa")).length > DNSExtractor.MAX_DNS_LABEL_DEPTH ∧
    (DNSExtractor.joinLabels (List.replicate 51 (ascii "aaaaa"))).length
      > DNSExtractor.MAX_DNS_NAME_LENGTH := by
  decide!


/-! ## Byte order and bit masks -/

theorem byteOf_lt (data : Bytes) (i : Nat) : byteOf data i < 256 := UInt8.toNat_lt_size _

theorem byteAt_eq_byteOf (data : Bytes) (i : Nat) (h : i < data.length) :
    byteAt data i = .ok (byteOf data i) := by
  simp [byteAt, byteOf, List.getElem?_eq_getElem h, List.getD_eq_getElem?_getD]

theorem or_disjoint (x y k : Nat) (hx : x % 2 ^ k = 0) (hy : y < 2 ^ k) : x ||| y = x + y := by
  have hx2 : x = 2 ^ k * (x / 2 ^ k) := by
    have := Nat.div_add_mod x (2 ^ k)
    omega
  rw [hx2, Nat.mul_add_lt_is_or hy]

theorem and_mask (x k : Nat) : x &&& (255 <<< k) = ((x >>> k) % 256) <<< k := by
  apply Nat.eq_of_testBit_eq
  intro j
  have h255 : (255 : Nat) = 2 ^ 8 - 1 := by norm_num
  have h256 : (256 : Nat) = 2 ^ 8 := by norm_num
  rw [h255, h256]
  simp only [Nat.testBit_and, Nat.testBit_shiftLeft, Nat.testBit_two_pow_sub_one,
    Nat.testBit_mod_two_pow, Nat.testBit_shiftRight]
  by_cases hj : j ≥ k
  · have : k + (j - k) = j := by omega
    simp only [hj, decide_True, Bool.true_and, this]
    cases Nat.testBit x j <;> simp
  · simp [hj]

theorem take_drop_two (data : Bytes) (off : Nat) (h : off + 2 ≤ data.length) :
    (data.drop off).take 2 = [data.getD off 0, data.getD (off + 1) 0] := by
  rw [List.drop_eq_getElem_cons (by omega), List.take_succ_cons,
    List.drop_eq_getElem_cons (by omega), List.take_succ_cons, List.take_zero]
  simp [List.getD_eq_getElem?_getD, List.getElem?_eq_getElem, h]
  constructor <;> (rw [List.getElem?_eq_getElem (by omega)]; rfl)

theorem take_drop_four (data : Bytes) (off : Nat) (h : off + 4 ≤ data.length) :
    (data.drop off).take 4
      = [data.getD off 0, data.getD (off + 1) 0, data.getD (off + 2) 0,
          data.getD (off + 3) 0] := by
  have e : (data.drop off).take 4
      = (data.drop off).take 2 ++ ((data.drop (off + 2)).take 2) := by
    rw [show (4 : Nat) = 2 + 2 from rfl, List.take_add, List.drop_drop]
  rw [e, take_drop_two data off (by omega), take_drop_two data (off + 2) (by omega)]
  rfl

theorem netToHost16_wire (le : Bool) (data : Bytes) (off : Nat) (h : off + 2 ≤ data.length) :
    PortableNet.netToHost16 le (hostValue le ((data.drop off).take 2)) = wire16 data off := by
  rw [take_drop_two data off h]
  have ha := byteOf_lt data off
  have hb := byteOf_lt data (off + 1)
  cases le with
  | false =>
    simp only [PortableNet.netToHost16, hostValue, List.foldl, wire16, byteOf, if_false,
      Bool.false_eq_true]
    omega
  | true =>
    simp only [PortableNet.netToHost16, hostValue, List.foldr, wire16, if_true,
      PortableNet.swapBytes16]
    show (((byteOf data off + 256 * (byteOf data (off + 1) + 256 * 0)) <<< 8) |||
      ((byteOf data off + 256 * (byteOf data (off + 1) + 256 * 0)) >>> 8)) % 2 ^ 16 = _
    have e1 : (byteOf data off + 256 * (byteOf data (off + 1) + 256 * 0)) >>> 8
        = byteOf data (off + 1) := by
      rw [Nat.shiftRight_eq_div_pow]; omega
    rw [e1, Nat.shiftLeft_eq, or_disjoint _ _ 8 (by omega) (by omega)]
    omega

theorem swapBytes32_bytes (a b c d : Nat) (ha : a < 256) (hb : b < 256) (hc : c < 256)
    (hd : d < 256) :
    PortableNet.swapBytes32 (a + 256 * (b + 256 * (c + 256 * (d + 256 * 0))))
      = 2 ^ 24 * a + 2 ^ 16 * b + 2 ^ 8 * c + d := by
  generalize hv : a + 256 * (b + 256 * (c + 256 * (d + 256 * 0))) = v
  have m0 : v &&& 0x000000FF = a := by
    have := and_mask v 0
    simp only [Nat.shiftLeft_zero, Nat.shiftRight_zero] at this
    rw [this]; omega
  have m1 : v &&& 0x0000FF00 = b * 256 := by
    have := and_mask v 8
    rw [show (255 : Nat) <<< 8 = 0x0000FF00 from rfl, Nat.shiftRight_eq_div_pow,
      Nat.shiftLeft_eq] at this
    rw [this]; omega
  have m2 : v &&& 0x00FF0000 = c * 65536 := by
    have := and_mask v 16
    rw [show (255 : Nat) <<< 16 = 0x00FF0000 from rfl, Nat.shiftRight_eq_div_pow,
      Nat.shiftLeft_eq] at this
    rw [this]; omega
  have m3 : v &&& 0xFF000000 = d * 16777216 := by
    have := and_mask v 24
    rw [show (255 : Nat) <<< 24 = 0xFF000000 from rfl, Nat.shiftRight_eq_div_pow,
      Nat.shiftLeft_eq] at this
    rw [this]; omega
  unfold PortableNet.swapBytes32
  rw [m0, m1, m2, m3]
  simp only [Nat.shiftLeft_eq, Nat.shiftRight_eq_div_pow]
  rw [or_disjoint (a * 2 ^ 24) _ 24 (by omega) (by omega),
    or_disjoint _ (c * 65536 / 2 ^ 8) 16 (by omega) (by omega),
    or_disjoint _ (d * 16777216 / 2 ^ 24) 8 (by omega) (by omega)]
  omega

theorem netToHost32_wire (le : Bool) (data : Bytes) (off : Nat) (h : off + 4 ≤ data.length) :
    PortableNet.netToHost32 le (hostValue le ((data.drop off).take 4)) = wire32 data off := by
  rw [take_drop_four data off h]
  have ha := byteOf_lt data off
  have hb := byteOf_lt data (off + 1)
  have hc := byteOf_lt data (off + 2)
  have hd := byteOf_lt data (off + 3)
  cases le with
  | false =>
    simp only [PortableNet.netToHost32, hostValue, List.foldl, wire32, byteOf, if_false,
      Bool.false_eq_true]
    omega
  | true =>
    simp only [PortableNet.netToHost32, hostValue, List.foldr, wire32, if_true]
    exact swapBytes32_bytes _ _ _ _ ha hb hc hd


/-! ## The five header parsers in closed form -/

namespace PacketParser

theorem boundsCheck_eq (offset required total : Nat) :
    boundsCheck offset required total = decide (offset + required ≤ total) := by
  unfold boundsCheck
  rw [Bool.eq_iff_iff]
  simp only [Bool.and_eq_true, decide_eq_true_eq]
  omega

theorem high_nibble (x : Nat) (h : x < 256) : (x >>> 4) &&& 0x0F = x / 16 := by
  rw [show (0x0F : Nat) = 2 ^ 4 - 1 from rfl, Nat.and_pow_two_sub_one_eq_mod,
    Nat.shiftRight_eq_div_pow]
  omega

theorem high_nibble_mod (x : Nat) (h : x < 256) : x >>> 4 % 16 = x / 16 := by
  rw [Nat.shiftRight_eq_div_pow]
  omega

theorem low_nibble (x : Nat) : x &&& 0x0F = x % 16 := by
  rw [show (0x0F : Nat) = 2 ^ 4 - 1 from rfl, Nat.and_pow_two_sub_one_eq_mod]

theorem parseEthernet_short (le : Bool) (data : Bytes) (parsed : ParsedPacket)
    (h : data.length < 14) :
    parseEthernet le data data.length parsed 0 = .ok ⟨false, parsed, 0⟩ := by
  have hb : boundsCheck 0 14 data.length = false := by
    rw [boundsCheck_eq]; simp; omega
  simp [parseEthernet, hb]

theorem parseEthernet_eq (le : Bool) (data : Bytes) (parsed : ParsedPacket)
    (h : 14 ≤ data.length) :
    parseEthernet le data data.length parsed 0 = .ok ⟨true,
      { parsed with
        dest_mac := macToString ((data.drop 0).take 6)
        src_mac := macToString ((data.drop (0 + 6)).take 6)
        ether_type := wire16 data 12 }, 14⟩ := by
  have hb : boundsCheck 0 14 data.length = true := by
    rw [boundsCheck_eq]; simp; omega
  simp only [parseEthernet, hb, Bool.not_true, Bool.false_eq_true, if_false,
    readBytes_ok data 0 6 (by omega), readBytes_ok data (0 + 6) 6 (by omega),
    readBytes_ok data (0 + 12) 2 (by omega), ok_bind, pure_eq_ok,
    netToHost16_wire le data (0 + 12) (by omega)]

theorem parseUDP_short (le : Bool) (data : Bytes) (parsed : ParsedPacket) (offset : Nat)
    (h : data.length < offset + 8) :
    parseUDP le data data.length parsed offset = .ok ⟨false, parsed, offset⟩ := by
  have hb : boundsCheck offset 8 data.length = false := by
    rw [boundsCheck_eq]; simp; omega
  simp [parseUDP, hb]

theorem parseUDP_eq (le : Bool) (data : Bytes) (parsed : ParsedPacket) (offset : Nat)
    (h : offset + 8 ≤ data.length) :
    parseUDP le data data.length parsed offset = .ok ⟨true,
      { parsed with
        src_port := wire16 data offset
        dest_port := wire16 data (offset + 2)
        has_udp := true }, offset + 8⟩ := by
  have hb : boundsCheck offset 8 data.length = true := by
    rw [boundsCheck_eq]; simp; omega
  simp only [parseUDP, hb, Bool.not_true, Bool.false_eq_true, if_false,
    readBytes_ok data offset 2 (by omega), readBytes_ok data (offset + 2) 2 (by omega),
    ok_bind, pure_eq_ok, netToHost16_wire le data offset (by omega),
    netToHost16_wire le data (offset + 2) (by omega)]

theorem parseTCP_short (le : Bool) (data : Bytes) (parsed : ParsedPacket) (offset : Nat)
    (h : data.length < offset + 20) :
    parseTCP le data data.length parsed offset = .ok ⟨false, parsed, offset⟩ := by
  have hb : boundsCheck offset 20 data.length = false := by
    rw [boundsCheck_eq]; simp; omega
  simp [parseTCP, hb]

theorem parseTCP_eq (le : Bool) (data : Bytes) (parsed : ParsedPacket) (offset : Nat)
    (h : offset + 20 ≤ data.length) :
    parseTCP le data data.length parsed offset = .ok
      (if byteOf data (offset + 12) / 16 * 4 < 20 ∨
          data.length < offset + byteOf data (offset + 12) / 16 * 4 then
        ⟨false, { parsed with
          src_port := wire16 data offset
          dest_port := wire16 data (offset + 2)
          seq_number := wire32 data (offset + 4)
          ack_number := wire32 data (offset + 8) }, offset⟩
      else
        ⟨true, { parsed with
          src_port := wire16 data offset
          dest_port := wire16 data (offset + 2)
          seq_number := wire32 data (offset + 4)
          ack_number := wire32 data (offset + 8)
          tcp_flags := byteOf data (offset + 13)
          has_tcp := true }, offset + byteOf data (offset + 12) / 16 * 4⟩) := by
  have hb : boundsCheck offset 20 data.length = true := by
    rw [boundsCheck_eq]; simp; omega
  simp only [parseTCP, hb, Bool.not_true, Bool.false_eq_true, if_false,
    readBytes_ok data offset 2 (by omega), readBytes_ok data (offset + 2) 2 (by omega),
    readBytes_ok data (offset + 4) 4 (by omega), readBytes_ok data (offset + 8) 4 (by omega),
    ok_bind, pure_eq_ok, netToHost16_wire le data offset (by omega),
    netToHost16_wire le data (offset + 2) (by omega),
    netToHost32_wire le data (offset + 4) (by omega),
    netToHost32_wire le data (offset + 8) (by omega),
    byteAt_eq_byteOf data (offset + 12) (by omega),
    byteAt_eq_byteOf data (offset + 13) (by omega),
    high_nibble _ (byteOf_lt data (offset + 12)), boundsCheck_eq]
  by_cases hc : byteOf data (offset + 12) / 16 * 4 < 20 ∨
      data.length < offset + byteOf data (offset + 12) / 16 * 4
  · have : byteOf data (offset + 12) / 16 * 4 < 20 ∨
        (!decide (offset + byteOf data (offset + 12) / 16 * 4 ≤ data.length)) = true := by
      rcases hc with h1 | h1
      · exact Or.inl h1
      · right; simp; omega
    rw [if_pos this, if_pos hc]
  · have : ¬ (byteOf data (offset + 12) / 16 * 4 < 20 ∨
        (!decide (offset + byteOf data (offset + 12) / 16 * 4 ≤ data.length)) = true) := by
      intro h1
      apply hc
      rcases h1 with h1 | h1
      · exact Or.inl h1
      · right; simp at h1; omega
    rw [if_neg this, if_neg hc]

theorem parseIPv4_short (le : Bool) (data : Bytes) (parsed : ParsedPacket) (offset : Nat)
    (h : data.length < offset + 20) :
    parseIPv4 le data data.length parsed offset = .ok ⟨false, parsed, offset⟩ := by
  have hb : boundsCheck offset 20 data.length = false := by
    rw [boundsCheck_eq]; simp; omega
  simp [parseIPv4, hb]

theorem parseIPv4_eq (le : Bool) (data : Bytes) (parsed : ParsedPacket) (offset : Nat)
    (h : offset + 20 ≤ data.length) :
    parseIPv4 le data data.length parsed offset = .ok
      (if byteOf data offset / 16 ≠ 4 ∨ byteOf data offset % 16 * 4 < 20 ∨
          data.length < offset + byteOf data offset % 16 * 4 then
        ⟨false, parsed, offset⟩
      else
        ⟨true, { parsed with
          is_fragmented :=
            if decide (wire16 data (offset + 6) &&& 0x2000 ≠ 0) ||
                decide (wire16 data (offset + 6) &&& 0x1FFF ≠ 0)
            then true else parsed.is_fragmented
          has_ip := true
          has_ipv4 := true
          ip_version := 4
          ttl := byteOf data (offset + 8)
          protocol := byteOf data (offset + 9)
          src_ip := ipToString (hostValue le ((data.drop (offset + 12)).take 4))
          dest_ip := ipToString (hostValue le ((data.drop (offset + 16)).take 4)) },
          offset + byteOf data offset % 16 * 4⟩) := by
  have hb : boundsCheck offset 20 data.length = true := by
    rw [boundsCheck_eq]; simp; omega
  simp only [parseIPv4, hb, Bool.not_true, Bool.false_eq_true, if_false,
    byteAt_eq_byteOf data offset (by omega), ok_bind, pure_eq_ok,
    low_nibble, high_nibble_mod _ (byteOf_lt data offset), boundsCheck_eq]
  by_cases hv : byteOf data offset / 16 ≠ 4
  · have hc : byteOf data offset / 16 ≠ 4 ∨ byteOf data offset % 16 * 4 < 20 ∨
        data.length < offset + byteOf data offset % 16 * 4 := Or.inl hv
    rw [if_pos hv, if_pos hc]
  · rw [if_neg hv]
    by_cases hl : byteOf data offset % 16 * 4 < 20 ∨
        data.length < offset + byteOf data offset % 16 * 4
    · have h1 : byteOf data offset % 16 * 4 < 20 ∨
          (!decide (offset + byteOf data offset % 16 * 4 ≤ data.length)) = true := by
        rcases hl with h1 | h1
        · exact Or.inl h1
        · right; simp; omega
      rw [if_pos h1, if_pos (Or.inr hl)]
    · have h1 : ¬ (byteOf data offset % 16 * 4 < 20 ∨
          (!decide (offset + byteOf data offset % 16 * 4 ≤ data.length)) = true) := by
        intro h1
        apply hl
        rcases h1 with h1 | h1
        · exact Or.inl h1
        · right; simp at h1; omega
      have h2 : ¬ (byteOf data offset / 16 ≠ 4 ∨ byteOf data offset % 16 * 4 < 20 ∨
          data.length < offset + byteOf data offset % 16 * 4) := by
        intro h2
        rcases h2 with h2 | h2
        · exact hv h2
        · exact hl h2
      rw [if_neg h1, if_neg h2]
      simp only [readBytes_ok data (offset + 6) 2 (by omega), ok_bind,
        netToHost16_wire le data (offset + 6) (by omega),
        byteAt_eq_byteOf data (offset + 8) (by omega),
        byteAt_eq_byteOf data (offset + 9) (by omega),
        readBytes_ok data (offset + 12) 4 (by omega),
        readBytes_ok data (offset + 16) 4 (by omega)]

theorem parseIPv6_short (le : Bool) (data : Bytes) (parsed : ParsedPacket) (offset : Nat)
    (h : data.length < offset + 40) :
    parseIPv6 le data data.length parsed offset = .ok ⟨false, parsed, offset⟩ := by
  have hb : boundsCheck offset 40 data.length = false := by
    rw [boundsCheck_eq]; simp; omega
  simp [parseIPv6, hb]

theorem parseIPv6_eq (le : Bool) (data : Bytes) (parsed : ParsedPacket) (offset : Nat)
    (h : offset + 40 ≤ data.length) :
    parseIPv6 le data data.length parsed offset = .ok ⟨true,
      { parsed with
        has_ip := true
        has_ipv6 := true
        ip_version := 6
        protocol := byteOf data (offset + 6)
        ttl := byteOf data (offset + 7)
        src_ip := ipv6ToString le ((data.drop (offset + 8)).take 16)
        dest_ip := ipv6ToString le ((data.drop (offset + 24)).take 16)
        is_fragmented := if byteOf data (offset + 6) = 44 then true else parsed.is_fragmented },
      offset + 40⟩ := by
  have hb : boundsCheck offset 40 data.length = true := by
    rw [boundsCheck_eq]; simp; omega
  simp only [parseIPv6, hb, Bool.not_true, Bool.false_eq_true, if_false,
    byteAt_eq_byteOf data (offset + 6) (by omega), byteAt_eq_byteOf data (offset + 7) (by omega),
    readBytes_ok data (offset + 8) 16 (by omega), readBytes_ok data (offset + 24) 16 (by omega),
    ok_bind, pure_eq_ok]

end PacketParser

/-! ## `parse`: absence of faults, and the IPv4 path -/

namespace PacketParser

theorem parseEthernet_ok (le : Bool) (data : Bytes) (parsed : ParsedPacket) :
    ∃ s, parseEthernet le data data.length parsed 0 = .ok s := by
  by_cases h : data.length < 14
  · exact ⟨_, parseEthernet_short le data parsed h⟩
  · exact ⟨_, parseEthernet_eq le data parsed (by omega)⟩

theorem parseIPv4_ok (le : Bool) (data : Bytes) (parsed : ParsedPacket) (offset : Nat) :
    ∃ s, parseIPv4 le data data.length parsed offset = .ok s := by
  by_cases h : data.length < offset + 20
  · exact ⟨_, parseIPv4_short le data parsed offset h⟩
  · exact ⟨_, parseIPv4_eq le data parsed offset (by omega)⟩

theorem parseIPv6_ok (le : Bool) (data : Bytes) (parsed : ParsedPacket) (offset : Nat) :
    ∃ s, parseIPv6 le data data.length parsed offset = .ok s := by
  by_cases h : data.length < offset + 40
  · exact ⟨_, parseIPv6_short le data parsed offset h⟩
  · exact ⟨_, parseIPv6_eq le data parsed offset (by omega)⟩

theorem parseTCP_ok (le : Bool) (data : Bytes) (parsed : ParsedPacket) (offset : Nat) :
    ∃ s, parseTCP le data data.length parsed offset = .ok s := by
  by_cases h : data.length < offset + 20
  · exact ⟨_, parseTCP_short le data parsed offset h⟩
  · exact ⟨_, parseTCP_eq le data parsed offset (by omega)⟩

theorem parseUDP_ok (le : Bool) (data : Bytes) (parsed : ParsedPacket) (offset : Nat) :
    ∃ s, parseUDP le data data.length parsed offset = .ok s := by
  by_cases h : data.length < offset + 8
  · exact ⟨_, parseUDP_short le data parsed offset h⟩
  · exact ⟨_, parseUDP_eq le data parsed offset (by omega)⟩

theorem parseTransport_ok (le : Bool) (data : Bytes) (parsed : ParsedPacket) (offset : Nat) :
    ∃ r, parseTransport le data data.length parsed offset = .ok r := by
  unfold parseTransport
  by_cases hf : parsed.is_fragmented = true
  · simp only [hf, if_true]; exact ⟨_, rfl⟩
  · simp only [hf, Bool.false_eq_true, if_false]
    split_ifs
    · obtain ⟨s, hs⟩ := parseTCP_ok le data parsed offset
      rw [hs]; simp only [ok_bind]; split_ifs <;> exact ⟨_, rfl⟩
    · obtain ⟨s, hs⟩ := parseUDP_ok le data parsed offset
      rw [hs]; simp only [ok_bind]; split_ifs <;> exact ⟨_, rfl⟩
    · simp only [pure_eq_ok, ok_bind]; split_ifs <;> exact ⟨_, rfl⟩

theorem parse_ok (le : Bool) (raw : RawPacket) : ∃ r, parse le raw = .ok r := by
  unfold parse
  by_cases h0 : raw.data.length = 0
  · simp only [h0, if_true]; exact ⟨_, rfl⟩
  · simp only [h0, if_false]
    obtain ⟨e, he⟩ := parseEthernet_ok le raw.data
      { timestamp_sec := raw.header.ts_sec, timestamp_usec := raw.header.ts_usec }
    rw [he]
    simp only [ok_bind]
    by_cases hok : e.ok = true
    · simp only [hok, Bool.not_true, Bool.false_eq_true, if_false]
      split_ifs
      · obtain ⟨s, hs⟩ := parseIPv4_ok le raw.data e.parsed e.offset
        rw [hs]; simp only [ok_bind]
        split_ifs
        · exact ⟨_, rfl⟩
        · exact parseTransport_ok le raw.data s.parsed s.offset
      · obtain ⟨s, hs⟩ := parseIPv6_ok le raw.data e.parsed e.offset
        rw [hs]; simp only [ok_bind]
        split_ifs
        · exact ⟨_, rfl⟩
        · exact parseTransport_ok le raw.data s.parsed s.offset
      · simp only [pure_eq_ok, ok_bind]
        split_ifs
        · exact ⟨_, rfl⟩
        · exact parseTransport_ok le raw.data e.parsed e.offset
    · simp only [hok]
      exact ⟨_, rfl⟩

theorem parse_ipv4_frame (le : Bool) (raw : RawPacket) (hlen : 14 ≤ raw.data.length)
    (het : wire16 raw.data 12 = 0x0800) :
    ∃ E, Pristine E ∧ parse le raw =
      (parseIPv4 le raw.data raw.data.length E 14 >>= fun l3 =>
        if !l3.ok then pure (false, { l3.parsed with is_malformed := true })
        else parseTransport le raw.data raw.data.length l3.parsed l3.offset) := by
  refine ⟨{ ({ timestamp_sec := raw.header.ts_sec, timestamp_usec := raw.header.ts_usec } :
      ParsedPacket) with
    dest_mac := macToString ((raw.data.drop 0).take 6)
    src_mac := macToString ((raw.data.drop (0 + 6)).take 6)
    ether_type := wire16 raw.data 12 }, ⟨rfl, rfl, rfl, rfl, rfl, rfl, rfl, rfl, rfl, rfl, rfl,
      rfl, rfl, rfl, rfl⟩, ?_⟩
  have h0 : ¬ (raw.data.length = 0) := by omega
  unfold parse
  simp only [h0, if_false, parseEthernet_eq le raw.data _ hlen, ok_bind, Bool.not_true,
    Bool.false_eq_true, het, EtherType.IPv4, if_true]

theorem parse_ipv6_frame (le : Bool) (raw : RawPacket) (hlen : 14 ≤ raw.data.length)
    (het : wire16 raw.data 12 = 0x86DD) :
    ∃ E, Pristine E ∧ parse le raw =
      (parseIPv6 le raw.data raw.data.length E 14 >>= fun l3 =>
        if !l3.ok then pure (false, { l3.parsed with is_malformed := true })
        else parseTransport le raw.data raw.data.length l3.parsed l3.offset) := by
  refine ⟨{ ({ timestamp_sec := raw.header.ts_sec, timestamp_usec := raw.header.ts_usec } :
      ParsedPacket) with
    dest_mac := macToString ((raw.data.drop 0).take 6)
    src_mac := macToString ((raw.data.drop (0 + 6)).take 6)
    ether_type := wire16 raw.data 12 }, ⟨rfl, rfl, rfl, rfl, rfl, rfl, rfl, rfl, rfl, rfl, rfl,
      rfl, rfl, rfl, rfl⟩, ?_⟩
  have h0 : ¬ (raw.data.length = 0) := by omega
  have hne : ¬ ((0x86DD : Nat) = 0x0800) := by decide
  unfold parse
  simp only [h0, if_false, parseEthernet_eq le raw.data _ hlen, ok_bind, Bool.not_true,
    Bool.false_eq_true, het, EtherType.IPv4, EtherType.IPv6, hne, if_true]

theorem parse_ipv4_bad (le : Bool) (raw : RawPacket) (hlen : 14 ≤ raw.data.length)
    (het : wire16 raw.data 12 = 0x0800) (hbad : ipv4HeaderBad raw.data) :
    ∃ p, parse le raw = .ok (false, p) ∧ p.is_malformed = true := by
  obtain ⟨E, -, hp⟩ := parse_ipv4_frame le raw hlen het
  rw [hp]
  unfold ipv4HeaderBad ihlBytes at hbad
  by_cases hs : raw.data.length < 14 + 20
  · rw [parseIPv4_short le raw.data E 14 hs]
    exact ⟨_, rfl, rfl⟩
  · rw [parseIPv4_eq le raw.data E 14 (by omega)]
    have hc : byteOf raw.data 14 / 16 ≠ 4 ∨ byteOf raw.data 14 % 16 * 4 < 20 ∨
        raw.data.length < 14 + byteOf raw.data 14 % 16 * 4 := by
      rcases hbad with h | h | h | h
      · omega
      · exact Or.inl h
      · exact Or.inr (Or.inl h)
      · exact Or.inr (Or.inr (by omega))
    rw [if_pos hc]
    exact ⟨_, rfl, rfl⟩

theorem parse_ipv4_good (le : Bool) (raw : RawPacket) (hlen : 14 ≤ raw.data.length)
    (het : wire16 raw.data 12 = 0x0800) (hgood : ¬ ipv4HeaderBad raw.data) :
    ∃ P, PristineL4 P ∧ P.has_ip = true ∧ P.has_ipv4 = true ∧ P.ttl = byteOf raw.data 22 ∧
      P.protocol = byteOf raw.data 23 ∧
      P.is_fragmented = decide (ipv4Fragmented raw.data) ∧
      parse le raw = parseTransport le raw.data raw.data.length P (14 + ihlBytes raw.data) := by
  obtain ⟨E, hE, hp⟩ := parse_ipv4_frame le raw hlen het
  unfold ipv4HeaderBad ihlBytes at hgood
  have hc : ¬ (byteOf raw.data 14 / 16 ≠ 4 ∨ byteOf raw.data 14 % 16 * 4 < 20 ∨
      raw.data.length < 14 + byteOf raw.data 14 % 16 * 4) := by
    intro h
    apply hgood
    rcases h with h | h | h
    · exact Or.inr (Or.inl h)
    · exact Or.inr (Or.inr (Or.inl h))
    · exact Or.inr (Or.inr (Or.inr (by omega)))
  rw [hp, parseIPv4_eq le raw.data E 14 (by omega), if_neg hc]
  simp only [ok_bind, Bool.not_true, Bool.false_eq_true, if_false]
  refine ⟨_, ?_, ?_, ?_, ?_, ?_, ?_, rfl⟩
  · exact ⟨hE.has_tcp, hE.has_udp, hE.src_port, hE.dest_port, hE.tcp_flags, hE.seq_number,
      hE.ack_number, hE.payload_length, hE.payload_data, hE.is_malformed⟩
  · rfl
  · rfl
  · rfl
  · rfl
  simp only [hE.is_fragmented, ipv4Fragmented]
  by_cases h1 : wire16 raw.data 20 &&& 0x2000 ≠ 0 <;>
    by_cases h2 : wire16 raw.data 20 &&& 0x1FFF ≠ 0 <;> simp [h1, h2]

end PacketParser

/-! ## `parse`: the transport stage, and the IPv6 path -/

namespace PacketParser

theorem transport_fragmented (le : Bool) (data : Bytes) (P : ParsedPacket) (off : Nat)
    (hf : P.is_fragmented = true) :
    parseTransport le data data.length P off = .ok (true, setPayload P off data.length) := by
  simp [parseTransport, hf]

theorem transport_other (le : Bool) (data : Bytes) (P : ParsedPacket) (off : Nat)
    (hf : P.is_fragmented = false) (h6 : P.protocol ≠ 6) (h17 : P.protocol ≠ 17) :
    parseTransport le data data.length P off = .ok (true, setPayload P off data.length) := by
  simp [parseTransport, hf, Protocol.TCP, Protocol.UDP, h6, h17]

theorem transport_tcp_bad (le : Bool) (data : Bytes) (P : ParsedPacket) (off : Nat)
    (hf : P.is_fragmented = false) (h6 : P.protocol = 6) (hbad : tcpHeaderBad data off) :
    ∃ p, parseTransport le data data.length P off = .ok (false, p) ∧ p.is_malformed = true ∧
      p.protocol = P.protocol ∧ p.is_fragmented = P.is_fragmented := by
  unfold tcpHeaderBad tcpHeaderBytes at hbad
  unfold parseTransport
  simp only [hf, Bool.false_eq_true, if_false, h6, Protocol.TCP, if_true]
  by_cases hs : data.length < off + 20
  · rw [parseTCP_short le data P off hs]
    refine ⟨_, rfl, ?_, ?_, ?_⟩ <;> first | rfl | assumption
  · rw [parseTCP_eq le data P off (by omega)]
    have hc : byteOf data (off + 12) / 16 * 4 < 20 ∨
        data.length < off + byteOf data (off + 12) / 16 * 4 := by
      rcases hbad with h | h | h
      · omega
      · exact Or.inl h
      · exact Or.inr (by omega)
    rw [if_pos hc]
    refine ⟨_, rfl, ?_, ?_, ?_⟩ <;> first | rfl | assumption

theorem transport_tcp_good (le : Bool) (data : Bytes) (P : ParsedPacket) (off : Nat)
    (hf : P.is_fragmented = false) (h6 : P.protocol = 6) (hgood : ¬ tcpHeaderBad data off) :
    parseTransport le data data.length P off
      = .ok (true, setPayload (withTCP P data off) (off + tcpHeaderBytes data off)
          data.length) := by
  unfold tcpHeaderBad tcpHeaderBytes at hgood
  unfold parseTransport
  simp only [hf, Bool.false_eq_true, if_false, h6, Protocol.TCP, if_true]
  have hc : ¬ (byteOf data (off + 12) / 16 * 4 < 20 ∨
      data.length < off + byteOf data (off + 12) / 16 * 4) := by
    intro h
    apply hgood
    rcases h with h | h
    · exact Or.inr (Or.inl h)
    · exact Or.inr (Or.inr (by omega))
  rw [parseTCP_eq le data P off (by omega), if_neg hc]
  rfl

theorem transport_udp_bad (le : Bool) (data : Bytes) (P : ParsedPacket) (off : Nat)
    (hf : P.is_fragmented = false) (h17 : P.protocol = 17) (hbad : udpHeaderBad data off) :
    ∃ p, parseTransport le data data.length P off = .ok (false, p) ∧ p.is_malformed = true ∧
      p.protocol = P.protocol ∧ p.is_fragmented = P.is_fragmented := by
  unfold udpHeaderBad at hbad
  have hne : ¬ ((17 : Nat) = 6) := by decide
  unfold parseTransport
  simp only [hf, Bool.false_eq_true, if_false, h17, Protocol.TCP, Protocol.UDP, hne, if_true]
  rw [parseUDP_short le data P off (by omega)]
  refine ⟨_, rfl, ?_, ?_, ?_⟩ <;> first | rfl | assumption

theorem transport_udp_good (le : Bool) (data : Bytes) (P : ParsedPacket) (off : Nat)
    (hf : P.is_fragmented = false) (h17 : P.protocol = 17) (hgood : ¬ udpHeaderBad data off) :
    parseTransport le data data.length P off
      = .ok (true, setPayload (withUDP P data off) (off + 8) data.length) := by
  unfold udpHeaderBad at hgood
  have hne : ¬ ((17 : Nat) = 6) := by decide
  unfold parseTransport
  simp only [hf, Bool.false_eq_true, if_false, h17, Protocol.TCP, Protocol.UDP, hne, if_true]
  rw [parseUDP_eq le data P off (by omega)]
  rfl

@[simp] theorem setPayload_is_malformed (P : ParsedPacket) (off len : Nat) :
    (setPayload P off len).is_malformed = P.is_malformed := by
  unfold setPayload; split_ifs <;> rfl

@[simp] theorem setPayload_has_ip (P : ParsedPacket) (off len : Nat) :
    (setPayload P off len).has_ip = P.has_ip := by
  unfold setPayload; split_ifs <;> rfl

@[simp] theorem setPayload_has_ipv4 (P : ParsedPacket) (off len : Nat) :
    (setPayload P off len).has_ipv4 = P.has_ipv4 := by
  unfold setPayload; split_ifs <;> rfl

@[simp] theorem setPayload_has_ipv6 (P : ParsedPacket) (off len : Nat) :
    (setPayload P off len).has_ipv6 = P.has_ipv6 := by
  unfold setPayload; split_ifs <;> rfl

@[simp] theorem setPayload_ttl (P : ParsedPacket) (off len : Nat) :
    (setPayload P off len).ttl = P.ttl := by
  unfold setPayload; split_ifs <;> rfl

@[simp] theorem setPayload_protocol (P : ParsedPacket) (off len : Nat) :
    (setPayload P off len).protocol = P.protocol := by
  unfold setPayload; split_ifs <;> rfl

@[simp] theorem setPayload_is_fragmented (P : ParsedPacket) (off len : Nat) :
    (setPayload P off len).is_fragmented = P.is_fragmented := by
  unfold setPayload; split_ifs <;> rfl

@[simp] theorem setPayload_has_tcp (P : ParsedPacket) (off len : Nat) :
    (setPayload P off len).has_tcp = P.has_tcp := by
  unfold setPayload; split_ifs <;> rfl

@[simp] theorem setPayload_has_udp (P : ParsedPacket) (off len : Nat) :
    (setPayload P off len).has_udp = P.has_udp := by
  unfold setPayload; split_ifs <;> rfl

@[simp] theorem setPayload_src_port (P : ParsedPacket) (off len : Nat) :
    (setPayload P off len).src_port = P.src_port := by
  unfold setPayload; split_ifs <;> rfl

@[simp] theorem setPayload_dest_port (P : ParsedPacket) (off len : Nat) :
    (setPayload P off len).dest_port = P.dest_port := by
  unfold setPayload; split_ifs <;> rfl

@[simp] theorem setPayload_seq_number (P : ParsedPacket) (off len : Nat) :
    (setPayload P off len).seq_number = P.seq_number := by
  unfold setPayload; split_ifs <;> rfl

@[simp] theorem setPayload_ack_number (P : ParsedPacket) (off len : Nat) :
    (setPayload P off len).ack_number = P.ack_number := by
  unfold setPayload; split_ifs <;> rfl

@[simp] theorem setPayload_tcp_flags (P : ParsedPacket) (off len : Nat) :
    (setPayload P off len).tcp_flags = P.tcp_flags := by
  unfold setPayload; split_ifs <;> rfl

theorem setPayload_payload_length (P : ParsedPacket) (off len : Nat)
    (h0 : P.payload_length = 0) (hle : off ≤ len) :
    (setPayload P off len).payload_length = len - off := by
  unfold setPayload
  split_ifs with h
  · rfl
  · rw [h0]; omega

theorem setPayload_payload_data (P : ParsedPacket) (off len : Nat)
    (h0 : P.payload_data = none) :
    (setPayload P off len).payload_data = if off < len then some off else none := by
  unfold setPayload
  split_ifs with h
  · rfl
  · exact h0


theorem parse_ipv6_short (le : Bool) (raw : RawPacket) (hlen : 14 ≤ raw.data.length)
    (het : wire16 raw.data 12 = 0x86DD) (hs : raw.data.length - 14 < 40) :
    ∃ p, parse le raw = .ok (false, p) ∧ p.is_malformed = true := by
  obtain ⟨E, -, hp⟩ := parse_ipv6_frame le raw hlen het
  rw [hp, parseIPv6_short le raw.data E 14 (by omega)]
  exact ⟨_, rfl, rfl⟩

theorem parse_ipv6_good (le : Bool) (raw : RawPacket) (hlen : 14 ≤ raw.data.length)
    (het : wire16 raw.data 12 = 0x86DD) (hl : 40 ≤ raw.data.length - 14) :
    ∃ P, PristineL4 P ∧ P.has_ip = true ∧ P.has_ipv6 = true ∧
      P.protocol = byteOf raw.data 20 ∧
      P.is_fragmented = decide (byteOf raw.data 20 = 44) ∧
      parse le raw = parseTransport le raw.data raw.data.length P 54 := by
  obtain ⟨E, hE, hp⟩ := parse_ipv6_frame le raw hlen het
  rw [hp, parseIPv6_eq le raw.data E 14 (by omega)]
  simp only [ok_bind, Bool.not_true, Bool.false_eq_true, if_false]
  refine ⟨_, ?_, ?_, ?_, ?_, ?_, rfl⟩
  · exact ⟨hE.has_tcp, hE.has_udp, hE.src_port, hE.dest_port, hE.tcp_flags, hE.seq_number,
      hE.ack_number, hE.payload_length, hE.payload_data, hE.is_malformed⟩
  · rfl
  · rfl
  · rfl
  simp only [hE.is_fragmented]
  by_cases h1 : byteOf raw.data (14 + 6) = 44 <;> simp [h1]
end PacketParser

/-! ## Five-tuples and capture files -/

theorem FiveTuple.eq_iff (a b : FiveTuple) : a.eq b = true ↔ a = b := by
  cases a; cases b
  simp [FiveTuple.eq]
  tauto

namespace PcapReader

theorem maybeSwap32_eq (r : PcapReader) (hsw : r.needs_byte_swap_ = true) (v : Nat) :
    r.maybeSwap32 v = byteSwap32 v := by
  have m0 : v &&& 0x000000FF = v % 256 := by
    have := and_mask v 0
    simp only [Nat.shiftLeft_zero, Nat.shiftRight_zero] at this
    rw [this]
  have m1 : v &&& 0x0000FF00 = (v / 2 ^ 8 % 256) * 2 ^ 8 := by
    have := and_mask v 8
    rw [show (255 : Nat) <<< 8 = 0x0000FF00 from rfl, Nat.shiftRight_eq_div_pow,
      Nat.shiftLeft_eq] at this
    exact this
  have m2 : v &&& 0x00FF0000 = (v / 2 ^ 16 % 256) * 2 ^ 16 := by
    have := and_mask v 16
    rw [show (255 : Nat) <<< 16 = 0x00FF0000 from rfl, Nat.shiftRight_eq_div_pow,
      Nat.shiftLeft_eq] at this
    exact this
  have m3 : v &&& 0xFF000000 = (v / 2 ^ 24 % 256) * 2 ^ 24 := by
    have := and_mask v 24
    rw [show (255 : Nat) <<< 24 = 0xFF000000 from rfl, Nat.shiftRight_eq_div_pow,
      Nat.shiftLeft_eq] at this
    exact this
  unfold maybeSwap32 byteSwap32
  simp only [hsw, Bool.not_true, Bool.false_eq_true, if_false]
  rw [m0, m1, m2, m3]
  simp only [Nat.shiftLeft_eq, Nat.shiftRight_eq_div_pow]
  have e3 : (v / 2 ^ 24 % 256) * 2 ^ 24 / 2 ^ 24 = v / 2 ^ 24 % 256 := by omega
  have e2 : (v / 2 ^ 16 % 256) * 2 ^ 16 / 2 ^ 8 = (v / 2 ^ 16 % 256) * 2 ^ 8 := by omega
  rw [e3, e2]
  rw [Nat.or_comm (v / 2 ^ 24 % 256) _,
    or_disjoint (v / 2 ^ 16 % 256 * 2 ^ 8) (v / 2 ^ 24 % 256) 8 (by omega) (by omega),
    Nat.or_comm _ (v / 2 ^ 8 % 256 * 2 ^ 8 * 2 ^ 8),
    or_disjoint (v / 2 ^ 8 % 256 * 2 ^ 8 * 2 ^ 8) _ 16 (by omega) (by omega),
    Nat.or_comm _ (v % 256 * 2 ^ 24),
    or_disjoint (v % 256 * 2 ^ 24) _ 24 (by omega) (by omega)]
  omega

theorem maybeSwap32_on (f : Option IFStream) (g : PcapGlobalHeader) (v : Nat) :
    (⟨f, g, true⟩ : PcapReader).maybeSwap32 v = byteSwap32 v :=
  maybeSwap32_eq _ rfl v

theorem maybeSwap32_off (f : Option IFStream) (g : PcapGlobalHeader) (v : Nat) :
    (⟨f, g, false⟩ : PcapReader).maybeSwap32 v = v := by
  simp [maybeSwap32]

theorem hostBytes_length (le : Bool) (w v : Nat) : (hostBytes le w v).length = w := by
  induction w generalizing v with
  | zero => rfl
  | succ w ih =>
    unfold hostBytes
    split_ifs <;> simp [ih]

theorem packetHeader_toBytes_length (le : Bool) (h : PcapPacketHeader) :
    (h.toBytes le).length = 16 := by
  simp [PcapPacketHeader.toBytes, hostBytes_length]

theorem readNextPacket_short (le : Bool) (r : PcapReader) (s : IFStream) (packet : RawPacket)
    (hs : r.file_ = some s) (hg : s.good = true) (hshort : s.content.length < s.pos + 16) :
    (r.readNextPacket le packet).1 = false ∧ (r.readNextPacket le packet).2.1.data = packet.data := by
  have hc : ¬ (s.pos + 16 ≤ s.content.length) := by omega
  simp [readNextPacket, hs, IFStream.read, hg, hc]

theorem readNextPacket_header (le : Bool) (r : PcapReader) (s : IFStream) (packet : RawPacket)
    (hs : r.file_ = some s) (hg : s.good = true) (h16 : s.pos + 16 ≤ s.content.length) :
    r.readNextPacket le packet =
      (if (correctedHeader le r s).incl_len > r.global_header_.snaplen ∨
          (correctedHeader le r s).incl_len > 65535 then
        (false, { packet with header := correctedHeader le r s },
          { r with file_ := some { s with pos := s.pos + 16 } })
      else
        let rd := IFStream.read { s with pos := s.pos + 16 } (correctedHeader le r s).incl_len
        let resized := packet.data.take (correctedHeader le r s).incl_len ++
          List.replicate ((correctedHeader le r s).incl_len - packet.data.length) 0
        (rd.2.good, { header := correctedHeader le r s, data := rd.1 ++ resized.drop rd.1.length },
          { r with file_ := some rd.2 })) := by
  have hrd : IFStream.read s 16 = ((s.content.drop s.pos).take 16, { s with pos := s.pos + 16 }) := by
    simp [IFStream.read, hg, h16]
  have hlen : ((s.content.drop s.pos).take 16).length = 16 := by
    simp only [List.length_take, List.length_drop]; omega
  have hdrop : (packet.header.toBytes le).drop 16 = [] :=
    List.drop_eq_nil_of_le (by rw [packetHeader_toBytes_length])
  unfold readNextPacket correctedHeader
  simp only [hs, hrd, hlen, hdrop, List.append_nil, hg, Bool.not_true, Bool.false_eq_true,
    if_false]
  by_cases hsw : r.needs_byte_swap_ = true
  · simp only [hsw, if_true, maybeSwap32_on]
    split_ifs with h1 h2 <;> simp_all
  · have hsw3 : r.needs_byte_swap_ = false := by simpa using hsw
    simp only [hsw3, Bool.false_eq_true, if_false]
    split_ifs with h1 h2 <;> simp_all

end PcapReader

/-! ## ThreadSafeQueue -/

namespace ThreadSafeQueue

variable {T : Type}

theorem updateMetricsOnPush_queue (q : ThreadSafeQueue T) :
    q.updateMetricsOnPush.queue_ = q.queue_ ∧
    q.updateMetricsOnPush.max_size_ = q.max_size_ ∧
    q.updateMetricsOnPush.shutdown_ = q.shutdown_ ∧
    q.updateMetricsOnPush.total_pushes_ = (q.total_pushes_ + 1) % 2 ^ 64 ∧
    q.updateMetricsOnPush.total_pops_ = q.total_pops_ ∧
    q.updateMetricsOnPush.max_depth_ = max q.max_depth_ q.queue_.length := by
  unfold updateMetricsOnPush
  simp only
  split_ifs with h
  · refine ⟨rfl, rfl, rfl, rfl, rfl, ?_⟩
    simp only; omega
  · refine ⟨rfl, rfl, rfl, rfl, rfl, ?_⟩
    simp only at h ⊢; omega

theorem takeFront_nil (q : ThreadSafeQueue T) (h : q.queue_ = []) : q.takeFront = (none, q) := by
  unfold takeFront; rw [h]

theorem takeFront_cons (q : ThreadSafeQueue T) (x : T) (rest : List T)
    (h : q.queue_ = x :: rest) :
    q.takeFront
      = (some x, { q with queue_ := rest, total_pops_ := (q.total_pops_ + 1) % 2 ^ 64 }) := by
  unfold takeFront; rw [h]

theorem tryPush_room (q : ThreadSafeQueue T) (item : T) (hs : q.shutdown_ = false)
    (hr : q.queue_.length < q.max_size_) :
    q.tryPush item = (true, updateMetricsOnPush { q with queue_ := q.queue_ ++ [item] }) := by
  simp [tryPush, hs, hr]

theorem tryPush_refused (q : ThreadSafeQueue T) (item : T)
    (h : q.max_size_ ≤ q.queue_.length ∨ q.shutdown_ = true) :
    q.tryPush item = (false, q) := by
  unfold tryPush
  rcases h with h | h
  · simp [h]
  · simp [h]

theorem popWithTimeout_cons (q : ThreadSafeQueue T) (x : T) (rest : List T)
    (h : q.queue_ = x :: rest) :
    q.popWithTimeout = (some x,
      { q with queue_ := rest, total_pops_ := (q.total_pops_ + 1) % 2 ^ 64 }) := by
  simp [popWithTimeout, h, takeFront_cons q x rest h]

theorem popWithTimeout_nil (q : ThreadSafeQueue T) (h : q.queue_ = []) :
    q.popWithTimeout = (none, q) := by
  unfold popWithTimeout
  split_ifs
  · rfl
  · exact takeFront_nil q h

end ThreadSafeQueue

/-! ## updateTCPState -/

namespace FastPathProcessor

/-- The outcome of `updateTCPState` in closed form. -/
theorem updateTCPState_eq (conn : Connection) (f : Nat) :
    (updateTCPState conn f).syn_seen
      = (conn.syn_seen || (flagSet f SYN && !flagSet f ACK)) ∧
    (updateTCPState conn f).syn_ack_seen
      = (conn.syn_ack_seen || (flagSet f SYN && flagSet f ACK)) ∧
    (updateTCPState conn f).fin_seen = (conn.fin_seen || flagSet f FIN) ∧
    (updateTCPState conn f).state
      = if flagSet f RST || ((conn.fin_seen || flagSet f FIN) && flagSet f ACK) then
          ConnectionState.CLOSED
        else if conn.state = ConnectionState.NEW ∧ flagSet f ACK = true ∧
            (conn.syn_seen || (flagSet f SYN && !flagSet f ACK)) = true ∧
            (conn.syn_ack_seen || (flagSet f SYN && flagSet f ACK)) = true then
          ConnectionState.ESTABLISHED
        else conn.state := by
  unfold updateTCPState
  cases hs : flagSet f SYN <;> cases ha : flagSet f ACK <;> cases hf : flagSet f FIN <;>
    cases hr : flagSet f RST <;> cases h1 : conn.syn_seen <;> cases h2 : conn.syn_ack_seen <;>
    cases h3 : conn.fin_seen <;> cases h4 : conn.state <;> simp [h1, h2, h3, h4]

end FastPathProcessor

/-! ## LoadBalancer and LBManager -/

namespace LBManager

theorem create_lbs (K : Nat) (fpq : List (Option Nat)) (silent : Bool) (N : Nat) :
    (create N K fpq silent).lbs_
      = (List.range N).map (fun j => LoadBalancer.create j (sliceFor K fpq j) (j * K) silent) := by
  unfold create
  induction N with
  | zero => rfl
  | succ n ih =>
    rw [List.range_succ, List.foldl_append, List.map_append]
    simp only [List.foldl_cons, List.foldl_nil, List.map_cons, List.map_nil]
    rw [ih]

theorem create_length (N K : Nat) (fpq : List (Option Nat)) (silent : Bool) :
    (create N K fpq silent).lbs_.length = N := by
  rw [create_lbs]; simp

theorem create_getElem (N K : Nat) (fpq : List (Option Nat)) (silent : Bool) (j : Nat)
    (hj : j < N) :
    (create N K fpq silent).lbs_[j]?
      = some (LoadBalancer.create j (sliceFor K fpq j) (j * K) silent) := by
  rw [create_lbs]
  simp [hj]

theorem sliceFor_upto (K : Nat) (fpq : List (Option Nat)) (j : Nat) (n : Nat)
    (h : j * K + n ≤ fpq.length) :
    (List.range n).foldl (fun lb_fp_queues i =>
        if j * K + i ≥ fpq.length then lb_fp_queues
        else lb_fp_queues ++ [fpq.getD (j * K + i) none]) []
      = (List.range n).map (fun i => fpq.getD (j * K + i) none) := by
  induction n with
  | zero => rfl
  | succ n ih =>
    rw [List.range_succ, List.foldl_append, List.map_append, ih (by omega)]
    have : ¬ (j * K + n ≥ fpq.length) := by omega
    simp [this]

theorem sliceFor_full (K : Nat) (fpq : List (Option Nat)) (j : Nat)
    (h : j * K + K ≤ fpq.length) :
    sliceFor K fpq j = (List.range K).map (fun i => fpq.getD (j * K + i) none) := by
  unfold sliceFor
  exact sliceFor_upto K fpq j K h

theorem sliceFor_all (N K j : Nat) (hj : j < N) :
    sliceFor K (FPManager.getQueuePtrs (N * K)) j
      = (List.range K).map (fun i => some (j * K + i)) := by
  have hle : j * K + K ≤ N * K := by
    calc j * K + K = (j + 1) * K := by ring
      _ ≤ N * K := Nat.mul_le_mul_right K hj
  rw [sliceFor_full K _ j (by simpa [FPManager.getQueuePtrs] using hle)]
  apply List.map_congr_left
  intro i hi
  have hi : i < K := List.mem_range.mp hi
  have : j * K + i < N * K := by omega
  simp [FPManager.getQueuePtrs, List.getD, this]

/-- The two-stage route in the engine's configuration: `N` load balancers over the
`N * K` fast-path queues. -/
theorem route_eq (N K : Nat) (silent : Bool) (T : FiveTuple) (hN : 0 < N) (hK : 0 < K) :
    (create N K (FPManager.getQueuePtrs (N * K)) silent).route T
      = some ((FiveTupleHash T % N) * K + FiveTupleHash T % K) := by
  have hj : FiveTupleHash T % N < N := Nat.mod_lt _ hN
  have hi : FiveTupleHash T % K < K := Nat.mod_lt _ hK
  unfold route getLBForPacket
  simp only [create_length, Nat.pos_iff_ne_zero.mp hN, if_false,
    create_getElem N K _ silent _ hj, sliceFor_all N K _ hj]
  simp [LoadBalancer.target, LoadBalancer.create, LoadBalancer.selectFP,
    Nat.pos_iff_ne_zero.mp hK, hi, List.getD]

end LBManager

/-! ## The reader thread -/

namespace DPIEngine

open PacketParser

/-- A call of `readNextPacket` that returns true consumes at least the 16 bytes of a record
header. -/
theorem readNextPacket_progress (le : Bool) (reader : PcapReader) (raw : RawPacket)
    (h : (reader.readNextPacket le raw).1 = true) :
    unread (reader.readNextPacket le raw).2.2 + 16 ≤ unread reader := by
  cases hf : reader.file_ with
  | none => simp [PcapReader.readNextPacket, hf] at h
  | some s =>
    cases hg : s.good with
    | false => simp [PcapReader.readNextPacket, hf, IFStream.read, hg] at h
    | true =>
      by_cases h16 : s.pos + 16 ≤ s.content.length
      · rw [PcapReader.readNextPacket_header le reader s raw hf hg h16] at h ⊢
        split_ifs at h ⊢ with hbig
        by_cases hfit : s.pos + 16 + (PcapReader.correctedHeader le reader s).incl_len
            ≤ s.content.length
        · simp [unread, hf, hg, IFStream.read, hfit]
          omega
        · simp [IFStream.read, hg, hfit] at h
      · have := (PcapReader.readNextPacket_short le reader s raw hf hg (by omega)).1
        rw [this] at h
        exact absurd h (by simp)

theorem accepted_iff (le : Bool) (raw : RawPacket) (ok : Bool) (parsed : ParsedPacket)
    (h : parse le raw = .ok (ok, parsed)) :
    accepted le raw = (ok && keeps parsed) := by
  unfold accepted keeps
  rw [h]
  cases ok <;> cases h1 : parsed.has_ip <;> cases h2 : parsed.has_tcp <;>
    cases h3 : parsed.has_udp <;> simp [h1, h2, h3]

theorem jobOffsets_fields (parsed : ParsedPacket) (job job1 : PacketJob)
    (h : jobOffsets parsed job = .ok job1) :
    job1.data = job.data ∧ job1.packet_id = job.packet_id ∧ job1.tuple = job.tuple ∧
    job1.tcp_flags = job.tcp_flags ∧ job1.ts_sec = job.ts_sec ∧ job1.ts_usec = job.ts_usec := by
  unfold jobOffsets at h
  cases h14 : byteAt job.data 14 with
  | error f => simp [h14] at h
  | ok b =>
    simp only [h14] at h
    split_ifs at h with c1 c2 c3 c4
    all_goals first
      | (cases h12 : byteAt job.data (14 + (b &&& 0x0F) * 4 + 12) with
          | error f => simp [h12] at h
          | ok b12 =>
            simp only [h12, Except.ok.injEq] at h
            try split_ifs at h
            all_goals (subst h; exact ⟨rfl, rfl, rfl, rfl, rfl, rfl⟩))
      | (simp only [Except.ok.injEq] at h
         try split_ifs at h
         all_goals (subst h; exact ⟨rfl, rfl, rfl, rfl, rfl, rfl⟩))

theorem createPacketJob_fields (raw : RawPacket) (parsed : ParsedPacket) (packet_id : Nat)
    (job : PacketJob) (h : createPacketJob raw parsed packet_id = .ok job) :
    job.data = raw.data ∧ job.packet_id = packet_id ∧
    job.tuple = { src_ip := parseIP parsed.src_ip, dst_ip := parseIP parsed.dest_ip,
                  src_port := parsed.src_port, dst_port := parsed.dest_port,
                  protocol := parsed.protocol } ∧
    job.tcp_flags = parsed.tcp_flags ∧ job.ts_sec = raw.header.ts_sec ∧
    job.ts_usec = raw.header.ts_usec := by
  unfold createPacketJob at h
  simp only at h
  split_ifs at h
  · exact jobOffsets_fields parsed _ job h
  · simp only [Except.ok.injEq] at h
    subst h
    exact ⟨rfl, rfl, rfl, rfl, rfl, rfl⟩

theorem jobOffsets_packet_id (parsed : ParsedPacket) (job : PacketJob) (id : Nat) :
    jobOffsets parsed { job with packet_id := id }
      = (jobOffsets parsed job).map (fun j => { j with packet_id := id }) := by
  unfold jobOffsets
  simp only
  cases h14 : byteAt job.data 14 with
  | error f => rfl
  | ok b =>
    simp only
    split_ifs <;> (try cases byteAt job.data (14 + (b &&& 0x0F) * 4 + 12)) <;>
      ((try simp only [Except.map]); (try split_ifs)) <;> rfl

theorem createPacketJob_packet_id (raw : RawPacket) (parsed : ParsedPacket) (id : Nat) :
    createPacketJob raw parsed id
      = (createPacketJob raw parsed 0).map (fun j => { j with packet_id := id }) := by
  unfold createPacketJob
  simp only
  split_ifs
  · exact jobOffsets_packet_id parsed
      { packet_id := 0
        ts_sec := raw.header.ts_sec
        ts_usec := raw.header.ts_usec
        tuple :=
          { src_ip := parseIP parsed.src_ip
            dst_ip := parseIP parsed.dest_ip
            src_port := parsed.src_port
            dst_port := parsed.dest_port
            protocol := parsed.protocol }
        tcp_flags := parsed.tcp_flags
        data := raw.data
        eth_offset := 0
        ip_offset := 14 } id
  · rfl

theorem jobBuilt_ok (le : Bool) (raw : RawPacket) (ok : Bool) (parsed : ParsedPacket)
    (hp : parse le raw = .ok (ok, parsed)) (hb : jobBuilt le raw = true) (id : Nat) :
    ∃ job, createPacketJob raw parsed id = .ok job := by
  unfold jobBuilt at hb
  rw [hp] at hb
  simp only at hb
  rw [createPacketJob_packet_id]
  cases h0 : createPacketJob raw parsed 0 with
  | error f => simp [h0] at hb
  | ok j => exact ⟨_, rfl⟩

theorem enqueue_ok (e : DPIEngine) (raw : RawPacket) (parsed : ParsedPacket) (pid : Nat)
    (job : PacketJob) (hN : 0 < e.lb_manager_.lbs_.length)
    (hjob : createPacketJob raw parsed pid = .ok job) :
    ∃ e1, enqueue e raw parsed pid = .ok (e1, (pid + 1) % 2 ^ 32) ∧
      e1.lb_manager_ = e.lb_manager_ ∧ e1.output_file_ = e.output_file_ ∧
      e1.enqueued
        = e.enqueued ++ [(FiveTupleHash job.tuple % e.lb_manager_.lbs_.length, job)] ∧
      e1.stats_.total_packets = (e.stats_.total_packets + 1) % 2 ^ 64 ∧
      e1.stats_.total_bytes = (e.stats_.total_bytes + raw.data.length) % 2 ^ 64 ∧
      e1.stats_.malformed_packets = e.stats_.malformed_packets ∧
      e1.stats_.forwarded_packets = e.stats_.forwarded_packets ∧
      e1.stats_.dropped_packets = e.stats_.dropped_packets := by
  have h0 : e.lb_manager_.lbs_.length ≠ 0 := Nat.pos_iff_ne_zero.mp hN
  unfold enqueue
  simp only [hjob, LBManager.getLBForPacket, h0, if_false]
  refine ⟨_, rfl, rfl, rfl, rfl, ?_, ?_, ?_, ?_, ?_⟩ <;> (simp only; split_ifs <;> rfl)

theorem readerLoop_spec (le : Bool) :
    ∀ (fuel : Nat) (e : DPIEngine) (reader : PcapReader) (raw : RawPacket) (pid : Nat),
      unread reader < fuel → pid < 2 ^ 32 → 0 < e.lb_manager_.lbs_.length →
      (∀ rec ∈ records le fuel reader raw, ∀ p, parse le rec = .ok (true, p) →
        keeps p = true → ∀ id, ∃ job, createPacketJob rec p id = .ok job) →
      ∃ e1 r1 jobs, readerLoop le fuel e reader raw pid
          = .ok (e1, r1,
              (pid + ((records le fuel reader raw).filter (accepted le)).length) % 2 ^ 32) ∧
        e1.lb_manager_ = e.lb_manager_ ∧ e1.output_file_ = e.output_file_ ∧
        e1.enqueued = e.enqueued ++ jobs ∧
        jobs.map (fun x => x.2.data)
          = ((records le fuel reader raw).filter (accepted le)).map (fun r => r.data) ∧
        jobs.map (fun x => x.2.packet_id)
          = (List.range ((records le fuel reader raw).filter (accepted le)).length).map
              (fun k => (pid + k) % 2 ^ 32) ∧
        (∀ x ∈ jobs, e.lb_manager_.getLBForPacket x.2.tuple = some x.1) := by
  intro fuel
  induction fuel with
  | zero => intro e reader raw pid h; omega
  | succ fuel ih =>
    intro e reader raw pid hfuel hpid hN hjobs
    cases hrd : (reader.readNextPacket le raw).1 with
    | false =>
      refine ⟨e, (reader.readNextPacket le raw).2.2, [], ?_, rfl, rfl, by simp, ?_, ?_, ?_⟩
      · simp [readerLoop, records, hrd]
        omega
      · simp [records, hrd]
      · simp [records, hrd]
      · simp
    | true =>
      have hprog := readNextPacket_progress le reader raw hrd
      have hfuel1 : unread (reader.readNextPacket le raw).2.2 < fuel := by omega
      obtain ⟨⟨ok, parsed⟩, hp⟩ := parse_ok le (reader.readNextPacket le raw).2.1
      have hacc := accepted_iff le _ ok parsed hp
      have hrec : records le (fuel + 1) reader raw
          = (reader.readNextPacket le raw).2.1 ::
            records le fuel (reader.readNextPacket le raw).2.2 (reader.readNextPacket le raw).2.1 := by
        simp [records, hrd]
      have hjobs1 : ∀ rec ∈ records le fuel (reader.readNextPacket le raw).2.2
            (reader.readNextPacket le raw).2.1, ∀ p, parse le rec = .ok (true, p) →
          keeps p = true → ∀ id, ∃ job, createPacketJob rec p id = .ok job := by
        intro rec hmem
        exact hjobs rec (by rw [hrec]; exact List.mem_cons_of_mem _ hmem)
      by_cases hkeep : (ok && keeps parsed) = true
      · -- the record goes on to createPacketJob
        have hok : ok = true := by
          cases ok with
          | false => simp at hkeep
          | true => rfl
        subst hok
        have hk : keeps parsed = true := by simpa using hkeep
        obtain ⟨job, hjob⟩ := hjobs (reader.readNextPacket le raw).2.1
          (by rw [hrec]; exact List.mem_cons_self _ _) parsed hp hk pid
        obtain ⟨e1, he1, hlb, hout, henq, -⟩ := enqueue_ok e _ parsed pid job hN hjob
        obtain ⟨e2, r2, jobs, hloop, h1, h2, h3, h4, h5, h6⟩ :=
          ih e1 (reader.readNextPacket le raw).2.2 (reader.readNextPacket le raw).2.1
            ((pid + 1) % 2 ^ 32) hfuel1 (Nat.mod_lt _ (by norm_num)) (by rw [hlb]; exact hN)
            hjobs1
        have hfields := createPacketJob_fields _ parsed pid job hjob
        refine ⟨e2, r2, (FiveTupleHash job.tuple % e.lb_manager_.lbs_.length, job) :: jobs,
          ?_, h1.trans hlb, h2.trans hout, ?_, ?_, ?_, ?_⟩
        · rw [hrec, List.filter_cons_of_pos (by rw [hacc]; exact hkeep)]
          simp only [readerLoop, hrd, hp, hk, he1, hloop, List.length_cons]
          simp only [Bool.not_true, Bool.false_eq_true, if_false]
          congr 3
          omega
        · rw [h3, henq]; simp
        · rw [hrec, List.filter_cons_of_pos (by rw [hacc]; exact hkeep)]
          simp only [List.map_cons, h4, hfields.1]
        · rw [hrec, List.filter_cons_of_pos (by rw [hacc]; exact hkeep)]
          simp only [List.map_cons, h5, hfields.2.1, List.length_cons, List.range_succ_eq_map,
            List.map_map]
          congr 1
          · simp
            omega
          · apply List.map_congr_left
            intro k _
            simp only [Function.comp]
            omega
        · intro x hx
          rcases List.mem_cons.mp hx with rfl | hx
          · simp [LBManager.getLBForPacket, Nat.pos_iff_ne_zero.mp hN]
          · rw [← hlb]; exact h6 x hx
      · -- the record is skipped
        have hskip : accepted le (reader.readNextPacket le raw).2.1 = false := by
          rw [hacc]; simpa using hkeep
        obtain ⟨e2, r2, jobs, hloop, h1, h2, h3, h4, h5, h6⟩ :=
          ih e (reader.readNextPacket le raw).2.2 (reader.readNextPacket le raw).2.1 pid hfuel1
            hpid hN hjobs1
        refine ⟨e2, r2, jobs, ?_, h1, h2, h3, ?_, ?_, h6⟩
        · rw [hrec, List.filter_cons_of_neg (by rw [hskip]; simp)]
          simp only [readerLoop, hrd, hp, Bool.not_true, Bool.false_eq_true, if_false]
          cases ok with
          | false => simpa using hloop
          | true =>
            have hk : keeps parsed = false := by simpa using hkeep
            simpa [hk] using hloop
        · rw [hrec, List.filter_cons_of_neg (by rw [hskip]; simp)]; exact h4
        · rw [hrec, List.filter_cons_of_neg (by rw [hskip]; simp)]; exact h5

theorem parse_other_frame (le : Bool) (raw : RawPacket) (hlen : 14 ≤ raw.data.length)
    (h4 : wire16 raw.data 12 ≠ 0x0800) (h6 : wire16 raw.data 12 ≠ 0x86DD) :
    ∃ E, Pristine E ∧ parse le raw = parseTransport le raw.data raw.data.length E 14 := by
  refine ⟨{ ({ timestamp_sec := raw.header.ts_sec, timestamp_usec := raw.header.ts_usec } :
      ParsedPacket) with
    dest_mac := macToString ((raw.data.drop 0).take 6)
    src_mac := macToString ((raw.data.drop (0 + 6)).take 6)
    ether_type := wire16 raw.data 12 }, ⟨rfl, rfl, rfl, rfl, rfl, rfl, rfl, rfl, rfl, rfl, rfl,
      rfl, rfl, rfl, rfl⟩, ?_⟩
  have h0 : ¬ (raw.data.length = 0) := by omega
  unfold parse
  simp only [h0, if_false, parseEthernet_eq le raw.data _ hlen, ok_bind, Bool.not_true,
    Bool.false_eq_true, EtherType.IPv4, EtherType.IPv6, h4, h6, pure_eq_ok]

theorem accepted_malformed (le : Bool) (raw : RawPacket) (p : ParsedPacket)
    (h : parse le raw = .ok (false, p)) : accepted le raw = false := by
  rw [accepted_iff le raw false p h]; rfl

theorem accepted_of_plain (le : Bool) (raw : RawPacket) (P : ParsedPacket) (off : Nat)
    (h : parse le raw = .ok (true, setPayload P off raw.data.length))
    (htcp : P.has_tcp = false) (hudp : P.has_udp = false) : accepted le raw = false := by
  rw [accepted_iff le raw true _ h]
  simp [keeps, htcp, hudp]

theorem accepted_non_ip (le : Bool) (raw : RawPacket) (hlen : 14 ≤ raw.data.length)
    (h4 : wire16 raw.data 12 ≠ 0x0800) (h6 : wire16 raw.data 12 ≠ 0x86DD) :
    accepted le raw = false := by
  obtain ⟨E, hE, hp⟩ := parse_other_frame le raw hlen h4 h6
  rw [transport_other le raw.data E 14 hE.is_fragmented (by rw [hE.protocol]; decide)
    (by rw [hE.protocol]; decide)] at hp
  exact accepted_of_plain le raw E 14 hp hE.has_tcp hE.has_udp

theorem accepted_ipv4_fragment (le : Bool) (raw : RawPacket) (hlen : 14 ≤ raw.data.length)
    (het : wire16 raw.data 12 = 0x0800) (hfrag : ipv4Fragmented raw.data) :
    accepted le raw = false := by
  by_cases hbad : ipv4HeaderBad raw.data
  · obtain ⟨p, hp, -⟩ := parse_ipv4_bad le raw hlen het hbad
    exact accepted_malformed le raw p hp
  · obtain ⟨P, hP, -, -, -, -, hf, hp⟩ := parse_ipv4_good le raw hlen het hbad
    rw [transport_fragmented le raw.data P _ (by rw [hf]; simpa using hfrag)] at hp
    exact accepted_of_plain le raw P _ hp hP.has_tcp hP.has_udp

theorem accepted_ipv4_other (le : Bool) (raw : RawPacket) (hlen : 14 ≤ raw.data.length)
    (het : wire16 raw.data 12 = 0x0800) (h6 : byteOf raw.data 23 ≠ 6)
    (h17 : byteOf raw.data 23 ≠ 17) : accepted le raw = false := by
  by_cases hfrag : ipv4Fragmented raw.data
  · exact accepted_ipv4_fragment le raw hlen het hfrag
  by_cases hbad : ipv4HeaderBad raw.data
  · obtain ⟨p, hp, -⟩ := parse_ipv4_bad le raw hlen het hbad
    exact accepted_malformed le raw p hp
  · obtain ⟨P, hP, -, -, -, hpr, hf, hp⟩ := parse_ipv4_good le raw hlen het hbad
    rw [transport_other le raw.data P _ (by rw [hf]; simpa using hfrag) (by rw [hpr]; exact h6)
      (by rw [hpr]; exact h17)] at hp
    exact accepted_of_plain le raw P _ hp hP.has_tcp hP.has_udp

theorem accepted_ipv6_other (le : Bool) (raw : RawPacket) (hlen : 14 ≤ raw.data.length)
    (het : wire16 raw.data 12 = 0x86DD) (h6 : byteOf raw.data 20 ≠ 6)
    (h17 : byteOf raw.data 20 ≠ 17) : accepted le raw = false := by
  by_cases hs : raw.data.length - 14 < 40
  · obtain ⟨p, hp, -⟩ := parse_ipv6_short le raw hlen het hs
    exact accepted_malformed le raw p hp
  · obtain ⟨P, hP, -, -, hpr, hf, hp⟩ := parse_ipv6_good le raw hlen het (by omega)
    by_cases h44 : byteOf raw.data 20 = 44
    · rw [transport_fragmented le raw.data P _ (by rw [hf]; simpa using h44)] at hp
      exact accepted_of_plain le raw P _ hp hP.has_tcp hP.has_udp
    · rw [transport_other le raw.data P _ (by rw [hf]; simpa using h44) (by rw [hpr]; exact h6)
        (by rw [hpr]; exact h17)] at hp
      exact accepted_of_plain le raw P _ hp hP.has_tcp hP.has_udp

theorem accepted_short (le : Bool) (raw : RawPacket) (hlen : raw.data.length < 14) :
    accepted le raw = false := by
  obtain ⟨⟨ok, p⟩, hp⟩ := parse_ok le raw
  cases ok with
  | false => exact accepted_malformed le raw p hp
  | true =>
    exfalso
    unfold parse at hp
    by_cases h0 : raw.data.length = 0
    · simp [h0, pure_eq_ok] at hp
    · simp only [h0, if_false, parseEthernet_short le raw.data _ hlen, ok_bind, Bool.not_false,
        if_true, pure_eq_ok, Except.ok.injEq, Prod.mk.injEq] at hp
      simp at hp

theorem open_unread (le : Bool) (r : PcapReader) (file : Bytes) :
    unread (PcapReader.open le r (some file)).2 ≤ file.length := by
  unfold PcapReader.open
  simp only
  split_ifs <;> simp [unread, PcapReader.close, IFStream.read] <;> split_ifs <;> simp

/-- The job is built unless the frame ends within the first 13 bytes of what
`createPacketJob` takes for the TCP header. -/
theorem createPacketJob_ok (raw : RawPacket) (parsed : ParsedPacket) (id : Nat)
    (h : parsed.has_tcp = true → 14 + byteOf raw.data 14 % 16 * 4 < raw.data.length →
      14 + byteOf raw.data 14 % 16 * 4 + 12 < raw.data.length) :
    ∃ job, createPacketJob raw parsed id = .ok job := by
  unfold createPacketJob
  simp only
  split_ifs with h14
  · unfold jobOffsets
    simp only [byteAt_eq_byteOf raw.data 14 h14, Nat.and_pow_two_sub_one_eq_mod _ 4]
    split_ifs with c1
    all_goals first
      | exact ⟨_, rfl⟩
      | (simp only [Bool.and_eq_true, decide_eq_true_eq] at c1
         rw [byteAt_eq_byteOf raw.data _ (h c1.1 c1.2)]
         exact ⟨_, rfl⟩)
  · exact ⟨_, rfl⟩

theorem jobBuilt_of (le : Bool) (raw : RawPacket) (ok : Bool) (parsed : ParsedPacket)
    (hp : parse le raw = .ok (ok, parsed))
    (h : parsed.has_tcp = true → 14 + byteOf raw.data 14 % 16 * 4 < raw.data.length →
      14 + byteOf raw.data 14 % 16 * 4 + 12 < raw.data.length) :
    jobBuilt le raw = true := by
  obtain ⟨job, hj⟩ := createPacketJob_ok raw parsed 0 h
  unfold jobBuilt
  rw [hp]
  simp only [hj]

/-- On an accepted IPv4 frame `createPacketJob` finds the TCP header where `parse` found
it, so its reads stay inside the frame. -/
theorem jobBuilt_ipv4 (le : Bool) (raw : RawPacket) (hlen : 14 ≤ raw.data.length)
    (het : wire16 raw.data 12 = 0x0800) (hacc : accepted le raw = true) :
    jobBuilt le raw = true := by
  obtain ⟨⟨ok, p⟩, hp⟩ := parse_ok le raw
  rw [accepted_iff le raw ok p hp] at hacc
  have hok : ok = true := by
    cases ok with
    | false => simp at hacc
    | true => rfl
  subst hok
  refine jobBuilt_of le raw true p hp (fun htcp hlt => ?_)
  by_cases hbad : ipv4HeaderBad raw.data
  · obtain ⟨q, hq, -⟩ := parse_ipv4_bad le raw hlen het hbad
    rw [hp] at hq
    simp at hq
  · obtain ⟨P, hP, -, -, -, hpr, hf, hp2⟩ := parse_ipv4_good le raw hlen het hbad
    rw [hp] at hp2
    by_cases hfrag : ipv4Fragmented raw.data
    · rw [transport_fragmented le raw.data P _ (by rw [hf]; simpa using hfrag)] at hp2
      simp only [Except.ok.injEq, Prod.mk.injEq, true_and] at hp2
      rw [hp2, setPayload_has_tcp, hP.has_tcp] at htcp
      exact absurd htcp (by simp)
    · have hf0 : P.is_fragmented = false := by rw [hf]; simpa using hfrag
      by_cases h6 : P.protocol = 6
      · by_cases htb : tcpHeaderBad raw.data (14 + ihlBytes raw.data)
        · obtain ⟨q, hq, -⟩ := transport_tcp_bad le raw.data P _ hf0 h6 htb
          rw [hq] at hp2
          simp at hp2
        · unfold tcpHeaderBad ihlBytes at htb
          omega
      · by_cases h17 : P.protocol = 17
        · by_cases hub : udpHeaderBad raw.data (14 + ihlBytes raw.data)
          · obtain ⟨q, hq, -⟩ := transport_udp_bad le raw.data P _ hf0 h17 hub
            rw [hq] at hp2
            simp at hp2
          · rw [transport_udp_good le raw.data P _ hf0 h17 hub] at hp2
            simp only [Except.ok.injEq, Prod.mk.injEq, true_and] at hp2
            rw [hp2, setPayload_has_tcp] at htcp
            simp only [withUDP, hP.has_tcp] at htcp
            exact absurd htcp (by simp)
        · rw [transport_other le raw.data P _ hf0 h6 h17] at hp2
          simp only [Except.ok.injEq, Prod.mk.injEq, true_and] at hp2
          rw [hp2, setPayload_has_tcp, hP.has_tcp] at htcp
          exact absurd htcp (by simp)

end DPIEngine

/-! ## The hash finalizer -/

theorem xorshift33_lt (x : Nat) (h : x < 2 ^ 64) : x ^^^ (x >>> 33) < 2 ^ 64 := by
  apply Nat.xor_lt_two_pow h
  rw [Nat.shiftRight_eq_div_pow]
  exact lt_of_le_of_lt (Nat.div_le_self _ _) h

theorem xorshift33_involutive (x : Nat) (h : x < 2 ^ 64) :
    (x ^^^ (x >>> 33)) ^^^ ((x ^^^ (x >>> 33)) >>> 33) = x := by
  have h0 : x >>> 33 >>> 33 = 0 := by
    rw [← Nat.shiftRight_add, Nat.shiftRight_eq_div_pow]
    exact Nat.div_eq_of_lt (lt_trans h (by norm_num))
  have hd : (x ^^^ (x >>> 33)) >>> 33 = (x >>> 33) ^^^ (x >>> 33 >>> 33) := by
    apply Nat.eq_of_testBit_eq
    intro i
    simp only [Nat.testBit_shiftRight, Nat.testBit_xor]
  rw [hd, h0, Nat.xor_zero, Nat.xor_assoc, Nat.xor_self, Nat.xor_zero]

theorem mul_inverse_word (x c d : Nat) (h : x < 2 ^ 64) (hcd : c * d % 2 ^ 64 = 1) :
    (x * c % 2 ^ 64) * d % 2 ^ 64 = x := by
  rw [Nat.mod_mul_mod, Nat.mul_assoc, Nat.mul_mod, hcd, Nat.mul_one, Nat.mod_mod,
    Nat.mod_eq_of_lt h]

theorem finalizer_lt (x : Nat) : FiveTupleHash.finalizer x < 2 ^ 64 := by
  unfold FiveTupleHash.finalizer
  exact xorshift33_lt _ (Nat.mod_lt _ (by norm_num))

theorem unfinalizer_lt (x : Nat) : FiveTupleHash.unfinalizer x < 2 ^ 64 := by
  unfold FiveTupleHash.unfinalizer
  exact xorshift33_lt _ (Nat.mod_lt _ (by norm_num))

theorem unfinalizer_finalizer (x : Nat) (h : x < 2 ^ 64) :
    FiveTupleHash.unfinalizer (FiveTupleHash.finalizer x) = x := by
  unfold FiveTupleHash.unfinalizer FiveTupleHash.finalizer
  simp only
  have h1 := xorshift33_lt x h
  have h2 : (x ^^^ x >>> 33) * 0xff51afd7ed558ccd % 2 ^ 64 < 2 ^ 64 := Nat.mod_lt _ (by norm_num)
  have h3 := xorshift33_lt _ h2
  have h4 : ((x ^^^ x >>> 33) * 0xff51afd7ed558ccd % 2 ^ 64 ^^^
      ((x ^^^ x >>> 33) * 0xff51afd7ed558ccd % 2 ^ 64) >>> 33) * 0xc4ceb9fe1a85ec53 % 2 ^ 64
      < 2 ^ 64 := Nat.mod_lt _ (by norm_num)
  rw [xorshift33_involutive _ h4, mul_inverse_word _ _ _ h3 (by norm_num),
    xorshift33_involutive _ h2, mul_inverse_word _ _ _ h1 (by norm_num),
    xorshift33_involutive _ h]

theorem finalizer_unfinalizer (x : Nat) (h : x < 2 ^ 64) :
    FiveTupleHash.finalizer (FiveTupleHash.unfinalizer x) = x := by
  unfold FiveTupleHash.unfinalizer FiveTupleHash.finalizer
  simp only
  have h1 := xorshift33_lt x h
  have h2 : (x ^^^ x >>> 33) * 0x9cb4b2f8129337db % 2 ^ 64 < 2 ^ 64 := Nat.mod_lt _ (by norm_num)
  have h3 := xorshift33_lt _ h2
  have h4 : ((x ^^^ x >>> 33) * 0x9cb4b2f8129337db % 2 ^ 64 ^^^
      ((x ^^^ x >>> 33) * 0x9cb4b2f8129337db % 2 ^ 64) >>> 33) * 0x4f74430c22a54005 % 2 ^ 64
      < 2 ^ 64 := Nat.mod_lt _ (by norm_num)
  rw [xorshift33_involutive _ h4, mul_inverse_word _ _ _ h3 (by norm_num),
    xorshift33_involutive _ h2, mul_inverse_word _ _ _ h1 (by norm_num),
    xorshift33_involutive _ h]

theorem hash_eq_finalizer (T : FiveTuple) :
    FiveTupleHash T = FiveTupleHash.finalizer T.compactHashKey := rfl

theorem compactHashKey_lt (T : FiveTuple) : T.compactHashKey < 2 ^ 64 := by
  unfold FiveTuple.compactHashKey
  exact Nat.mod_lt _ (by norm_num)

theorem hash_eq_iff (T U : FiveTuple) :
    FiveTupleHash T = FiveTupleHash U ↔ T.compactHashKey = U.compactHashKey := by
  constructor
  · intro h
    rw [hash_eq_finalizer, hash_eq_finalizer] at h
    have := congrArg FiveTupleHash.unfinalizer h
    rwa [unfinalizer_finalizer _ (compactHashKey_lt T),
      unfinalizer_finalizer _ (compactHashKey_lt U)] at this
  · intro h
    rw [hash_eq_finalizer, hash_eq_finalizer, h]

theorem route_of_hash_eq (m : LBManager) (T U : FiveTuple)
    (h : FiveTupleHash T = FiveTupleHash U) :
    m.getLBForPacket T = m.getLBForPacket U ∧ m.route T = m.route U ∧
    ∀ lb : LoadBalancer, lb.selectFP T = lb.selectFP U ∧ lb.target T = lb.target U := by
  have hsel : ∀ lb : LoadBalancer, lb.selectFP T = lb.selectFP U := by
    intro lb; simp only [LoadBalancer.selectFP, h]
  have htar : ∀ lb : LoadBalancer, lb.target T = lb.target U := by
    intro lb; simp only [LoadBalancer.target, hsel lb]
  have hlb : m.getLBForPacket T = m.getLBForPacket U := by
    simp only [LBManager.getLBForPacket, h]
  refine ⟨hlb, ?_, fun lb => ⟨hsel lb, htar lb⟩⟩
  unfold LBManager.route
  rw [hlb]
  cases m.getLBForPacket U with
  | none => rfl
  | some i =>
    simp only
    cases m.lbs_[i]? with
    | none => rfl
    | some lb => exact htar lb


/-! ## Rules of the standalone engine -/

theorem startsWith_iff (s pat : List Char) :
    startsWith s pat = true ↔ ∃ rest, s = pat ++ rest := by
  induction pat generalizing s with
  | nil => cases s <;> simp [startsWith]
  | cons p pat ih =>
    cases s with
    | nil => simp [startsWith]
    | cons c s =>
      simp only [startsWith, Bool.and_eq_true, beq_iff_eq, ih, List.cons_append,
        List.cons.injEq]
      constructor
      · rintro ⟨rfl, rest, rfl⟩; exact ⟨rest, rfl, rfl⟩
      · rintro ⟨rest, rfl, rfl⟩; exact ⟨rfl, rest, rfl⟩

theorem stringFindFrom_ne_none (s pat : List Char) (pos : Nat) :
    stringFindFrom s pat pos ≠ none ↔ ∃ before after, s = before ++ pat ++ after := by
  induction s generalizing pos with
  | nil =>
    unfold stringFindFrom
    split_ifs with h
    · simp only [ne_eq, reduceCtorEq, not_false_eq_true, true_iff]
      obtain ⟨rest, hr⟩ := (startsWith_iff [] pat).mp h
      exact ⟨[], rest, by simpa using hr⟩
    · simp only [ne_eq, not_true_eq_false, false_iff]
      rintro ⟨before, after, hs⟩
      apply h
      rw [startsWith_iff]
      have : before = [] ∧ pat = [] ∧ after = [] := by
        have := congrArg List.length hs
        simp at this
        refine ⟨List.length_eq_zero.mp (by omega), List.length_eq_zero.mp (by omega),
          List.length_eq_zero.mp (by omega)⟩
      exact ⟨[], by simp [this.2.1]⟩
  | cons c s ih =>
    unfold stringFindFrom
    split_ifs with h
    · simp only [ne_eq, reduceCtorEq, not_false_eq_true, true_iff]
      obtain ⟨rest, hr⟩ := (startsWith_iff _ pat).mp h
      exact ⟨[], rest, by simpa using hr⟩
    · rw [ih (pos + 1)]
      constructor
      · rintro ⟨before, after, hs⟩
        exact ⟨c :: before, after, by simp [hs]⟩
      · rintro ⟨before, after, hs⟩
        cases before with
        | nil =>
          exfalso; apply h
          rw [startsWith_iff]
          exact ⟨after, by simpa using hs⟩
        | cons b before =>
          simp only [List.cons_append, List.cons.injEq] at hs
          exact ⟨before, after, hs.2⟩

theorem stringFind_ne_none (s pat : String) : stringFind s pat ≠ none ↔ occursIn pat s :=
  stringFindFrom_ne_none s.data pat.data 0

theorem Rules.domainLoop_iff (sni : String) (doms : List String) :
    Rules.domainLoop sni doms = true ↔ ∃ dom ∈ doms, occursIn dom sni := by
  induction doms with
  | nil => simp [Rules.domainLoop]
  | cons d rest ih =>
    unfold Rules.domainLoop
    split_ifs with h
    · have hd : occursIn d sni := (stringFind_ne_none sni d).mp (by simpa using h)
      simp only [true_iff]
      exact ⟨d, List.mem_cons_self _ _, hd⟩
    · rw [ih]
      have hd : ¬ occursIn d sni := fun hc =>
        h (by simpa using (stringFind_ne_none sni d).mpr hc)
      constructor
      · rintro ⟨dom, hm, ho⟩; exact ⟨dom, List.mem_cons_of_mem _ hm, ho⟩
      · rintro ⟨dom, hm, ho⟩
        rcases List.mem_cons.mp hm with rfl | hm
        · exact absurd ho hd
        · exact ⟨dom, hm, ho⟩

theorem Rules.isBlocked_iff (r : Rules) (src_ip : Nat) (app : AppType) (sni : String) :
    r.isBlocked src_ip app sni = true ↔
      src_ip ∈ r.blocked_ips_ ∨ app ∈ r.blocked_apps_ ∨
        ∃ dom ∈ r.blocked_domains_, occursIn dom sni := by
  unfold Rules.isBlocked
  split_ifs with h1 h2
  · simp only [true_iff]
    exact Or.inl (List.count_pos_iff.mp (Nat.pos_of_ne_zero h1))
  · simp only [true_iff]
    exact Or.inr (Or.inl (List.count_pos_iff.mp (Nat.pos_of_ne_zero h2)))
  · have n1 : src_ip ∉ r.blocked_ips_ := fun hc =>
      h1 (Nat.pos_iff_ne_zero.mp (List.count_pos_iff.mpr hc))
    have n2 : app ∉ r.blocked_apps_ := fun hc =>
      h2 (Nat.pos_iff_ne_zero.mp (List.count_pos_iff.mpr hc))
    rw [Rules.domainLoop_iff]
    simp [n1, n2]

theorem Rules.setInsert_mem {α : Type} [DecidableEq α] (s : List α) (x y : α) :
    y ∈ Rules.setInsert s x ↔ y = x ∨ y ∈ s := by
  unfold Rules.setInsert
  split_ifs with h
  · constructor
    · exact Or.inr
    · rintro (rfl | h1)
      · exact h
      · exact h1
  · simp

/-! ## `parseIP` and `ipToString` -/

theorem parseIPStep_digits (cs : List Char) (h : ∀ c ∈ cs, '0' ≤ c ∧ c ≤ '9') (r o s : Nat) :
    cs.foldl DPIEngine.parseIPStep (r, o, s) = (r, digitsValue o cs, s) := by
  induction cs generalizing o with
  | nil => rfl
  | cons c cs ih =>
    have hc := h c (List.mem_cons_self _ _)
    have hd : c ≠ '.' := by
      rintro rfl
      exact absurd hc.1 (by decide)
    rw [List.foldl_cons]
    have : DPIEngine.parseIPStep (r, o, s) c = (r, o * 10 + (c.toNat - '0'.toNat), s) := by
      simp only [DPIEngine.parseIPStep, hd, if_false, hc, and_self, if_true]
    rw [this, ih (fun c hc => h c (List.mem_cons_of_mem _ hc))]
    rfl

theorem byte_digits : ∀ b : Fin 256,
    (∀ c ∈ (toString b.val).toList, '0' ≤ c ∧ c ≤ '9') ∧
      digitsValue 0 (toString b.val).toList = b.val := by
  decide!

theorem parseIPStep_byte (b : Nat) (hb : b < 256) (r s : Nat) :
    (toString b).toList.foldl DPIEngine.parseIPStep (r, 0, s) = (r, b, s) := by
  have h := byte_digits ⟨b, hb⟩
  rw [parseIPStep_digits _ h.1, h.2]

theorem parseIP_dotted (a b c d : Nat) (ha : a < 256) (hb : b < 256) (hc : c < 256)
    (hd : d < 256) :
    DPIEngine.parseIP (toString a ++ "." ++ toString b ++ "." ++ toString c ++ "." ++ toString d)
      = a + 2 ^ 8 * b + 2 ^ 16 * c + 2 ^ 24 * d := by
  unfold DPIEngine.parseIP
  simp only [String.toList, String.data_append, List.foldl_append]
  have dot : ∀ r o s, List.foldl DPIEngine.parseIPStep (r, o, s) ['.']
      = (r ||| ((o <<< s) % 2 ^ 32), 0, s + 8) := fun r o s => rfl
  have ea := parseIPStep_byte a ha
  have eb := parseIPStep_byte b hb
  have ec := parseIPStep_byte c hc
  have ed := parseIPStep_byte d hd
  simp only [String.toList] at ea eb ec ed
  simp only [ea, dot, eb, ec, ed]
  simp only [Nat.shiftLeft_eq, Nat.zero_or, Nat.zero_add, pow_zero, Nat.mul_one]
  rw [Nat.mod_eq_of_lt (by omega : a < 2 ^ 32), Nat.mod_eq_of_lt (by omega : b * 2 ^ 8 < 2 ^ 32),
    Nat.mod_eq_of_lt (by omega : c * 2 ^ 16 < 2 ^ 32),
    Nat.mod_eq_of_lt (by omega : d * 2 ^ 24 < 2 ^ 32)]
  rw [Nat.lor_comm a, or_disjoint (b * 2 ^ 8) a 8 (by omega) (by omega),
    Nat.lor_comm _ (c * 2 ^ 16), or_disjoint (c * 2 ^ 16) _ 16 (by omega) (by omega),
    Nat.lor_comm _ (d * 2 ^ 24), or_disjoint (d * 2 ^ 24) _ 24 (by omega) (by omega)]
  omega

theorem ipToString_eq (x : Nat) :
    PacketParser.ipToString x
      = toString (x % 256) ++ "." ++ toString (x / 2 ^ 8 % 256) ++ "." ++
          toString (x / 2 ^ 16 % 256) ++ "." ++ toString (x / 2 ^ 24 % 256) := by
  unfold PacketParser.ipToString
  simp only [Nat.shiftRight_eq_div_pow, pow_zero, Nat.div_one]
  rw [show (0xFF : Nat) = 2 ^ 8 - 1 from rfl]
  simp only [Nat.and_pow_two_sub_one_eq_mod]

theorem parseIP_ipToString (x : Nat) (hx : x < 2 ^ 32) :
    DPIEngine.parseIP (PacketParser.ipToString x) = x := by
  rw [ipToString_eq, parseIP_dotted _ _ _ _ (Nat.mod_lt _ (by decide)) (Nat.mod_lt _ (by decide))
    (Nat.mod_lt _ (by decide)) (Nat.mod_lt _ (by decide))]
  omega

theorem wire32le_lt (data : Bytes) (off : Nat) : wire32le data off < 2 ^ 32 := by
  have h0 := byteOf_lt data off
  have h1 := byteOf_lt data (off + 1)
  have h2 := byteOf_lt data (off + 2)
  have h3 := byteOf_lt data (off + 3)
  unfold wire32le
  omega

theorem wire32_lt (data : Bytes) (off : Nat) : wire32 data off < 2 ^ 32 := by
  have h0 := byteOf_lt data off
  have h1 := byteOf_lt data (off + 1)
  have h2 := byteOf_lt data (off + 2)
  have h3 := byteOf_lt data (off + 3)
  unfold wire32
  omega

theorem hostValue_four (le : Bool) (data : Bytes) (off : Nat) (h : off + 4 ≤ data.length) :
    hostValue le ((data.drop off).take 4)
      = if le then wire32le data off else wire32 data off := by
  rw [take_drop_four data off h]
  cases le
  · simp only [hostValue, Bool.false_eq_true, if_false, List.foldl_cons, List.foldl_nil, wire32,
      byteOf]
    omega
  · simp only [hostValue, if_true, List.foldr_cons, List.foldr_nil, wire32le, byteOf]
    omega

namespace PacketParser

theorem parseTransport_addresses (le : Bool) (data : Bytes) (P p : ParsedPacket) (off : Nat)
    (b : Bool) (h : parseTransport le data data.length P off = .ok (b, p)) :
    p.src_ip = P.src_ip ∧ p.dest_ip = P.dest_ip := by
  have sp : ∀ (Q : ParsedPacket) (o : Nat),
      (setPayload Q o data.length).src_ip = Q.src_ip ∧
        (setPayload Q o data.length).dest_ip = Q.dest_ip := by
    intro Q o
    unfold setPayload
    split_ifs <;> exact ⟨rfl, rfl⟩
  unfold parseTransport at h
  split_ifs at h with hf h6 h17
  · simp only [pure_eq_ok, Except.ok.injEq, Prod.mk.injEq] at h
    rw [← h.2]
    exact sp _ _
  · by_cases hs : data.length < off + 20
    · rw [parseTCP_short le data P off hs] at h
      simp only [ok_bind, Bool.not_false, if_true, pure_eq_ok, Except.ok.injEq,
        Prod.mk.injEq] at h
      rw [← h.2]
      exact ⟨rfl, rfl⟩
    · rw [parseTCP_eq le data P off (by omega)] at h
      simp only [ok_bind] at h
      split_ifs at h <;>
        (simp only [pure_eq_ok, Except.ok.injEq, Prod.mk.injEq] at h
         rw [← h.2]
         first | exact ⟨rfl, rfl⟩ | exact sp _ _)
  · by_cases hs : data.length < off + 8
    · rw [parseUDP_short le data P off hs] at h
      simp only [ok_bind, Bool.not_false, if_true, pure_eq_ok, Except.ok.injEq,
        Prod.mk.injEq] at h
      rw [← h.2]
      exact ⟨rfl, rfl⟩
    · rw [parseUDP_eq le data P off (by omega)] at h
      simp only [ok_bind, Bool.not_true, Bool.false_eq_true, if_false, pure_eq_ok,
        Except.ok.injEq, Prod.mk.injEq] at h
      rw [← h.2]
      exact sp _ _
  · simp only [pure_eq_ok, ok_bind, Bool.not_true, Bool.false_eq_true, if_false,
      Except.ok.injEq, Prod.mk.injEq] at h
    rw [← h.2]
    exact sp _ _

/-- The address strings of an IPv4 frame that `parse` accepts: the printed form of the two
address words as `memcpy` leaves them on the host. -/
theorem parse_ipv4_addresses (le : Bool) (raw : RawPacket) (p : ParsedPacket)
    (hlen : 14 ≤ raw.data.length) (het : wire16 raw.data 12 = 0x0800)
    (hp : parse le raw = .ok (true, p)) :
    34 ≤ raw.data.length ∧
    p.src_ip = ipToString (if le then wire32le raw.data 26 else wire32 raw.data 26) ∧
    p.dest_ip = ipToString (if le then wire32le raw.data 30 else wire32 raw.data 30) := by
  obtain ⟨E, -, hq⟩ := parse_ipv4_frame le raw hlen het
  rw [hq] at hp
  by_cases hs : raw.data.length < 14 + 20
  · rw [parseIPv4_short le raw.data E 14 hs] at hp
    simp [pure_eq_ok] at hp
  · rw [parseIPv4_eq le raw.data E 14 (by omega)] at hp
    by_cases hc : byteOf raw.data 14 / 16 ≠ 4 ∨ byteOf raw.data 14 % 16 * 4 < 20 ∨
        raw.data.length < 14 + byteOf raw.data 14 % 16 * 4
    · rw [if_pos hc] at hp
      simp [pure_eq_ok] at hp
    · rw [if_neg hc] at hp
      simp only [ok_bind, Bool.not_true, Bool.false_eq_true, if_false] at hp
      obtain ⟨h1, h2⟩ := parseTransport_addresses le raw.data _ p _ true hp
      refine ⟨by omega, ?_, ?_⟩
      · rw [h1, ← hostValue_four le raw.data 26 (by omega)]
      · rw [h2, ← hostValue_four le raw.data 30 (by omega)]

end PacketParser

/-! ## `createPacketJob` on IPv4 frames -/

namespace DPIEngine
open PacketParser

theorem createPacketJob_tcp (raw : RawPacket) (parsed : ParsedPacket) (id : Nat)
    (htcp : parsed.has_tcp = true)
    (h : 14 + ihlBytes raw.data + 12 < raw.data.length) :
    ∃ job, createPacketJob raw parsed id = .ok job ∧
      job.transport_offset = 14 + ihlBytes raw.data ∧
      job.payload_offset
        = 14 + ihlBytes raw.data + tcpHeaderBytes raw.data (14 + ihlBytes raw.data) ∧
      job.payload_length
        = (if job.payload_offset < raw.data.length then raw.data.length - job.payload_offset
           else 0) ∧
      job.payload_data
        = (if job.payload_offset < raw.data.length then some job.payload_offset else none) := by
  unfold ihlBytes at h
  have h14 : 14 < raw.data.length := by omega
  have hto : raw.data.length > 14 + byteOf raw.data 14 % 16 * 4 := by omega
  unfold createPacketJob
  simp only [h14, if_true]
  unfold jobOffsets
  simp only [byteAt_eq_byteOf raw.data 14 h14, Nat.and_pow_two_sub_one_eq_mod _ 4, htcp, hto,
    decide_True, Bool.and_self, if_true, byteAt_eq_byteOf raw.data _ h, Nat.reducePow,
    high_nibble_mod _ (byteOf_lt raw.data _), ihlBytes, tcpHeaderBytes]
  split_ifs with hc
  · exact ⟨_, rfl, rfl, rfl, by simp only [if_pos hc], by simp only [if_pos hc]⟩
  · exact ⟨_, rfl, rfl, rfl, by simp only [if_neg hc], by simp only [if_neg hc]⟩

theorem createPacketJob_udp (raw : RawPacket) (parsed : ParsedPacket) (id : Nat)
    (htcp : parsed.has_tcp = false) (hudp : parsed.has_udp = true)
    (h : 14 < raw.data.length) :
    ∃ job, createPacketJob raw parsed id = .ok job ∧
      job.transport_offset = 14 + ihlBytes raw.data ∧
      job.payload_offset = 14 + ihlBytes raw.data + 8 ∧
      job.payload_length
        = (if job.payload_offset < raw.data.length then raw.data.length - job.payload_offset
           else 0) ∧
      job.payload_data
        = (if job.payload_offset < raw.data.length then some job.payload_offset else none) := by
  unfold createPacketJob
  simp only [h, if_true]
  unfold jobOffsets
  simp only [byteAt_eq_byteOf raw.data 14 h, Nat.and_pow_two_sub_one_eq_mod _ 4, htcp, hudp,
    Bool.false_and, Bool.false_eq_true, if_false, if_true, ihlBytes, Nat.reducePow]
  split_ifs with hc
  · exact ⟨_, rfl, rfl, rfl, by simp only [if_pos hc], by simp only [if_pos hc]⟩
  · exact ⟨_, rfl, rfl, rfl, by simp only [if_neg hc], by simp only [if_neg hc]⟩


/-- On an IPv4 frame that passes the reader, `createPacketJob` builds the job and recomputes
the payload position that `parse` found. -/
theorem createPacketJob_ipv4 (le : Bool) (raw : RawPacket) (p : ParsedPacket) (id : Nat)
    (hlen : 14 ≤ raw.data.length) (het : wire16 raw.data 12 = 0x0800)
    (hp : parse le raw = .ok (true, p)) (hk : keeps p = true) :
    ∃ job, createPacketJob raw p id = .ok job ∧
      job.payload_offset ≤ raw.data.length ∧
      job.payload_length = raw.data.length - job.payload_offset ∧
      job.payload_length = p.payload_length ∧
      job.payload_data = p.payload_data ∧
      (job.payload_offset < raw.data.length → p.payload_data = some job.payload_offset) := by
  have hkeep : p.has_tcp = true ∨ p.has_udp = true := by
    unfold keeps at hk
    cases h1 : p.has_tcp <;> cases h2 : p.has_udp <;> simp [h1, h2] at hk ⊢
  by_cases hbad : ipv4HeaderBad raw.data
  · obtain ⟨q, hq, -⟩ := parse_ipv4_bad le raw hlen het hbad
    rw [hp] at hq
    simp at hq
  obtain ⟨P, hP, -, -, -, hpr, hf, hp2⟩ := parse_ipv4_good le raw hlen het hbad
  rw [hp] at hp2
  have hplain : ∀ off, Except.ok (true, p)
      = (Except.ok (true, setPayload P off raw.data.length) : Except Fault _) → False := by
    intro off h
    simp only [Except.ok.injEq, Prod.mk.injEq, true_and] at h
    rw [h, setPayload_has_tcp, setPayload_has_udp, hP.has_tcp, hP.has_udp] at hkeep
    simp at hkeep
  by_cases hfrag : ipv4Fragmented raw.data
  · rw [transport_fragmented le raw.data P _ (by rw [hf]; simpa using hfrag)] at hp2
    exact absurd hp2 (hplain _)
  have hf0 : P.is_fragmented = false := by rw [hf]; simpa using hfrag
  by_cases h6 : P.protocol = 6
  · by_cases htb : tcpHeaderBad raw.data (14 + ihlBytes raw.data)
    · obtain ⟨q, hq, -⟩ := transport_tcp_bad le raw.data P _ hf0 h6 htb
      rw [hq] at hp2
      simp at hp2
    · rw [transport_tcp_good le raw.data P _ hf0 h6 htb] at hp2
      simp only [Except.ok.injEq, Prod.mk.injEq, true_and] at hp2
      have htcp : p.has_tcp = true := by rw [hp2, setPayload_has_tcp]; rfl
      have hfit : 14 + ihlBytes raw.data + tcpHeaderBytes raw.data (14 + ihlBytes raw.data)
          ≤ raw.data.length := by
        unfold tcpHeaderBad at htb; omega
      obtain ⟨job, hj, -, ho, hl, hd⟩ := createPacketJob_tcp raw p id htcp
        (by unfold tcpHeaderBad at htb; omega)
      have e1 := setPayload_payload_length (withTCP P raw.data (14 + ihlBytes raw.data)) _ _
        hP.payload_length hfit
      have e2 := setPayload_payload_data (withTCP P raw.data (14 + ihlBytes raw.data))
        (14 + ihlBytes raw.data + tcpHeaderBytes raw.data (14 + ihlBytes raw.data))
        raw.data.length hP.payload_data
      rw [← hp2, ← ho] at e1 e2
      rw [← ho] at hfit
      refine ⟨job, hj, hfit, ?_, ?_, ?_, ?_⟩
      · rw [hl]; split_ifs <;> omega
      · rw [hl, e1]; split_ifs <;> omega
      · rw [hd, e2]
      · intro hlt; rw [e2, if_pos hlt]
  · by_cases h17 : P.protocol = 17
    · by_cases hub : udpHeaderBad raw.data (14 + ihlBytes raw.data)
      · obtain ⟨q, hq, -⟩ := transport_udp_bad le raw.data P _ hf0 h17 hub
        rw [hq] at hp2
        simp at hp2
      · rw [transport_udp_good le raw.data P _ hf0 h17 hub] at hp2
        simp only [Except.ok.injEq, Prod.mk.injEq, true_and] at hp2
        have htcp : p.has_tcp = false := by
          rw [hp2, setPayload_has_tcp]; exact hP.has_tcp
        have hudp : p.has_udp = true := by rw [hp2, setPayload_has_udp]; rfl
        have hfit : 14 + ihlBytes raw.data + 8 ≤ raw.data.length := by
          unfold udpHeaderBad at hub; omega
        obtain ⟨job, hj, -, ho, hl, hd⟩ := createPacketJob_udp raw p id htcp hudp (by omega)
        have e1 := setPayload_payload_length (withUDP P raw.data (14 + ihlBytes raw.data)) _ _
          hP.payload_length hfit
        have e2 := setPayload_payload_data (withUDP P raw.data (14 + ihlBytes raw.data))
          (14 + ihlBytes raw.data + 8) raw.data.length hP.payload_data
        rw [← hp2, ← ho] at e1 e2
        rw [← ho] at hfit
        refine ⟨job, hj, hfit, ?_, ?_, ?_, ?_⟩
        · rw [hl]; split_ifs <;> omega
        · rw [hl, e1]; split_ifs <;> omega
        · rw [hd, e2]
        · intro hlt; rw [e2, if_pos hlt]
    · rw [transport_other le raw.data P _ hf0 h6 h17] at hp2
      exact absurd hp2 (hplain _)

end DPIEngine

/-! ## Payload inspection -/

namespace FastPathProcessor
variable {σ κ : Type}

theorem inspectPayload_spec (sniToAppType : Bytes → AppType)
    (classifyConnection : σ → κ → AppType → Bytes → σ)
    (fp : FastPathProcessor σ) (job : PacketJob) (conn : κ)
    (hlen : 0 < job.payload_length)
    (hin : job.payload_offset + job.payload_length ≤ job.data.length) :
    ∃ sni host domain,
      SNIExtractor.extract job.data job.payload_offset job.payload_length = .ok sni ∧
      HTTPHostExtractor.extract ((job.data.drop job.payload_offset).take job.payload_length)
        = .ok host ∧
      DNSExtractor.extractQuery ((job.data.drop job.payload_offset).take job.payload_length)
        = .ok domain ∧
      ∃ fp1, inspectPayload sniToAppType classifyConnection fp job conn = .ok fp1 ∧
        fp1.extractions = fp.extractions ++
          (inspectPayloadSpec sniToAppType job.tuple.dst_port job.tuple.src_port
            job.payload_length sni host domain).1 ∧
        fp1.conn_tracker_ =
          match (inspectPayloadSpec sniToAppType job.tuple.dst_port job.tuple.src_port
            job.payload_length sni host domain).2 with
          | some c => classifyConnection fp.conn_tracker_ conn c.1 c.2
          | none => fp.conn_tracker_ := by
  obtain ⟨sni, hsni⟩ := SNIExtractor.sni_extract_ok job.data job.payload_offset
    job.payload_length hin
  obtain ⟨host, hhost⟩ := HTTPHostExtractor.http_extract_ok
    ((job.data.drop job.payload_offset).take job.payload_length)
  obtain ⟨domain, hdom⟩ := DNSExtractor.extractQuery_ok
    ((job.data.drop job.payload_offset).take job.payload_length)
  refine ⟨sni, host, domain, hsni, hhost, hdom, ?_⟩
  have h0 : ¬ (job.payload_length = 0) := by omega
  have h1 : ¬ (job.payload_offset ≥ job.data.length) := by omega
  have hrb := readBytes_ok job.data job.payload_offset job.payload_length hin
  unfold inspectPayload tryExtractSNI tryExtractHTTPHost classifyByPort inspectPayloadSpec
  simp only [h0, h1, or_self, if_false, hsni, hrb, ok_bind, hhost, hdom, firstYield]
  have hport : job.tuple.dst_port = 80 ∨ job.tuple.dst_port = 443 ∨
      (job.tuple.dst_port ≠ 80 ∧ job.tuple.dst_port ≠ 443) := by omega
  have key : ∀ (a : Prop), (job.payload_length < 50 ↔ a) → (50 ≤ job.payload_length ↔ ¬ a) := by
    intro a h
    rw [← h]
    omega
  by_cases l50 : job.payload_length < 50 <;>
    by_cases d53 : job.tuple.dst_port = 53 <;>
    by_cases s53 : job.tuple.src_port = 53 <;>
    rcases hport with d | d | ⟨d, d'⟩ <;>
    cases sni <;> cases host <;> cases domain <;>
    first
    | (exfalso; omega)
    | (simp [l50, d53, s53, d, key True, key False]; done)
    | simp [l50, d53, s53, d, d', key True, key False]

end FastPathProcessor

/-! ## `stop` and the thread loops -/

namespace LoadBalancer

theorem lb_runOnce_frame (lb : LoadBalancer) (fps : List (ThreadSafeQueue PacketJob))
    (s : LoadBalancer × List (ThreadSafeQueue PacketJob)) (h : lb.runOnce fps = some s) :
    s.1.running_ = lb.running_ ∧ s.1.input_queue_.queue_ = lb.input_queue_.queue_.tail := by
  unfold runOnce at h
  cases hq : lb.input_queue_.queue_ with
  | nil =>
    rw [ThreadSafeQueue.popWithTimeout_nil _ hq] at h
    simp only [Option.some.injEq] at h
    subst h
    exact ⟨rfl, by simp [hq]⟩
  | cons x rest =>
    rw [ThreadSafeQueue.popWithTimeout_cons _ x rest hq] at h
    simp only at h
    split_ifs at h
    all_goals first
      | (simp only [Option.some.injEq] at h; subst h; exact ⟨rfl, rfl⟩)
      | (split at h
         · simp only [Option.some.injEq] at h; subst h; exact ⟨rfl, rfl⟩
         · split at h
           · exact absurd h (by simp)
           · split at h
             · exact absurd h (by simp)
             · simp only [Option.some.injEq] at h; subst h; exact ⟨rfl, rfl⟩)

theorem lb_run_stopped (fuel : Nat) (lb : LoadBalancer) (fps : List (ThreadSafeQueue PacketJob))
    (h : lb.running_ = false) : run (fuel + 1) lb fps = some (lb, fps) := by
  simp [run, h]

theorem lb_stop_at_test (lb : LoadBalancer) (fps : List (ThreadSafeQueue PacketJob))
    (h : lb.running_ = true) :
    stop false lb fps
      = some ({ lb with running_ := false, input_queue_ := lb.input_queue_.shutdown }, fps) := by
  simp [stop, h, run]

theorem lb_stop_in_turn (lb : LoadBalancer) (fps : List (ThreadSafeQueue PacketJob))
    (s : LoadBalancer × List (ThreadSafeQueue PacketJob)) (h : lb.running_ = true)
    (hs : stop true lb fps = some s) :
    s.1.running_ = false ∧ s.1.input_queue_.queue_ = lb.input_queue_.queue_.tail := by
  unfold stop at hs
  simp only [h, Bool.not_true, Bool.false_eq_true, if_false, if_true] at hs
  cases hr : runOnce { lb with running_ := false, input_queue_ := lb.input_queue_.shutdown } fps with
  | none => simp [hr] at hs
  | some t =>
    obtain ⟨h1, h2⟩ := lb_runOnce_frame _ fps t hr
    simp only [hr] at hs
    rw [lb_run_stopped 0 t.1 t.2 h1] at hs
    simp only [Option.some.injEq] at hs
    subst hs
    exact ⟨h1, h2⟩

end LoadBalancer

namespace FastPathProcessor
variable {σ : Type}

theorem fp_run_stopped (processPacket : FastPathProcessor σ → PacketJob → PacketAction × FastPathProcessor σ)
    (cleanupStale : σ → σ) (fuel : Nat) (fp : FastPathProcessor σ) (h : fp.running_ = false) :
    run processPacket cleanupStale (fuel + 1) fp = .ok fp := by
  simp [run, h]

theorem fp_stop_at_test (processPacket : FastPathProcessor σ → PacketJob → PacketAction × FastPathProcessor σ)
    (cleanupStale : σ → σ) (fp : FastPathProcessor σ) (h : fp.running_ = true) :
    stop processPacket cleanupStale false fp
      = .ok { fp with running_ := false, input_queue_ := fp.input_queue_.shutdown } := by
  simp [stop, h, run]

theorem fp_runOnce_frame (processPacket : FastPathProcessor σ → PacketJob → PacketAction × FastPathProcessor σ)
    (cleanupStale : σ → σ) (fp : FastPathProcessor σ)
    (hpp : ∀ f job, (processPacket f job).2.input_queue_ = f.input_queue_ ∧
      (processPacket f job).2.running_ = f.running_) :
    (runOnce processPacket cleanupStale fp).running_ = fp.running_ ∧
      (runOnce processPacket cleanupStale fp).input_queue_.queue_
        = fp.input_queue_.queue_.tail := by
  unfold runOnce
  cases hq : fp.input_queue_.queue_ with
  | nil =>
    rw [ThreadSafeQueue.popWithTimeout_nil _ hq]
    exact ⟨rfl, by simp [hq]⟩
  | cons x rest =>
    rw [ThreadSafeQueue.popWithTimeout_cons _ x rest hq]
    simp only
    split_ifs <;> simp [(hpp _ _).1, (hpp _ _).2]

theorem fp_stop_in_turn (processPacket : FastPathProcessor σ → PacketJob → PacketAction × FastPathProcessor σ)
    (cleanupStale : σ → σ) (fp : FastPathProcessor σ) (h : fp.running_ = true)
    (hpp : ∀ f job, (processPacket f job).2.input_queue_ = f.input_queue_ ∧
      (processPacket f job).2.running_ = f.running_) :
    ∃ fp1, stop processPacket cleanupStale true fp = .ok fp1 ∧ fp1.running_ = false ∧
      fp1.input_queue_.queue_ = fp.input_queue_.queue_.tail := by
  obtain ⟨h1, h2⟩ := fp_runOnce_frame processPacket cleanupStale
    { fp with running_ := false, input_queue_ := fp.input_queue_.shutdown } hpp
  refine ⟨_, ?_, h1, h2⟩
  unfold stop
  simp only [h, Bool.not_true, Bool.false_eq_true, if_false, if_true]
  exact fp_run_stopped processPacket cleanupStale 0 _ h1

end FastPathProcessor

namespace DPIEngine

theorem outputThreadFunc_drains (fuel : Nat) :
    ∀ (q : ThreadSafeQueue PacketJob) (written : List PacketJob), q.queue_.length < fuel →
      ∃ q1, outputThreadFunc false fuel q written = .ok (q1, written ++ q.queue_) ∧
        q1.queue_ = [] := by
  induction fuel with
  | zero => intro q written h; omega
  | succ fuel ih =>
    intro q written h
    cases hq : q.queue_ with
    | nil =>
      refine ⟨q, ?_, hq⟩
      simp [outputThreadFunc, ThreadSafeQueue.empty, hq]
    | cons x rest =>
      rw [hq] at h
      simp only [List.length_cons] at h
      obtain ⟨q1, h1, h2⟩ := ih
        { q with queue_ := rest, total_pops_ := (q.total_pops_ + 1) % 2 ^ 64 }
        (written ++ [x]) (by simpa using h)
      refine ⟨q1, ?_, h2⟩
      simp only [outputThreadFunc, ThreadSafeQueue.empty, hq, List.isEmpty_cons, Bool.not_false,
        Bool.or_true, if_true, ThreadSafeQueue.popWithTimeout_cons q x rest hq, h1]
      simp

end DPIEngine

/-! ## Counters of a run -/

namespace DPIEngine
open PacketParser

theorem enqueue_stats (e e1 : DPIEngine) (raw : RawPacket) (parsed : ParsedPacket)
    (pid n : Nat) (h : enqueue e raw parsed pid = .ok (e1, n)) :
    e1.enqueued.length = e.enqueued.length + 1 ∧
    e1.stats_.total_packets = (e.stats_.total_packets + 1) % 2 ^ 64 ∧
    e1.stats_.malformed_packets = e.stats_.malformed_packets ∧
    e1.stats_.forwarded_packets = e.stats_.forwarded_packets ∧
    e1.stats_.dropped_packets = e.stats_.dropped_packets := by
  unfold enqueue at h
  cases hj : createPacketJob raw parsed pid with
  | error f => simp [hj] at h
  | ok job =>
    simp only [hj] at h
    cases hl : e.lb_manager_.getLBForPacket job.tuple with
    | none => simp [hl] at h
    | some lb =>
      simp only [hl, Except.ok.injEq, Prod.mk.injEq] at h
      obtain ⟨h1, -⟩ := h
      subst h1
      refine ⟨by simp, ?_, ?_, ?_, ?_⟩ <;> (simp only; split_ifs <;> rfl)

/-- The reader thread counts in `total_packets` the jobs it pushes and nothing else, and
leaves `malformed_packets`, `forwarded_packets` and `dropped_packets` as they were. -/
theorem readerLoop_stats (le : Bool) :
    ∀ (fuel : Nat) (e e1 : DPIEngine) (reader r1 : PcapReader) (raw : RawPacket) (pid n : Nat),
      readerLoop le fuel e reader raw pid = .ok (e1, r1, n) →
      ∃ k, e1.enqueued.length = e.enqueued.length + k ∧
        e1.stats_.total_packets
          = (if k = 0 then e.stats_.total_packets else (e.stats_.total_packets + k) % 2 ^ 64) ∧
        e1.stats_.malformed_packets = e.stats_.malformed_packets ∧
        e1.stats_.forwarded_packets = e.stats_.forwarded_packets ∧
        e1.stats_.dropped_packets = e.stats_.dropped_packets := by
  intro fuel
  induction fuel with
  | zero => intro e e1 reader r1 raw pid n h; simp [readerLoop] at h
  | succ fuel ih =>
    intro e e1 reader r1 raw pid n h
    unfold readerLoop at h
    simp only at h
    split_ifs at h with hrd
    · simp only [Except.ok.injEq, Prod.mk.injEq] at h
      obtain ⟨h1, -, -⟩ := h
      subst h1
      exact ⟨0, rfl, by simp, rfl, rfl, rfl⟩
    · cases hp : parse le (reader.readNextPacket le raw).2.1 with
      | error f => simp [hp] at h
      | ok r =>
        obtain ⟨ok, parsed⟩ := r
        simp only [hp] at h
        split_ifs at h with hok hk
        · exact ih _ _ _ _ _ _ _ h
        · exact ih _ _ _ _ _ _ _ h
        · cases he : enqueue e (reader.readNextPacket le raw).2.1 parsed pid with
          | error f => simp [he] at h
          | ok r2 =>
            obtain ⟨e2, pid2⟩ := r2
            simp only [he] at h
            obtain ⟨b1, b2, b3, b4, b5⟩ := enqueue_stats e e2 _ parsed pid pid2 he
            obtain ⟨k, a1, a2, a3, a4, a5⟩ := ih _ _ _ _ _ _ _ h
            refine ⟨k + 1, by omega, ?_, a3.trans b3, a4.trans b4, a5.trans b5⟩
            rw [a2, b2, if_neg (by omega : ¬ (k + 1 = 0))]
            by_cases hk0 : k = 0
            · subst hk0; simp
            · rw [if_neg hk0]; omega

theorem readerThreadFunc_stats (le : Bool) (e e1 : DPIEngine) (input_file : Option Bytes)
    (n : Nat) (h : readerThreadFunc le e input_file = .ok (e1, n)) :
    ∃ k, e1.enqueued.length = e.enqueued.length + k ∧
      e1.stats_.total_packets
        = (if k = 0 then e.stats_.total_packets else (e.stats_.total_packets + k) % 2 ^ 64) ∧
      e1.stats_.malformed_packets = e.stats_.malformed_packets ∧
      e1.stats_.forwarded_packets = e.stats_.forwarded_packets ∧
      e1.stats_.dropped_packets = e.stats_.dropped_packets := by
  unfold readerThreadFunc at h
  simp only at h
  split_ifs at h with ho
  · simp only [Except.ok.injEq, Prod.mk.injEq] at h
    obtain ⟨h1, -⟩ := h
    subst h1
    exact ⟨0, rfl, by simp, rfl, rfl, rfl⟩
  · cases hl : readerLoop le ((input_file.getD []).length + 1)
        { e with output_file_ := (writeOutputHeader le e.output_file_
            (PcapReader.open le PcapReader.closed input_file).2.getGlobalHeader).2 }
        (PcapReader.open le PcapReader.closed input_file).2 {} 0 with
    | error f => simp [hl] at h
    | ok r =>
      obtain ⟨e2, r2, pid2⟩ := r
      simp only [hl, Except.ok.injEq, Prod.mk.injEq] at h
      obtain ⟨h1, -⟩ := h
      subst h1
      exact readerLoop_stats le _ { e with output_file_ := (writeOutputHeader le e.output_file_
        (PcapReader.open le PcapReader.closed input_file).2.getGlobalHeader).2 } _ _ _ _ _ _ hl

/-- Every job that `handleAll` passes to `handleOutput` is counted once, in
`dropped_packets` or in `forwarded_packets`; the forwarded ones are pushed to the output
queue. -/
theorem handleAll_stats (action : Nat → PacketAction) :
    ∀ (jobs : List (Nat × PacketJob)) (k : Nat) (s : DPIEngine × List PacketJob),
      ∃ f d, f + d = jobs.length ∧
        (handleAll action k jobs s).2.length = s.2.length + f ∧
        (handleAll action k jobs s).1.stats_.forwarded_packets
          = (if f = 0 then s.1.stats_.forwarded_packets
             else (s.1.stats_.forwarded_packets + f) % 2 ^ 64) ∧
        (handleAll action k jobs s).1.stats_.dropped_packets
          = (if d = 0 then s.1.stats_.dropped_packets
             else (s.1.stats_.dropped_packets + d) % 2 ^ 64) ∧
        (handleAll action k jobs s).1.stats_.total_packets = s.1.stats_.total_packets ∧
        (handleAll action k jobs s).1.stats_.malformed_packets
          = s.1.stats_.malformed_packets ∧
        (handleAll action k jobs s).1.enqueued = s.1.enqueued := by
  intro jobs
  induction jobs with
  | nil =>
    intro k s
    exact ⟨0, 0, rfl, rfl, by simp [handleAll], by simp [handleAll], rfl, rfl, rfl⟩
  | cons j rest ih =>
    intro k s
    obtain ⟨lb, job⟩ := j
    simp only [handleAll, List.length_cons]
    by_cases ha : action k = PacketAction.DROP
    · have hs : handleOutput s.1 s.2 job (action k)
          = ({ s.1 with stats_ := { s.1.stats_ with
              dropped_packets := (s.1.stats_.dropped_packets + 1) % 2 ^ 64 } }, s.2) := by
        simp [handleOutput, ha]
      rw [hs]
      obtain ⟨f, d, h1, h2, h3, h4, h5, h6, h7⟩ := ih (k + 1)
        ({ s.1 with stats_ := { s.1.stats_ with
            dropped_packets := (s.1.stats_.dropped_packets + 1) % 2 ^ 64 } }, s.2)
      refine ⟨f, d + 1, by omega, h2, h3, ?_, h5, h6, h7⟩
      rw [h4, if_neg (by omega : ¬ (d + 1 = 0))]
      simp only
      by_cases hd0 : d = 0
      · subst hd0; simp
      · rw [if_neg hd0]; omega
    · have hs : handleOutput s.1 s.2 job (action k)
          = ({ s.1 with stats_ := { s.1.stats_ with
              forwarded_packets := (s.1.stats_.forwarded_packets + 1) % 2 ^ 64 } },
              s.2 ++ [job]) := by
        simp [handleOutput, ha]
      rw [hs]
      obtain ⟨f, d, h1, h2, h3, h4, h5, h6, h7⟩ := ih (k + 1)
        ({ s.1 with stats_ := { s.1.stats_ with
            forwarded_packets := (s.1.stats_.forwarded_packets + 1) % 2 ^ 64 } },
            s.2 ++ [job])
      refine ⟨f + 1, d, by omega, ?_, ?_, h4, h5, h6, h7⟩
      · rw [h2]; simp; omega
      · rw [h3, if_neg (by omega : ¬ (f + 1 = 0))]
        simp only
        by_cases hf0 : f = 0
        · subst hf0; simp
        · rw [if_neg hf0]; omega

theorem records_length_le (le : Bool) :
    ∀ (fuel : Nat) (reader : PcapReader) (raw : RawPacket),
      (records le fuel reader raw).length ≤ fuel := by
  intro fuel
  induction fuel with
  | zero => intro reader raw; simp [records]
  | succ fuel ih =>
    intro reader raw
    unfold records
    simp only
    split_ifs
    · simp
    · simp only [List.length_cons]
      have := ih (reader.readNextPacket le raw).2.2 (reader.readNextPacket le raw).2.1
      omega

/-- The reader thread returns on a capture that `open` accepts, when the engine has a load
balancer and the jobs of the accepted records that are not IPv4 can be built: it has pushed
one job per accepted record. -/
theorem readerThreadFunc_returns (le : Bool) (e : DPIEngine) (file : Bytes)
    (hopen : (PcapReader.open le PcapReader.closed (some file)).1 = true)
    (hN : 0 < e.lb_manager_.lbs_.length)
    (hjobs : ∀ rec ∈ records le (file.length + 1)
        (PcapReader.open le PcapReader.closed (some file)).2 {},
      accepted le rec = true → wire16 rec.data 12 ≠ 0x0800 → jobBuilt le rec = true) :
    ∃ e1 jobs n, readerThreadFunc le e (some file) = .ok (e1, n) ∧
      e1.enqueued = e.enqueued ++ jobs ∧
      jobs.length = ((records le (file.length + 1)
        (PcapReader.open le PcapReader.closed (some file)).2 {}).filter (accepted le)).length := by
  have hu := open_unread le PcapReader.closed file
  obtain ⟨e1, r1, jobs, hloop, -, -, h3, h4, -, -⟩ :=
    readerLoop_spec le (file.length + 1)
      { e with output_file_ := (writeOutputHeader le e.output_file_
          (PcapReader.open le PcapReader.closed (some file)).2.getGlobalHeader).2 }
      (PcapReader.open le PcapReader.closed (some file)).2 {} 0 (by omega) (by norm_num) hN
      (fun rec hmem p hp hk id => by
        have hacc : accepted le rec = true := by
          rw [accepted_iff le rec true p hp, hk]; rfl
        refine jobBuilt_ok le rec true p hp ?_ id
        by_cases het : wire16 rec.data 12 = 0x0800
        · by_cases hlen : rec.data.length < 14
          · rw [accepted_short le rec hlen] at hacc
            exact absurd hacc (by simp)
          · exact jobBuilt_ipv4 le rec (by omega) het hacc
        · exact hjobs rec hmem hacc het)
  refine ⟨e1, jobs, (0 + ((records le (file.length + 1)
    (PcapReader.open le PcapReader.closed (some file)).2 {}).filter (accepted le)).length)
      % 2 ^ 32, ?_, h3, ?_⟩
  · unfold readerThreadFunc
    simp only [hopen, Bool.not_true, Bool.false_eq_true, if_false, Option.getD_some, hloop]
  · have := congrArg List.length h4
    simpa using this

/-- A run in sequence on a fresh engine: `total_packets` is the number of accepted records,
and every one of them is counted once more, as forwarded or as dropped. -/
theorem sequentialRun_counts (le : Bool) (action : Nat → PacketAction) (e : DPIEngine)
    (file : Bytes)
    (hopen : (PcapReader.open le PcapReader.closed (some file)).1 = true)
    (hN : 0 < e.lb_manager_.lbs_.length)
    (hjobs : ∀ rec ∈ records le (file.length + 1)
        (PcapReader.open le PcapReader.closed (some file)).2 {},
      accepted le rec = true → wire16 rec.data 12 ≠ 0x0800 → jobBuilt le rec = true)
    (hfresh : e.enqueued = [] ∧ e.stats_.total_packets = 0 ∧ e.stats_.forwarded_packets = 0 ∧
      e.stats_.dropped_packets = 0)
    (hsize : file.length + 1 < 2 ^ 64) :
    ∃ e2 out, sequentialRun le action e (some file) = .ok (e2, out) ∧
      e2.stats_.total_packets = ((records le (file.length + 1)
        (PcapReader.open le PcapReader.closed (some file)).2 {}).filter (accepted le)).length ∧
      e2.stats_.total_packets = e2.stats_.forwarded_packets + e2.stats_.dropped_packets ∧
      out.length = e2.stats_.forwarded_packets ∧
      e2.stats_.malformed_packets = e.stats_.malformed_packets := by
  obtain ⟨e1, jobs, n, hr, henq, hlen⟩ := readerThreadFunc_returns le e file hopen hN hjobs
  obtain ⟨k, c1, c2, c3, c4, c5⟩ := readerThreadFunc_stats le e e1 (some file) n hr
  obtain ⟨f, d, g1, g2, g3, g4, g5, g6, -⟩ := handleAll_stats action e1.enqueued 0 (e1, [])
  have hrec := records_length_le le (file.length + 1)
    (PcapReader.open le PcapReader.closed (some file)).2 {}
  have hfil := List.length_filter_le (accepted le) (records le (file.length + 1)
    (PcapReader.open le PcapReader.closed (some file)).2 {})
  obtain ⟨f1, f2, f3, f4⟩ := hfresh
  rw [henq, f1] at c1 g1
  simp only [List.nil_append, List.length_nil, Nat.zero_add] at c1 g1
  rw [f2] at c2
  rw [c4, f3] at g3
  rw [c5, f4] at g4
  rw [c2] at g5
  simp only [Nat.zero_add] at c2 g3 g4 g5
  have hk : k = jobs.length := by omega
  refine ⟨(handleAll action 0 e1.enqueued (e1, [])).1,
    (handleAll action 0 e1.enqueued (e1, [])).2, ?_, ?_, ?_, ?_, ?_⟩
  · unfold sequentialRun
    simp only [hr]
  · rw [g5]
    split_ifs with h0
    · omega
    · rw [Nat.mod_eq_of_lt (by omega)]; omega
  · rw [g5, g3, g4]
    split_ifs <;> omega
  · rw [g2, g3]
    split_ifs with h0
    · simp [h0]
    · rw [Nat.mod_eq_of_lt (by omega)]; simp
  · rw [g6, c3]

end DPIEngine

open PacketParser

/-- C11: for every frame, of any length and content, and either host byte order,
`PacketParser::parse` ends with a result `Except.ok r`: no read of the frame takes the
out-of-range branch.  The same holds for `parseEthernet`, `parseIPv4`, `parseIPv6`,
`parseTCP` and `parseUDP` called on any `parsed` value and, for the last four, any offset:
each read is covered by the bounds check that precedes it. -/
theorem parser_reads_in_bounds (le : Bool) (raw : RawPacket) (parsed : ParsedPacket)
    (offset : Nat) :
    (∃ r, parse le raw = .ok r) ∧
    (∃ s, parseEthernet le raw.data raw.data.length parsed 0 = .ok s) ∧
    (∃ s, parseIPv4 le raw.data raw.data.length parsed offset = .ok s) ∧
    (∃ s, parseIPv6 le raw.data raw.data.length parsed offset = .ok s) ∧
    (∃ s, parseTCP le raw.data raw.data.length parsed offset = .ok s) ∧
    (∃ s, parseUDP le raw.data raw.data.length parsed offset = .ok s) :=
  ⟨parse_ok le raw, parseEthernet_ok le raw.data parsed, parseIPv4_ok le raw.data parsed offset,
   parseIPv6_ok le raw.data parsed offset, parseTCP_ok le raw.data parsed offset,
   parseUDP_ok le raw.data parsed offset⟩


/-- C12: for every frame with ether_type 0x0800, `parse` fails exactly when fewer than 20
bytes follow the 14-byte Ethernet header, or the version nibble is not 4, or `IHL * 4 < 20`,
or `14 + IHL * 4` exceeds the frame length, or, for a non-fragmented packet with protocol 6
or 17, the transport header check fails; when it fails `is_malformed` is set; otherwise it
succeeds with `has_ip` and `has_ipv4` set, `ttl` = byte 8 and `protocol` = byte 9 of the IP
header (frame bytes 22 and 23). -/
theorem ipv4_parse_fails_iff (le : Bool) (raw : RawPacket) (hlen : 14 ≤ raw.data.length)
    (het : wire16 raw.data 12 = 0x0800) :
    ∃ ok p, parse le raw = .ok (ok, p) ∧
      (ok = false ↔ ipv4HeaderBad raw.data ∨ (¬ ipv4Fragmented raw.data ∧
        ((byteOf raw.data 23 = 6 ∧ tcpHeaderBad raw.data (14 + ihlBytes raw.data)) ∨
         (byteOf raw.data 23 = 17 ∧ udpHeaderBad raw.data (14 + ihlBytes raw.data))))) ∧
      (ok = false → p.is_malformed = true) ∧
      (ok = true → p.is_malformed = false ∧ p.has_ip = true ∧ p.has_ipv4 = true ∧
        p.ttl = byteOf raw.data 22 ∧ p.protocol = byteOf raw.data 23) := by
  by_cases hbad : ipv4HeaderBad raw.data
  · obtain ⟨p, hp, hm⟩ := parse_ipv4_bad le raw hlen het hbad
    exact ⟨false, p, hp, ⟨fun _ => Or.inl hbad, fun _ => rfl⟩, fun _ => hm,
      fun h => absurd h (by simp)⟩
  · obtain ⟨P, hP, hip, hip4, httl, hproto, hfrag, hp⟩ := parse_ipv4_good le raw hlen het hbad
    rw [hp]
    by_cases hf : ipv4Fragmented raw.data
    · have hPf : P.is_fragmented = true := by rw [hfrag]; simpa using hf
      refine ⟨true, _, transport_fragmented le raw.data P _ hPf, ?_, fun h => absurd h (by simp),
        fun _ => ?_⟩
      · constructor
        · intro h; exact absurd h (by simp)
        · rintro (h | ⟨h, -⟩)
          · exact absurd h hbad
          · exact absurd hf h
      · simp [hP.is_malformed, hip, hip4, httl, hproto]
    · have hPf : P.is_fragmented = false := by rw [hfrag]; simpa using hf
      by_cases h6 : byteOf raw.data 23 = 6
      · by_cases ht : tcpHeaderBad raw.data (14 + ihlBytes raw.data)
        · obtain ⟨p, hp2, hm, -, -⟩ := transport_tcp_bad le raw.data P _ hPf
            (by rw [hproto]; exact h6) ht
          exact ⟨false, p, hp2, ⟨fun _ => Or.inr ⟨hf, Or.inl ⟨h6, ht⟩⟩, fun _ => rfl⟩,
            fun _ => hm, fun h => absurd h (by simp)⟩
        · refine ⟨true, _, transport_tcp_good le raw.data P _ hPf (by rw [hproto]; exact h6) ht,
            ?_, fun h => absurd h (by simp), fun _ => ?_⟩
          · constructor
            · intro h; exact absurd h (by simp)
            · rintro (h | ⟨-, ⟨-, h⟩ | ⟨h, -⟩⟩)
              · exact absurd h hbad
              · exact absurd h ht
              · omega
          · simp [withTCP, hP.is_malformed, hip, hip4, httl, hproto]
      · by_cases h17 : byteOf raw.data 23 = 17
        · by_cases hu : udpHeaderBad raw.data (14 + ihlBytes raw.data)
          · obtain ⟨p, hp2, hm, -, -⟩ := transport_udp_bad le raw.data P _ hPf
              (by rw [hproto]; exact h17) hu
            exact ⟨false, p, hp2, ⟨fun _ => Or.inr ⟨hf, Or.inr ⟨h17, hu⟩⟩, fun _ => rfl⟩,
              fun _ => hm, fun h => absurd h (by simp)⟩
          · refine ⟨true, _, transport_udp_good le raw.data P _ hPf
              (by rw [hproto]; exact h17) hu, ?_, fun h => absurd h (by simp), fun _ => ?_⟩
            · constructor
              · intro h; exact absurd h (by simp)
              · rintro (h | ⟨-, ⟨h, -⟩ | ⟨-, h⟩⟩)
                · exact absurd h hbad
                · exact absurd h h6
                · exact absurd h hu
            · simp [withUDP, hP.is_malformed, hip, hip4, httl, hproto]
        · refine ⟨true, _, transport_other le raw.data P _ hPf (by rw [hproto]; exact h6)
            (by rw [hproto]; exact h17), ?_, fun h => absurd h (by simp), fun _ => ?_⟩
          · constructor
            · intro h; exact absurd h (by simp)
            · rintro (h | ⟨-, ⟨h, -⟩ | ⟨h, -⟩⟩)
              · exact absurd h hbad
              · exact absurd h h6
              · exact absurd h h17
          · simp [hP.is_malformed, hip, hip4, httl, hproto]

/-- C12 witness: the sample TCP segment, an IPv4 frame of 56 bytes. -/
theorem ipv4_parse_fails_iff_witness :
    14 ≤ tcpFrame.data.length ∧ wire16 tcpFrame.data 12 = 0x0800 ∧
    ∃ ok p, parse true tcpFrame = .ok (ok, p) ∧
      (ok = false ↔ ipv4HeaderBad tcpFrame.data ∨ (¬ ipv4Fragmented tcpFrame.data ∧
        ((byteOf tcpFrame.data 23 = 6 ∧
            tcpHeaderBad tcpFrame.data (14 + ihlBytes tcpFrame.data)) ∨
         (byteOf tcpFrame.data 23 = 17 ∧
            udpHeaderBad tcpFrame.data (14 + ihlBytes tcpFrame.data))))) ∧
      (ok = false → p.is_malformed = true) ∧
      (ok = true → p.is_malformed = false ∧ p.has_ip = true ∧ p.has_ipv4 = true ∧
        p.ttl = byteOf tcpFrame.data 22 ∧ p.protocol = byteOf tcpFrame.data 23) :=
  ⟨by decide, by decide, ipv4_parse_fails_iff true tcpFrame (by decide) (by decide)⟩


/-- C13: for every IPv4 frame whose IP header `parseIPv4` accepts, `is_fragmented` is set
exactly when the MF bit (0x2000) or the 13-bit fragment offset (mask 0x1FFF) of the
big-endian flags/fragment field is non-zero; and for every such fragmented frame `parse`
succeeds without an L4 parse: `has_tcp` and `has_udp` stay false, both ports stay 0, and
`payload_length` = frame length - (14 + IHL * 4). -/
theorem ipv4_fragment_keeps_l3_payload (le : Bool) (raw : RawPacket)
    (hlen : 14 ≤ raw.data.length) (het : wire16 raw.data 12 = 0x0800)
    (hgood : ¬ ipv4HeaderBad raw.data) :
    ∃ ok p, parse le raw = .ok (ok, p) ∧
      (p.is_fragmented = true ↔ ipv4Fragmented raw.data) ∧
      (ipv4Fragmented raw.data → ok = true ∧ p.has_tcp = false ∧ p.has_udp = false ∧
        p.src_port = 0 ∧ p.dest_port = 0 ∧
        p.payload_length = raw.data.length - (14 + ihlBytes raw.data)) := by
  obtain ⟨P, hP, -, -, -, hproto, hfrag, hp⟩ := parse_ipv4_good le raw hlen het hgood
  have hfit : 14 + ihlBytes raw.data ≤ raw.data.length := by
    unfold ipv4HeaderBad at hgood; omega
  rw [hp]
  by_cases hf : ipv4Fragmented raw.data
  · have hPf : P.is_fragmented = true := by rw [hfrag]; simpa using hf
    refine ⟨true, _, transport_fragmented le raw.data P _ hPf, ?_, fun _ => ?_⟩
    · simp [hPf, hf]
    · simp [hP.has_tcp, hP.has_udp, hP.src_port, hP.dest_port,
        setPayload_payload_length P _ _ hP.payload_length hfit]
  · have hPf : P.is_fragmented = false := by rw [hfrag]; simpa using hf
    by_cases h6 : byteOf raw.data 23 = 6
    · by_cases ht : tcpHeaderBad raw.data (14 + ihlBytes raw.data)
      · obtain ⟨p, hp2, -, -, hpf⟩ := transport_tcp_bad le raw.data P _ hPf
          (by rw [hproto]; exact h6) ht
        exact ⟨false, p, hp2, by simp [hpf, hPf, hf], fun h => absurd h hf⟩
      · exact ⟨true, _, transport_tcp_good le raw.data P _ hPf (by rw [hproto]; exact h6) ht,
          by simp [withTCP, hPf, hf], fun h => absurd h hf⟩
    · by_cases h17 : byteOf raw.data 23 = 17
      · by_cases hu : udpHeaderBad raw.data (14 + ihlBytes raw.data)
        · obtain ⟨p, hp2, -, -, hpf⟩ := transport_udp_bad le raw.data P _ hPf
            (by rw [hproto]; exact h17) hu
          exact ⟨false, p, hp2, by simp [hpf, hPf, hf], fun h => absurd h hf⟩
        · exact ⟨true, _, transport_udp_good le raw.data P _ hPf
            (by rw [hproto]; exact h17) hu, by simp [withUDP, hPf, hf], fun h => absurd h hf⟩
      · exact ⟨true, _, transport_other le raw.data P _ hPf (by rw [hproto]; exact h6)
          (by rw [hproto]; exact h17), by simp [hPf, hf], fun h => absurd h hf⟩

/-- C13 witness: the sample first fragment (MF set, protocol 6). -/
theorem ipv4_fragment_keeps_l3_payload_witness :
    ipv4Fragmented fragmentFrame.data ∧
    ∃ ok p, parse true fragmentFrame = .ok (ok, p) ∧
      (p.is_fragmented = true ↔ ipv4Fragmented fragmentFrame.data) ∧
      (ipv4Fragmented fragmentFrame.data → ok = true ∧ p.has_tcp = false ∧
        p.has_udp = false ∧ p.src_port = 0 ∧ p.dest_port = 0 ∧
        p.payload_length = fragmentFrame.data.length - (14 + ihlBytes fragmentFrame.data)) :=
  ⟨by decide, ipv4_fragment_keeps_l3_payload true fragmentFrame (by decide) (by decide)
    (by decide)⟩


/-- C14: for every non-fragmented IPv4 frame with protocol 6 whose IP header is accepted,
`parse` fails, with `is_malformed` set, exactly when fewer than 20 bytes follow the IP
header, or `data_offset * 4 < 20`, or the TCP header of `data_offset * 4` bytes does not fit
in the frame; on success `has_tcp` is set, `src_port = 256 * b0 + b1` and
`dest_port = 256 * b2 + b3` of the TCP header, `seq_number` and `ack_number` are the
big-endian 32-bit values at its bytes 4..7 and 8..11, and `tcp_flags` is its byte 13; on
either host byte order. -/
theorem ipv4_tcp_header_parsed (le : Bool) (raw : RawPacket) (hlen : 14 ≤ raw.data.length)
    (het : wire16 raw.data 12 = 0x0800) (hgood : ¬ ipv4HeaderBad raw.data)
    (hnf : ¬ ipv4Fragmented raw.data) (h6 : byteOf raw.data 23 = 6) :
    ∃ ok p, parse le raw = .ok (ok, p) ∧
      (ok = false ↔ tcpHeaderBad raw.data (14 + ihlBytes raw.data)) ∧
      (ok = false → p.is_malformed = true) ∧
      (ok = true → p.has_tcp = true ∧
        p.src_port = 256 * byteOf raw.data (14 + ihlBytes raw.data)
          + byteOf raw.data (14 + ihlBytes raw.data + 1) ∧
        p.dest_port = 256 * byteOf raw.data (14 + ihlBytes raw.data + 2)
          + byteOf raw.data (14 + ihlBytes raw.data + 3) ∧
        p.seq_number = wire32 raw.data (14 + ihlBytes raw.data + 4) ∧
        p.ack_number = wire32 raw.data (14 + ihlBytes raw.data + 8) ∧
        p.tcp_flags = byteOf raw.data (14 + ihlBytes raw.data + 13)) := by
  obtain ⟨P, hP, -, -, -, hproto, hfrag, hp⟩ := parse_ipv4_good le raw hlen het hgood
  have hPf : P.is_fragmented = false := by rw [hfrag]; simpa using hnf
  rw [hp]
  by_cases ht : tcpHeaderBad raw.data (14 + ihlBytes raw.data)
  · obtain ⟨p, hp2, hm, -, -⟩ := transport_tcp_bad le raw.data P _ hPf
      (by rw [hproto]; exact h6) ht
    exact ⟨false, p, hp2, by simp [ht], fun _ => hm, fun h => absurd h (by simp)⟩
  · refine ⟨true, _, transport_tcp_good le raw.data P _ hPf (by rw [hproto]; exact h6) ht,
      by simp [ht], fun h => absurd h (by simp), fun _ => ?_⟩
    simp [withTCP, wire16]

/-- C14 witness: the sample TCP segment. -/
theorem ipv4_tcp_header_parsed_witness :
    ∃ ok p, parse true tcpFrame = .ok (ok, p) ∧
      (ok = false ↔ tcpHeaderBad tcpFrame.data (14 + ihlBytes tcpFrame.data)) ∧
      (ok = false → p.is_malformed = true) ∧
      (ok = true → p.has_tcp = true ∧
        p.src_port = 256 * byteOf tcpFrame.data (14 + ihlBytes tcpFrame.data)
          + byteOf tcpFrame.data (14 + ihlBytes tcpFrame.data + 1) ∧
        p.dest_port = 256 * byteOf tcpFrame.data (14 + ihlBytes tcpFrame.data + 2)
          + byteOf tcpFrame.data (14 + ihlBytes tcpFrame.data + 3) ∧
        p.seq_number = wire32 tcpFrame.data (14 + ihlBytes tcpFrame.data + 4) ∧
        p.ack_number = wire32 tcpFrame.data (14 + ihlBytes tcpFrame.data + 8) ∧
        p.tcp_flags = byteOf tcpFrame.data (14 + ihlBytes tcpFrame.data + 13)) :=
  ipv4_tcp_header_parsed true tcpFrame (by decide) (by decide) (by decide) (by decide)
    (by decide)


/-- C15: for every frame that `parse` accepts as non-fragmented IPv4, the payload offset
is `14 + IHL * 4 + data_offset * 4` for TCP and `14 + IHL * 4 + 8` for UDP; that offset is
at most the frame length, `payload_length` = frame length - offset, the payload pointer is
null with `payload_length` 0 exactly when the offset equals the frame length, and a non-null
payload pointer points at that offset. -/
theorem ipv4_payload_offset (le : Bool) (raw : RawPacket) (p : ParsedPacket)
    (hlen : 14 ≤ raw.data.length) (het : wire16 raw.data 12 = 0x0800)
    (hacc : parse le raw = .ok (true, p)) (hnf : p.is_fragmented = false) :
    (byteOf raw.data 23 = 6 →
      14 + ihlBytes raw.data + tcpHeaderBytes raw.data (14 + ihlBytes raw.data)
        ≤ raw.data.length ∧
      p.payload_length = raw.data.length -
        (14 + ihlBytes raw.data + tcpHeaderBytes raw.data (14 + ihlBytes raw.data)) ∧
      (p.payload_data = none ∧ p.payload_length = 0 ↔
        14 + ihlBytes raw.data + tcpHeaderBytes raw.data (14 + ihlBytes raw.data)
          = raw.data.length) ∧
      (p.payload_data ≠ none → p.payload_data =
        some (14 + ihlBytes raw.data + tcpHeaderBytes raw.data (14 + ihlBytes raw.data)))) ∧
    (byteOf raw.data 23 = 17 →
      14 + ihlBytes raw.data + 8 ≤ raw.data.length ∧
      p.payload_length = raw.data.length - (14 + ihlBytes raw.data + 8) ∧
      (p.payload_data = none ∧ p.payload_length = 0 ↔
        14 + ihlBytes raw.data + 8 = raw.data.length) ∧
      (p.payload_data ≠ none → p.payload_data = some (14 + ihlBytes raw.data + 8))) := by
  have hgood : ¬ ipv4HeaderBad raw.data := by
    intro hbad
    obtain ⟨q, hq, -⟩ := parse_ipv4_bad le raw hlen het hbad
    rw [hq] at hacc
    simp at hacc
  obtain ⟨P, hP, -, -, -, hproto, hfrag, hp⟩ := parse_ipv4_good le raw hlen het hgood
  rw [hp] at hacc
  have hPf : P.is_fragmented = false := by
    by_contra hc
    have hPt : P.is_fragmented = true := by simpa using hc
    rw [transport_fragmented le raw.data P _ hPt] at hacc
    have : p = setPayload P (14 + ihlBytes raw.data) raw.data.length := by
      simp at hacc; exact hacc.symm
    rw [this] at hnf
    simp [hPt] at hnf
  constructor
  · intro h6
    have ht : ¬ tcpHeaderBad raw.data (14 + ihlBytes raw.data) := by
      intro hbad
      obtain ⟨q, hq, -⟩ := transport_tcp_bad le raw.data P _ hPf (by rw [hproto]; exact h6) hbad
      rw [hq] at hacc
      simp at hacc
    rw [transport_tcp_good le raw.data P _ hPf (by rw [hproto]; exact h6) ht] at hacc
    have hpeq : p = setPayload (withTCP P raw.data (14 + ihlBytes raw.data))
        (14 + ihlBytes raw.data + tcpHeaderBytes raw.data (14 + ihlBytes raw.data))
        raw.data.length := by
      simp at hacc; exact hacc.symm
    have hfit : 14 + ihlBytes raw.data + tcpHeaderBytes raw.data (14 + ihlBytes raw.data)
        ≤ raw.data.length := by
      unfold tcpHeaderBad at ht; omega
    have hl := setPayload_payload_length (withTCP P raw.data (14 + ihlBytes raw.data)) _ _
      (show (withTCP P raw.data (14 + ihlBytes raw.data)).payload_length = 0 from
        hP.payload_length) hfit
    have hd := setPayload_payload_data (withTCP P raw.data (14 + ihlBytes raw.data))
      (14 + ihlBytes raw.data + tcpHeaderBytes raw.data (14 + ihlBytes raw.data))
      raw.data.length
      (show (withTCP P raw.data (14 + ihlBytes raw.data)).payload_data = none from
        hP.payload_data)
    rw [← hpeq] at hl hd
    refine ⟨hfit, hl, ?_, ?_⟩
    · rw [hl, hd]
      split_ifs with hlt
      · simp; omega
      · simp; omega
    · rw [hd]
      split_ifs with hlt
      · intro _; rfl
      · intro h; exact absurd rfl h
  · intro h17
    have hu : ¬ udpHeaderBad raw.data (14 + ihlBytes raw.data) := by
      intro hbad
      obtain ⟨q, hq, -⟩ := transport_udp_bad le raw.data P _ hPf (by rw [hproto]; exact h17)
        hbad
      rw [hq] at hacc
      simp at hacc
    rw [transport_udp_good le raw.data P _ hPf (by rw [hproto]; exact h17) hu] at hacc
    have hpeq : p = setPayload (withUDP P raw.data (14 + ihlBytes raw.data))
        (14 + ihlBytes raw.data + 8) raw.data.length := by
      simp at hacc; exact hacc.symm
    have hfit : 14 + ihlBytes raw.data + 8 ≤ raw.data.length := by
      unfold udpHeaderBad at hu
      unfold ipv4HeaderBad at hgood
      omega
    have hl := setPayload_payload_length (withUDP P raw.data (14 + ihlBytes raw.data)) _ _
      (show (withUDP P raw.data (14 + ihlBytes raw.data)).payload_length = 0 from
        hP.payload_length) hfit
    have hd := setPayload_payload_data (withUDP P raw.data (14 + ihlBytes raw.data))
      (14 + ihlBytes raw.data + 8) raw.data.length
      (show (withUDP P raw.data (14 + ihlBytes raw.data)).payload_data = none from
        hP.payload_data)
    rw [← hpeq] at hl hd
    refine ⟨hfit, hl, ?_, ?_⟩
    · rw [hl, hd]
      split_ifs with hlt
      · simp; omega
      · simp; omega
    · rw [hd]
      split_ifs with hlt
      · intro _; rfl
      · intro h; exact absurd rfl h


/-- C15 witness: the sample TCP segment (payload at offset 54, two bytes) and the sample
UDP datagram (offset 42 = frame length, null payload). -/
theorem ipv4_payload_offset_witness :
    parse true tcpFrame = .ok (true, tcpFrameParsed) ∧
    tcpFrameParsed.payload_data = some 54 ∧ tcpFrameParsed.payload_length = 2 ∧
    parse true udpFrame = .ok (true, udpFrameParsed) ∧
    (udpFrameParsed.payload_data = none ∧ udpFrameParsed.payload_length = 0 ↔
      14 + ihlBytes udpFrame.data + 8 = udpFrame.data.length) :=
  ⟨by decide!, by decide, by decide, by decide!,
   ((ipv4_payload_offset true udpFrame udpFrameParsed (by decide) (by decide) (by decide!)
      (by decide)).2 (by decide)).2.2.1⟩

/-- C16: for every frame with ether_type 0x86DD, `parse` fails with `is_malformed` when
fewer than 40 bytes follow the Ethernet header; otherwise `protocol` is the next_header byte
(frame byte 20), `is_fragmented` is set exactly when next_header = 44, and exactly 40 bytes
are consumed: when next_header is neither 6 nor 17 no L4 header is parsed and the payload
starts at frame offset 54 (an extension header is payload); when it is 6 or 17 the TCP or
UDP header is parsed at frame offset 54. -/
theorem ipv6_fixed_header (le : Bool) (raw : RawPacket) (hlen : 14 ≤ raw.data.length)
    (het : wire16 raw.data 12 = 0x86DD) :
    (raw.data.length - 14 < 40 → ∃ p, parse le raw = .ok (false, p) ∧ p.is_malformed = true) ∧
    (40 ≤ raw.data.length - 14 → ∃ ok p, parse le raw = .ok (ok, p) ∧
      p.protocol = byteOf raw.data 20 ∧
      (p.is_fragmented = true ↔ byteOf raw.data 20 = 44) ∧
      (byteOf raw.data 20 ≠ 6 → byteOf raw.data 20 ≠ 17 →
        ok = true ∧ p.has_tcp = false ∧ p.has_udp = false ∧ p.src_port = 0 ∧ p.dest_port = 0 ∧
        p.payload_length = raw.data.length - 54 ∧
        p.payload_data = if 54 < raw.data.length then some 54 else none) ∧
      (byteOf raw.data 20 = 6 →
        (ok = false ↔ tcpHeaderBad raw.data 54) ∧
        (ok = true → p.has_tcp = true ∧ p.src_port = wire16 raw.data 54 ∧
          p.dest_port = wire16 raw.data 56 ∧
          p.payload_length = raw.data.length - (54 + tcpHeaderBytes raw.data 54))) ∧
      (byteOf raw.data 20 = 17 →
        (ok = false ↔ udpHeaderBad raw.data 54) ∧
        (ok = true → p.has_udp = true ∧ p.src_port = wire16 raw.data 54 ∧
          p.dest_port = wire16 raw.data 56 ∧
          p.payload_length = raw.data.length - 62))) := by
  refine ⟨parse_ipv6_short le raw hlen het, fun hl => ?_⟩
  obtain ⟨P, hP, -, -, hproto, hfrag, hp⟩ := parse_ipv6_good le raw hlen het hl
  have h54 : 54 ≤ raw.data.length := by omega
  rw [hp]
  by_cases hf : byteOf raw.data 20 = 44
  · have hPf : P.is_fragmented = true := by rw [hfrag]; simpa using hf
    refine ⟨true, _, transport_fragmented le raw.data P _ hPf, ?_, ?_, ?_, ?_, ?_⟩
    · simpa using hproto
    · simp [hPf, hf]
    · intro _ _
      simp [hP.has_tcp, hP.has_udp, hP.src_port, hP.dest_port,
        setPayload_payload_length P _ _ hP.payload_length h54,
        setPayload_payload_data P 54 _ hP.payload_data]
    · intro h; omega
    · intro h; omega
  · have hPf : P.is_fragmented = false := by rw [hfrag]; simpa using hf
    by_cases h6 : byteOf raw.data 20 = 6
    · by_cases ht : tcpHeaderBad raw.data 54
      · obtain ⟨p, hp2, -, hpp, hpf⟩ := transport_tcp_bad le raw.data P 54 hPf
          (by rw [hproto]; exact h6) ht
        refine ⟨false, p, hp2, by rw [hpp, hproto], by simp [hpf, hPf, hf], ?_, ?_, ?_⟩
        · intro h; exact absurd h6 h
        · intro _; exact ⟨by simp [ht], fun h => absurd h (by simp)⟩
        · intro h; omega
      · have hfit : 54 + tcpHeaderBytes raw.data 54 ≤ raw.data.length := by
          unfold tcpHeaderBad at ht; omega
        refine ⟨true, _, transport_tcp_good le raw.data P 54 hPf (by rw [hproto]; exact h6) ht,
          by simp [withTCP, hproto], by simp [withTCP, hPf, hf], ?_, ?_, ?_⟩
        · intro h; exact absurd h6 h
        · intro _
          have hpl := setPayload_payload_length (withTCP P raw.data 54) _ _
            (show (withTCP P raw.data 54).payload_length = 0 from hP.payload_length) hfit
          exact ⟨by simp [ht], fun _ => ⟨by simp [withTCP], by simp [withTCP],
            by simp [withTCP], hpl⟩⟩
        · intro h; omega
    · by_cases h17 : byteOf raw.data 20 = 17
      · by_cases hu : udpHeaderBad raw.data 54
        · obtain ⟨p, hp2, -, hpp, hpf⟩ := transport_udp_bad le raw.data P 54 hPf
            (by rw [hproto]; exact h17) hu
          refine ⟨false, p, hp2, by rw [hpp, hproto], by simp [hpf, hPf, hf], ?_, ?_, ?_⟩
          · intro _ h; exact absurd h17 h
          · intro h; exact absurd h h6
          · intro _; exact ⟨by simp [hu], fun h => absurd h (by simp)⟩
        · have hfit : 54 + 8 ≤ raw.data.length := by
            unfold udpHeaderBad at hu; omega
          refine ⟨true, _, transport_udp_good le raw.data P 54 hPf
            (by rw [hproto]; exact h17) hu, by simp [withUDP, hproto],
            by simp [withUDP, hPf, hf], ?_, ?_, ?_⟩
          · intro _ h; exact absurd h17 h
          · intro h; exact absurd h h6
          · intro _
            have hpl := setPayload_payload_length (withUDP P raw.data 54) _ _
              (show (withUDP P raw.data 54).payload_length = 0 from hP.payload_length) hfit
            exact ⟨by simp [hu], fun _ => ⟨by simp [withUDP], by simp [withUDP],
              by simp [withUDP], hpl⟩⟩
      · refine ⟨true, _, transport_other le raw.data P 54 hPf (by rw [hproto]; exact h6)
          (by rw [hproto]; exact h17), by simpa using hproto, by simp [hPf, hf], ?_, ?_, ?_⟩
        · intro _ _
          simp [hP.has_tcp, hP.has_udp, hP.src_port, hP.dest_port,
            setPayload_payload_length P _ _ hP.payload_length h54,
            setPayload_payload_data P 54 _ hP.payload_data]
        · intro h; exact absurd h h6
        · intro h; exact absurd h h17


/-- C16 witness: the sample IPv6 TCP segment of 76 bytes. -/
theorem ipv6_fixed_header_witness :
    ∃ ok p, parse true tcp6Frame = .ok (ok, p) ∧ p.protocol = 6 ∧
      (ok = true → p.has_tcp = true ∧ p.src_port = 1234 ∧ p.dest_port = 443 ∧
        p.payload_length = 2) := by
  obtain ⟨ok, p, h1, h2, -, -, h5, -⟩ :=
    (ipv6_fixed_header true tcp6Frame (by decide) (by decide)).2 (by decide)
  exact ⟨ok, p, h1, h2, (h5 (by decide)).2⟩

/-- C17 (evaluation at the failing input): on a little-endian host `open` accepts the
sample capture whose magic reads 0xD4C3B2A1 and sets `needsByteSwap()`; the stored
`thiszone` field reads 0x100E0000 and `getGlobalHeader().thiszone` is still 0x100E0000, not
its byte-swapped value 0x00000E10 (3600), whereas `snaplen` is byte-swapped.  `open` swaps
`version_major`, `version_minor`, `snaplen` and `network` only. -/
theorem pcap_open_leaves_thiszone_unswapped :
    (PcapReader.open true PcapReader.closed (some swappedFile)).1 = true ∧
    (PcapReader.open true PcapReader.closed (some swappedFile)).2.needsByteSwap = true ∧
    (PcapGlobalHeader.ofBytes true (swappedFile.take 24)).thiszone = 0x100E0000 ∧
    (PcapReader.open true PcapReader.closed (some swappedFile)).2.getGlobalHeader.thiszone
      = 0x100E0000 ∧
    byteSwap32 0x100E0000 = 0x00000E10 ∧
    (PcapReader.open true PcapReader.closed (some swappedFile)).2.getGlobalHeader.snaplen
      = byteSwap32 (PcapGlobalHeader.ofBytes true (swappedFile.take 24)).snaplen := by
  decide


/-- C18 (evaluation at the failing input): for the sample capture with swapped magic the
24 bytes that `writeOutputHeader` writes from `getGlobalHeader()` differ from the 24 bytes
read: the magic, `thiszone` and `sigfigs` are copied, but the version (`02 00 04 00` for
`00 02 00 04`), snaplen and linktype come out in host byte order, because `open` converted
them in place.  For the capture with native magic the header is written verbatim. -/
theorem output_header_not_verbatim_for_swapped_magic :
    (PcapReader.open true PcapReader.closed (some swappedFile)).1 = true ∧
    DPIEngine.writeOutputHeader true (some [])
        (PcapReader.open true PcapReader.closed (some swappedFile)).2.getGlobalHeader
      = (true, some [0xA1, 0xB2, 0xC3, 0xD4, 0x02, 0x00, 0x04, 0x00, 0x00, 0x00, 0x0E, 0x10,
          0, 0, 0, 0, 0xFF, 0xFF, 0x00, 0x00, 0x01, 0x00, 0x00, 0x00]) ∧
    swappedFile.take 24
      = [0xA1, 0xB2, 0xC3, 0xD4, 0x00, 0x02, 0x00, 0x04, 0x00, 0x00, 0x0E, 0x10,
          0, 0, 0, 0, 0x00, 0x00, 0xFF, 0xFF, 0x00, 0x00, 0x00, 0x01] ∧
    DPIEngine.writeOutputHeader true (some [])
        (PcapReader.open true PcapReader.closed (some nativeFile)).2.getGlobalHeader
      = (true, some (nativeFile.take 24)) := by
  decide


/-- C19: for a reader with an open, good stream, `readNextPacket`, after byte-order
correction of the record header, returns false and leaves `packet.data` untouched whenever
`incl_len > snaplen` or `incl_len > 65535`; when the 16-byte record header and `incl_len`
data bytes are available and `incl_len` is within both limits it returns true with the
corrected header and with `data` equal to exactly those `incl_len` bytes; when fewer than 16
bytes are left for the record header it returns false. -/
theorem read_next_packet_contract (le : Bool) (r : PcapReader) (s : IFStream)
    (packet : RawPacket) (hs : r.file_ = some s) (hg : s.good = true) :
    (s.content.length < s.pos + 16 →
      (r.readNextPacket le packet).1 = false ∧
      (r.readNextPacket le packet).2.1.data = packet.data) ∧
    (s.pos + 16 ≤ s.content.length →
      ((PcapReader.correctedHeader le r s).incl_len > r.global_header_.snaplen ∨
        (PcapReader.correctedHeader le r s).incl_len > 65535) →
      (r.readNextPacket le packet).1 = false ∧
      (r.readNextPacket le packet).2.1.data = packet.data) ∧
    (s.pos + 16 + (PcapReader.correctedHeader le r s).incl_len ≤ s.content.length →
      (PcapReader.correctedHeader le r s).incl_len ≤ r.global_header_.snaplen →
      (PcapReader.correctedHeader le r s).incl_len ≤ 65535 →
      (r.readNextPacket le packet).1 = true ∧
      (r.readNextPacket le packet).2.1.header = PcapReader.correctedHeader le r s ∧
      (r.readNextPacket le packet).2.1.data
        = (s.content.drop (s.pos + 16)).take (PcapReader.correctedHeader le r s).incl_len) := by
  refine ⟨PcapReader.readNextPacket_short le r s packet hs hg, ?_, ?_⟩
  · intro h16 hbig
    rw [PcapReader.readNextPacket_header le r s packet hs hg h16, if_pos hbig]
    constructor <;> rfl
  · intro hfit h1 h2
    have hok : ¬ ((PcapReader.correctedHeader le r s).incl_len > r.global_header_.snaplen ∨
        (PcapReader.correctedHeader le r s).incl_len > 65535) := by omega
    rw [PcapReader.readNextPacket_header le r s packet hs hg (by omega), if_neg hok]
    have hrd : IFStream.read { s with pos := s.pos + 16 }
        (PcapReader.correctedHeader le r s).incl_len
        = ((s.content.drop (s.pos + 16)).take (PcapReader.correctedHeader le r s).incl_len,
            { s with pos := s.pos + 16 + (PcapReader.correctedHeader le r s).incl_len }) := by
      simp [IFStream.read, hg, hfit]
    simp only [hrd]
    refine ⟨hg, trivial, ?_⟩
    have hl : ((s.content.drop (s.pos + 16)).take
        (PcapReader.correctedHeader le r s).incl_len).length
        = (PcapReader.correctedHeader le r s).incl_len := by
      simp only [List.length_take, List.length_drop]; omega
    have hd : List.drop (PcapReader.correctedHeader le r s).incl_len
        (packet.data.take (PcapReader.correctedHeader le r s).incl_len ++
          List.replicate ((PcapReader.correctedHeader le r s).incl_len - packet.data.length) 0)
        = [] := by
      apply List.drop_eq_nil_of_le
      simp only [List.length_append, List.length_take, List.length_replicate]
      omega
    rw [hl, hd, List.append_nil]

/-- C19 witness: the one record of the sample byte-swapped capture, read after `open`. -/
theorem read_next_packet_contract_witness :
    (PcapReader.open true PcapReader.closed (some swappedFile)).1 = true ∧
    ((PcapReader.open true PcapReader.closed (some swappedFile)).2.readNextPacket true {}).1
      = true ∧
    ((PcapReader.open true PcapReader.closed (some swappedFile)).2.readNextPacket true {}).2.1
      = { header := { ts_sec := 1, ts_usec := 2, incl_len := 3, orig_len := 3 },
          data := [0xAA, 0xBB, 0xCC] } :=
  have h := (read_next_packet_contract true
    (PcapReader.open true PcapReader.closed (some swappedFile)).2 ⟨swappedFile, 24, true⟩ {}
    (by decide) (by decide)).2.2 (by decide) (by decide) (by decide)
  ⟨by decide, h.1, by decide⟩


/-- C20: for every five-tuple `T`, `reverse(T)` swaps `src_ip` with `dst_ip` and `src_port`
with `dst_port` and keeps `protocol`; `reverse(reverse(T)) = T`, hence
`FiveTupleHash(reverse(reverse(T))) = FiveTupleHash(T)`; and tuples equal under
`operator==` hash equally. -/
theorem five_tuple_reverse_involution (T : FiveTuple) :
    (T.reverse.src_ip = T.dst_ip ∧ T.reverse.dst_ip = T.src_ip ∧
      T.reverse.src_port = T.dst_port ∧ T.reverse.dst_port = T.src_port ∧
      T.reverse.protocol = T.protocol) ∧
    T.reverse.reverse = T ∧
    FiveTupleHash T.reverse.reverse = FiveTupleHash T ∧
    (∀ U : FiveTuple, T.eq U = true → FiveTupleHash T = FiveTupleHash U) := by
  refine ⟨⟨rfl, rfl, rfl, rfl, rfl⟩, rfl, rfl, ?_⟩
  intro U h
  rw [(FiveTuple.eq_iff T U).1 h]


/-- C21: for a load balancer with `num_fps_ > 0` worker queues, `selectFP(T)` is
`FiveTupleHash(T) mod num_fps_`, which lies in `[0, num_fps_)`; the manager built for `N > 0`
load balancers has `N` of them and `getLBForPacket(T)` selects the one with index
`FiveTupleHash(T) mod N`; and both depend on `T` only: a tuple equal to `T` under
`operator==` gets the same worker index, the same queue from `run`, the same load balancer
and the same two-stage route. -/
theorem select_fp_is_hash_mod (lb : LoadBalancer) (N K : Nat) (fp_queues : List (Option Nat))
    (silent : Bool) (T : FiveTuple) (hfps : 0 < lb.num_fps_) (hN : 0 < N) :
    lb.selectFP T = FiveTupleHash T % lb.num_fps_ ∧ lb.selectFP T < lb.num_fps_ ∧
    (LBManager.create N K fp_queues silent).lbs_.length = N ∧
    (LBManager.create N K fp_queues silent).getLBForPacket T = some (FiveTupleHash T % N) ∧
    FiveTupleHash T % N < N ∧
    (∀ U : FiveTuple, T.eq U = true →
      lb.selectFP U = lb.selectFP T ∧ lb.target U = lb.target T ∧
      (LBManager.create N K fp_queues silent).getLBForPacket U
        = (LBManager.create N K fp_queues silent).getLBForPacket T ∧
      (LBManager.create N K fp_queues silent).route U
        = (LBManager.create N K fp_queues silent).route T) := by
  have h0 : lb.num_fps_ ≠ 0 := Nat.pos_iff_ne_zero.mp hfps
  refine ⟨by simp [LoadBalancer.selectFP, h0], ?_, LBManager.create_length N K fp_queues silent,
    ?_, Nat.mod_lt _ hN, ?_⟩
  · simp only [LoadBalancer.selectFP, h0, if_false]
    exact Nat.mod_lt _ hfps
  · simp [LBManager.getLBForPacket, LBManager.create_length, Nat.pos_iff_ne_zero.mp hN]
  · intro U hU
    rw [(FiveTuple.eq_iff T U).mp hU]
    exact ⟨rfl, rfl, rfl, rfl⟩

/-- C21 witness: the default configuration, two load balancers over four workers, the first
load balancer serving two of them. -/
theorem select_fp_is_hash_mod_witness :
    (LoadBalancer.create 0 [some 0, some 1] 0 true).selectFP ⟨1, 2, 1, 80, 6⟩
      = FiveTupleHash ⟨1, 2, 1, 80, 6⟩ % 2 ∧
    (LBManager.create 2 2 (FPManager.getQueuePtrs 4) true).getLBForPacket ⟨1, 2, 1, 80, 6⟩
      = some (FiveTupleHash ⟨1, 2, 1, 80, 6⟩ % 2) :=
  have h := select_fp_is_hash_mod (LoadBalancer.create 0 [some 0, some 1] 0 true) 2 2
    (FPManager.getQueuePtrs 4) true ⟨1, 2, 1, 80, 6⟩ (by decide) (by decide)
  ⟨h.1, h.2.2.2.1⟩

/-- C22 (the claim as stated fails): with `N = 2` load balancers of `K = 2` workers each
over the four fast-path queues, the tuple (src_ip 1, dst_ip 2, src_port 1, dst_port 80,
protocol 6) has `FiveTupleHash mod 4 = 2`, but the two-stage routing sends it to load
balancer 0 and there to local index 0, which is global worker 0. -/
theorem two_stage_route_is_not_hash_mod_total :
    FiveTupleHash ⟨1, 2, 1, 80, 6⟩ % (2 * 2) = 2 ∧
    (LBManager.create 2 2 (FPManager.getQueuePtrs (2 * 2)) true).getLBForPacket ⟨1, 2, 1, 80, 6⟩
      = some 0 ∧
    (LoadBalancer.create 0 [some 0, some 1] 0 true).selectFP ⟨1, 2, 1, 80, 6⟩ = 0 ∧
    (LBManager.create 2 2 (FPManager.getQueuePtrs (2 * 2)) true).route ⟨1, 2, 1, 80, 6⟩
      = some 0 := by
  decide

/-- C22 (amended): for `N > 0` load balancers with `K > 0` workers each over the `N * K`
fast-path queues, the global worker that `getLBForPacket` followed by `selectFP` assigns to
a five-tuple `T` is `(FiveTupleHash(T) mod N) * K + FiveTupleHash(T) mod K`; it is below
`N * K`, it depends on `T` only, and it is `FiveTupleHash(T) mod (N * K)` when `N = 1` or
`K = 1`. -/
theorem two_stage_route (N K : Nat) (silent : Bool) (T : FiveTuple) (hN : 0 < N) (hK : 0 < K) :
    (LBManager.create N K (FPManager.getQueuePtrs (N * K)) silent).route T
      = some ((FiveTupleHash T % N) * K + FiveTupleHash T % K) ∧
    (FiveTupleHash T % N) * K + FiveTupleHash T % K < N * K ∧
    (∀ U : FiveTuple, T.eq U = true →
      (LBManager.create N K (FPManager.getQueuePtrs (N * K)) silent).route U
        = (LBManager.create N K (FPManager.getQueuePtrs (N * K)) silent).route T) ∧
    (N = 1 ∨ K = 1 →
      (FiveTupleHash T % N) * K + FiveTupleHash T % K = FiveTupleHash T % (N * K)) := by
  have hj : FiveTupleHash T % N < N := Nat.mod_lt _ hN
  have hi : FiveTupleHash T % K < K := Nat.mod_lt _ hK
  refine ⟨LBManager.route_eq N K silent T hN hK, ?_, ?_, ?_⟩
  · calc (FiveTupleHash T % N) * K + FiveTupleHash T % K
        < (FiveTupleHash T % N) * K + K := by omega
      _ = (FiveTupleHash T % N + 1) * K := by ring
      _ ≤ N * K := Nat.mul_le_mul_right K hj
  · intro U hU
    rw [(FiveTuple.eq_iff T U).mp hU]
  · rintro (rfl | rfl)
    · simp [Nat.mod_one]
    · simp [Nat.mod_one]

/-- C22 witness: the default configuration and the tuple of the counterexample. -/
theorem two_stage_route_witness :
    (LBManager.create 2 2 (FPManager.getQueuePtrs (2 * 2)) true).route ⟨1, 2, 1, 80, 6⟩
      = some ((FiveTupleHash ⟨1, 2, 1, 80, 6⟩ % 2) * 2 + FiveTupleHash ⟨1, 2, 1, 80, 6⟩ % 2) :=
  (two_stage_route 2 2 true ⟨1, 2, 1, 80, 6⟩ (by decide) (by decide)).1

/-- C23: `ThreadSafeQueue::tryPush` returns false exactly when the queue already holds
`capacity()` items (or more) or has been shut down, and then leaves the queue as it was:
contents, `totalPushes()` and `maxObservedDepth()` are unchanged; otherwise it returns true,
the content is the old content with the item appended at the back, and `totalPushes()` is
the old count plus one (as a 64-bit counter: plus one whenever that is below 2^64). -/
theorem try_push_rejects_when_full_or_shut_down {T : Type} (q : ThreadSafeQueue T) (item : T) :
    ((q.tryPush item).1 = false ↔ q.size ≥ q.capacity ∨ q.isShutdown = true) ∧
    ((q.tryPush item).1 = false →
      (q.tryPush item).2 = q ∧ (q.tryPush item).2.queue_ = q.queue_ ∧
      (q.tryPush item).2.totalPushes = q.totalPushes ∧
      (q.tryPush item).2.maxObservedDepth = q.maxObservedDepth) ∧
    ((q.tryPush item).1 = true →
      (q.tryPush item).2.queue_ = q.queue_ ++ [item] ∧
      (q.tryPush item).2.totalPushes = (q.totalPushes + 1) % 2 ^ 64 ∧
      (q.totalPushes + 1 < 2 ^ 64 → (q.tryPush item).2.totalPushes = q.totalPushes + 1)) := by
  by_cases h : q.max_size_ ≤ q.queue_.length ∨ q.shutdown_ = true
  · rw [ThreadSafeQueue.tryPush_refused q item h]
    refine ⟨⟨fun _ => h, fun _ => rfl⟩, fun _ => ⟨rfl, rfl, rfl, rfl⟩, fun hc => ?_⟩
    simp at hc
  · have hs : q.shutdown_ = false := by
      cases hq : q.shutdown_ with
      | false => rfl
      | true => exact absurd (Or.inr hq) h
    have hlt : q.queue_.length < q.max_size_ := by
      by_contra hc; exact h (Or.inl (by omega))
    rw [ThreadSafeQueue.tryPush_room q item hs hlt]
    have hm := ThreadSafeQueue.updateMetricsOnPush_queue { q with queue_ := q.queue_ ++ [item] }
    refine ⟨⟨fun hc => by simp at hc, fun hc => absurd hc h⟩, fun hc => by simp at hc,
      fun _ => ⟨hm.1, hm.2.2.2.1, fun hb => ?_⟩⟩
    have := hm.2.2.2.1
    simp only [ThreadSafeQueue.totalPushes] at hb ⊢
    rw [this]
    exact Nat.mod_eq_of_lt hb

/-- C26 (the claim as stated fails): a connection in state NEW that has seen nothing, on a
packet with SYN and RST and without ACK (flags 0x06), ends CLOSED, not NEW; a connection in
state NEW whose `fin_seen` is set, on a packet with exactly SYN and ACK (flags 0x12), ends
CLOSED; and a connection in state NEW whose `syn_seen` is set ends ESTABLISHED on that same
SYN+ACK packet, which is not a later packet. -/
theorem syn_packet_can_leave_new :
    FastPathProcessor.flagSet 0x06 FastPathProcessor.SYN = true ∧
    FastPathProcessor.flagSet 0x06 FastPathProcessor.ACK = false ∧
    (FastPathProcessor.updateTCPState { state := .NEW } 0x06).state = .CLOSED ∧
    FastPathProcessor.flagSet 0x12 FastPathProcessor.SYN = true ∧
    FastPathProcessor.flagSet 0x12 FastPathProcessor.ACK = true ∧
    FastPathProcessor.flagSet 0x12 FastPathProcessor.FIN = false ∧
    FastPathProcessor.flagSet 0x12 FastPathProcessor.RST = false ∧
    (FastPathProcessor.updateTCPState { state := .NEW, fin_seen := true } 0x12).state
      = .CLOSED ∧
    (FastPathProcessor.updateTCPState { state := .NEW, syn_seen := true } 0x12).state
      = .ESTABLISHED := by
  decide

/-- C26 (amended): for a connection in state NEW, a packet with SYN and with neither ACK
nor RST records `syn_seen` and leaves the state NEW; a packet with SYN and ACK records
`syn_ack_seen`, and leaves the state NEW when it has neither FIN nor RST and neither
`syn_seen` nor `fin_seen` was set before; the state becomes ESTABLISHED only on a packet
that carries ACK and only with `syn_seen` and `syn_ack_seen` both set once the packet is
recorded; and it does become ESTABLISHED on a packet with ACK and without SYN, FIN and RST
when `syn_seen` and `syn_ack_seen` are set and `fin_seen` is not. -/
theorem new_state_rows (conn : Connection) (tcp_flags : Nat)
    (hnew : conn.state = ConnectionState.NEW) :
    (FastPathProcessor.flagSet tcp_flags FastPathProcessor.SYN = true →
      FastPathProcessor.flagSet tcp_flags FastPathProcessor.ACK = false →
      FastPathProcessor.flagSet tcp_flags FastPathProcessor.RST = false →
      (FastPathProcessor.updateTCPState conn tcp_flags).syn_seen = true ∧
      (FastPathProcessor.updateTCPState conn tcp_flags).state = .NEW) ∧
    (FastPathProcessor.flagSet tcp_flags FastPathProcessor.SYN = true →
      FastPathProcessor.flagSet tcp_flags FastPathProcessor.ACK = true →
      (FastPathProcessor.updateTCPState conn tcp_flags).syn_ack_seen = true ∧
      (FastPathProcessor.flagSet tcp_flags FastPathProcessor.FIN = false →
        FastPathProcessor.flagSet tcp_flags FastPathProcessor.RST = false →
        conn.syn_seen = false → conn.fin_seen = false →
        (FastPathProcessor.updateTCPState conn tcp_flags).state = .NEW)) ∧
    ((FastPathProcessor.updateTCPState conn tcp_flags).state = .ESTABLISHED →
      FastPathProcessor.flagSet tcp_flags FastPathProcessor.ACK = true ∧
      (FastPathProcessor.updateTCPState conn tcp_flags).syn_seen = true ∧
      (FastPathProcessor.updateTCPState conn tcp_flags).syn_ack_seen = true) ∧
    (FastPathProcessor.flagSet tcp_flags FastPathProcessor.ACK = true →
      FastPathProcessor.flagSet tcp_flags FastPathProcessor.SYN = false →
      FastPathProcessor.flagSet tcp_flags FastPathProcessor.FIN = false →
      FastPathProcessor.flagSet tcp_flags FastPathProcessor.RST = false →
      conn.syn_seen = true → conn.syn_ack_seen = true → conn.fin_seen = false →
      (FastPathProcessor.updateTCPState conn tcp_flags).state = .ESTABLISHED) := by
  obtain ⟨e1, e2, -, e4⟩ := FastPathProcessor.updateTCPState_eq conn tcp_flags
  rw [e1, e2, e4, hnew]
  cases FastPathProcessor.flagSet tcp_flags FastPathProcessor.SYN <;>
    cases FastPathProcessor.flagSet tcp_flags FastPathProcessor.ACK <;>
    cases FastPathProcessor.flagSet tcp_flags FastPathProcessor.FIN <;>
    cases FastPathProcessor.flagSet tcp_flags FastPathProcessor.RST <;>
    cases conn.syn_seen <;> cases conn.syn_ack_seen <;> cases conn.fin_seen <;> simp

/-- C26 witness: the handshake's first packet, SYN alone, on a fresh connection. -/
theorem new_state_rows_witness :
    (FastPathProcessor.updateTCPState {} 0x02).syn_seen = true ∧
    (FastPathProcessor.updateTCPState {} 0x02).state = .NEW :=
  (new_state_rows {} 0x02 rfl).1 (by decide) (by decide) (by decide)

/-- C27 (evaluation at the failing input): `updateTCPState` on a BLOCKED connection and a
packet with RST (flags 0x04) leaves the state CLOSED, not BLOCKED; so does a packet with FIN
and ACK (flags 0x11), and a plain ACK (0x10) once `fin_seen` is set.  In general every
packet with RST ends in CLOSED whatever the state was, while the one other assignment to
the state, to ESTABLISHED, is made from NEW only: a BLOCKED connection keeps its state on
every packet with neither RST nor ACK. -/
theorem blocked_connection_closed_by_rst :
    (FastPathProcessor.updateTCPState { state := .BLOCKED } 0x04).state = .CLOSED ∧
    (FastPathProcessor.updateTCPState { state := .BLOCKED } 0x11).state = .CLOSED ∧
    (FastPathProcessor.updateTCPState { state := .BLOCKED, fin_seen := true } 0x10).state
      = .CLOSED ∧
    (∀ (conn : Connection) (tcp_flags : Nat),
      FastPathProcessor.flagSet tcp_flags FastPathProcessor.RST = true →
      (FastPathProcessor.updateTCPState conn tcp_flags).state = .CLOSED) ∧
    (∀ (conn : Connection) (tcp_flags : Nat), conn.state = .BLOCKED →
      FastPathProcessor.flagSet tcp_flags FastPathProcessor.RST = false →
      FastPathProcessor.flagSet tcp_flags FastPathProcessor.ACK = false →
      (FastPathProcessor.updateTCPState conn tcp_flags).state = .BLOCKED) := by
  refine ⟨by decide, by decide, by decide, ?_, ?_⟩
  · intro conn f hr
    rw [(FastPathProcessor.updateTCPState_eq conn f).2.2.2, hr]
    simp
  · intro conn f hb hr ha
    rw [(FastPathProcessor.updateTCPState_eq conn f).2.2.2, hr, ha, hb]
    simp

/-- C28 (the claim as stated fails): an ESTABLISHED connection sees a FIN without ACK (flags
0x01) and stays ESTABLISHED with `fin_seen` recorded; the next packet, a plain ACK (flags
0x10) with neither RST nor FIN, moves it to CLOSED. -/
theorem plain_ack_after_fin_closes :
    (FastPathProcessor.updateTCPState { state := .ESTABLISHED } 0x01).state = .ESTABLISHED ∧
    FastPathProcessor.flagSet 0x10 FastPathProcessor.RST = false ∧
    FastPathProcessor.flagSet 0x10 FastPathProcessor.FIN = false ∧
    (FastPathProcessor.updateTCPState
      (FastPathProcessor.updateTCPState { state := .ESTABLISHED } 0x01) 0x10).state
      = .CLOSED := by
  decide

/-- C28 (amended): for a connection in a non-terminal state (NEW, ESTABLISHED or
CLASSIFIED), `updateTCPState` moves it to CLOSED exactly when the packet carries RST, or
carries ACK while FIN is in this packet or `fin_seen` was recorded from an earlier one; a
packet with neither RST nor ACK never closes the connection, and a packet with neither RST
nor FIN closes it only if `fin_seen` was already set. -/
theorem closes_on_rst_or_ack_after_fin (conn : Connection) (tcp_flags : Nat)
    (hnt : conn.state = .NEW ∨ conn.state = .ESTABLISHED ∨ conn.state = .CLASSIFIED) :
    ((FastPathProcessor.updateTCPState conn tcp_flags).state = .CLOSED ↔
      FastPathProcessor.flagSet tcp_flags FastPathProcessor.RST = true ∨
      (FastPathProcessor.flagSet tcp_flags FastPathProcessor.ACK = true ∧
        (FastPathProcessor.flagSet tcp_flags FastPathProcessor.FIN = true ∨
          conn.fin_seen = true))) ∧
    (FastPathProcessor.flagSet tcp_flags FastPathProcessor.RST = false →
      FastPathProcessor.flagSet tcp_flags FastPathProcessor.ACK = false →
      (FastPathProcessor.updateTCPState conn tcp_flags).state ≠ .CLOSED) ∧
    (FastPathProcessor.flagSet tcp_flags FastPathProcessor.RST = false →
      FastPathProcessor.flagSet tcp_flags FastPathProcessor.FIN = false →
      conn.fin_seen = false →
      (FastPathProcessor.updateTCPState conn tcp_flags).state ≠ .CLOSED) := by
  rw [(FastPathProcessor.updateTCPState_eq conn tcp_flags).2.2.2]
  rcases hnt with h | h | h <;> rw [h] <;>
    cases FastPathProcessor.flagSet tcp_flags FastPathProcessor.SYN <;>
    cases FastPathProcessor.flagSet tcp_flags FastPathProcessor.ACK <;>
    cases FastPathProcessor.flagSet tcp_flags FastPathProcessor.FIN <;>
    cases FastPathProcessor.flagSet tcp_flags FastPathProcessor.RST <;>
    cases conn.syn_seen <;> cases conn.syn_ack_seen <;> cases conn.fin_seen <;> simp

/-- C28 witness: a CLASSIFIED connection and a packet with FIN and ACK (flags 0x11). -/
theorem closes_on_rst_or_ack_after_fin_witness :
    (FastPathProcessor.updateTCPState { state := .CLASSIFIED } 0x11).state = .CLOSED :=
  ((closes_on_rst_or_ack_after_fin { state := .CLASSIFIED } 0x11
    (Or.inr (Or.inr rfl))).1).2 (Or.inr ⟨by decide, Or.inl (by decide)⟩)

/-- C29: under `updateTCPState`, for every connection and every flags value, the new state
is never earlier than the old one in the declaration order NEW < ESTABLISHED < CLASSIFIED <
BLOCKED < CLOSED, a CLOSED connection stays CLOSED, and each of `syn_seen`, `syn_ack_seen`,
`fin_seen`, once true, stays true. -/
theorem tcp_state_is_monotone (conn : Connection) (tcp_flags : Nat) :
    conn.state.toNat ≤ (FastPathProcessor.updateTCPState conn tcp_flags).state.toNat ∧
    (conn.state = .CLOSED → (FastPathProcessor.updateTCPState conn tcp_flags).state = .CLOSED) ∧
    (conn.syn_seen = true → (FastPathProcessor.updateTCPState conn tcp_flags).syn_seen = true) ∧
    (conn.syn_ack_seen = true →
      (FastPathProcessor.updateTCPState conn tcp_flags).syn_ack_seen = true) ∧
    (conn.fin_seen = true → (FastPathProcessor.updateTCPState conn tcp_flags).fin_seen = true) := by
  obtain ⟨e1, e2, e3, e4⟩ := FastPathProcessor.updateTCPState_eq conn tcp_flags
  rw [e1, e2, e3, e4]
  cases FastPathProcessor.flagSet tcp_flags FastPathProcessor.SYN <;>
    cases FastPathProcessor.flagSet tcp_flags FastPathProcessor.ACK <;>
    cases FastPathProcessor.flagSet tcp_flags FastPathProcessor.FIN <;>
    cases FastPathProcessor.flagSet tcp_flags FastPathProcessor.RST <;>
    cases conn.syn_seen <;> cases conn.syn_ack_seen <;> cases conn.fin_seen <;>
    cases conn.state <;> simp [ConnectionState.toNat]

/-- C30: for a capture that `open` accepts, an engine with at least one load balancer, and
provided the reads of `createPacketJob` stay inside the frame on the accepted records that
are not IPv4 (on accepted IPv4 records they always do), the reader thread ends with `packet_id` the number of accepted records (as a 32-bit counter) and
has pushed one job per accepted record, in reading order, each to the load balancer that
`getLBForPacket` selects for its tuple, the `k`-th of them with `packet_id = k` (modulo
2^32) and the frame of the `k`-th accepted record; a record is accepted exactly when `parse`
succeeds and the packet has an IP header and a parsed TCP or UDP header.  No job is pushed
for a record that `parse` rejects as malformed, for a frame shorter than an Ethernet
header, for a frame whose EtherType is neither IPv4 nor IPv6 (ARP for instance), for a
fragmented IPv4 packet, or for an IPv4 or IPv6 packet whose protocol is neither TCP nor UDP
(ICMP for instance). -/
theorem reader_enqueues_accepted_records (le : Bool) (e : DPIEngine) (file : Bytes)
    (hopen : (PcapReader.open le PcapReader.closed (some file)).1 = true)
    (hN : 0 < e.lb_manager_.lbs_.length)
    (hjobs : ∀ rec ∈ DPIEngine.records le (file.length + 1)
        (PcapReader.open le PcapReader.closed (some file)).2 {},
      DPIEngine.accepted le rec = true → wire16 rec.data 12 ≠ 0x0800 →
        DPIEngine.jobBuilt le rec = true) :
    (∃ e1 jobs,
      DPIEngine.readerThreadFunc le e (some file)
        = .ok (e1, ((DPIEngine.records le (file.length + 1)
            (PcapReader.open le PcapReader.closed (some file)).2 {}).filter
              (DPIEngine.accepted le)).length % 2 ^ 32) ∧
      e1.enqueued = e.enqueued ++ jobs ∧
      jobs.map (fun x => x.2.data)
        = ((DPIEngine.records le (file.length + 1)
            (PcapReader.open le PcapReader.closed (some file)).2 {}).filter
              (DPIEngine.accepted le)).map (fun r => r.data) ∧
      jobs.map (fun x => x.2.packet_id)
        = (List.range ((DPIEngine.records le (file.length + 1)
            (PcapReader.open le PcapReader.closed (some file)).2 {}).filter
              (DPIEngine.accepted le)).length).map (fun k => k % 2 ^ 32) ∧
      (∀ x ∈ jobs, e.lb_manager_.getLBForPacket x.2.tuple = some x.1)) ∧
    (∀ raw : RawPacket, DPIEngine.accepted le raw = true ↔
      ∃ p, PacketParser.parse le raw = .ok (true, p) ∧ p.has_ip = true ∧
        (p.has_tcp = true ∨ p.has_udp = true)) ∧
    (∀ raw p, PacketParser.parse le raw = .ok (false, p) → DPIEngine.accepted le raw = false) ∧
    (∀ raw : RawPacket, raw.data.length < 14 → DPIEngine.accepted le raw = false) ∧
    (∀ raw : RawPacket, 14 ≤ raw.data.length → wire16 raw.data 12 ≠ 0x0800 →
      wire16 raw.data 12 ≠ 0x86DD → DPIEngine.accepted le raw = false) ∧
    (∀ raw : RawPacket, 14 ≤ raw.data.length → wire16 raw.data 12 = 0x0800 →
      PacketParser.ipv4Fragmented raw.data → DPIEngine.accepted le raw = false) ∧
    (∀ raw : RawPacket, 14 ≤ raw.data.length → wire16 raw.data 12 = 0x0800 →
      byteOf raw.data 23 ≠ 6 → byteOf raw.data 23 ≠ 17 → DPIEngine.accepted le raw = false) ∧
    (∀ raw : RawPacket, 14 ≤ raw.data.length → wire16 raw.data 12 = 0x86DD →
      byteOf raw.data 20 ≠ 6 → byteOf raw.data 20 ≠ 17 → DPIEngine.accepted le raw = false) := by
  refine ⟨?_, ?_, DPIEngine.accepted_malformed le, DPIEngine.accepted_short le,
    DPIEngine.accepted_non_ip le, DPIEngine.accepted_ipv4_fragment le,
    DPIEngine.accepted_ipv4_other le, DPIEngine.accepted_ipv6_other le⟩
  · have hu := DPIEngine.open_unread le PcapReader.closed file
    obtain ⟨e1, r1, jobs, hloop, -, -, h3, h4, h5, h6⟩ :=
      DPIEngine.readerLoop_spec le (file.length + 1)
        { e with output_file_ := (DPIEngine.writeOutputHeader le e.output_file_
            (PcapReader.open le PcapReader.closed (some file)).2.getGlobalHeader).2 }
        (PcapReader.open le PcapReader.closed (some file)).2 {} 0 (by omega) (by norm_num) hN
        (fun rec hmem p hp hk id => by
          have hacc : DPIEngine.accepted le rec = true := by
            rw [DPIEngine.accepted_iff le rec true p hp, hk]; rfl
          refine DPIEngine.jobBuilt_ok le rec true p hp ?_ id
          by_cases het : wire16 rec.data 12 = 0x0800
          · by_cases hlen : rec.data.length < 14
            · rw [DPIEngine.accepted_short le rec hlen] at hacc
              exact absurd hacc (by simp)
            · exact DPIEngine.jobBuilt_ipv4 le rec (by omega) het hacc
          · exact hjobs rec hmem hacc het)
    refine ⟨e1, jobs, ?_, h3, h4, ?_, h6⟩
    · unfold DPIEngine.readerThreadFunc
      simp only [hopen, Bool.not_true, Bool.false_eq_true, if_false, Option.getD_some, hloop,
        Nat.zero_add]
    · simpa using h5
  · intro raw
    obtain ⟨⟨ok, p⟩, hp⟩ := PacketParser.parse_ok le raw
    rw [DPIEngine.accepted_iff le raw ok p hp, hp]
    cases ok with
    | false => simp
    | true =>
      simp only [Bool.true_and, DPIEngine.keeps, Except.ok.injEq, Prod.mk.injEq, true_and,
        exists_eq_left']
      cases p.has_ip <;> cases p.has_tcp <;> cases p.has_udp <;> simp

/-- C30 witness: the sample capture of seven records on a little-endian host with two load
balancers: the TCP segment, the UDP datagram and the IPv6 TCP segment are pushed, with ids
0, 1 and 2; the ARP frame, the fragment, the truncated packet and the ICMP packet are not. -/
theorem reader_enqueues_accepted_records_witness :
    (DPIEngine.records true (sampleCapture.length + 1)
        (PcapReader.open true PcapReader.closed (some sampleCapture)).2 {}).map
        (DPIEngine.accepted true)
      = [true, false, false, false, false, true, true] ∧
    ∃ e1 jobs,
      DPIEngine.readerThreadFunc true
          { lb_manager_ := LBManager.create 2 2 (FPManager.getQueuePtrs 4) true }
          (some sampleCapture)
        = .ok (e1, ((DPIEngine.records true (sampleCapture.length + 1)
            (PcapReader.open true PcapReader.closed (some sampleCapture)).2 {}).filter
              (DPIEngine.accepted true)).length % 2 ^ 32) ∧
      e1.enqueued = [] ++ jobs ∧
      jobs.map (fun x => x.2.data)
        = ((DPIEngine.records true (sampleCapture.length + 1)
            (PcapReader.open true PcapReader.closed (some sampleCapture)).2 {}).filter
              (DPIEngine.accepted true)).map (fun r => r.data) ∧
      jobs.map (fun x => x.2.packet_id)
        = (List.range ((DPIEngine.records true (sampleCapture.length + 1)
            (PcapReader.open true PcapReader.closed (some sampleCapture)).2 {}).filter
              (DPIEngine.accepted true)).length).map (fun k => k % 2 ^ 32) ∧
      (∀ x ∈ jobs, (LBManager.create 2 2 (FPManager.getQueuePtrs 4) true).getLBForPacket
        x.2.tuple = some x.1) :=
  ⟨by decide!,
   (reader_enqueues_accepted_records true
      { lb_manager_ := LBManager.create 2 2 (FPManager.getQueuePtrs 4) true } sampleCapture
      (by decide) (by decide) (by decide!)).1⟩


/-- C31: a capture record that `PacketParser::parse` rejects is skipped by the reader, so
no job is pushed for it and it is not forwarded; but it is not counted either: the reader
thread leaves `malformed_packets` as it was on every input, and so does a whole run in
sequence, through `handleOutput`.  On the sample capture, whose fourth record (a TCP
packet cut inside its TCP header) `parse` rejects with `is_malformed` set, the run ends with
`malformed_packets = 0`, against one rejected record. -/
theorem rejected_records_are_skipped_but_not_counted :
    (∀ (le : Bool) (raw : RawPacket) (p : ParsedPacket),
      PacketParser.parse le raw = .ok (false, p) → DPIEngine.accepted le raw = false) ∧
    (∀ (le : Bool) (e e1 : DPIEngine) (input_file : Option Bytes) (n : Nat),
      DPIEngine.readerThreadFunc le e input_file = .ok (e1, n) →
        e1.stats_.malformed_packets = e.stats_.malformed_packets) ∧
    (∀ (le : Bool) (action : Nat → PacketAction) (e : DPIEngine) (input_file : Option Bytes)
      (r : DPIEngine × List PacketJob),
      DPIEngine.sequentialRun le action e input_file = .ok r →
        r.1.stats_.malformed_packets = e.stats_.malformed_packets) ∧
    (DPIEngine.records true (sampleCapture.length + 1)
        (PcapReader.open true PcapReader.closed (some sampleCapture)).2 {}).map
        (fun raw => (PacketParser.parse true raw).map fun r => (r.1, r.2.is_malformed))
      = [.ok (true, false), .ok (true, false), .ok (true, false), .ok (false, true),
         .ok (true, false), .ok (true, false), .ok (true, false)] ∧
    ((DPIEngine.records true (sampleCapture.length + 1)
        (PcapReader.open true PcapReader.closed (some sampleCapture)).2 {}).filter
        (DPIEngine.rejected true)).length = 1 ∧
    (DPIEngine.sequentialRun true (fun _ => PacketAction.FORWARD)
        { lb_manager_ := LBManager.create 2 2 (FPManager.getQueuePtrs 4) true }
        (some sampleCapture)).map
        (fun r => (r.1.stats_.malformed_packets, r.1.stats_.total_packets, r.2.length))
      = .ok (0, 3, 3) := by
  refine ⟨fun le raw p h => DPIEngine.accepted_malformed le raw p h, ?_, ?_, by decide!,
    by decide!, by decide!⟩
  · intro le e e1 input_file n h
    obtain ⟨k, -, -, h3, -, -⟩ := DPIEngine.readerThreadFunc_stats le e e1 input_file n h
    exact h3
  · intro le action e input_file r h
    unfold DPIEngine.sequentialRun at h
    cases hr : DPIEngine.readerThreadFunc le e input_file with
    | error f => simp [hr] at h
    | ok x =>
      obtain ⟨e1, n⟩ := x
      simp only [hr, Except.ok.injEq] at h
      obtain ⟨k, -, -, h3, -, -⟩ := DPIEngine.readerThreadFunc_stats le e e1 input_file n hr
      obtain ⟨f, d, -, -, -, -, -, g6, -⟩ := DPIEngine.handleAll_stats action e1.enqueued 0 (e1, [])
      rw [← h, g6]
      exact h3


/-- C32 counterexample: the sample capture of seven records, run in sequence with every job
forwarded, ends with `total_packets = 3`, `forwarded_packets = 3`, `dropped_packets = 0` and
`malformed_packets = 0`, while three of its records (the ARP frame, the fragment and the
ICMP packet) are discarded at the reader: the claimed sum is 6. -/
theorem sample_run_total_is_not_the_claimed_sum :
    (DPIEngine.sequentialRun true (fun _ => PacketAction.FORWARD)
        { lb_manager_ := LBManager.create 2 2 (FPManager.getQueuePtrs 4) true }
        (some sampleCapture)).map
        (fun r => (r.1.stats_.total_packets, r.1.stats_.forwarded_packets,
          r.1.stats_.dropped_packets, r.1.stats_.malformed_packets))
      = .ok (3, 3, 0, 0) ∧
    ((DPIEngine.records true (sampleCapture.length + 1)
        (PcapReader.open true PcapReader.closed (some sampleCapture)).2 {}).filter
        (DPIEngine.discarded true)).length = 3 ∧
    (3 : Nat) ≠ 3 + 0 + 0 + 3 := by
  refine ⟨by decide!, by decide!, by decide⟩

/-- C32: in a run in sequence over a capture that `open` accepts, of less than 2^64 bytes,
on a fresh engine with at least one load balancer (the jobs of the accepted records that are
not IPv4 being built inside their frames), the reader returns, every job it pushed is passed
to `handleOutput`, and the counters end with `total_packets = forwarded_packets +
dropped_packets`, both sides being the number of records that pass the reader's filter; the
records that `parse` rejects and those the reader discards are not counted in
`total_packets`.  The forwarded jobs are the ones pushed to the output queue. -/
theorem total_packets_is_forwarded_plus_dropped (le : Bool) (action : Nat → PacketAction)
    (e : DPIEngine) (file : Bytes)
    (hopen : (PcapReader.open le PcapReader.closed (some file)).1 = true)
    (hN : 0 < e.lb_manager_.lbs_.length)
    (hjobs : ∀ rec ∈ DPIEngine.records le (file.length + 1)
        (PcapReader.open le PcapReader.closed (some file)).2 {},
      DPIEngine.accepted le rec = true → wire16 rec.data 12 ≠ 0x0800 →
        DPIEngine.jobBuilt le rec = true)
    (hfresh : e.enqueued = [] ∧ e.stats_.total_packets = 0 ∧ e.stats_.forwarded_packets = 0 ∧
      e.stats_.dropped_packets = 0)
    (hsize : file.length + 1 < 2 ^ 64) :
    ∃ e2 out, DPIEngine.sequentialRun le action e (some file) = .ok (e2, out) ∧
      e2.stats_.total_packets = ((DPIEngine.records le (file.length + 1)
        (PcapReader.open le PcapReader.closed (some file)).2 {}).filter
          (DPIEngine.accepted le)).length ∧
      e2.stats_.total_packets = e2.stats_.forwarded_packets + e2.stats_.dropped_packets ∧
      out.length = e2.stats_.forwarded_packets := by
  obtain ⟨e2, out, h1, h2, h3, h4, -⟩ :=
    DPIEngine.sequentialRun_counts le action e file hopen hN hjobs hfresh hsize
  exact ⟨e2, out, h1, h2, h3, h4⟩

/-- C32 witness: the sample capture on a little-endian host, two load balancers, the second
job dropped and the others forwarded: `total_packets = 3 = 2 + 1`. -/
theorem total_packets_is_forwarded_plus_dropped_witness :
    (∃ e2 out,
      DPIEngine.sequentialRun true (fun k => if k = 1 then PacketAction.DROP else PacketAction.FORWARD)
          { lb_manager_ := LBManager.create 2 2 (FPManager.getQueuePtrs 4) true }
          (some sampleCapture) = .ok (e2, out) ∧
      e2.stats_.total_packets = ((DPIEngine.records true (sampleCapture.length + 1)
        (PcapReader.open true PcapReader.closed (some sampleCapture)).2 {}).filter
          (DPIEngine.accepted true)).length ∧
      e2.stats_.total_packets = e2.stats_.forwarded_packets + e2.stats_.dropped_packets ∧
      out.length = e2.stats_.forwarded_packets) ∧
    (DPIEngine.sequentialRun true (fun k => if k = 1 then PacketAction.DROP else PacketAction.FORWARD)
        { lb_manager_ := LBManager.create 2 2 (FPManager.getQueuePtrs 4) true }
        (some sampleCapture)).map
        (fun r => (r.1.stats_.total_packets, r.1.stats_.forwarded_packets,
          r.1.stats_.dropped_packets, r.2.length))
      = .ok (3, 2, 1, 2) :=
  ⟨total_packets_is_forwarded_plus_dropped true
      (fun k => if k = 1 then PacketAction.DROP else PacketAction.FORWARD)
      { lb_manager_ := LBManager.create 2 2 (FPManager.getQueuePtrs 4) true } sampleCapture
      (by decide) (by decide) (by decide!) (by decide) (by decide),
   by decide!⟩


/-- C33: `LoadBalancer::stop` and `FastPathProcessor::stop` clear `running_`, shut the input
queue down and join the thread, whose loop `while (running_)` ends at its next test whatever
the queue holds.  Called while the thread is at its loop test, `stop` returns with the input
queue holding every job it held, none received, processed or delivered; called while the
thread is in a turn, `stop` returns with all but the first job still queued (for a worker,
given that `processPacket` leaves the queue and the flag alone).  A load balancer and a
worker with jobs 0 and 1 queued are stopped with jobs 0 and 1, or job 1, still in the queue.
The loop of the output thread, `while (running_ || !output_queue_.empty())`, does drain: with
`running_` cleared it returns with the queue empty and every queued job written. -/
theorem stop_leaves_queued_jobs_in_the_input_queue :
    (∀ (lb : LoadBalancer) (fps : List (ThreadSafeQueue PacketJob)), lb.running_ = true →
      ∃ lb1, LoadBalancer.stop false lb fps = some (lb1, fps) ∧ lb1.running_ = false ∧
        lb1.input_queue_.queue_ = lb.input_queue_.queue_ ∧
        lb1.packets_received_ = lb.packets_received_ ∧
        lb1.packets_dispatched_ = lb.packets_dispatched_) ∧
    (∀ (lb : LoadBalancer) (fps : List (ThreadSafeQueue PacketJob))
      (s : LoadBalancer × List (ThreadSafeQueue PacketJob)), lb.running_ = true →
      LoadBalancer.stop true lb fps = some s →
        s.1.running_ = false ∧ s.1.input_queue_.queue_ = lb.input_queue_.queue_.tail) ∧
    (∀ (σ : Type)
      (processPacket : FastPathProcessor σ → PacketJob → PacketAction × FastPathProcessor σ)
      (cleanupStale : σ → σ) (fp : FastPathProcessor σ), fp.running_ = true →
      ∃ fp1, FastPathProcessor.stop processPacket cleanupStale false fp = .ok fp1 ∧
        fp1.running_ = false ∧ fp1.input_queue_.queue_ = fp.input_queue_.queue_ ∧
        fp1.packets_processed_ = fp.packets_processed_ ∧ fp1.delivered = fp.delivered) ∧
    (∀ (σ : Type)
      (processPacket : FastPathProcessor σ → PacketJob → PacketAction × FastPathProcessor σ)
      (cleanupStale : σ → σ) (fp : FastPathProcessor σ), fp.running_ = true →
      (∀ f job, (processPacket f job).2.input_queue_ = f.input_queue_ ∧
        (processPacket f job).2.running_ = f.running_) →
      ∃ fp1, FastPathProcessor.stop processPacket cleanupStale true fp = .ok fp1 ∧
        fp1.running_ = false ∧ fp1.input_queue_.queue_ = fp.input_queue_.queue_.tail) ∧
    (LoadBalancer.stop false busyLoadBalancer [ThreadSafeQueue.create 10000]).map
        (fun s => s.1.input_queue_.queue_.map fun job => job.packet_id) = some [0, 1] ∧
    (LoadBalancer.stop true busyLoadBalancer [ThreadSafeQueue.create 10000]).map
        (fun s => s.1.input_queue_.queue_.map fun job => job.packet_id) = some [1] ∧
    (FastPathProcessor.stop (fun f _ => (PacketAction.FORWARD, f)) id false busyFastPath).map
        (fun fp1 => fp1.input_queue_.queue_.map fun job => job.packet_id) = .ok [0, 1] ∧
    (FastPathProcessor.stop (fun f _ => (PacketAction.FORWARD, f)) id true busyFastPath).map
        (fun fp1 => fp1.input_queue_.queue_.map fun job => job.packet_id) = .ok [1] ∧
    (∀ (q : ThreadSafeQueue PacketJob) (written : List PacketJob),
      ∃ q1, DPIEngine.outputThreadFunc false (q.queue_.length + 1) q written
          = .ok (q1, written ++ q.queue_) ∧ q1.queue_ = []) := by
  refine ⟨?_, ?_, ?_, ?_, by decide, by decide, by decide, by decide, ?_⟩
  · intro lb fps h
    exact ⟨_, LoadBalancer.lb_stop_at_test lb fps h, rfl, rfl, rfl, rfl⟩
  · intro lb fps s h hs
    exact LoadBalancer.lb_stop_in_turn lb fps s h hs
  · intro σ processPacket cleanupStale fp h
    exact ⟨_, FastPathProcessor.fp_stop_at_test processPacket cleanupStale fp h, rfl, rfl, rfl, rfl⟩
  · intro σ processPacket cleanupStale fp h hpp
    exact FastPathProcessor.fp_stop_in_turn processPacket cleanupStale fp h hpp
  · intro q written
    exact DPIEngine.outputThreadFunc_drains (q.queue_.length + 1) q written (by omega)


/-- C34: in the standalone engine, `Rules::isBlocked(src_ip, app, sni)` returns true exactly
when `src_ip` is in the blocked-IP set, or `app` is in the blocked-application set, or some
blocked domain occurs as a substring of `sni`; with no rules added it returns false for every
input. The sets hold what `blockIP`, `blockApp` and `blockDomain` put there: the parsed
address, the first application whose name is the given string, and the domain string. -/
theorem is_blocked_iff_some_rule_matches (r : Rules) (src_ip : Nat) (app : AppType)
    (sni : String) :
    (r.isBlocked src_ip app sni = true ↔
      src_ip ∈ r.blocked_ips_ ∨ app ∈ r.blocked_apps_ ∨
        ∃ dom ∈ r.blocked_domains_, occursIn dom sni) ∧
    ({} : Rules).isBlocked src_ip app sni = false ∧
    (∀ ip : String, ∀ x, x ∈ (r.blockIP ip).blocked_ips_ ↔
      x = Rules.parseIP ip ∨ x ∈ r.blocked_ips_) ∧
    (∀ domain : String, ∀ d, d ∈ (r.blockDomain domain).blocked_domains_ ↔
      d ∈ r.blocked_domains_ ∨ d = domain) ∧
    (∀ (appTypeToString : AppType → String) (name : String) (a : AppType),
      a ∈ (r.blockApp appTypeToString name).blocked_apps_ ↔
        a ∈ r.blocked_apps_ ∨
          AppType.all.find? (fun b => appTypeToString b == name) = some a) := by
  refine ⟨Rules.isBlocked_iff r src_ip app sni, ?_, ?_, ?_, ?_⟩
  · rfl
  · intro ip x
    exact Rules.setInsert_mem _ _ _
  · intro domain d
    simp [Rules.blockDomain]
  · intro f name a
    unfold Rules.blockApp
    cases h : AppType.all.find? (fun b => f b == name) with
    | none => simp
    | some b =>
      simp only [Rules.setInsert_mem, Option.some.injEq]
      constructor
      · rintro (h1 | h1)
        · exact Or.inr h1.symm
        · exact Or.inl h1
      · rintro (h1 | h1)
        · exact Or.inr h1
        · exact Or.inl h1.symm

/-- C35: `boundsCheck(offset, required, total)` returns true exactly when
`offset + required <= total` over the natural numbers, for all values of the three
arguments and so for all 64-bit values: the subtraction `total - offset` is evaluated only
when `offset <= total`, where the 64-bit difference is the natural one.  The sum computed in
64 bits would be wrong: for offset 2^64 - 1, required 2, total 10 it wraps to 1, which is
at most 10, while `boundsCheck` returns false. -/
theorem bounds_check_has_no_wraparound (offset required total : Nat) :
    (PacketParser.boundsCheck offset required total = true ↔ offset + required ≤ total) ∧
    (offset ≤ total → total < 2 ^ 64 → (total + 2 ^ 64 - offset) % 2 ^ 64 = total - offset) ∧
    ((2 ^ 64 - 1 + 2) % 2 ^ 64 ≤ 10 ∧ PacketParser.boundsCheck (2 ^ 64 - 1) 2 10 = false) := by
  refine ⟨?_, fun h1 h2 => ?_, by decide, by decide⟩
  · unfold PacketParser.boundsCheck
    simp only [Bool.and_eq_true, decide_eq_true_eq]
    omega
  · omega


/-- C36: on a job with a non-empty payload that lies inside the frame, `inspectPayload`
returns, and what it does is what the specification says: it calls the SNI extractor only
when `dst_port = 443` or `payload_length >= 50`, the HTTP Host extractor only when
`dst_port = 80`, the DNS extractor only when `dst_port = 53` or `src_port = 53`, in that
order, stopping at the first that yields a name, with which it classifies the connection;
when none yields a name it classifies the connection as HTTP with empty name if
`dst_port = 80`, as HTTPS with empty name if `dst_port = 443`, and calls
`classifyConnection` for no other port.  `sni`, `host` and `domain` are what the three
extractors return on the payload. -/
theorem inspect_payload_tries_in_order (σ κ : Type) (sniToAppType : Bytes → AppType)
    (classifyConnection : σ → κ → AppType → Bytes → σ)
    (fp : FastPathProcessor σ) (job : PacketJob) (conn : κ)
    (hlen : 0 < job.payload_length)
    (hin : job.payload_offset + job.payload_length ≤ job.data.length) :
    ∃ sni host domain,
      SNIExtractor.extract job.data job.payload_offset job.payload_length = .ok sni ∧
      HTTPHostExtractor.extract ((job.data.drop job.payload_offset).take job.payload_length)
        = .ok host ∧
      DNSExtractor.extractQuery ((job.data.drop job.payload_offset).take job.payload_length)
        = .ok domain ∧
      ∃ fp1,
        FastPathProcessor.inspectPayload sniToAppType classifyConnection fp job conn = .ok fp1 ∧
        fp1.extractions = fp.extractions ++
          (inspectPayloadSpec sniToAppType job.tuple.dst_port job.tuple.src_port
            job.payload_length sni host domain).1 ∧
        fp1.conn_tracker_ =
          match (inspectPayloadSpec sniToAppType job.tuple.dst_port job.tuple.src_port
            job.payload_length sni host domain).2 with
          | some c => classifyConnection fp.conn_tracker_ conn c.1 c.2
          | none => fp.conn_tracker_ :=
  FastPathProcessor.inspectPayload_spec sniToAppType classifyConnection fp job conn hlen hin

/-- C36 witness: a job to port 80 whose payload of 35 bytes is an HTTP request with a Host
header.  The connection tracker is the list of the classifications made.  Only the HTTP
Host extractor is called, and the connection is classified with the host name. -/
theorem inspect_payload_tries_in_order_witness :
    (0 < httpJob.payload_length ∧
      httpJob.payload_offset + httpJob.payload_length ≤ httpJob.data.length) ∧
    (∃ sni host domain,
      SNIExtractor.extract httpJob.data httpJob.payload_offset httpJob.payload_length
        = .ok sni ∧
      HTTPHostExtractor.extract
          ((httpJob.data.drop httpJob.payload_offset).take httpJob.payload_length) = .ok host ∧
      DNSExtractor.extractQuery
          ((httpJob.data.drop httpJob.payload_offset).take httpJob.payload_length)
        = .ok domain ∧
      ∃ fp1,
        FastPathProcessor.inspectPayload (fun _ => AppType.UNKNOWN)
            (fun (s : List (AppType × Bytes)) (_ : Unit) app name => s ++ [(app, name)])
            { conn_tracker_ := [] } httpJob () = .ok fp1 ∧
        fp1.extractions = [] ++
          (inspectPayloadSpec (fun _ => AppType.UNKNOWN) httpJob.tuple.dst_port
            httpJob.tuple.src_port httpJob.payload_length sni host domain).1 ∧
        fp1.conn_tracker_ =
          match (inspectPayloadSpec (fun _ => AppType.UNKNOWN) httpJob.tuple.dst_port
            httpJob.tuple.src_port httpJob.payload_length sni host domain).2 with
          | some c => [] ++ [(c.1, c.2)]
          | none => []) ∧
    (FastPathProcessor.inspectPayload (fun _ => AppType.UNKNOWN)
        (fun (s : List (AppType × Bytes)) (_ : Unit) app name => s ++ [(app, name)])
        { conn_tracker_ := [] } httpJob ()).map (fun fp1 => (fp1.extractions, fp1.conn_tracker_))
      = .ok ([Extractor.httpHost], [(AppType.UNKNOWN, ascii "a.example")]) :=
  ⟨⟨by decide, by decide⟩,
   inspect_payload_tries_in_order (List (AppType × Bytes)) Unit (fun _ => AppType.UNKNOWN)
     (fun s _ app name => s ++ [(app, name)]) { conn_tracker_ := [] } httpJob ()
     (by decide) (by decide),
   by decide!⟩

/-- C37: `FiveTupleHash` is the finalizer (xor-shift by 33, multiply by
0xff51afd7ed558ccd, xor-shift, multiply by 0xc4ceb9fe1a85ec53, xor-shift, modulo 2^64)
applied to `compactHashKey`; the finalizer maps 64-bit words to 64-bit words and has a
two-sided inverse on them, so it is a bijection and two five-tuples have the same hash
exactly when their `compactHashKey` values are equal; and `compactHashKey` is not
injective: the valid tuples (10.0.0.1 → 1.2.3.4, port 1234 → 443, protocol 6) and (the
same addresses and source port, port 428, protocol 17) differ only in `dst_port` and
`protocol`, have `dst_port xor protocol` equal, the same hash, and hence the same load
balancer, worker index and route in every manager, whatever N and K. -/
theorem hash_finalizer_is_a_bijection :
    (∀ T : FiveTuple, FiveTupleHash T = FiveTupleHash.finalizer T.compactHashKey) ∧
    (∀ x, x < 2 ^ 64 → FiveTupleHash.finalizer x < 2 ^ 64 ∧
      FiveTupleHash.unfinalizer x < 2 ^ 64 ∧
      FiveTupleHash.unfinalizer (FiveTupleHash.finalizer x) = x ∧
      FiveTupleHash.finalizer (FiveTupleHash.unfinalizer x) = x) ∧
    (∀ T U : FiveTuple, FiveTupleHash T = FiveTupleHash U ↔
      T.compactHashKey = U.compactHashKey) ∧
    ((⟨0x0100000A, 0x04030201, 1234, 443, 6⟩ : FiveTuple)
        ≠ ⟨0x0100000A, 0x04030201, 1234, 428, 17⟩ ∧
      FiveTuple.isValid ⟨0x0100000A, 0x04030201, 1234, 443, 6⟩ = true ∧
      FiveTuple.isValid ⟨0x0100000A, 0x04030201, 1234, 428, 17⟩ = true ∧
      (443 : Nat) ^^^ 6 = 428 ^^^ 17 ∧
      FiveTupleHash ⟨0x0100000A, 0x04030201, 1234, 443, 6⟩
        = FiveTupleHash ⟨0x0100000A, 0x04030201, 1234, 428, 17⟩ ∧
      (∀ m : LBManager,
        m.getLBForPacket ⟨0x0100000A, 0x04030201, 1234, 443, 6⟩
          = m.getLBForPacket ⟨0x0100000A, 0x04030201, 1234, 428, 17⟩ ∧
        m.route ⟨0x0100000A, 0x04030201, 1234, 443, 6⟩
          = m.route ⟨0x0100000A, 0x04030201, 1234, 428, 17⟩) ∧
      (∀ lb : LoadBalancer,
        lb.selectFP ⟨0x0100000A, 0x04030201, 1234, 443, 6⟩
          = lb.selectFP ⟨0x0100000A, 0x04030201, 1234, 428, 17⟩)) := by
  have hh : FiveTupleHash ⟨0x0100000A, 0x04030201, 1234, 443, 6⟩
      = FiveTupleHash ⟨0x0100000A, 0x04030201, 1234, 428, 17⟩ := by decide
  refine ⟨hash_eq_finalizer, fun x hx => ⟨finalizer_lt x, unfinalizer_lt x,
    unfinalizer_finalizer x hx, finalizer_unfinalizer x hx⟩, hash_eq_iff,
    by decide, by decide, by decide, by decide, hh, fun m => ?_, fun lb => ?_⟩
  · exact ⟨(route_of_hash_eq m _ _ hh).1, (route_of_hash_eq m _ _ hh).2.1⟩
  · exact ((route_of_hash_eq ⟨[], 0, true⟩ _ _ hh).2.2 lb).1

/-- C38: when the number `N > 0` of load balancers equals the number of workers per load
balancer, the two-stage routing over the `N * N` fast-path queues sends every five-tuple
`T` to the worker with global index `i * N + i`, where `i = FiveTupleHash(T) mod N`; these
are `N` indices out of `N * N`, so at most `N` workers ever receive a packet.  In the
default configuration `N = K = 2` they are the workers 0 and 3. -/
theorem equal_stages_use_diagonal_workers (N : Nat) (silent : Bool) (hN : 0 < N) :
    (∀ T : FiveTuple,
      (LBManager.create N N (FPManager.getQueuePtrs (N * N)) silent).route T
        = some ((FiveTupleHash T % N) * N + FiveTupleHash T % N)) ∧
    ((List.range N).map (fun i => i * N + i)).length = N ∧
    (∀ T : FiveTuple, ∃ w ∈ (List.range N).map (fun i => i * N + i),
      (LBManager.create N N (FPManager.getQueuePtrs (N * N)) silent).route T = some w) ∧
    (∀ (T : FiveTuple) (w : Nat),
      (LBManager.create N N (FPManager.getQueuePtrs (N * N)) silent).route T = some w →
        w < N * N ∧ w % (N + 1) = 0) := by
  have hr := fun T => LBManager.route_eq N N silent T hN hN
  refine ⟨hr, by simp, fun T => ?_, fun T w hw => ?_⟩
  · refine ⟨(FiveTupleHash T % N) * N + FiveTupleHash T % N, ?_, hr T⟩
    exact List.mem_map.mpr ⟨FiveTupleHash T % N, List.mem_range.mpr (Nat.mod_lt _ hN), rfl⟩
  · rw [hr T] at hw
    simp only [Option.some.injEq] at hw
    subst hw
    have hi : FiveTupleHash T % N < N := Nat.mod_lt _ hN
    constructor
    · calc (FiveTupleHash T % N) * N + FiveTupleHash T % N
          < (FiveTupleHash T % N) * N + N := by omega
        _ = (FiveTupleHash T % N + 1) * N := by ring
        _ ≤ N * N := Nat.mul_le_mul_right N hi
    · have : (FiveTupleHash T % N) * N + FiveTupleHash T % N
          = (FiveTupleHash T % N) * (N + 1) := by ring
      rw [this]
      exact Nat.mul_mod_left _ _

/-- C38 witness: the default configuration `N = K = 2`: every route is worker 0 or
worker 3, and the tuple (1, 2, 1, 80, 6) goes to worker 0. -/
theorem equal_stages_use_diagonal_workers_witness :
    (List.range 2).map (fun i => i * 2 + i) = [0, 3] ∧
    (LBManager.create 2 2 (FPManager.getQueuePtrs (2 * 2)) true).route ⟨1, 2, 1, 80, 6⟩
      = some 0 ∧
    ∀ T : FiveTuple, ∃ w ∈ (List.range 2).map (fun i => i * 2 + i),
      (LBManager.create 2 2 (FPManager.getQueuePtrs (2 * 2)) true).route T = some w :=
  ⟨by decide, by decide, (equal_stages_use_diagonal_workers 2 true (by decide)).2.2.1⟩


/-- C39: the dotted-quad parser inverts the IPv4 printer, `parseIP (ipToString x) = x` for
every 32-bit `x` (for the lambda of `createPacketJob` and for `Rules::parseIP`, which has
the same body), so on an accepted IPv4 frame a job's `src_ip` and `dst_ip` are the two
address words as `parseIPv4` copied them from the header: the little-endian word of the four
address bytes on a little-endian host, but their big-endian word on a big-endian host, where
the addresses are not converted the way the ports and the flags field are.  On the sample TCP
frame (10.0.0.1 to 1.2.3.4) a big-endian host builds `src_ip = 0x0A000001` and
`dst_ip = 0x01020304`, while the little-endian words are `0x0100000A` and `0x04030201`. -/
theorem parse_ip_inverts_ip_to_string :
    (∀ x, x < 2 ^ 32 →
      DPIEngine.parseIP (PacketParser.ipToString x) = x ∧
        Rules.parseIP (PacketParser.ipToString x) = x) ∧
    (∀ (le : Bool) (raw : RawPacket) (p : ParsedPacket) (id : Nat) (job : PacketJob),
      14 ≤ raw.data.length → wire16 raw.data 12 = 0x0800 →
      PacketParser.parse le raw = .ok (true, p) →
      DPIEngine.createPacketJob raw p id = .ok job →
        job.tuple.src_ip = (if le then wire32le raw.data 26 else wire32 raw.data 26) ∧
        job.tuple.dst_ip = (if le then wire32le raw.data 30 else wire32 raw.data 30)) ∧
    (PacketParser.parse false tcpFrame >>= fun r =>
        (DPIEngine.createPacketJob tcpFrame r.2 0).map fun job =>
          (r.1, job.tuple.src_ip, job.tuple.dst_ip)) = .ok (true, 0x0A000001, 0x01020304) ∧
    (PacketParser.parse true tcpFrame >>= fun r =>
        (DPIEngine.createPacketJob tcpFrame r.2 0).map fun job =>
          (r.1, job.tuple.src_ip, job.tuple.dst_ip)) = .ok (true, 0x0100000A, 0x04030201) ∧
    wire32le tcpFrame.data 26 = 0x0100000A ∧ wire32le tcpFrame.data 30 = 0x04030201 := by
  refine ⟨fun x hx => ⟨parseIP_ipToString x hx, parseIP_ipToString x hx⟩, ?_, by decide!,
    by decide!, by decide!, by decide!⟩
  intro le raw p id job hlen het hp hj
  obtain ⟨-, h1, h2⟩ := PacketParser.parse_ipv4_addresses le raw p hlen het hp
  obtain ⟨-, -, ht, -⟩ := DPIEngine.createPacketJob_fields raw p id job hj
  rw [ht, h1, h2]
  simp only
  cases le
  · exact ⟨parseIP_ipToString _ (wire32_lt _ _), parseIP_ipToString _ (wire32_lt _ _)⟩
  · exact ⟨parseIP_ipToString _ (wire32le_lt _ _), parseIP_ipToString _ (wire32le_lt _ _)⟩


/-- C40: on every IPv4 frame that passes the reader's filter, `createPacketJob` builds the
job without reading past the frame, and the payload position it recomputes is the one
`parse` determined: same `payload_length`, same payload pointer, `payload_offset` the offset
where `parse` stopped.  On IPv6 frames it still takes the low nibble of byte 14 for an IPv4
header length: for the sample IPv6 TCP segment `parse` finds the payload at offset 74 with
length 2 while the job gets `payload_offset = 14` and `payload_length = 62`, and for an IPv6
TCP segment of 74 bytes with traffic class 0xC0 the job's TCP header is looked for at offset
62 and byte 74, one past the end of the frame, is read. -/
theorem create_packet_job_agrees_on_ipv4_not_ipv6 :
    (∀ (le : Bool) (raw : RawPacket) (p : ParsedPacket) (id : Nat),
      14 ≤ raw.data.length → wire16 raw.data 12 = 0x0800 →
      PacketParser.parse le raw = .ok (true, p) → DPIEngine.keeps p = true →
      ∃ job, DPIEngine.createPacketJob raw p id = .ok job ∧
        job.payload_offset ≤ raw.data.length ∧
        job.payload_length = raw.data.length - job.payload_offset ∧
        job.payload_length = p.payload_length ∧
        job.payload_data = p.payload_data ∧
        (job.payload_offset < raw.data.length → p.payload_data = some job.payload_offset)) ∧
    (∀ le : Bool,
      (PacketParser.parse le tcp6Frame).map
          (fun r => (r.1, DPIEngine.keeps r.2, r.2.payload_data, r.2.payload_length))
        = .ok (true, true, some 74, 2) ∧
      (PacketParser.parse le tcp6Frame >>= fun r =>
          (DPIEngine.createPacketJob tcp6Frame r.2 0).map
            fun job => (job.payload_offset, job.payload_length, job.payload_data))
        = .ok (14, 62, some 14)) ∧
    (∀ le : Bool,
      ack6Frame.data.length = 74 ∧
      (PacketParser.parse le ack6Frame).map
          (fun r => (r.1, DPIEngine.keeps r.2, r.2.payload_data, r.2.payload_length))
        = .ok (true, true, none, 0) ∧
      (PacketParser.parse le ack6Frame >>= fun r => DPIEngine.createPacketJob ack6Frame r.2 0)
        = .error Fault.outOfBounds) := by
  refine ⟨?_, by decide!, by decide!⟩
  intro le raw p id hlen het hp hk
  exact DPIEngine.createPacketJob_ipv4 le raw p id hlen het hp hk

end DPI
